import Mathlib

/-!
# LAS header decoding, the liblas iterators and the filters in libpc, and the
hackathon writers

A shallow embedding of `src/drivers/las/LasHeaderReader.cpp`
(`LasHeaderReader::read`, `HasLAS10PadSignature`, `ReadVLRs`, `Validate`),
of `src/drivers/liblas/Iterator.cpp` (`LiblasIteratorBase::readBuffer`,
`SequentialIterator::skipImpl`, `atEndImpl`, `readImpl`,
`RandomIterator::seekImpl`), of the crop and mosaic filters declared in
`include/libpc/filters`, and of the writers of the plugins `hackathon` and
`hackathontoo` (`hackathonwriter.cpp`, `cache.cpp`, `storage.cpp`), and the
properties of the decoder, of the iterators, of the filters and of the
writers that the design document states.

Conventions of the embedding.

* A file is a list of bytes; the input stream is that list together with a
  read position and the `eofbit` / `failbit` state flags of `std::istream`.
* The reader object holds, as in the source, a reference to the header and a
  reference to the stream.  Both are mutated in place, also on a path that
  ends in an exception, so every action returns its result (a value or the
  exception thrown) together with the reader state reached.
* Integers read from the file are the little-endian values of their bytes
  (the host is little-endian: `read_n` copies the bytes unswapped).
* Doubles are carried as the 64-bit pattern read from the file; the decoder
  performs no floating-point arithmetic on them.
* The iterators work on a point buffer and on the external point source.  A
  call returns its result (a value or the exception thrown) together with the
  buffer and the source as it leaves them.  The loop of `readBuffer` is a
  recursion on the number of rounds left.
* The writers of the plugins reach their database through the Qt SQL classes,
  which are not part of the repository.  The database is a stand-in: the
  tables by name, the tables as they were when the open transaction began,
  and a list that says for each coming call of the driver whether the driver
  fails it; every call is logged with its outcome.  A member function returns
  its value (or the error thrown) together with the object as it leaves it.
  The counters of the writer are `int64_t` and `int32_t` numbers that wrap.
-/

set_option maxRecDepth 100000

namespace libpc.drivers.las

/-! ## Bytes and the input stream -/

/-- One byte of the file. -/
abbrev Byte := Fin 256

/-- Little-endian value of a byte sequence (first byte least significant). -/
def leValue : List Byte → Nat
  | [] => 0
  | b :: bs => b.val + 256 * leValue bs

/-- The `n` bytes of a file starting at position `p` (fewer at the end). -/
def bytesAt (bs : List Byte) (p n : Nat) : List Byte := (bs.drop p).take n

/-- Little-endian value of the `n`-byte field at position `p`. -/
def fieldAt (bs : List Byte) (p n : Nat) : Nat := leValue (bytesAt bs p n)

/-- Reduction of an integer to an unsigned 32-bit value
(`static_cast<uint32_t>` and `uint32_t` arithmetic). -/
def toUInt32 (v : Int) : Nat := (v % 4294967296).toNat

/-- The state of a `std::istream` over a file: the file content, the get
position, and the two state flags the reader tests. -/
structure IStream where
  bytes : List Byte
  pos : Nat
  eofbit : Bool
  failbit : Bool
deriving DecidableEq, Repr

namespace IStream

/-- A freshly opened stream over the bytes of a file. -/
def ofBytes (bs : List Byte) : IStream :=
  { bytes := bs, pos := 0, eofbit := false, failbit := false }

/-- Meaning of `std::ios::good()`: no state flag is set. -/
def good (s : IStream) : Bool := !s.eofbit && !s.failbit

/-- Meaning of `std::ios::fail()`. -/
def fail (s : IStream) : Bool := s.failbit

/-- Meaning of `std::ios::eof()`. -/
def eof (s : IStream) : Bool := s.eofbit

/-- Meaning of `std::ios::clear()`: all state flags reset. -/
def clear (s : IStream) : IStream := { s with eofbit := false, failbit := false }

/-- Meaning of `tellg()`: the get position, or `-1` when `fail()` holds. -/
def tellg (s : IStream) : Int := if s.fail then -1 else (s.pos : Int)

/-- Meaning of `seekg(p)` / `seekg(p, std::ios::beg)` (C++11 and later):
`eofbit` is cleared first; then nothing more happens when `fail()` holds, so
a failed stream stays failed; a negative position sets `failbit`; any other
position is taken (a file stream may be positioned past its end). -/
def seekg (s : IStream) (p : Int) : IStream :=
  if s.fail then { s with eofbit := false }
  else if p < 0 then { s with eofbit := false, failbit := true }
  else { s with eofbit := false, pos := p.toNat }

/-- Meaning of `seekg(0, std::ios::end)`: `eofbit` is cleared first, and a
failed stream stays as it is. -/
def seekgEnd (s : IStream) : IStream :=
  if s.fail then { s with eofbit := false }
  else { s with eofbit := false, pos := s.bytes.length }

/-- Meaning of `read(buf, n)`: on a stream that is not good nothing is
extracted and `failbit` is set; otherwise `n` bytes are extracted, and when
the file ends first the available bytes are extracted and both `eofbit` and
`failbit` are set. -/
def read (s : IStream) (n : Nat) : List Byte × IStream :=
  if !s.good then ([], { s with failbit := true })
  else if s.pos + n ≤ s.bytes.length then
    ((s.bytes.drop s.pos).take n, { s with pos := s.pos + n })
  else
    ((s.bytes.drop s.pos).take n,
      { s with pos := max s.pos s.bytes.length, eofbit := true, failbit := true })

end IStream

/-! ## Errors -/

/-- The exceptions that leave the header reader, one constructor per
`throw` site, carrying the numbers the message prints. -/
inductive LasError where
  /-- The `std::runtime_error` of `read_n` on a stream that is not good. -/
  | streamNotReadable
  /-- The `std::out_of_range` of `read_n` when the file ends inside the field. -/
  | endOfFile
  /-- The `std::runtime_error` of `read`, source lines 131-144. -/
  | invalidDataOffset (offset headerSize : Nat)
  /-- The `std::domain_error` of `read`, source line 167. -/
  | legacyExperimentalCompression
  /-- The `std::domain_error` of `read`, source line 172. -/
  | invalidCompressionFlag
  /-- The `std::domain_error` of `read`, source line 184. -/
  | invalidPointFormat
  /-- The `std::runtime_error` of `Validate`, source lines 431-447. -/
  | pointCountMismatch (calculated : Int) (declared : Nat) (remainder : Int)
  /-- Modelled from the spec: the error `MalformedHeader` (bad signature or
  size) of the design document.  No `throw` of the reader raises it; it is
  the error of the setter `LasHeader.SetHeaderSize` below. -/
  | malformedHeader
deriving DecidableEq, Repr

/-! ## The header -/

/-- Modelled from the spec: the class `LasHeader` of
`libpc/drivers/las/Header.hpp`, whose source is missing.  The design
document describes the header as the record of decoded file-level metadata,
written only by the decoder; each `Set...` call of the reader stores its
argument in the field of that name and each `Get...` call returns the field
(for the check of the header size see `LasHeader.SetHeaderSize`).
`schemaFormat` is the point format whose required dimensions
`update_required_dimensions` last installed in the schema. -/
structure LasHeader where
  fileSignature : List Byte
  fileSourceId : Nat
  reserved : Nat
  projectId : List Byte
  versionMajor : Nat
  versionMinor : Nat
  systemId : List Byte
  softwareId : List Byte
  creationDOY : Nat
  creationYear : Nat
  headerSize : Nat
  dataOffset : Nat
  recordsCount : Nat
  compressed : Bool
  dataFormatId : Nat
  schemaFormat : Nat
  dataRecordLength : Nat
  pointRecordsCount : Nat
  pointRecordsByReturn : Nat → Nat
  scale : Nat × Nat × Nat
  offset : Nat × Nat × Nat
  max : Nat × Nat × Nat
  min : Nat × Nat × Nat

/-- A header as default-constructed before decoding: every field zero. -/
def LasHeader.blank : LasHeader :=
  { fileSignature := [], fileSourceId := 0, reserved := 0, projectId := [],
    versionMajor := 0, versionMinor := 0, systemId := [], softwareId := [],
    creationDOY := 0, creationYear := 0, headerSize := 0, dataOffset := 0,
    recordsCount := 0, compressed := false, dataFormatId := 0, schemaFormat := 0,
    dataRecordLength := 0, pointRecordsCount := 0, pointRecordsByReturn := fun _ => 0,
    scale := (0, 0, 0), offset := (0, 0, 0), max := (0, 0, 0), min := (0, 0, 0) }

/-! ## The reader and its actions -/

/-- The `LasHeaderReader` object: the header and the stream it refers to. -/
structure LasHeaderReader where
  m_header : LasHeader
  m_istream : IStream

/-- What a member function leaves behind: the value returned or the
exception thrown, and the reader state at that moment. -/
structure Outcome (α : Type) where
  result : Except LasError α
  reader : LasHeaderReader

/-- A member function of the reader. -/
def LasM (α : Type) : Type := LasHeaderReader → Outcome α

namespace LasM

/-- Normal return of a value. -/
def ret {α : Type} (a : α) : LasM α := fun r => ⟨.ok a, r⟩

/-- Sequencing of two statements: an exception in the first skips the second. -/
def andThen {α β : Type} (m : LasM α) (k : α → LasM β) : LasM β := fun r =>
  match (m r).result with
  | .ok a => k a (m r).reader
  | .error e => ⟨.error e, (m r).reader⟩

/-- The statement `throw e`. -/
def raise {α : Type} (e : LasError) : LasM α := fun r => ⟨.error e, r⟩

/-- The statement `try { m } catch (...) { handler }` for the exceptions
selected by `caught`; any other exception propagates. -/
def tryCatchWhen {α : Type} (m : LasM α) (caught : LasError → Bool)
    (handler : LasM α) : LasM α := fun r =>
  match (m r).result with
  | .ok a => ⟨.ok a, (m r).reader⟩
  | .error e => if caught e then handler (m r).reader else ⟨.error e, (m r).reader⟩

instance : Monad LasM where
  pure := ret
  bind := andThen

/-- An update of the header through one of its setters. -/
def setHeader (f : LasHeader → LasHeader) : LasM Unit := fun r =>
  ⟨.ok (), { r with m_header := f r.m_header }⟩

/-- The current header (for the `Get...` calls). -/
def getHeader : LasM LasHeader := fun r => ⟨.ok r.m_header, r⟩

/-- An operation on the stream that returns nothing. -/
def onStream (f : IStream → IStream) : LasM Unit := fun r =>
  ⟨.ok (), { r with m_istream := f r.m_istream }⟩

/-- A query of the stream. -/
def askStream {α : Type} (f : IStream → α) : LasM α := fun r => ⟨.ok (f r.m_istream), r⟩

end LasM

open LasM

/-- Modelled from the spec: the helper `Utils::read_n` of `libpc/Utils.hpp`,
whose source is missing.  It reads exactly `num` bytes or fails (short data
is a fatal decode error); the reader's own `catch` clauses name the two
exceptions, `std::runtime_error` for a stream that is not good on entry and
`std::out_of_range` when the read runs off the end of the file. -/
def Utils.read_n (num : Nat) : LasM (List Byte) := fun r =>
  if !r.m_istream.good then ⟨.error .streamNotReadable, r⟩
  else if (r.m_istream.read num).2.eof then
    ⟨.error .endOfFile, { r with m_istream := (r.m_istream.read num).2 }⟩
  else ⟨.ok (r.m_istream.read num).1, { r with m_istream := (r.m_istream.read num).2 }⟩

/-- A `read_n` into an unsigned integer variable of `num` bytes. -/
def readUInt (num : Nat) : LasM Nat := do
  let b ← Utils.read_n num
  pure (leValue b)

/-- The two exception types caught in `HasLAS10PadSignature`. -/
def isStreamError : LasError → Bool
  | .streamNotReadable => true
  | .endOfFile => true
  | _ => false

/-! ## `LasHeaderReader::read` -/

/-- Source lines 80-121: fields 1-13 (signature, file source id, reserved,
project id, version, system id, software id, creation day and year). -/
def readFields1to13 : LasM Unit := do
  -- 1. File Signature
  let fsig ← Utils.read_n 4
  setHeader (fun h => { h with fileSignature := fsig })
  -- 2. File Source ID
  let n2 ← readUInt 2
  setHeader (fun h => { h with fileSourceId := n2 })
  -- 3. Reserved
  let n2 ← readUInt 2
  setHeader (fun h => { h with reserved := n2 })
  -- 4-7. Project ID
  let d16 ← Utils.read_n 16
  setHeader (fun h => { h with projectId := d16 })
  -- 8. Version major
  let n1 ← readUInt 1
  setHeader (fun h => { h with versionMajor := n1 })
  -- 9. Version minor
  let n1 ← readUInt 1
  setHeader (fun h => { h with versionMinor := n1 })
  -- 10. System ID
  let buff ← Utils.read_n 32
  setHeader (fun h => { h with systemId := buff })
  -- 11. Generating Software ID
  let buff ← Utils.read_n 32
  setHeader (fun h => { h with softwareId := buff })
  -- 12. File Creation Day of Year
  let n2 ← readUInt 2
  setHeader (fun h => { h with creationDOY := n2 })
  -- 13. File Creation Year
  let n2 ← readUInt 2
  setHeader (fun h => { h with creationYear := n2 })

/-- Source lines 123-145: header size and offset to point data.  The call
`m_header.SetHeaderSize(n2)` is a store of the size read here;
`readFields14to15With` takes the setter as a parameter. -/
def readFields14to15 : LasM Unit := do
  -- 14. Header Size
  let n2 ← readUInt 2
  setHeader (fun h => { h with headerSize := n2 })
  -- 15. Offset to data
  let n4 ← readUInt 4
  let h ← getHeader
  if n4 < h.headerSize then
    raise (.invalidDataOffset n4 h.headerSize)
  else
    setHeader (fun h => { h with dataOffset := n4 })

/-- Source lines 147-185: the number of variable length records and the
point data format byte with its two compression bits. -/
def readFields16to17 : LasM Unit := do
  -- 16. Number of variable length records
  let n4 ← readUInt 4
  setHeader (fun h => { h with recordsCount := n4 })
  -- 17. Point Data Format ID
  let n1 ← readUInt 1
  let compression_bit_7 := (n1 &&& 0x80) >>> 7
  let compression_bit_6 := (n1 &&& 0x40) >>> 6
  if compression_bit_7 = 0 ∧ compression_bit_6 = 0 then
    setHeader (fun h => { h with compressed := false })
  else if compression_bit_7 ≠ 0 ∧ compression_bit_6 = 0 then
    setHeader (fun h => { h with compressed := true })
  else if compression_bit_7 ≠ 0 ∧ compression_bit_6 ≠ 0 then
    raise .legacyExperimentalCompression
  else
    raise .invalidCompressionFlag
  -- strip the high bits, to determine point type
  let n1 := n1 &&& 0x3f
  if n1 ≤ 5 then
    setHeader (fun h => { h with dataFormatId := n1 })
    setHeader (fun h => { h with schemaFormat := n1 })
  else
    raise .invalidPointFormat

/-- Source lines 205-211: the loop
`for (i = 0; i < return_count_length; ++i)`, entered at index `i` with
`k` iterations left. -/
def readReturnCounts : Nat → Nat → LasM Unit
  | _, 0 => pure ()
  | i, k + 1 => do
    let count ← readUInt 4
    setHeader (fun h => { h with pointRecordsByReturn :=
      fun j => if j = i then count else h.pointRecordsByReturn j })
    readReturnCounts (i + 1) k

/-- Source lines 187-195: the point record length is read into `n2`; the
call `SetDataRecordLength(n2)` is commented out, so the value goes nowhere. -/
def readField18 : LasM Nat := do
  -- 18. Point Data Record Length
  let n2 ← readUInt 2
  pure n2

/-- Source lines 197-238: number of points, points by return, scale,
offset and extents. -/
def readFields19to32 : LasM Unit := do
  -- 19. Number of point records
  let n4 ← readUInt 4
  setHeader (fun h => { h with pointRecordsCount := n4 })
  -- 20. Number of points by return
  readReturnCounts 0 5
  -- 21-23. Scale factors
  let x1 ← readUInt 8
  let y1 ← readUInt 8
  let z1 ← readUInt 8
  setHeader (fun h => { h with scale := (x1, y1, z1) })
  -- 24-26. Offsets
  let x1 ← readUInt 8
  let y1 ← readUInt 8
  let z1 ← readUInt 8
  setHeader (fun h => { h with offset := (x1, y1, z1) })
  -- 27-28. Max/Min X
  let x1 ← readUInt 8
  let x2 ← readUInt 8
  -- 29-30. Max/Min Y
  let y1 ← readUInt 8
  let y2 ← readUInt 8
  -- 31-32. Max/Min Z
  let z1 ← readUInt 8
  let z2 ← readUInt 8
  setHeader (fun h => { h with max := (x1, y1, z1) })
  setHeader (fun h => { h with min := (x2, y2, z2) })

/-- Source lines 78-238: the stream is rewound (`m_istream.seekg(0)`) and
the fixed section of the header is read. -/
def readFixedHeader : LasM Unit := do
  onStream (fun s => s.seekg 0)
  readFields1to13
  readFields14to15
  readFields16to17
  let _n2 ← readField18
  readFields19to32

/-- Source lines 78-185: the part of `readFixedHeader` that precedes the
point record length. -/
def readFields1to17 : LasM Unit := do
  onStream (fun s => s.seekg 0)
  readFields1to13
  readFields14to15
  readFields16to17

/-- The comparison at the end of `HasLAS10PadSignature` (source lines
311-313): the two bytes are `0xCC 0xDD` in either order. -/
def isPadSignature (pad1 pad2 : Nat) : Bool :=
  let sgn1 := 0xCC
  let sgn2 := 0xDD
  (sgn1 == pad2 && sgn2 == pad1) || (sgn1 == pad1 && sgn2 == pad2)

/-- Source lines 271-316, `LasHeaderReader::HasLAS10PadSignature`: two
bytes are read at the current position and the stream is put back; a read
that runs off the end of the file is caught and answers `false`. -/
def HasLAS10PadSignature : LasM Bool := do
  let current_pos ← askStream IStream.tellg
  let pads ← tryCatchWhen
    (do
      let pad1 ← readUInt 1
      let pad2 ← readUInt 1
      pure (some (pad1, pad2)))
    isStreamError
    (do
      onStream (fun s => s.seekg current_pos)
      pure none)
  match pads with
  | none => pure false
  | some (pad1, pad2) =>
    -- Put the stream back where we found it
    onStream (fun s => s.seekg current_pos)
    pure (isPadSignature pad1 pad2)

/-- Source lines 318-393, `LasHeaderReader::ReadVLRs`: the whole body stands
between `#if 0` and `#endif`, so the compiled function does nothing. -/
def ReadVLRs : LasM Unit := pure ()

/-- Source lines 242-267: the pad check at the declared data offset, the
variable length records, and the final positioning of the stream. -/
def readAfterFixedHeader : LasM Unit := do
  let h ← getHeader
  onStream (fun s => s.seekg (h.dataOffset : Int))
  if (← HasLAS10PadSignature) then
    let current_pos ← askStream IStream.tellg
    onStream (fun s => s.seekg (current_pos + 2))
    setHeader (fun h => { h with dataOffset := toUInt32 ((h.dataOffset : Int) + 2) })
  -- only go read VLRs if we have them.
  let h ← getHeader
  if h.recordsCount > 0 then
    ReadVLRs
  -- If we're eof, we need to reset the state
  if (← askStream IStream.eof) then
    onStream IStream.clear
  -- Seek to the data offset so we can start reading points
  let h ← getHeader
  onStream (fun s => s.seekg (h.dataOffset : Int))

/-- Source lines 61-269, `LasHeaderReader::read`. -/
def read : LasM Unit := do
  readFixedHeader
  readAfterFixedHeader

/-! ## `read` with the setter of the header size as a parameter -/

/-- The call `m_header.SetHeaderSize(n2)` taken as a plain store, as in
`readFields14to15`. -/
def LasHeader.storeHeaderSize (v : Nat) : LasM Unit :=
  setHeader (fun h => { h with headerSize := v })

/-- Modelled from the spec: the setter `LasHeader::SetHeaderSize` of
`libpc/drivers/las/Header.hpp`, whose source is missing.  The design
document says of the header size that it "must equal a fixed constant for the
format family" and names the error `MalformedHeader` for a bad size; the
constant is the 227 of the comment at source line 124.  The size 227 is
stored, any other size fails with `MalformedHeader`. -/
def LasHeader.SetHeaderSize (v : Nat) : LasM Unit :=
  if v = 227 then setHeader (fun h => { h with headerSize := v })
  else raise .malformedHeader

/-- Source lines 123-145 with the setter of the header size as a
parameter. -/
def readFields14to15With (SetHeaderSize : Nat → LasM Unit) : LasM Unit := do
  -- 14. Header Size
  let n2 ← readUInt 2
  SetHeaderSize n2
  -- 15. Offset to data
  let n4 ← readUInt 4
  let h ← getHeader
  if n4 < h.headerSize then
    raise (.invalidDataOffset n4 h.headerSize)
  else
    setHeader (fun h => { h with dataOffset := n4 })

/-- Source lines 78-238 with the setter of the header size as a parameter;
every other setter is a store, as in `readFixedHeader`. -/
def readFixedHeaderWith (SetHeaderSize : Nat → LasM Unit) : LasM Unit := do
  onStream (fun s => s.seekg 0)
  readFields1to13
  readFields14to15With SetHeaderSize
  readFields16to17
  let _n2 ← readField18
  readFields19to32

/-- Source lines 61-269, `LasHeaderReader::read`, with the setter of the
header size as a parameter. -/
def readWith (SetHeaderSize : Nat → LasM Unit) : LasM Unit := do
  readFixedHeaderWith SetHeaderSize
  readAfterFixedHeader

/-- Decoding of a file with the setter of the header size as a parameter. -/
def decodeWith (SetHeaderSize : Nat → LasM Unit) (h0 : LasHeader) (bs : List Byte) :
    Outcome Unit :=
  readWith SetHeaderSize { m_header := h0, m_istream := IStream.ofBytes bs }

/-- Source lines 396-451, `LasHeaderReader::Validate`.  The stream offsets
are signed 64-bit integers; a file is shorter than `2^63` bytes, so none of
the subtractions overflows.  `/` and `%` of C++ truncate toward zero.  A
record length of zero is undefined behaviour in the source. -/
def Validate : LasM Unit := do
  let h ← getHeader
  if h.versionMinor < 3 ∧ h.compressed = false then
    -- Seek to the beginning
    onStream (fun s => s.seekg 0)
    let beginning ← askStream IStream.tellg
    -- Seek to the end
    onStream IStream.seekgEnd
    let end_pos ← askStream IStream.tellg
    let _size : Int := end_pos - beginning
    let offset : Int := (h.dataOffset : Int)
    let length : Int := (h.dataRecordLength : Int)
    let point_bytes : Int := end_pos - offset
    let count : Int := Int.tdiv point_bytes length
    let remainder : Int := Int.tmod point_bytes length
    if h.pointRecordsCount ≠ toUInt32 count then
      raise (.pointCountMismatch count h.pointRecordsCount remainder)

/-- Decoding of a file: `read` on a reader whose header is `h0` and whose
stream was just opened over the bytes `bs`. -/
def decode (h0 : LasHeader) (bs : List Byte) : Outcome Unit :=
  read { m_header := h0, m_istream := IStream.ofBytes bs }

/-- The call `Validate()` on a reader with header `h` and stream `s`. -/
def validate (h : LasHeader) (s : IStream) : Outcome Unit :=
  Validate { m_header := h, m_istream := s }

/-- Whether an outcome is a normal return. -/
def Outcome.succeeded {α : Type} (o : Outcome α) : Bool :=
  match o.result with
  | .ok _ => true
  | .error _ => false

/-- A well-formed file for the examples: a 227-byte fixed header with the
given version, header size, data offset, number of variable length records,
format byte and point count (all other fields zero), followed by `tail`. -/
def sampleFile (major minor : Byte) (hsize : List Byte) (doff : List Byte)
    (vlrs : List Byte) (fmt : Byte) (count : List Byte) (tail : List Byte) : List Byte :=
  List.replicate 24 0 ++ [major, minor] ++ List.replicate 68 0 ++ hsize ++ doff ++ vlrs
    ++ [fmt] ++ [0, 0] ++ count ++ List.replicate 116 0 ++ tail

/-! ## Predicates used in the statements -/

/-- Whether the file holds the pad signature in the two bytes at position `d`
(false when the file has fewer than two bytes there). -/
def padSignatureAt (bs : List Byte) (d : Nat) : Bool :=
  decide (d + 2 ≤ bs.length) && isPadSignature (fieldAt bs d 1) (fieldAt bs (d + 1) 1)

/-- The stream as `read` leaves it on a file that holds the fixed header and
declares the data offset `d`: good and at the effective data offset when the
file holds two bytes at `d`; otherwise the pad check has read off the end of
the file, and the stream is left with `failbit` set. -/
def streamAfterRead (bs : List Byte) (d : Nat) : IStream :=
  if d + 2 ≤ bs.length then
    ⟨bs, if padSignatureAt bs d then toUInt32 ((d : Int) + 2) else d, false, false⟩
  else ⟨bs, max d bs.length, false, true⟩

/-- The exception is not the invalid-data-offset error. -/
def LasError.notDataOffset (e : LasError) : Prop := ∀ a b, e ≠ .invalidDataOffset a b

/-- The action `m` leaves the header component `f` as it found it and
throws only exceptions satisfying `E`. -/
def Keeps {α β : Type} (f : LasHeader → β) (E : LasError → Prop) (m : LasM α) : Prop :=
  ∀ r, f (m r).reader.m_header = f r.m_header ∧ ∀ e, (m r).result = .error e → E e

/-- The action `m`, started on a good stream positioned inside the file,
returns normally only after consuming exactly `k` bytes that the file
holds, and leaves the stream good. -/
def Consumes {α : Type} (k : Nat) (m : LasM α) : Prop :=
  ∀ h bs p a, p ≤ bs.length → (m ⟨h, ⟨bs, p, false, false⟩⟩).result = .ok a →
    p + k ≤ bs.length ∧
      (m ⟨h, ⟨bs, p, false, false⟩⟩).reader.m_istream = ⟨bs, p + k, false, false⟩

/-! ## Expected headers and sample files -/

/-- The header `h` with fields 1-13 taken from the file `bs`. -/
def LasHeader.withFields1to13 (h : LasHeader) (bs : List Byte) : LasHeader :=
  { h with
    fileSignature := bytesAt bs 0 4, fileSourceId := fieldAt bs 4 2,
    reserved := fieldAt bs 6 2, projectId := bytesAt bs 8 16,
    versionMajor := fieldAt bs 24 1, versionMinor := fieldAt bs 25 1,
    systemId := bytesAt bs 26 32, softwareId := bytesAt bs 58 32,
    creationDOY := fieldAt bs 90 2, creationYear := fieldAt bs 92 2 }

/-- The header `h` with fields 1-15 taken from the file `bs`. -/
def LasHeader.withFields1to15 (h : LasHeader) (bs : List Byte) : LasHeader :=
  { h.withFields1to13 bs with headerSize := fieldAt bs 94 2, dataOffset := fieldAt bs 96 4 }

/-- The header `h` with fields 1-17 taken from the file `bs`. -/
def LasHeader.withFields1to17 (h : LasHeader) (bs : List Byte) : LasHeader :=
  { h.withFields1to15 bs with
    recordsCount := fieldAt bs 100 4,
    compressed := (fieldAt bs 104 1).testBit 7,
    dataFormatId := fieldAt bs 104 1 % 64,
    schemaFormat := fieldAt bs 104 1 % 64 }

/-- The header `h` with fields 1-32 taken from the file `bs`. -/
def LasHeader.withFields1to32 (h : LasHeader) (bs : List Byte) : LasHeader :=
  { h.withFields1to17 bs with
    pointRecordsCount := fieldAt bs 107 4,
    pointRecordsByReturn := fun j =>
      if j < 5 then fieldAt bs (111 + 4 * j) 4 else h.pointRecordsByReturn j,
    scale := (fieldAt bs 131 8, fieldAt bs 139 8, fieldAt bs 147 8),
    offset := (fieldAt bs 155 8, fieldAt bs 163 8, fieldAt bs 171 8),
    max := (fieldAt bs 179 8, fieldAt bs 195 8, fieldAt bs 211 8),
    min := (fieldAt bs 187 8, fieldAt bs 203 8, fieldAt bs 219 8) }

/-- A version 1.2 file that consists of a well-formed header only. -/
def fileHeaderOnly : List Byte :=
  sampleFile 1 2 [227, 0] [227, 0, 0, 0] [0, 0, 0, 0] 1 [0, 0, 0, 0] []

/-- A version 1.2 file with the pad signature at its declared data offset 227. -/
def filePadAtOffset : List Byte :=
  sampleFile 1 2 [227, 0] [227, 0, 0, 0] [0, 0, 0, 0] 1 [1, 0, 0, 0]
    ([0xCC, 0xDD] ++ List.replicate 20 0)

/-- The file `filePadAtOffset` with the two bytes at the data offset zeroed. -/
def fileNoPadAtOffset : List Byte :=
  sampleFile 1 2 [227, 0] [227, 0, 0, 0] [0, 0, 0, 0] 1 [1, 0, 0, 0]
    ([0, 0] ++ List.replicate 20 0)

/-- A version 1.2 file with declared data offset 229 and the pad signature in
the two bytes before it (positions 227 and 228). -/
def filePadBeforeOffset : List Byte :=
  sampleFile 1 2 [227, 0] [229, 0, 0, 0] [0, 0, 0, 0] 1 [1, 0, 0, 0]
    ([0xCC, 0xDD] ++ List.replicate 20 0)

/-- A version 1.2 file that declares one variable length record and data
offset 281, but ends ten bytes after the fixed header. -/
def fileShortVlr : List Byte :=
  sampleFile 1 2 [227, 0] [25, 1, 0, 0] [1, 0, 0, 0] 1 [0, 0, 0, 0] (List.replicate 10 0)

/-- A version 1.2 file that declares header size 228 and data offset 228. -/
def fileHeaderSize228 : List Byte :=
  sampleFile 1 2 [228, 0] [228, 0, 0, 0] [0, 0, 0, 0] 1 [0, 0, 0, 0] [0]

/-- A version 1.2 file of 227 bytes that declares data offset 300 and
4294967293 points. -/
def fileOffsetPastEnd : List Byte :=
  sampleFile 1 2 [227, 0] [44, 1, 0, 0] [0, 0, 0, 0] 1 [253, 255, 255, 255] []

/-- A file with the given version that declares 5 points and holds 40 bytes
of point data. -/
def fileFivePoints (major minor : Byte) : List Byte :=
  sampleFile major minor [227, 0] [227, 0, 0, 0] [0, 0, 0, 0] 1 [5, 0, 0, 0]
    (List.replicate 40 0)

/-- A header whose record length is 20 bytes (point format 1 without extra
bytes); `read` leaves the record length as it finds it. -/
def headerRecordLength20 : LasHeader := { LasHeader.blank with dataRecordLength := 20 }


/-- A version 1.2 file with a well-formed header and the given format byte. -/
def fileWithFormat (fmt : Byte) : List Byte :=
  sampleFile 1 2 [227, 0] [227, 0, 0, 0] [0, 0, 0, 0] fmt [0, 0, 0, 0] []

/-- A version 1.2 file whose format byte `0x81` selects compression. -/
def fileCompressed : List Byte := fileWithFormat 0x81

/-- A decoded version 1.2 header that declares 5 points of 20 bytes from data
offset 227. -/
def headerFivePoints : LasHeader :=
  { LasHeader.blank with
    versionMajor := 1, versionMinor := 2, headerSize := 227, dataOffset := 227,
    dataFormatId := 1, schemaFormat := 1, dataRecordLength := 20, pointRecordsCount := 5 }

/-- The header `headerFivePoints` with version 1.3. -/
def headerVersion13 : LasHeader := { headerFivePoints with versionMinor := 3 }

/-- A file like `sampleFile` with, in addition, the record length field and
the 116 bytes of the return counts, scale, offset and extents given. -/
def sampleFileFull (major minor : Byte) (hsize doff vlrs : List Byte) (fmt : Byte)
    (reclen count rest tail : List Byte) : List Byte :=
  List.replicate 24 0 ++ [major, minor] ++ List.replicate 68 0 ++ hsize ++ doff ++ vlrs
    ++ [fmt] ++ reclen ++ count ++ rest ++ tail

/-- A version 1.2 file whose six extents hold the bit patterns 1, 2, 3, 4, 5
and 6 in file order. -/
def fileWithExtents : List Byte :=
  sampleFileFull 1 2 [227, 0] [227, 0, 0, 0] [0, 0, 0, 0] 1 [28, 0] [0, 0, 0, 0]
    (List.replicate 68 0 ++ [1, 0, 0, 0, 0, 0, 0, 0] ++ [2, 0, 0, 0, 0, 0, 0, 0]
      ++ [3, 0, 0, 0, 0, 0, 0, 0] ++ [4, 0, 0, 0, 0, 0, 0, 0] ++ [5, 0, 0, 0, 0, 0, 0, 0]
      ++ [6, 0, 0, 0, 0, 0, 0, 0]) []

/-- A version 1.2 file of point format 0 whose record length field is 34 (the
20 bytes of format 0 and 14 extra bytes per record). -/
def fileRecordLength34 : List Byte :=
  sampleFileFull 1 2 [227, 0] [227, 0, 0, 0] [0, 0, 0, 0] 0 [34, 0] [0, 0, 0, 0]
    (List.replicate 116 0) []

/-- The file `fileHeaderSize228` with the signature `LASF` in its first four
bytes. -/
def fileSignedHeaderSize228 : List Byte := [76, 65, 83, 70] ++ fileHeaderSize228.drop 4

/-- The action `m`, started on a good stream positioned inside the file,
returns normally with the stream advanced by `k` bytes when the file holds
them, and fails with the end-of-file error when it does not. -/
def ReadsOrEof {α : Type} (k : Nat) (m : LasM α) : Prop :=
  ∀ h bs p, p ≤ bs.length →
    (p + k ≤ bs.length → ∃ a h1, m ⟨h, ⟨bs, p, false, false⟩⟩
        = ⟨.ok a, ⟨h1, ⟨bs, p + k, false, false⟩⟩⟩) ∧
    (bs.length < p + k → (m ⟨h, ⟨bs, p, false, false⟩⟩).result = .error .endOfFile)

/-- A version 1.2 file with data offset 227, the given point-count bytes and
40 bytes of point data. -/
def fileWithCount (count : List Byte) : List Byte :=
  sampleFile 1 2 [227, 0] [227, 0, 0, 0] [0, 0, 0, 0] 1 count (List.replicate 40 0)

/-! ## The branches of the compression bits -/

/-- The four branches of the test of the two compression bits, source lines
157-173. The last one carries the value of the condition of its assertion. -/
inductive CompressionBranch where
  /-- The branch `!compression_bit_7 && !compression_bit_6`. -/
  | uncompressed
  /-- The branch `compression_bit_7 && !compression_bit_6`. -/
  | compressed
  /-- The branch `compression_bit_7 && compression_bit_6`, which throws. -/
  | legacy
  /-- The final `else`, which evaluates
  `assert(!compression_bit_7 && compression_bit_6)` and throws. -/
  | invalid (assertion : Bool)
deriving DecidableEq, Repr

/-- Source lines 154-173 as a function of the format byte `n1`: the branch
that is taken, and in the final branch the value of the asserted condition. -/
def compressionBranch (n1 : Nat) : CompressionBranch :=
  let compression_bit_7 := (n1 &&& 0x80) >>> 7
  let compression_bit_6 := (n1 &&& 0x40) >>> 6
  if compression_bit_7 = 0 ∧ compression_bit_6 = 0 then
    .uncompressed
  else if compression_bit_7 ≠ 0 ∧ compression_bit_6 = 0 then
    .compressed
  else if compression_bit_7 ≠ 0 ∧ compression_bit_6 ≠ 0 then
    .legacy
  else
    .invalid (decide (compression_bit_7 = 0 ∧ compression_bit_6 ≠ 0))

end libpc.drivers.las

namespace libpc.drivers.liblas

/-! ## The liblas driver: errors, schema and point buffer -/

/-- The exceptions that can leave `Iterator.cpp`: the two it throws itself,
and the two failures of the schema lookup and of the buffer stores. -/
inductive IteratorError where
  /-- The exception `libpc_error("liblas reader failed to retrieve point")`. -/
  | libpc_error
  /-- The exception `not_yet_implemented("Waveform data (types 4 and 5) not supported")`. -/
  | not_yet_implemented
  /-- The lookup of a field kind that the schema does not hold. -/
  | unknownDimension
  /-- A store outside of the buffer's capacity or schema. -/
  | indexOutOfRange
deriving DecidableEq, Repr

/-- The field kinds `Dimension::Field_...` that `readBuffer` looks up. -/
inductive Field where
  | X | Y | Z | Intensity | ReturnNumber | NumberOfReturns | ScanDirectionFlag
  | EdgeOfFlightLine | Classification | ScanAngleRank | UserData | PointSourceId
  | Time | Red | Green | Blue
deriving DecidableEq, Repr

/-- Modelled from the spec: a schema is an ordered set of dimensions with
unique field kinds, each with a stable integer index. -/
structure Schema where
  /-- The field kinds in index order. -/
  dimensions : List Field
deriving DecidableEq, Repr

/-- Modelled from the spec: the lookup of a field kind returns its stable
index, or fails with the unknown-dimension error if the kind was never
registered for this schema. -/
def Schema.getDimensionIndex (s : Schema) (f : Field) : Except IteratorError Nat :=
  if f ∈ s.dimensions then .ok (s.dimensions.indexOf f) else .error .unknownDimension

/-- Modelled from the spec: a point buffer owns storage for up to `capacity`
points across the dimensions of its schema, and a count of the points
currently valid. Every stored value is kept as an integer. -/
structure PointBuffer where
  /-- The schema of the buffer. -/
  schema : Schema
  /-- The number of points the buffer can hold. -/
  capacity : Nat
  /-- The number of points currently valid. -/
  numPoints : Nat
  /-- The value stored for a point index and a dimension index. -/
  fields : Nat → Nat → Int

/-- Modelled from the spec: `allocate(schema, capacity)` creates
zero-initialized storage. -/
def PointBuffer.allocate (schema : Schema) (capacity : Nat) : PointBuffer :=
  ⟨schema, capacity, 0, fun _ _ => 0⟩

/-- The accessor `PointBuffer::getCapacity`. -/
def PointBuffer.getCapacity (b : PointBuffer) : Nat := b.capacity

/-- The accessor `PointBuffer::getSchema`. -/
def PointBuffer.getSchema (b : PointBuffer) : Schema := b.schema

/-- Modelled from the spec: `setField(pointIndex, dimIndex, value)` writes a
field and fails with the index error if either index is invalid for the
schema or the capacity. -/
def PointBuffer.setField (b : PointBuffer) (pointIndex dimIndex : Nat) (value : Int) :
    Except IteratorError PointBuffer :=
  if pointIndex < b.capacity ∧ dimIndex < b.schema.dimensions.length then
    .ok { b with
          fields := fun p d => if p = pointIndex ∧ d = dimIndex then value else b.fields p d }
  else .error .indexOutOfRange

/-- Modelled from the spec: setting the number of valid points fails when the
number exceeds the capacity. -/
def PointBuffer.setNumPoints (b : PointBuffer) (n : Nat) : Except IteratorError PointBuffer :=
  if n ≤ b.capacity then .ok { b with numPoints := n } else .error .indexOutOfRange

/-! ## The external point source -/

/-- The values that the accessors of a `::liblas::Point` return. The time is
the 64-bit pattern of the double. -/
structure Point where
  GetRawX : Int
  GetRawY : Int
  GetRawZ : Int
  GetIntensity : Nat
  GetReturnNumber : Nat
  GetNumberOfReturns : Nat
  GetScanDirection : Nat
  GetFlightLineEdge : Nat
  GetClass : Nat
  GetScanAngleRank : Int
  GetUserData : Nat
  GetPointSourceID : Nat
  GetTime : Nat
  GetRed : Nat
  GetGreen : Nat
  GetBlue : Nat
deriving DecidableEq, Repr

/-- The point with all values zero. -/
def Point.zero : Point := ⟨0, 0, 0, 0, 0, 0, 0, 0, 0, 0, 0, 0, 0, 0, 0, 0⟩

/-- The external `::liblas::Reader`, a point source outside of the
repository: the records it holds, the index of the record that the next
request delivers, and the record last delivered. -/
structure ExternalReader where
  /-- The records that the source holds. -/
  records : List Point
  /-- The index of the next record. -/
  current : Nat
  /-- The record returned by `GetPoint`. -/
  point : Point
deriving DecidableEq, Repr

/-- The request `ReadNextPoint`: it delivers the next record and reports
success, or reports failure when the source holds no record at its position. -/
def ExternalReader.ReadNextPoint (r : ExternalReader) : Bool × ExternalReader :=
  match r.records[r.current]? with
  | some pt => (true, { r with current := r.current + 1, point := pt })
  | none => (false, r)

/-- The accessor `GetPoint`. -/
def ExternalReader.GetPoint (r : ExternalReader) : Point := r.point

/-- The request `Seek(n)`: it moves the source to the record index `n`. -/
def ExternalReader.Seek (r : ExternalReader) (n : Nat) : ExternalReader :=
  { r with current := n }

/-- The next `k` record requests to the source all succeed. -/
def ExternalReader.delivers : Nat → ExternalReader → Bool
  | 0, _ => true
  | k + 1, r => r.ReadNextPoint.1 && delivers k r.ReadNextPoint.2

/-! ## `LiblasIteratorBase::readBuffer` -/

/-- The accessors of the `LiblasReader` stage that the iterators use. -/
structure LiblasReader where
  /-- The declared total `getNumPoints()`. -/
  getNumPoints : Nat
  hasTimeData : Bool
  hasColorData : Bool
  hasWaveData : Bool
deriving DecidableEq, Repr

/-- The conversion `(boost::int8_t)` of an unsigned value. -/
def toInt8 (n : Nat) : Int :=
  if n % 256 < 128 then (n % 256 : Nat) else ((n % 256 : Nat) : Int) - 256

/-- The dimension indices that `readBuffer` computes before its loop. -/
structure DimensionIndexes where
  indexX : Nat
  indexY : Nat
  indexZ : Nat
  indexIntensity : Nat
  indexReturnNumber : Nat
  indexNumberOfReturns : Nat
  indexScanDirectionFlag : Nat
  indexEdgeOfFlightLine : Nat
  indexClassification : Nat
  indexScanAngleRank : Nat
  indexUserData : Nat
  indexPointSourceId : Nat
  indexTime : Nat
  indexRed : Nat
  indexGreen : Nat
  indexBlue : Nat
deriving DecidableEq, Repr

/-- The index lookups at the head of `readBuffer`: twelve unconditional ones,
and those of time and colour only when the reader has such data (0
otherwise). -/
def lookupIndexes (rd : LiblasReader) (schema : Schema) :
    Except IteratorError DimensionIndexes := do
  let indexX ← schema.getDimensionIndex .X
  let indexY ← schema.getDimensionIndex .Y
  let indexZ ← schema.getDimensionIndex .Z
  let indexIntensity ← schema.getDimensionIndex .Intensity
  let indexReturnNumber ← schema.getDimensionIndex .ReturnNumber
  let indexNumberOfReturns ← schema.getDimensionIndex .NumberOfReturns
  let indexScanDirectionFlag ← schema.getDimensionIndex .ScanDirectionFlag
  let indexEdgeOfFlightLine ← schema.getDimensionIndex .EdgeOfFlightLine
  let indexClassification ← schema.getDimensionIndex .Classification
  let indexScanAngleRank ← schema.getDimensionIndex .ScanAngleRank
  let indexUserData ← schema.getDimensionIndex .UserData
  let indexPointSourceId ← schema.getDimensionIndex .PointSourceId
  let indexTime ← if rd.hasTimeData then schema.getDimensionIndex .Time else pure 0
  let indexRed ← if rd.hasColorData then schema.getDimensionIndex .Red else pure 0
  let indexGreen ← if rd.hasColorData then schema.getDimensionIndex .Green else pure 0
  let indexBlue ← if rd.hasColorData then schema.getDimensionIndex .Blue else pure 0
  pure ⟨indexX, indexY, indexZ, indexIntensity, indexReturnNumber, indexNumberOfReturns,
    indexScanDirectionFlag, indexEdgeOfFlightLine, indexClassification, indexScanAngleRank,
    indexUserData, indexPointSourceId, indexTime, indexRed, indexGreen, indexBlue⟩

/-- The `setField` calls of one round of the loop of `readBuffer`, in source
order, each as the dimension index and the value stored. -/
def pointWrites (rd : LiblasReader) (ix : DimensionIndexes) (pt : Point) : List (Nat × Int) :=
  [ (ix.indexX, pt.GetRawX),
    (ix.indexY, pt.GetRawY),
    (ix.indexZ, pt.GetRawZ),
    (ix.indexIntensity, pt.GetIntensity),
    (ix.indexReturnNumber, toInt8 pt.GetReturnNumber),
    (ix.indexNumberOfReturns, toInt8 pt.GetNumberOfReturns),
    (ix.indexScanDirectionFlag, toInt8 pt.GetScanDirection),
    (ix.indexEdgeOfFlightLine, toInt8 pt.GetFlightLineEdge),
    (ix.indexClassification, pt.GetClass),
    (ix.indexScanAngleRank, pt.GetScanAngleRank),
    (ix.indexUserData, pt.GetUserData),
    (ix.indexPointSourceId, pt.GetPointSourceID) ]
  ++ (if rd.hasTimeData then [(ix.indexTime, (pt.GetTime : Int))] else [])
  ++ (if rd.hasColorData then
        [(ix.indexRed, (pt.GetRed : Int)), (ix.indexGreen, pt.GetGreen),
          (ix.indexBlue, pt.GetBlue)]
      else [])

/-- A sequence of `setField` calls on the point `i`: the first failing call
ends the sequence, and the stores made before it stay in the buffer. -/
def setFields (data : PointBuffer) (i : Nat) :
    List (Nat × Int) → Except IteratorError Unit × PointBuffer
  | [] => (.ok (), data)
  | w :: rest =>
    match data.setField i w.1 w.2 with
    | .ok data1 => setFields data1 i rest
    | .error e => (.error e, data)

/-- The result of `readBuffer`: the value returned or the exception thrown,
and the buffer and the external source as the call leaves them. -/
structure ReadResult where
  result : Except IteratorError Nat
  data : PointBuffer
  externalReader : ExternalReader

/-- The loop `for (i=0; i<numPoints; i++)` of `readBuffer` with `n` rounds left
at loop counter `i`. -/
def readBufferLoop (rd : LiblasReader) (ix : DimensionIndexes) (numPoints : Nat) :
    Nat → Nat → PointBuffer → ExternalReader → ReadResult
  | 0, _, data, ext => ⟨.ok numPoints, data, ext⟩
  | n + 1, i, data, ext =>
    match ext.ReadNextPoint with
    | (false, ext1) => ⟨.error .libpc_error, data, ext1⟩
    | (true, ext1) =>
      match setFields data i (pointWrites rd ix ext1.GetPoint) with
      | (.error e, data1) => ⟨.error e, data1, ext1⟩
      | (.ok (), data1) =>
        match data1.setNumPoints (i + 1) with
        | .error e => ⟨.error e, data1, ext1⟩
        | .ok data2 =>
          if rd.hasWaveData then ⟨.error .not_yet_implemented, data2, ext1⟩
          else readBufferLoop rd ix numPoints n (i + 1) data2 ext1

/-- The function `LiblasIteratorBase::readBuffer`. -/
def readBuffer (rd : LiblasReader) (data : PointBuffer) (ext : ExternalReader) : ReadResult :=
  let numPoints := data.getCapacity
  match lookupIndexes rd data.getSchema with
  | .error e => ⟨.error e, data, ext⟩
  | .ok ix => readBufferLoop rd ix numPoints numPoints 0 data ext

/-! ## `SequentialIterator` -/

/-- The liblas sequential iterator: the reader stage, the external point
source, and the cursor `getIndex()` of the base class. -/
structure SequentialIterator where
  m_reader : LiblasReader
  m_externalReader : ExternalReader
  m_index : Nat
deriving DecidableEq, Repr

/-- A fresh iterator on a stage and its source. -/
def SequentialIterator.fresh (rd : LiblasReader) (records : List Point) : SequentialIterator :=
  ⟨rd, ⟨records, 0, Point.zero⟩, 0⟩

/-- The accessor `getIndex` of the base class. -/
def SequentialIterator.getIndex (it : SequentialIterator) : Nat := it.m_index

/-- The function `SequentialIterator::skipImpl`, on a platform whose `size_t`
has `w` bits: the value returned, and the iterator afterwards. -/
def SequentialIterator.skipImpl (w : Nat) (it : SequentialIterator) (count : Nat) :
    Nat × SequentialIterator :=
  let newPos := (it.getIndex + count) % 2 ^ 64
  let newPosX := newPos % 2 ^ w
  (count, { it with m_externalReader := it.m_externalReader.Seek newPosX })

/-- The function `SequentialIterator::atEndImpl`. -/
def SequentialIterator.atEndImpl (it : SequentialIterator) : Bool :=
  decide (it.getIndex ≥ it.m_reader.getNumPoints)

/-- The result of a read through an iterator: the value returned or the
exception thrown, the buffer and the iterator afterwards. -/
structure IteratorResult where
  result : Except IteratorError Nat
  data : PointBuffer
  iterator : SequentialIterator

/-- The function `SequentialIterator::readImpl`. -/
def SequentialIterator.readImpl (it : SequentialIterator) (data : PointBuffer) :
    IteratorResult :=
  let r := readBuffer it.m_reader data it.m_externalReader
  ⟨r.result, r.data, { it with m_externalReader := r.externalReader }⟩

/-- Modelled from the spec: `read(buffer)` of the base class, which is not
among the sources.  Reads never occur past the declared total: a read that is
requested when the cursor has reached the total point count of the stage
returns 0 without advancing, and `readImpl` is not called.  Below the total
the buffer is filled through `readImpl`, the cursor advances by the number
actually read, and that count is returned. -/
def SequentialIterator.read (it : SequentialIterator) (data : PointBuffer) : IteratorResult :=
  if it.m_reader.getNumPoints ≤ it.m_index then ⟨.ok 0, data, it⟩
  else
    let r := it.readImpl data
    match r.result with
    | .ok numRead => ⟨.ok numRead, r.data, { r.iterator with m_index := it.m_index + numRead }⟩
    | .error e => ⟨.error e, r.data, r.iterator⟩

/-- Modelled from the spec: `skip(count)` of the base class, which is not
among the sources.  It advances the cursor by `count`, clamped to the total
point count of the stage, and returns the actual advance: `skipImpl` is asked
for the clamped count, and the advance that it returns is added to the cursor
and returned. -/
def SequentialIterator.skip (w : Nat) (it : SequentialIterator) (count : Nat) :
    Nat × SequentialIterator :=
  let r := it.skipImpl w (min count (it.m_reader.getNumPoints - it.m_index))
  (r.1, { r.2 with m_index := it.m_index + r.1 })

/-- Modelled from the spec: `atEnd()` of the base class is `atEndImpl`. -/
def SequentialIterator.atEnd (it : SequentialIterator) : Bool := it.atEndImpl

/-- The loop `while (!it.atEnd()) total += it.read(data)` of a caller, with at
most `fuel` reads: the sum of the counts returned, the exception of the read
that failed, or `none` when the iterator is not at its end after `fuel`
reads. -/
def readUntilEnd : Nat → SequentialIterator → PointBuffer → Nat →
    Option (Except IteratorError Nat)
  | 0, it, _, total => if it.atEnd then some (.ok total) else none
  | fuel + 1, it, data, total =>
    if it.atEnd then some (.ok total)
    else
      match (it.read data).result with
      | .ok numRead => readUntilEnd fuel (it.read data).iterator (it.read data).data
          (total + numRead)
      | .error e => some (.error e)

/-! ## Predicates and samples for the liblas iterator -/

/-- The field kinds that `readBuffer` looks up for a reader. -/
def requiredFields (rd : LiblasReader) : List Field :=
  [.X, .Y, .Z, .Intensity, .ReturnNumber, .NumberOfReturns, .ScanDirectionFlag,
    .EdgeOfFlightLine, .Classification, .ScanAngleRank, .UserData, .PointSourceId]
  ++ (if rd.hasTimeData then [.Time] else [])
  ++ (if rd.hasColorData then [.Red, .Green, .Blue] else [])

/-- The schema holds every field kind that `readBuffer` looks up for the
reader. -/
def Schema.registers (s : Schema) (rd : LiblasReader) : Bool :=
  (requiredFields rd).all (fun f => decide (f ∈ s.dimensions))

/-- The schema of point format 0: the twelve base dimensions. -/
def schemaFormat0 : Schema :=
  ⟨[.X, .Y, .Z, .Intensity, .ReturnNumber, .NumberOfReturns, .ScanDirectionFlag,
    .EdgeOfFlightLine, .Classification, .ScanAngleRank, .UserData, .PointSourceId]⟩

/-- A reader stage of `n` points of format 0 without waveform data. -/
def readerFormat0 (n : Nat) : LiblasReader := ⟨n, false, false, false⟩

/-- A reader stage of `n` points of format 0 that reports waveform data. -/
def readerWithWaveData (n : Nat) : LiblasReader := ⟨n, false, false, true⟩

/-- The record whose raw X is `x` and whose other values are zero. -/
def pointAt (x : Int) : Point := { Point.zero with GetRawX := x }

/-- A source of three records. -/
def threeRecords : List Point := [pointAt 10, pointAt 20, pointAt 30]

/-- The indices have been looked up in a schema of `size` dimensions: each
index that `readBuffer` stores at is below `size`. -/
def ValidIndexes (rd : LiblasReader) (size : Nat) (ix : DimensionIndexes) : Prop :=
  ∀ pt, ∀ w ∈ pointWrites rd ix pt, w.1 < size

/-- The source of three records at the record index `k`. -/
def sourceAt (k : Nat) : ExternalReader := ⟨threeRecords, k, Point.zero⟩

/-- A zero-initialized buffer of capacity `c` with the schema of format 0. -/
def bufferFormat0 (c : Nat) : PointBuffer := PointBuffer.allocate schemaFormat0 c

/-- An iterator over a stage of three points that has read all three records
of its source: the cursor stands at the declared total. -/
def iteratorAtEnd : SequentialIterator := ⟨readerFormat0 3, sourceAt 3, 3⟩

/-- An iterator whose cursor stands at the declared total 2 of its stage,
over a source that holds a third record. -/
def iteratorAtDeclaredEnd : SequentialIterator := ⟨readerFormat0 2, sourceAt 2, 2⟩

/-! ## `RandomIterator` -/

/-- The liblas random iterator: the reader stage and the external point
source. -/
structure RandomIterator where
  m_reader : LiblasReader
  m_externalReader : ExternalReader
deriving DecidableEq, Repr

/-- The function `RandomIterator::seekImpl`, on a platform whose `size_t` has
`w` bits: the value returned, and the iterator afterwards. -/
def RandomIterator.seekImpl (w : Nat) (it : RandomIterator) (pos : Nat) :
    Nat × RandomIterator :=
  let posx := pos % 2 ^ w
  (pos, { it with m_externalReader := it.m_externalReader.Seek posx })

/-- The function `RandomIterator::readImpl`. -/
def RandomIterator.readImpl (it : RandomIterator) (data : PointBuffer) :
    ReadResult :=
  readBuffer it.m_reader data it.m_externalReader

/-- A random iterator over the source of three records. -/
def randomIteratorOfThree : RandomIterator := ⟨readerFormat0 3, sourceAt 0⟩

/-! ## The values that `readBuffer` stores -/

/-- The value that the last store into the dimension `d` of a sequence of
stores leaves there, if the sequence stores into `d` at all. -/
def lastWrite : List (Nat × Int) → Nat → Option Int
  | [], _ => none
  | w :: rest, d =>
    match lastWrite rest d with
    | some v => some v
    | none => if w.1 = d then some w.2 else none

/-- The indices that the lookups of `readBuffer` give in a schema that holds
the fields looked up. -/
def indexesOf (rd : LiblasReader) (s : Schema) : DimensionIndexes :=
  ⟨s.dimensions.indexOf .X, s.dimensions.indexOf .Y, s.dimensions.indexOf .Z,
    s.dimensions.indexOf .Intensity, s.dimensions.indexOf .ReturnNumber,
    s.dimensions.indexOf .NumberOfReturns, s.dimensions.indexOf .ScanDirectionFlag,
    s.dimensions.indexOf .EdgeOfFlightLine, s.dimensions.indexOf .Classification,
    s.dimensions.indexOf .ScanAngleRank, s.dimensions.indexOf .UserData,
    s.dimensions.indexOf .PointSourceId,
    if rd.hasTimeData then s.dimensions.indexOf .Time else 0,
    if rd.hasColorData then s.dimensions.indexOf .Red else 0,
    if rd.hasColorData then s.dimensions.indexOf .Green else 0,
    if rd.hasColorData then s.dimensions.indexOf .Blue else 0⟩

/-- The value that one round of `readBuffer` stores for a field kind: the
value of the accessor, after the conversion `(boost::int8_t)` for the four
fields that the source converts. -/
def storedValue (pt : Point) : Field → Int
  | .X => pt.GetRawX
  | .Y => pt.GetRawY
  | .Z => pt.GetRawZ
  | .Intensity => pt.GetIntensity
  | .ReturnNumber => toInt8 pt.GetReturnNumber
  | .NumberOfReturns => toInt8 pt.GetNumberOfReturns
  | .ScanDirectionFlag => toInt8 pt.GetScanDirection
  | .EdgeOfFlightLine => toInt8 pt.GetFlightLineEdge
  | .Classification => pt.GetClass
  | .ScanAngleRank => pt.GetScanAngleRank
  | .UserData => pt.GetUserData
  | .PointSourceId => pt.GetPointSourceID
  | .Time => pt.GetTime
  | .Red => pt.GetRed
  | .Green => pt.GetGreen
  | .Blue => pt.GetBlue

/-- The value of a record for a field kind, as the record's accessor gives
it. -/
def Point.valueOf (pt : Point) : Field → Int
  | .X => pt.GetRawX
  | .Y => pt.GetRawY
  | .Z => pt.GetRawZ
  | .Intensity => pt.GetIntensity
  | .ReturnNumber => pt.GetReturnNumber
  | .NumberOfReturns => pt.GetNumberOfReturns
  | .ScanDirectionFlag => pt.GetScanDirection
  | .EdgeOfFlightLine => pt.GetFlightLineEdge
  | .Classification => pt.GetClass
  | .ScanAngleRank => pt.GetScanAngleRank
  | .UserData => pt.GetUserData
  | .PointSourceId => pt.GetPointSourceID
  | .Time => pt.GetTime
  | .Red => pt.GetRed
  | .Green => pt.GetGreen
  | .Blue => pt.GetBlue

/-- The four values of a record that `readBuffer` converts to `int8_t` are
below 128, so that the conversion keeps them (a LAS record holds them in
fields of three bits and of one bit). -/
def Point.flagsInRange (pt : Point) : Prop :=
  pt.GetReturnNumber < 128 ∧ pt.GetNumberOfReturns < 128 ∧ pt.GetScanDirection < 128 ∧
    pt.GetFlightLineEdge < 128

/-- The schema of point format 3: the base dimensions, time and colour. -/
def schemaFormat3 : Schema :=
  ⟨[.X, .Y, .Z, .Intensity, .ReturnNumber, .NumberOfReturns, .ScanDirectionFlag,
    .EdgeOfFlightLine, .Classification, .ScanAngleRank, .UserData, .PointSourceId,
    .Time, .Red, .Green, .Blue]⟩

end libpc.drivers.liblas

namespace libpc.filters

open libpc.drivers.liblas

/-! ## `CropFilter` -/

/-- Modelled from the spec: a stage of the pipeline, with its point count and
its two capability flags. The class `libpc::Stage` is not among the
sources. -/
structure Stage where
  getNumPoints : Nat
  supportsSequential : Bool
  supportsRandom : Bool
deriving DecidableEq, Repr

/-- Modelled from the spec: the base class `libpc::RandomIterator`, a
traversal bound to its stage. -/
structure RandomIterator where
  stage : Stage
deriving DecidableEq, Repr

/-- Modelled from the spec: a range of an axis, given by its minimum and its
maximum. A finite double is carried as the rational number that it is. -/
structure Range where
  minimum : ℚ
  maximum : ℚ
deriving DecidableEq

/-- Modelled from the spec: an axis-aligned volume given by one range per
axis, for two or three axes (`libpc/Bounds.hpp` is not among the sources). -/
structure Bounds where
  ranges : List Range
deriving DecidableEq

/-- Modelled from the spec: a value lies within a range when it is neither
below the minimum nor above the maximum. -/
def Range.contains (r : Range) (v : ℚ) : Bool := decide (r.minimum ≤ v ∧ v ≤ r.maximum)

/-- Modelled from the spec: a bounds is empty when it has no range, and
degenerate when the range of one of its axes has no extent, its maximum not
being above its minimum. -/
def Bounds.empty (b : Bounds) : Bool :=
  b.ranges.isEmpty || b.ranges.any (fun r => decide (r.maximum ≤ r.minimum))

/-- Modelled from the spec: an empty or degenerate bounds is an
always-rejecting volume, no point lies within it.  A point lies within any
other bounds when each of its coordinates lies within the range of its axis;
the coordinates are those of the axes that the bounds have (X and Y, and Z
for bounds of three axes). -/
def Bounds.contains (b : Bounds) (point : List ℚ) : Bool :=
  !b.empty &&
    ((b.ranges.zip point).all (fun rv => rv.1.contains rv.2) &&
      decide (b.ranges.length ≤ point.length))

/-- The class `CropFilter`: the previous stage and the bounds. -/
structure CropFilter where
  prevStage : Stage
  m_bounds : Bounds
deriving DecidableEq

/-- The member `bool supportsSequentialIterator() const { return true; }`. -/
def CropFilter.supportsSequentialIterator (_ : CropFilter) : Bool := true

/-- The member `bool supportsRandomIterator() const { return false; }`. -/
def CropFilter.supportsRandomIterator (_ : CropFilter) : Bool := false

/-- The member
`libpc::RandomIterator* createRandomIterator() const { return NULL; }`; the
null pointer is `none`. -/
def CropFilter.createRandomIterator (_ : CropFilter) : Option RandomIterator := none

/-- The accessor `getBounds`. -/
def CropFilter.getBounds (f : CropFilter) : Bounds := f.m_bounds

/-- The coordinates of the point `p` of a buffer at the indices of X, Y and
Z. -/
def pointCoordinates (src : PointBuffer) (fieldX fieldY fieldZ : Nat) (p : Nat) : List ℚ :=
  [(src.fields p fieldX : ℚ), (src.fields p fieldY : ℚ), (src.fields p fieldZ : ℚ)]

/-- Modelled from the spec: the copy of the point `srcIndex` of the source to
the point `dstIndex` of the destination, in every dimension; it fails with
the index error outside of the capacity of the destination. -/
def copyPoint (dst : PointBuffer) (dstIndex srcIndex : Nat) (src : PointBuffer) :
    Except IteratorError PointBuffer :=
  if dstIndex < dst.capacity then
    .ok { dst with fields := fun p d => if p = dstIndex then src.fields srcIndex d
                                        else dst.fields p d }
  else .error .indexOutOfRange

/-- The result of `processBuffer`: the count returned or the error, and the
destination buffer as the call leaves it. -/
structure ProcessResult where
  result : Except IteratorError Nat
  dstData : PointBuffer

/-- Modelled from the spec: the loop of `processBuffer` over the `n` points of
the source from `srcIndex` on: a point within the bounds is copied to the
point `dstIndex` of the destination, the next free one, and counted. -/
def processLoop (bounds : Bounds) (fieldX fieldY fieldZ : Nat) (src : PointBuffer) :
    Nat → Nat → Nat → Nat → PointBuffer → ProcessResult
  | 0, _, _, numPointsAdded, dst => ⟨.ok numPointsAdded, dst⟩
  | n + 1, srcIndex, dstIndex, numPointsAdded, dst =>
    if bounds.contains (pointCoordinates src fieldX fieldY fieldZ srcIndex) then
      match copyPoint dst dstIndex srcIndex src with
      | .error e => ⟨.error e, dst⟩
      | .ok dst1 =>
        match dst1.setNumPoints (dstIndex + 1) with
        | .error e => ⟨.error e, dst1⟩
        | .ok dst2 =>
          processLoop bounds fieldX fieldY fieldZ src n (srcIndex + 1) (dstIndex + 1)
            (numPointsAdded + 1) dst2
    else processLoop bounds fieldX fieldY fieldZ src n (srcIndex + 1) dstIndex numPointsAdded dst

/-- Modelled from the spec: `CropFilter::processBuffer`, of which the sources
hold the declaration only. It copies from the source into the destination
only the valid points that lie within the bounds of the filter, in their
order, and returns the count accepted. The points go behind the valid points
that the destination already holds: the comment on the declaration says that
the count returned may be less than the count of valid points of the buffer
when the routine is called several times with the same buffer. -/
def CropFilter.processBuffer (f : CropFilter) (dstData srcData : PointBuffer) :
    ProcessResult :=
  match srcData.schema.getDimensionIndex .X with
  | .error e => ⟨.error e, dstData⟩
  | .ok fieldX =>
    match srcData.schema.getDimensionIndex .Y with
    | .error e => ⟨.error e, dstData⟩
    | .ok fieldY =>
      match srcData.schema.getDimensionIndex .Z with
      | .error e => ⟨.error e, dstData⟩
      | .ok fieldZ =>
        processLoop f.getBounds fieldX fieldY fieldZ srcData srcData.numPoints 0
          dstData.numPoints 0 dstData

/-- The valid points of a buffer, each as its values by dimension. -/
def validPoints (b : PointBuffer) : List (Nat → Int) :=
  (List.range b.numPoints).map (fun p => b.fields p)

/-- The indices, among the `n` points of a buffer from `start` on, of the
points that lie within the bounds, in their order. -/
def indicesWithin (bounds : Bounds) (fieldX fieldY fieldZ : Nat) (src : PointBuffer)
    (start n : Nat) : List Nat :=
  (List.range' start n).filter
    (fun p => bounds.contains (pointCoordinates src fieldX fieldY fieldZ p))

/-- The valid points of a buffer that lie within the bounds, in their
order. -/
def pointsWithin (bounds : Bounds) (src : PointBuffer) : List (Nat → Int) :=
  (indicesWithin bounds (src.schema.dimensions.indexOf .X) (src.schema.dimensions.indexOf .Y)
    (src.schema.dimensions.indexOf .Z) src 0 src.numPoints).map (fun p => src.fields p)

/-- The bounds `[0, 10] x [0, 10]`. -/
def boundsTenByTen : Bounds := ⟨[⟨0, 10⟩, ⟨0, 10⟩]⟩

/-- A crop filter with the bounds `[0, 10] x [0, 10]`. -/
def cropTenByTen : CropFilter := ⟨⟨3, true, false⟩, boundsTenByTen⟩

/-- A source buffer with the three valid points (5, 5), (15, 5) and (-1, 5),
all with Z = 0. -/
def sourceOfThree : PointBuffer :=
  { schema := schemaFormat0
    capacity := 3
    numPoints := 3
    fields := fun p d =>
      if d = 0 then (if p = 0 then 5 else if p = 1 then 15 else if p = 2 then -1 else 0)
      else if d = 1 then (if p < 3 then 5 else 0)
      else 0 }

/-- An empty destination buffer of capacity 3. -/
def emptyDestination : PointBuffer := PointBuffer.allocate schemaFormat0 3

/-- The bounds without a range. -/
def boundsWithoutRange : Bounds := ⟨[]⟩

/-- The degenerate bounds `[5, 5] x [5, 5]`. -/
def boundsFiveToFive : Bounds := ⟨[⟨5, 5⟩, ⟨5, 5⟩]⟩

/-! ## `MosaicFilterSequentialIterator` -/

/-- Modelled from the spec: a sequential iterator over a child stage, by the
total of its stage and its cursor. -/
structure ChildIterator where
  total : Nat
  index : Nat
deriving DecidableEq, Repr

/-- The points between the cursor of a child and the total of its stage. -/
def ChildIterator.remaining (c : ChildIterator) : Nat := c.total - c.index

/-- Modelled from the spec: `skip(count)` of a sequential iterator advances
the cursor by `count`, clamped to the total of the stage, and returns the
actual advance. -/
def ChildIterator.skip (c : ChildIterator) (count : Nat) : Nat × ChildIterator :=
  (min count c.remaining, { c with index := c.index + min count c.remaining })

/-- Modelled from the spec: `read` of a sequential iterator into `space` free
points fills up to that many points from the cursor on, advances the cursor
by the number read and returns it; at the total it returns 0. -/
def ChildIterator.read (c : ChildIterator) (space : Nat) : Nat × ChildIterator :=
  (min space c.remaining, { c with index := c.index + min space c.remaining })

/-- Modelled from the spec: `atEnd()` of a sequential iterator. -/
def ChildIterator.atEnd (c : ChildIterator) : Bool := decide (c.total ≤ c.index)

/-- Modelled from the spec: the state of the mosaic iterator, an ordered list
of child iterators and the index of the current child. The sources hold the
declaration of the class only. -/
structure MosaicFilterSequentialIterator where
  m_prevIterators : List ChildIterator
  current : Nat
deriving DecidableEq, Repr

/-- A fresh mosaic iterator over children of the given lengths. -/
def MosaicFilterSequentialIterator.fresh (lengths : List Nat) :
    MosaicFilterSequentialIterator :=
  ⟨lengths.map (fun n => ⟨n, 0⟩), 0⟩

/-- Modelled from the spec: the walk of `skip`, with at most `fuel` children
visited: it skips within the current child up to its remaining length, then
advances to the next child and continues with the remainder, until the count
is consumed or all children are exhausted. -/
def skipLoop : Nat → MosaicFilterSequentialIterator → Nat → Nat →
    Nat × MosaicFilterSequentialIterator
  | 0, it, _, skipped => (skipped, it)
  | fuel + 1, it, count, skipped =>
    if count = 0 then (skipped, it)
    else
      match it.m_prevIterators[it.current]? with
      | none => (skipped, it)
      | some child =>
        if (child.skip count).1 < count then
          skipLoop fuel
            ⟨it.m_prevIterators.set it.current (child.skip count).2, it.current + 1⟩
            (count - (child.skip count).1) (skipped + (child.skip count).1)
        else
          (skipped + (child.skip count).1,
            ⟨it.m_prevIterators.set it.current (child.skip count).2, it.current⟩)

/-- Modelled from the spec: `skipImpl` of the mosaic iterator returns the
total actually skipped. -/
def MosaicFilterSequentialIterator.skipImpl (it : MosaicFilterSequentialIterator)
    (count : Nat) : Nat × MosaicFilterSequentialIterator :=
  skipLoop (it.m_prevIterators.length + 1) it count 0

/-- Modelled from the spec: the walk of `read`, with at most `fuel` reads of
children: it reads from the current child into the remaining space of the
buffer, and when the read of the current child returns zero it advances to
the next child, until the buffer is full or all children are exhausted. -/
def readLoop : Nat → MosaicFilterSequentialIterator → Nat → Nat →
    Nat × MosaicFilterSequentialIterator
  | 0, it, _, placed => (placed, it)
  | fuel + 1, it, space, placed =>
    if space = 0 then (placed, it)
    else
      match it.m_prevIterators[it.current]? with
      | none => (placed, it)
      | some child =>
        if (child.read space).1 = 0 then
          readLoop fuel ⟨it.m_prevIterators, it.current + 1⟩ space placed
        else
          readLoop fuel
            ⟨it.m_prevIterators.set it.current (child.read space).2, it.current⟩
            (space - (child.read space).1) (placed + (child.read space).1)

/-- Modelled from the spec: `readImpl` of the mosaic iterator into a buffer of
the given capacity returns the total of points placed. -/
def MosaicFilterSequentialIterator.readImpl (it : MosaicFilterSequentialIterator)
    (capacity : Nat) : Nat × MosaicFilterSequentialIterator :=
  readLoop (2 * it.m_prevIterators.length + 1) it capacity 0

/-- Modelled from the spec: `atEnd()` is true once the last child is
exhausted. -/
def MosaicFilterSequentialIterator.atEndImpl (it : MosaicFilterSequentialIterator) : Bool :=
  match it.m_prevIterators.getLast? with
  | none => true
  | some child => child.atEnd

/-- The points that remain in the current child and in the later
children. -/
def MosaicFilterSequentialIterator.remaining (it : MosaicFilterSequentialIterator) : Nat :=
  ((it.m_prevIterators.drop it.current).map ChildIterator.remaining).sum

end libpc.filters

namespace plugins.qt

/-! ## The Qt SQL classes -/

/-- A double of a point or of the cache: the 64-bit pattern of a field of the
point, or one of the two sums with the constant 0.01 that `processOne` forms.
No floating-point arithmetic is modelled: the sums are kept as terms. -/
inductive Double where
  | ofBits (bits : Nat)
  /-- The double `x - 0.01`. -/
  | minusHundredth (x : Double)
  /-- The double `x + 0.01`. -/
  | plusHundredth (x : Double)
deriving DecidableEq, Repr

/-- The values of `QVariant` that the plugins use. -/
inductive QVariant where
  | longLong (v : Int)
  | int (v : Int)
  | double (v : Double)
  | string (s : String)
deriving DecidableEq, Repr

/-- The conversion `QVariant::toInt(&ok)`: the number, or `none` when `ok` is
set to false. -/
def QVariant.toInt : QVariant → Option Int
  | .int v => some v
  | .longLong v => if -2 ^ 31 ≤ v ∧ v < 2 ^ 31 then some v else none
  | .double _ => none
  | .string _ => none

/-- The conversion `QVariant::toLongLong(&ok)`. -/
def QVariant.toLongLong : QVariant → Option Int
  | .int v => some v
  | .longLong v => some v
  | .double _ => none
  | .string _ => none

/-- A row of a table: the values of its columns. -/
abbrev Row := List QVariant

/-- The SQL statements of `sqlquery.h`, by what they do. -/
inductive Statement where
  /-- The count of the tables with the given name in `sqlite_master`; the
  names are compared in lower case, and stand here for their lower-case
  form. -/
  | tableExist (name : String)
  /-- The statement `drop table <name>`. -/
  | dropTable (name : String)
  /-- The statement `select coalesce(max(id), 0) as maxid from <name>`. -/
  | getMaxIndex (name : String)
  /-- A `create table` or `create virtual table` statement for the name. -/
  | createTable (name : String)
  /-- An `insert into <name> ... values ...` statement with bound values. -/
  | insert (name : String)
deriving DecidableEq, Repr

/-- The calls of the driver that the storage makes. -/
inductive DriverCall where
  | openConnection
  | closeConnection
  | transaction
  | commit
  | rollback
  | exec (statement : Statement)
  | execBatch (statement : Statement) (values : List (List QVariant))
deriving DecidableEq, Repr

/-- The database behind a `QSqlDatabase` connection, a class outside of the
repository: the tables by name, whether the connection is open, the tables as
they were when the open transaction began (`none` when no transaction is
open), for each coming call of the driver whether the driver fails it, and
the calls made so far with their outcomes. -/
structure Database where
  tables : List (String × List Row)
  isOpen : Bool
  savepoint : Option (List (String × List Row))
  faults : List Bool
  log : List (DriverCall × Bool)
deriving DecidableEq, Repr

/-- The rows of the table with the given name, `none` when there is no such
table. -/
def Database.lookup (db : Database) (name : String) : Option (List Row) :=
  db.tables.lookup name

/-- The next call of the driver: whether the driver fails it (it does not
when no entry is left), and the database with that entry used up. -/
def Database.takeFault (db : Database) : Bool × Database :=
  (db.faults.headD false, { db with faults := db.faults.tail })

/-- The database with one more call in its log. -/
def Database.logged (db : Database) (call : DriverCall) (ok : Bool) : Database :=
  { db with log := db.log ++ [(call, ok)] }

/-- The call `QSqlDatabase::open`. -/
def Database.openConnection (db : Database) : Bool × Database :=
  if (db.takeFault).1 then (false, (db.takeFault).2.logged .openConnection false)
  else (true, Database.logged { (db.takeFault).2 with isOpen := true } .openConnection true)

/-- The call `QSqlDatabase::close`: an open transaction is rolled back. -/
def Database.closeConnection (db : Database) : Database :=
  match db.savepoint with
  | some saved =>
    Database.logged { db with isOpen := false, tables := saved, savepoint := none }
      .closeConnection true
  | none => Database.logged { db with isOpen := false } .closeConnection true

/-- The call `QSqlDatabase::transaction`: it fails when the driver fails it or
when a transaction is open already. -/
def Database.transaction (db : Database) : Bool × Database :=
  if (db.takeFault).1 = true ∨ db.savepoint.isSome = true then
    (false, (db.takeFault).2.logged .transaction false)
  else
    (true, Database.logged { (db.takeFault).2 with savepoint := some db.tables }
      .transaction true)

/-- The call `QSqlDatabase::commit`: it fails when the driver fails it or when
no transaction is open; a failed commit leaves the transaction open. -/
def Database.commit (db : Database) : Bool × Database :=
  if (db.takeFault).1 = true ∨ db.savepoint.isNone = true then
    (false, (db.takeFault).2.logged .commit false)
  else
    (true, Database.logged { (db.takeFault).2 with savepoint := none } .commit true)

/-- The call `QSqlDatabase::rollback`: it fails when the driver fails it or
when no transaction is open; a rollback that succeeds restores the tables and
closes the transaction, one that fails changes nothing. -/
def Database.rollback (db : Database) : Bool × Database :=
  match (db.takeFault).1, db.savepoint with
  | false, some saved =>
    (true, Database.logged { (db.takeFault).2 with tables := saved, savepoint := none }
      .rollback true)
  | _, _ => (false, (db.takeFault).2.logged .rollback false)

/-- The id of a row: the number in its first column. -/
def rowId (r : Row) : Int :=
  match r.head? with
  | some v => (v.toLongLong).getD 0
  | none => 0

/-- The value of `coalesce(max(id), 0)` over the rows of a table. -/
def maxId : List Row → Int
  | [] => 0
  | r :: rest => rest.foldl (fun m x => max m (rowId x)) (rowId r)

/-- The tables with the rows of one of them replaced. -/
def setRows (tables : List (String × List Row)) (name : String) (rows : List Row) :
    List (String × List Row) :=
  tables.map (fun t => if t.1 = name then (t.1, rows) else t)

/-- The call `QSqlQuery::exec` of a prepared statement: whether it succeeds,
the first value of the first record of its result when it has one, and the
database afterwards. A statement fails when the driver fails it, when it
drops or reads a table that does not exist, or creates one that exists. -/
def Database.exec (db : Database) (st : Statement) : Bool × Option QVariant × Database :=
  if (db.takeFault).1 then (false, none, (db.takeFault).2.logged (.exec st) false)
  else
    match st with
    | .tableExist name =>
      (true, some (.int (if (db.lookup name).isSome then 1 else 0)),
        (db.takeFault).2.logged (.exec st) true)
    | .dropTable name =>
      if (db.lookup name).isSome then
        (true, none, Database.logged
          { (db.takeFault).2 with tables := db.tables.filter (fun t => t.1 ≠ name) }
          (.exec st) true)
      else (false, none, (db.takeFault).2.logged (.exec st) false)
    | .getMaxIndex name =>
      match db.lookup name with
      | some rows => (true, some (.longLong (maxId rows)), (db.takeFault).2.logged (.exec st) true)
      | none => (false, none, (db.takeFault).2.logged (.exec st) false)
    | .createTable name =>
      if (db.lookup name).isSome then (false, none, (db.takeFault).2.logged (.exec st) false)
      else
        (true, none, Database.logged
          { (db.takeFault).2 with tables := db.tables ++ [(name, [])] } (.exec st) true)
    | .insert _ => (false, none, (db.takeFault).2.logged (.exec st) false)

/-- The call `QSqlQuery::execBatch` of a prepared insert statement with one
bound list of values per column: the rows are the values at the same place of
the lists. -/
def Database.execBatch (db : Database) (st : Statement) (values : List (List QVariant)) :
    Bool × Database :=
  if (db.takeFault).1 then (false, (db.takeFault).2.logged (.execBatch st values) false)
  else
    match st with
    | .insert name =>
      match db.lookup name with
      | some rows =>
        (true, Database.logged
          { (db.takeFault).2 with tables := setRows db.tables name (rows ++ values.transpose) }
          (.execBatch st values) true)
      | none => (false, (db.takeFault).2.logged (.execBatch st values) false)
    | _ => (false, (db.takeFault).2.logged (.execBatch st values) false)

/-- The conversion of a number to `int32_t`. -/
def toInt32 (n : Int) : Int := (n + 2 ^ 31) % 2 ^ 32 - 2 ^ 31

/-- The conversion of a number to `int64_t`. -/
def toInt64 (n : Int) : Int := (n + 2 ^ 63) % 2 ^ 64 - 2 ^ 63

end plugins.qt

namespace plugins.hackathon

open plugins.qt

/-! ## The plugin `hackathon`: cache and queries -/

/-- The struct `Cache` of `cache.h`: one list of values per column. -/
structure Cache where
  id : List QVariant
  minX : List QVariant
  maxX : List QVariant
  minY : List QVariant
  maxY : List QVariant
  minZ : List QVariant
  maxZ : List QVariant
  x : List QVariant
  y : List QVariant
  z : List QVariant
  classification : List QVariant
  intensity : List QVariant
  gpsTime : List QVariant
  pointId : List QVariant
  pointSourceId : List QVariant
deriving DecidableEq, Repr

/-- The function `Cache::clear` of `cache.cpp`: it clears each of the fifteen
lists. -/
def Cache.clear (c : Cache) : Cache :=
  { c with
    id := []
    minX := []
    maxX := []
    minY := []
    maxY := []
    minZ := []
    maxZ := []
    x := []
    y := []
    z := []
    classification := []
    intensity := []
    gpsTime := []
    pointId := []
    pointSourceId := [] }

/-- The name `query::spatial::tableName`. -/
def query.spatial.tableName : String := "point_tree"

/-- The statement `query::spatial::createQuery`. -/
def query.spatial.createQuery : Statement := .createTable "point_tree"

/-- The statement `query::spatial::insertQuery`. -/
def query.spatial.insertQuery : Statement := .insert "point_tree"

/-- The name `query::classification::tableName`. -/
def query.classification.tableName : String := "classification"

/-- The statement `query::classification::createQuery`. -/
def query.classification.createQuery : Statement := .createTable "classification"

/-- The statement `query::classification::insertQuery`. -/
def query.classification.insertQuery : Statement := .insert "classification"

/-- The map `query::classification::tableData`, in the order of its keys. -/
def query.classification.tableData : List (Int × String) :=
  [(1, "unclassified"), (2, "ground"), (6, "buildings"), (9, "water"), (26, "kunstwerk")]

/-- The statement `query::dropTable.arg(tableName)`. -/
def query.dropTable (tableName : String) : Statement := .dropTable tableName

/-- The statement `query::getMaxIndex.arg(tableName)`. -/
def query.getMaxIndex (tableName : String) : Statement := .getMaxIndex tableName

/-- The statement `query::tableExist` with its name bound. -/
def query.tableExist (tableName : String) : Statement := .tableExist tableName

/-! ## The class `Storage` of `storage.cpp` -/

/-- The members of the class `Storage` that the functions of `storage.cpp`
use: the connection string and the database connection. -/
structure Storage where
  m_connectionString : String
  m_db : Database
deriving DecidableEq, Repr

/-- The function `Storage::connect`. -/
def Storage.connect (s : Storage) (reconnect : Bool) : Bool × Storage :=
  if s.m_db.isOpen = true ∧ reconnect = false then
    -- database already open
    (true, s)
  else
    match (if s.m_db.isOpen then s.m_db.closeConnection else s.m_db).openConnection with
    | (false, db) => (false, { s with m_db := db })
    | (true, db) => (true, { s with m_db := db })

/-- The function `Storage::beginTransaction`. -/
def Storage.beginTransaction (s : Storage) : Bool × Storage :=
  match s.m_db.transaction with
  | (false, db) => (false, { s with m_db := db })
  | (true, db) => (true, { s with m_db := db })

/-- The function `Storage::rollbackTransaction`. -/
def Storage.rollbackTransaction (s : Storage) : Bool × Storage :=
  match s.m_db.rollback with
  | (false, db) => (false, { s with m_db := db })
  | (true, db) => (true, { s with m_db := db })

/-- The function `Storage::commitTransaction`: when the commit fails it calls
`m_db->rollback()`, whose result it does not read, and returns false. -/
def Storage.commitTransaction (s : Storage) : Bool × Storage :=
  match s.m_db.commit with
  | (false, db) =>
    -- rollback
    (false, { s with m_db := db.rollback.2 })
  | (true, db) => (true, { s with m_db := db })

/-- The function `Storage::doesTableExist`: the value returned, the output
`exists`, and the storage afterwards. -/
def Storage.doesTableExist (s : Storage) (tableName : String) : Bool × Bool × Storage :=
  match s.m_db.exec (query.tableExist tableName) with
  | (false, _, db) => (false, false, { s with m_db := db })
  | (true, some value, db) =>
    -- read records
    match value.toInt with
    | some count => (true, decide (count > 0), { s with m_db := db })
    | none =>
      -- value is not a valid number
      (false, false, { s with m_db := db })
  | (true, none, db) =>
    -- no record, report as error
    (false, false, { s with m_db := db })

/-- The function `Storage::createTable`; the name is used for logging
only. -/
def Storage.createTable (s : Storage) (_tableName : String) (createQuery : Statement) :
    Bool × Storage :=
  match s.m_db.exec createQuery with
  | (false, _, db) => (false, { s with m_db := db })
  | (true, _, db) => (true, { s with m_db := db })

/-- The function `Storage::deleteTable`. -/
def Storage.deleteTable (s : Storage) (tableName : String) : Bool × Storage :=
  match s.m_db.exec (query.dropTable tableName) with
  | (false, _, db) => (false, { s with m_db := db })
  | (true, _, db) => (true, { s with m_db := db })

/-- The two lists `keys` and `descriptions` that `fillClassificationTable`
binds. -/
def classificationValues : List (List QVariant) :=
  [query.classification.tableData.map (fun kv => QVariant.int kv.1),
    query.classification.tableData.map (fun kv => QVariant.string kv.2)]

/-- The function `Storage::fillClassificationTable`. -/
def Storage.fillClassificationTable (s : Storage) : Bool × Storage :=
  match s.beginTransaction with
  | (false, s1) =>
    -- error
    (false, s1)
  | (true, s1) =>
    -- batch insert in table
    match s1.m_db.execBatch query.classification.insertQuery classificationValues with
    | (false, db) =>
      -- write error, rollback
      (false, (Storage.rollbackTransaction { s1 with m_db := db }).2)
    | (true, db) =>
      match Storage.commitTransaction { s1 with m_db := db } with
      | (false, s2) =>
        -- commit error, rollback was performed
        (false, s2)
      | (true, s2) => (true, s2)

/-- The function `Storage::getMaxDataId`: the value returned, the output
`maxId`, and the storage afterwards. -/
def Storage.getMaxDataId (s : Storage) (tableName : String) : Bool × Int × Storage :=
  match s.m_db.exec (query.getMaxIndex tableName) with
  | (false, _, db) => (false, 0, { s with m_db := db })
  | (true, some value, db) =>
    -- read records
    match value.toLongLong with
    | some maxId => (true, maxId, { s with m_db := db })
    | none =>
      -- value is not a valid number
      (false, 0, { s with m_db := db })
  | (true, none, db) =>
    -- no record, report as error
    (false, 0, { s with m_db := db })

/-- The lists that `writeCache` binds to the insert statement, in the order
of its `addBindValue` calls. -/
def Cache.boundValues (cache : Cache) : List (List QVariant) :=
  [cache.id, cache.minX, cache.maxX, cache.minY, cache.maxY, cache.minZ, cache.maxZ,
    cache.x, cache.y, cache.z, cache.classification, cache.intensity, cache.gpsTime,
    cache.pointId, cache.pointSourceId]

/-- The function `Storage::writeCache`. -/
def Storage.writeCache (s : Storage) (cache : Cache) : Bool × Storage :=
  match s.beginTransaction with
  | (false, s1) =>
    -- error
    (false, s1)
  | (true, s1) =>
    -- batch insert in table
    match s1.m_db.execBatch query.spatial.insertQuery cache.boundValues with
    | (false, db) =>
      -- write error, rollback
      (false, (Storage.rollbackTransaction { s1 with m_db := db }).2)
    | (true, db) =>
      match Storage.commitTransaction { s1 with m_db := db } with
      | (false, s2) =>
        -- commit error, rollback was performed
        (false, s2)
      | (true, s2) => (true, s2)

/-! ## The class `HackathonWriter` of `hackathonwriter.cpp` -/

/-- Modelled from the spec: the struct `Settings` of this plugin, whose header
`settings.h` is missing: the members that `addArgs` registers, typed as
`settings.h` of the plugin `hackathontoo` declares them. -/
structure Settings where
  connectionString : String
  overwrite : Bool
  cacheSize : Int
deriving DecidableEq, Repr

/-- Modelled from the spec: the defaults of the settings, `overwrite = false`
and `cacheSize = 10000`, as `settings.h` of the plugin `hackathontoo` sets
them. -/
def Settings.default : Settings := ⟨"", false, 10000⟩

/-- The values of a point that `processOne` reads with `getFieldAs`. -/
structure PointRef where
  X : Double
  Y : Double
  Z : Double
  Classification : Int
  Intensity : Int
  GpsTime : Double
  PointId : Int
  PointSourceId : Int
deriving DecidableEq, Repr

/-- The members of `HackathonWriter` that `ready`, `processOne`, `done` and
`flushCache` use. -/
structure HackathonWriter where
  m_settings : Settings
  m_cache : Cache
  m_currentCacheSize : Int
  m_storage : Storage
  m_currentId : Int
deriving DecidableEq, Repr

/-- The errors that `throwError` raises, by the place of the call. -/
inductive WriterError where
  | unableToConnect
  | unableToDetermineIfTableExists (table : String)
  | cannotDeleteTable (table : String)
  | cannotCreateTable (table : String)
  | cannotFillTable (table : String)
  | unableToDetermineMaximumId (table : String)
  | unableToFlushPoints
deriving DecidableEq, Repr

/-- The outcome of a member function: the value returned or the error thrown,
and the writer as the call leaves it. -/
structure Outcome (α : Type) where
  result : Except WriterError α
  writer : HackathonWriter

/-- Source lines 83-95 of `ready`: the two checks whether the tables exist;
the values are `hasSpatialTable` and `hasClassificationTable`. -/
def HackathonWriter.readyCheckTables (w : HackathonWriter) : Outcome (Bool × Bool) :=
  match w.m_storage.doesTableExist query.spatial.tableName with
  | (false, _, s1) =>
    ⟨.error (.unableToDetermineIfTableExists query.spatial.tableName), { w with m_storage := s1 }⟩
  | (true, hasSpatialTable, s1) =>
    match s1.doesTableExist query.classification.tableName with
    | (false, _, s2) =>
      ⟨.error (.unableToDetermineIfTableExists query.classification.tableName),
        { w with m_storage := s2 }⟩
    | (true, hasClassificationTable, s2) =>
      ⟨.ok (hasSpatialTable, hasClassificationTable), { w with m_storage := s2 }⟩

/-- Source lines 100-122 of `ready`: with the overwrite setting, the tables
that exist are deleted and the two flags are set to false. -/
def HackathonWriter.readyOverwrite (w : HackathonWriter)
    (hasSpatialTable hasClassificationTable : Bool) : Outcome (Bool × Bool) :=
  if w.m_settings.overwrite then
    -- overwrite requested, delete tables
    match (if hasSpatialTable then w.m_storage.deleteTable query.spatial.tableName
           else (true, w.m_storage)) with
    | (false, s1) =>
      ⟨.error (.cannotDeleteTable query.spatial.tableName), { w with m_storage := s1 }⟩
    | (true, s1) =>
      match (if hasClassificationTable then s1.deleteTable query.classification.tableName
             else (true, s1)) with
      | (false, s2) =>
        ⟨.error (.cannotDeleteTable query.classification.tableName),
          { w with m_storage := s2 }⟩
      | (true, s2) => ⟨.ok (false, false), { w with m_storage := s2 }⟩
  else ⟨.ok (hasSpatialTable, hasClassificationTable), w⟩

/-- Source lines 124-144 of `ready`: the tables that do not exist are
created, and a created classification table is filled. -/
def HackathonWriter.readyCreateTables (w : HackathonWriter)
    (hasSpatialTable hasClassificationTable : Bool) : Outcome Unit :=
  match (if hasSpatialTable then (true, w.m_storage)
         else w.m_storage.createTable query.spatial.tableName query.spatial.createQuery) with
  | (false, s1) =>
    ⟨.error (.cannotCreateTable query.spatial.tableName), { w with m_storage := s1 }⟩
  | (true, s1) =>
    if hasClassificationTable then ⟨.ok (), { w with m_storage := s1 }⟩
    else
      match s1.createTable query.classification.tableName
          query.classification.createQuery with
      | (false, s2) =>
        ⟨.error (.cannotCreateTable query.classification.tableName),
          { w with m_storage := s2 }⟩
      | (true, s2) =>
        match s2.fillClassificationTable with
        | (false, s3) =>
          ⟨.error (.cannotFillTable query.classification.tableName),
            { w with m_storage := s3 }⟩
        | (true, s3) => ⟨.ok (), { w with m_storage := s3 }⟩

/-- Source lines 146-173 of `ready`: the maximum id of the spatial table
becomes the current id, the cache is cleared, and the storage reconnects. -/
def HackathonWriter.readyMaxId (w : HackathonWriter) : Outcome Unit :=
  match w.m_storage.getMaxDataId query.spatial.tableName with
  | (false, _, s1) =>
    ⟨.error (.unableToDetermineMaximumId query.spatial.tableName),
      { w with m_storage := s1 }⟩
  | (true, spatialMaxId, s1) =>
    match s1.connect true with
    | (false, s2) =>
      ⟨.error .unableToConnect,
        { w with m_storage := s2, m_currentId := spatialMaxId, m_cache := w.m_cache.clear,
                 m_currentCacheSize := 0 }⟩
    | (true, s2) =>
      ⟨.ok (), { w with m_storage := s2, m_currentId := spatialMaxId,
                        m_cache := w.m_cache.clear, m_currentCacheSize := 0 }⟩

/-- The function `HackathonWriter::ready`. -/
def HackathonWriter.ready (w : HackathonWriter) : Outcome Unit :=
  match w.readyCheckTables with
  | ⟨.error e, w1⟩ => ⟨.error e, w1⟩
  | ⟨.ok (hasSpatialTable, hasClassificationTable), w1⟩ =>
    match w1.readyOverwrite hasSpatialTable hasClassificationTable with
    | ⟨.error e, w2⟩ => ⟨.error e, w2⟩
    | ⟨.ok (hasSpatialTable, hasClassificationTable), w2⟩ =>
      match w2.readyCreateTables hasSpatialTable hasClassificationTable with
      | ⟨.error e, w3⟩ => ⟨.error e, w3⟩
      | ⟨.ok (), w3⟩ => w3.readyMaxId

/-- The function `HackathonWriter::flushCache`. -/
def HackathonWriter.flushCache (w : HackathonWriter) : Bool × HackathonWriter :=
  -- write cache to database
  match w.m_storage.writeCache w.m_cache with
  | (false, s1) => (false, { w with m_storage := s1 })
  | (true, s1) =>
    -- clear cache
    (true, { w with m_storage := s1, m_cache := w.m_cache.clear, m_currentCacheSize := 0 })

/-- The cache after `processOne` has appended the values of a point with the
id given. -/
def Cache.appendPoint (c : Cache) (id : Int) (point : PointRef) : Cache :=
  { id := c.id ++ [.longLong id]
    minX := c.minX ++ [.double point.X.minusHundredth]
    maxX := c.maxX ++ [.double point.X.plusHundredth]
    minY := c.minY ++ [.double point.Y.minusHundredth]
    maxY := c.maxY ++ [.double point.Y.plusHundredth]
    minZ := c.minZ ++ [.double point.Z.minusHundredth]
    maxZ := c.maxZ ++ [.double point.Z.plusHundredth]
    x := c.x ++ [.double point.X]
    y := c.y ++ [.double point.Y]
    z := c.z ++ [.double point.Z]
    classification := c.classification ++ [.int point.Classification]
    intensity := c.intensity ++ [.int point.Intensity]
    gpsTime := c.gpsTime ++ [.double point.GpsTime]
    pointId := c.pointId ++ [.longLong point.PointId]
    pointSourceId := c.pointSourceId ++ [.longLong point.PointSourceId] }

/-- The function `HackathonWriter::processOne`. -/
def HackathonWriter.processOne (w : HackathonWriter) (point : PointRef) : Outcome Bool :=
  -- add to cache
  if toInt32 (w.m_currentCacheSize + 1) = w.m_settings.cacheSize then
    -- flush cache
    match HackathonWriter.flushCache
        { w with m_currentId := toInt64 (w.m_currentId + 1)
                 m_cache := w.m_cache.appendPoint (toInt64 (w.m_currentId + 1)) point
                 m_currentCacheSize := toInt32 (w.m_currentCacheSize + 1) } with
    | (false, w1) => ⟨.error .unableToFlushPoints, w1⟩
    | (true, w1) => ⟨.ok true, w1⟩
  else
    ⟨.ok true,
      { w with m_currentId := toInt64 (w.m_currentId + 1)
               m_cache := w.m_cache.appendPoint (toInt64 (w.m_currentId + 1)) point
               m_currentCacheSize := toInt32 (w.m_currentCacheSize + 1) }⟩

/-- The function `HackathonWriter::done`. -/
def HackathonWriter.done (w : HackathonWriter) : Outcome Unit :=
  match w.flushCache with
  | (false, w1) => ⟨.error .unableToFlushPoints, w1⟩
  | (true, w1) => ⟨.ok (), w1⟩

/-- The function `HackathonWriter::write`: `processOne` for each point of the
view, in order. -/
def HackathonWriter.write (w : HackathonWriter) : List PointRef → Outcome Unit
  | [] => ⟨.ok (), w⟩
  | point :: rest =>
    match w.processOne point with
    | ⟨.error e, w1⟩ => ⟨.error e, w1⟩
    | ⟨.ok _, w1⟩ => w1.write rest

/-- The points passed to `processOne` one after the other, followed by
`done`. -/
def HackathonWriter.writeAndDone (w : HackathonWriter) (points : List PointRef) :
    Outcome Unit :=
  match w.write points with
  | ⟨.error e, w1⟩ => ⟨.error e, w1⟩
  | ⟨.ok (), w1⟩ => w1.done

/-! ## Predicates and samples for the plugin `hackathon` -/

/-- The call of the driver executes a `drop table` statement. -/
def isDrop : DriverCall → Bool
  | .exec (.dropTable _) => true
  | _ => false

/-- Between two states of the database no table was dropped and no existing
table was touched: the log grew by calls none of which executes a
`drop table`, and every table that existed still exists with its rows. -/
def Untouched (db db1 : Database) : Prop :=
  (∃ added, db1.log = db.log ++ added ∧ ∀ e ∈ added, isDrop e.1 = false) ∧
  ∀ name rows, db.lookup name = some rows → db1.lookup name = some rows

/-- The rows that `fillClassificationTable` inserts. -/
def classificationRows : List Row := classificationValues.transpose

/-- The common body of `writeCache` and `fillClassificationTable`, by the
outcomes of its driver calls: the begin of the transaction, the batch insert
of the bound lists, then the commit, or the rollback after a failed
insert. -/
def Storage.insertBatch (s : Storage) (st : Statement) (values : List (List QVariant)) :
    Bool × Storage :=
  if (s.m_db.transaction).1 then
    if ((s.m_db.transaction).2.execBatch st values).1 then
      Storage.commitTransaction ⟨s.m_connectionString,
        ((s.m_db.transaction).2.execBatch st values).2⟩
    else
      (false, ⟨s.m_connectionString,
        (((s.m_db.transaction).2.execBatch st values).2.rollback).2⟩)
  else (false, ⟨s.m_connectionString, (s.m_db.transaction).2⟩)

/-- Between two states of the database the table was dropped by a successful
`drop table` and created afterwards by a successful `create table`. -/
def DroppedAndRecreated (db db1 : Database) (name : String) : Prop :=
  ∃ before between after,
    db1.log = db.log ++ before ++ [(.exec (.dropTable name), true)] ++ between
      ++ [(.exec (.createTable name), true)] ++ after

/-! ## The batches that the writer hands to the storage -/

/-- The cache with no values. -/
def Cache.empty : Cache := ⟨[], [], [], [], [], [], [], [], [], [], [], [], [], [], []⟩

/-- The values of one cache followed by those of another, column by
column. -/
def Cache.append (c d : Cache) : Cache :=
  { id := c.id ++ d.id
    minX := c.minX ++ d.minX
    maxX := c.maxX ++ d.maxX
    minY := c.minY ++ d.minY
    maxY := c.maxY ++ d.maxY
    minZ := c.minZ ++ d.minZ
    maxZ := c.maxZ ++ d.maxZ
    x := c.x ++ d.x
    y := c.y ++ d.y
    z := c.z ++ d.z
    classification := c.classification ++ d.classification
    intensity := c.intensity ++ d.intensity
    gpsTime := c.gpsTime ++ d.gpsTime
    pointId := c.pointId ++ d.pointId
    pointSourceId := c.pointSourceId ++ d.pointSourceId }

/-- The cache whose lists were bound to the insert statement. -/
def Cache.ofValues : List (List QVariant) → Cache
  | [id, minX, maxX, minY, maxY, minZ, maxZ, x, y, z, classification, intensity, gpsTime,
      pointId, pointSourceId] =>
    ⟨id, minX, maxX, minY, maxY, minZ, maxZ, x, y, z, classification, intensity, gpsTime,
      pointId, pointSourceId⟩
  | _ => Cache.empty

/-- The cache of a call of the driver, when the call is the batch insert of
`writeCache`. -/
def batchOf : DriverCall × Bool → Option Cache
  | (.execBatch st values, _) =>
    if st = query.spatial.insertQuery then some (Cache.ofValues values) else none
  | _ => none

/-- The batches handed to `writeCache`, in call order: the caches whose lists
the batch inserts into the spatial table bound. -/
def batchesOf (log : List (DriverCall × Bool)) : List Cache :=
  log.filterMap batchOf

/-- The concatenation of the batches, in order. -/
def concatBatches (batches : List Cache) : Cache :=
  batches.foldl Cache.append Cache.empty

/-- The values of the points with the ids given, column by column: what a
cache holds that contains each point once, in order, the point at place `k`
with the id at place `k`. -/
def Cache.ofPoints (ids : List Int) (points : List PointRef) : Cache :=
  { id := ids.map .longLong
    minX := points.map (fun p => .double p.X.minusHundredth)
    maxX := points.map (fun p => .double p.X.plusHundredth)
    minY := points.map (fun p => .double p.Y.minusHundredth)
    maxY := points.map (fun p => .double p.Y.plusHundredth)
    minZ := points.map (fun p => .double p.Z.minusHundredth)
    maxZ := points.map (fun p => .double p.Z.plusHundredth)
    x := points.map (fun p => .double p.X)
    y := points.map (fun p => .double p.Y)
    z := points.map (fun p => .double p.Z)
    classification := points.map (fun p => .int p.Classification)
    intensity := points.map (fun p => .int p.Intensity)
    gpsTime := points.map (fun p => .double p.GpsTime)
    pointId := points.map (fun p => .longLong p.PointId)
    pointSourceId := points.map (fun p => .longLong p.PointSourceId) }

/-- The ids `first + 1`, `first + 2`, ... of `n` points. -/
def idsAfter (first : Int) (n : Nat) : List Int :=
  (List.range n).map (fun (k : Nat) => first + ((k : Int) + 1))

/-! ## Samples -/

/-- A point with the coordinates and the number given. -/
def samplePoint (n : Nat) : PointRef :=
  ⟨.ofBits n, .ofBits (n + 100), .ofBits (n + 200), 2, 50, .ofBits 7, n, 1⟩

/-- A row of the spatial table with the id given. -/
def sampleRow (id : Int) : Row :=
  ((Cache.empty.appendPoint id (samplePoint 0)).boundValues.transpose).headD []

/-- A database with a spatial table of two rows, the greater id 7, and a
classification table of one row; no transaction is open and the driver fails
the calls as listed. -/
def sampleDatabase (faults : List Bool) : Database :=
  { tables := [("point_tree", [sampleRow 7, sampleRow 3]),
      ("classification", [[.int 0, .string "kept"]])]
    isOpen := true
    savepoint := none
    faults := faults
    log := [] }

/-- A storage on the sample database. -/
def sampleStorage (faults : List Bool) : Storage := ⟨"points.sqlite", sampleDatabase faults⟩

/-- A cache with one point, of id 8. -/
def sampleCache : Cache := Cache.empty.appendPoint 8 (samplePoint 1)

/-- A writer on the sample database with the settings given and the members
as the constructor sets them. -/
def sampleWriter (overwrite : Bool) (cacheSize : Int) (faults : List Bool) : HackathonWriter :=
  { m_settings := ⟨"points.sqlite", overwrite, cacheSize⟩
    m_cache := Cache.empty
    m_currentCacheSize := 0
    m_storage := sampleStorage faults
    m_currentId := 0 }

end plugins.hackathon

namespace plugins.hackathontoo

open plugins.qt

/-! ## The plugin `hackathontoo`: cache and writer -/

/-- The struct `Cache` of `cache.h`: one list of values per column. -/
structure Cache where
  id : List QVariant
  minX : List QVariant
  maxX : List QVariant
  minY : List QVariant
  maxY : List QVariant
  minZ : List QVariant
  maxZ : List QVariant
  x : List QVariant
  y : List QVariant
  z : List QVariant
  classification : List QVariant
  intensity : List QVariant
  gpsTime : List QVariant
  pointSourceId : List QVariant
  colorArgb : List QVariant
  colorA : List QVariant
  colorR : List QVariant
  colorG : List QVariant
  colorB : List QVariant
deriving DecidableEq, Repr

/-- The function `Cache::clear` of `cache.cpp`: it clears each of the nineteen
lists. -/
def Cache.clear (c : Cache) : Cache :=
  { c with
    id := []
    minX := []
    maxX := []
    minY := []
    maxY := []
    minZ := []
    maxZ := []
    x := []
    y := []
    z := []
    classification := []
    intensity := []
    gpsTime := []
    pointSourceId := []
    colorArgb := []
    colorA := []
    colorR := []
    colorG := []
    colorB := [] }

/-- The values of a `QColor` that `processOne` reads. -/
structure QColor where
  name : String
  alpha : Int
  red : Int
  green : Int
  blue : Int
deriving DecidableEq, Repr

/-- Modelled from the spec: the class `Storage` of this plugin, of which
`storage.h` declares `writeCache` ("Writes cache to database", "True if
succesful, false on error") and whose bodies are missing: the caches handed
to `writeCache` so far, and for each coming call whether it succeeds. -/
structure Storage where
  written : List Cache
  answers : List Bool
deriving DecidableEq, Repr

/-- Modelled from the spec: the function `Storage::writeCache`, whose body is
missing: it takes the cache and answers true or false (true when no answer is
left). -/
def Storage.writeCache (s : Storage) (cache : Cache) : Bool × Storage :=
  (s.answers.headD true, { written := s.written ++ [cache], answers := s.answers.tail })

/-- The struct `Settings` of `settings.h`. -/
structure Settings where
  connectionString : String
  overwrite : Bool
  cacheSize : Int
  imagePath : String
deriving DecidableEq, Repr

/-- The defaults of `settings.h`: `overwrite = false`, `cacheSize = 10000`,
and the two strings empty. -/
def Settings.default : Settings := ⟨"", false, 10000, ""⟩

/-- The values of a point that `processOne` reads with `getFieldAs`. -/
structure PointRef where
  X : Double
  Y : Double
  Z : Double
  Classification : Int
  Intensity : Int
  GpsTime : Double
  PointSourceId : Int
deriving DecidableEq, Repr

/-- The members of `HackathonWriter` that `processOne`, `done` and
`flushCache` use. -/
structure HackathonWriter where
  m_settings : Settings
  m_cache : Cache
  m_currentCacheSize : Int
  m_storage : Storage
  m_currentId : Int
deriving DecidableEq, Repr

/-- The error that `throwError` raises in `processOne` and `done`. -/
inductive WriterError where
  | unableToFlushPoints
deriving DecidableEq, Repr

/-- The outcome of a member function: the value returned or the error thrown,
and the writer as the call leaves it. -/
structure Outcome (α : Type) where
  result : Except WriterError α
  writer : HackathonWriter

/-- The function `HackathonWriter::flushCache`. -/
def HackathonWriter.flushCache (w : HackathonWriter) : Bool × HackathonWriter :=
  -- write cache to database
  match w.m_storage.writeCache w.m_cache with
  | (false, s1) => (false, { w with m_storage := s1 })
  | (true, s1) =>
    -- clear cache
    (true, { w with m_storage := s1, m_cache := w.m_cache.clear, m_currentCacheSize := 0 })

/-- The cache after `processOne` has appended the values of a point with the
id and the colour given. -/
def Cache.appendPoint (c : Cache) (id : Int) (point : PointRef) (color : QColor) : Cache :=
  { id := c.id ++ [.longLong id]
    minX := c.minX ++ [.double point.X.minusHundredth]
    maxX := c.maxX ++ [.double point.X.plusHundredth]
    minY := c.minY ++ [.double point.Y.minusHundredth]
    maxY := c.maxY ++ [.double point.Y.plusHundredth]
    minZ := c.minZ ++ [.double point.Z.minusHundredth]
    maxZ := c.maxZ ++ [.double point.Z.plusHundredth]
    x := c.x ++ [.double point.X]
    y := c.y ++ [.double point.Y]
    z := c.z ++ [.double point.Z]
    classification := c.classification ++ [.int point.Classification]
    intensity := c.intensity ++ [.int point.Intensity]
    gpsTime := c.gpsTime ++ [.double point.GpsTime]
    pointSourceId := c.pointSourceId ++ [.longLong point.PointSourceId]
    colorArgb := c.colorArgb ++ [.string color.name]
    colorA := c.colorA ++ [.int color.alpha]
    colorR := c.colorR ++ [.int color.red]
    colorG := c.colorG ++ [.int color.green]
    colorB := c.colorB ++ [.int color.blue] }

/-- The function `HackathonWriter::processOne`; the colour that `findColor`
reads from the loaded images at the coordinates is a parameter. -/
def HackathonWriter.processOne (findColor : Double → Double → QColor) (w : HackathonWriter)
    (point : PointRef) : Outcome Bool :=
  -- add to cache
  if toInt32 (w.m_currentCacheSize + 1) = w.m_settings.cacheSize then
    -- flush cache
    match HackathonWriter.flushCache
        { w with m_currentId := toInt64 (w.m_currentId + 1)
                 m_cache := w.m_cache.appendPoint (toInt64 (w.m_currentId + 1)) point
                   (findColor point.X point.Y)
                 m_currentCacheSize := toInt32 (w.m_currentCacheSize + 1) } with
    | (false, w1) => ⟨.error .unableToFlushPoints, w1⟩
    | (true, w1) => ⟨.ok true, w1⟩
  else
    ⟨.ok true,
      { w with m_currentId := toInt64 (w.m_currentId + 1)
               m_cache := w.m_cache.appendPoint (toInt64 (w.m_currentId + 1)) point
                 (findColor point.X point.Y)
               m_currentCacheSize := toInt32 (w.m_currentCacheSize + 1) }⟩

/-- The function `HackathonWriter::done`. -/
def HackathonWriter.done (w : HackathonWriter) : Outcome Unit :=
  match w.flushCache with
  | (false, w1) => ⟨.error .unableToFlushPoints, w1⟩
  | (true, w1) => ⟨.ok (), w1⟩

/-- The function `HackathonWriter::write`: `processOne` for each point of the
view, in order. -/
def HackathonWriter.write (findColor : Double → Double → QColor) (w : HackathonWriter) :
    List PointRef → Outcome Unit
  | [] => ⟨.ok (), w⟩
  | point :: rest =>
    match w.processOne findColor point with
    | ⟨.error e, w1⟩ => ⟨.error e, w1⟩
    | ⟨.ok _, w1⟩ => HackathonWriter.write findColor w1 rest

/-- The points passed to `processOne` one after the other, followed by
`done`. -/
def HackathonWriter.writeAndDone (findColor : Double → Double → QColor) (w : HackathonWriter)
    (points : List PointRef) : Outcome Unit :=
  match w.write findColor points with
  | ⟨.error e, w1⟩ => ⟨.error e, w1⟩
  | ⟨.ok (), w1⟩ => w1.done

/-! ## The batches that the writer hands to the storage -/

/-- The cache with no values. -/
def Cache.empty : Cache :=
  ⟨[], [], [], [], [], [], [], [], [], [], [], [], [], [], [], [], [], [], []⟩

/-- The values of one cache followed by those of another, column by
column. -/
def Cache.append (c d : Cache) : Cache :=
  { id := c.id ++ d.id
    minX := c.minX ++ d.minX
    maxX := c.maxX ++ d.maxX
    minY := c.minY ++ d.minY
    maxY := c.maxY ++ d.maxY
    minZ := c.minZ ++ d.minZ
    maxZ := c.maxZ ++ d.maxZ
    x := c.x ++ d.x
    y := c.y ++ d.y
    z := c.z ++ d.z
    classification := c.classification ++ d.classification
    intensity := c.intensity ++ d.intensity
    gpsTime := c.gpsTime ++ d.gpsTime
    pointSourceId := c.pointSourceId ++ d.pointSourceId
    colorArgb := c.colorArgb ++ d.colorArgb
    colorA := c.colorA ++ d.colorA
    colorR := c.colorR ++ d.colorR
    colorG := c.colorG ++ d.colorG
    colorB := c.colorB ++ d.colorB }

/-- The concatenation of the batches, in order. -/
def concatBatches (batches : List Cache) : Cache :=
  batches.foldl Cache.append Cache.empty

/-- The values of the points with the ids given, column by column: what a
cache holds that contains each point once, in order, the point at place `k`
with the id at place `k`. -/
def Cache.ofPoints (findColor : Double → Double → QColor) (ids : List Int)
    (points : List PointRef) : Cache :=
  { id := ids.map .longLong
    minX := points.map (fun p => .double p.X.minusHundredth)
    maxX := points.map (fun p => .double p.X.plusHundredth)
    minY := points.map (fun p => .double p.Y.minusHundredth)
    maxY := points.map (fun p => .double p.Y.plusHundredth)
    minZ := points.map (fun p => .double p.Z.minusHundredth)
    maxZ := points.map (fun p => .double p.Z.plusHundredth)
    x := points.map (fun p => .double p.X)
    y := points.map (fun p => .double p.Y)
    z := points.map (fun p => .double p.Z)
    classification := points.map (fun p => .int p.Classification)
    intensity := points.map (fun p => .int p.Intensity)
    gpsTime := points.map (fun p => .double p.GpsTime)
    pointSourceId := points.map (fun p => .longLong p.PointSourceId)
    colorArgb := points.map (fun p => .string (findColor p.X p.Y).name)
    colorA := points.map (fun p => .int (findColor p.X p.Y).alpha)
    colorR := points.map (fun p => .int (findColor p.X p.Y).red)
    colorG := points.map (fun p => .int (findColor p.X p.Y).green)
    colorB := points.map (fun p => .int (findColor p.X p.Y).blue) }

/-! ## Samples -/

/-- A point with the coordinates given by a number. -/
def samplePoint (n : Nat) : PointRef :=
  ⟨.ofBits n, .ofBits (n + 100), .ofBits (n + 200), 2, 50, .ofBits 7, 1⟩

/-- A colour for every place. -/
def sampleColor (_x _y : Double) : QColor := ⟨"#102030", 255, 16, 32, 48⟩

/-- A writer with the cache size given, the cache empty, the id counter at
7, and a storage that accepts every cache. -/
def sampleWriter (cacheSize : Int) : HackathonWriter :=
  { m_settings := { Settings.default with cacheSize := cacheSize }
    m_cache := Cache.empty
    m_currentCacheSize := 0
    m_storage := ⟨[], []⟩
    m_currentId := 7 }

end plugins.hackathontoo

/-! # Theorems -/

namespace libpc.drivers.las

open LasM

/-! ## Unfolding lemmas -/

theorem bind_run {α β : Type} (m : LasM α) (k : α → LasM β) (r : LasHeaderReader) :
    (m >>= k) r = match (m r).result with
      | .ok a => k a (m r).reader
      | .error e => ⟨.error e, (m r).reader⟩ := rfl

theorem bind_ok {α β : Type} (m : LasM α) (k : α → LasM β) (r r1 : LasHeaderReader) (a : α)
    (h : m r = ⟨.ok a, r1⟩) : (m >>= k) r = k a r1 := by
  simp [bind_run, h]

theorem bind_error {α β : Type} (m : LasM α) (k : α → LasM β) (r r1 : LasHeaderReader)
    (e : LasError) (h : m r = ⟨.error e, r1⟩) : (m >>= k) r = ⟨.error e, r1⟩ := by
  simp [bind_run, h]

@[simp] theorem pure_run {α : Type} (a : α) (r : LasHeaderReader) :
    (pure a : LasM α) r = ⟨.ok a, r⟩ := rfl

@[simp] theorem raise_run {α : Type} (e : LasError) (r : LasHeaderReader) :
    (raise e : LasM α) r = ⟨.error e, r⟩ := rfl

@[simp] theorem setHeader_run (f : LasHeader → LasHeader) (r : LasHeaderReader) :
    setHeader f r = ⟨.ok (), { r with m_header := f r.m_header }⟩ := rfl

@[simp] theorem getHeader_run (r : LasHeaderReader) : getHeader r = ⟨.ok r.m_header, r⟩ := rfl

@[simp] theorem onStream_run (f : IStream → IStream) (r : LasHeaderReader) :
    onStream f r = ⟨.ok (), { r with m_istream := f r.m_istream }⟩ := rfl

@[simp] theorem askStream_run {α : Type} (f : IStream → α) (r : LasHeaderReader) :
    askStream f r = ⟨.ok (f r.m_istream), r⟩ := rfl

/-- A `read_n` of a field that lies within the file succeeds and advances
the stream by the size of the field. -/
theorem read_n_ok (h : LasHeader) (bs : List Byte) (p n : Nat) (hp : p + n ≤ bs.length) :
    Utils.read_n n ⟨h, ⟨bs, p, false, false⟩⟩
      = ⟨.ok (bytesAt bs p n), ⟨h, ⟨bs, p + n, false, false⟩⟩⟩ := by
  simp [Utils.read_n, IStream.read, IStream.good, IStream.eof, hp, bytesAt]

theorem readUInt_ok (h : LasHeader) (bs : List Byte) (p n : Nat) (hp : p + n ≤ bs.length) :
    readUInt n ⟨h, ⟨bs, p, false, false⟩⟩
      = ⟨.ok (fieldAt bs p n), ⟨h, ⟨bs, p + n, false, false⟩⟩⟩ := by
  simp [readUInt, bind_run, read_n_ok h bs p n hp, fieldAt]

@[simp] theorem seekg_good (bs : List Byte) (p : Nat) (q : Nat) :
    IStream.seekg ⟨bs, p, false, false⟩ (q : Int) = ⟨bs, q, false, false⟩ := by
  simp [IStream.seekg, IStream.fail]

@[simp] theorem seekg_failed (bs : List Byte) (p : Nat) (e : Bool) (q : Int) :
    IStream.seekg ⟨bs, p, e, true⟩ q = ⟨bs, p, false, true⟩ := by
  simp [IStream.seekg, IStream.fail]

theorem readFields1to13_eq (h0 : LasHeader) (bs : List Byte) (hlen : 94 ≤ bs.length) :
    readFields1to13 ⟨h0, ⟨bs, 0, false, false⟩⟩ =
      ⟨.ok (), ⟨{ h0 with
          fileSignature := bytesAt bs 0 4, fileSourceId := fieldAt bs 4 2,
          reserved := fieldAt bs 6 2, projectId := bytesAt bs 8 16,
          versionMajor := fieldAt bs 24 1, versionMinor := fieldAt bs 25 1,
          systemId := bytesAt bs 26 32, softwareId := bytesAt bs 58 32,
          creationDOY := fieldAt bs 90 2, creationYear := fieldAt bs 92 2 },
        ⟨bs, 94, false, false⟩⟩⟩ := by
  simp (disch := omega) [readFields1to13, bind_run, read_n_ok, readUInt_ok]

theorem readFields14to15_eq (h : LasHeader) (bs : List Byte) (hlen : 100 ≤ bs.length) :
    readFields14to15 ⟨h, ⟨bs, 94, false, false⟩⟩ =
      if fieldAt bs 96 4 < fieldAt bs 94 2 then
        ⟨.error (.invalidDataOffset (fieldAt bs 96 4) (fieldAt bs 94 2)),
          ⟨{ h with headerSize := fieldAt bs 94 2 }, ⟨bs, 100, false, false⟩⟩⟩
      else
        ⟨.ok (), ⟨{ h with headerSize := fieldAt bs 94 2, dataOffset := fieldAt bs 96 4 },
          ⟨bs, 100, false, false⟩⟩⟩ := by
  simp (disch := omega) [readFields14to15, bind_run, readUInt_ok]
  split <;> simp

theorem readFields16to17_eq (h : LasHeader) (bs : List Byte) (hlen : 105 ≤ bs.length) :
    readFields16to17 ⟨h, ⟨bs, 100, false, false⟩⟩ =
      let n1 := fieldAt bs 104 1
      let h1 := { h with recordsCount := fieldAt bs 100 4 }
      let s1 : IStream := ⟨bs, 105, false, false⟩
      if (n1 &&& 0x80) >>> 7 ≠ 0 ∧ (n1 &&& 0x40) >>> 6 ≠ 0 then
        ⟨.error .legacyExperimentalCompression, ⟨h1, s1⟩⟩
      else if (n1 &&& 0x40) >>> 6 ≠ 0 then
        ⟨.error .invalidCompressionFlag, ⟨h1, s1⟩⟩
      else if n1 &&& 0x3f ≤ 5 then
        ⟨.ok (), ⟨{ h1 with compressed := decide ((n1 &&& 0x80) >>> 7 ≠ 0),
                            dataFormatId := n1 &&& 0x3f, schemaFormat := n1 &&& 0x3f }, s1⟩⟩
      else
        ⟨.error .invalidPointFormat,
          ⟨{ h1 with compressed := decide ((n1 &&& 0x80) >>> 7 ≠ 0) }, s1⟩⟩ := by
  simp (disch := omega) only [readFields16to17, bind_run, readUInt_ok, setHeader_run]
  by_cases h7 : (fieldAt bs 104 1 &&& 0x80) >>> 7 = 0 <;>
  by_cases h6 : (fieldAt bs 104 1 &&& 0x40) >>> 6 = 0 <;>
  by_cases h5 : fieldAt bs 104 1 &&& 0x3f ≤ 5 <;>
  simp [h7, h6, h5, bind_run]

theorem readField18_eq (h : LasHeader) (bs : List Byte) (hlen : 107 ≤ bs.length) :
    readField18 ⟨h, ⟨bs, 105, false, false⟩⟩
      = ⟨.ok (fieldAt bs 105 2), ⟨h, ⟨bs, 107, false, false⟩⟩⟩ := by
  simp (disch := omega) [readField18, bind_run, readUInt_ok]

theorem readFields19to32_eq (h : LasHeader) (bs : List Byte) (hlen : 227 ≤ bs.length) :
    readFields19to32 ⟨h, ⟨bs, 107, false, false⟩⟩ =
      ⟨.ok (), ⟨{ h with
          pointRecordsCount := fieldAt bs 107 4,
          pointRecordsByReturn := fun j =>
            if j = 4 then fieldAt bs 127 4 else if j = 3 then fieldAt bs 123 4
            else if j = 2 then fieldAt bs 119 4 else if j = 1 then fieldAt bs 115 4
            else if j = 0 then fieldAt bs 111 4 else h.pointRecordsByReturn j,
          scale := (fieldAt bs 131 8, fieldAt bs 139 8, fieldAt bs 147 8),
          offset := (fieldAt bs 155 8, fieldAt bs 163 8, fieldAt bs 171 8),
          max := (fieldAt bs 179 8, fieldAt bs 195 8, fieldAt bs 211 8),
          min := (fieldAt bs 187 8, fieldAt bs 203 8, fieldAt bs 219 8) },
        ⟨bs, 227, false, false⟩⟩⟩ := by
  simp (disch := omega) [readFields19to32, readReturnCounts, bind_run, readUInt_ok]

theorem read_n_short (h : LasHeader) (bs : List Byte) (p n : Nat) (hp : bs.length < p + n) :
    Utils.read_n n ⟨h, ⟨bs, p, false, false⟩⟩
      = ⟨.error .endOfFile, ⟨h, ⟨bs, max p bs.length, true, true⟩⟩⟩ := by
  have : ¬ (p + n ≤ bs.length) := by omega
  simp [Utils.read_n, IStream.read, IStream.good, IStream.eof, this]

theorem readUInt_short (h : LasHeader) (bs : List Byte) (p n : Nat) (hp : bs.length < p + n) :
    readUInt n ⟨h, ⟨bs, p, false, false⟩⟩
      = ⟨.error .endOfFile, ⟨h, ⟨bs, max p bs.length, true, true⟩⟩⟩ := by
  simp [readUInt, bind_run, read_n_short h bs p n hp]

theorem HasLAS10PadSignature_eq (h : LasHeader) (bs : List Byte) (d : Nat) :
    HasLAS10PadSignature ⟨h, ⟨bs, d, false, false⟩⟩ =
      if d + 2 ≤ bs.length then
        ⟨.ok (isPadSignature (fieldAt bs d 1) (fieldAt bs (d + 1) 1)),
          ⟨h, ⟨bs, d, false, false⟩⟩⟩
      else ⟨.ok false, ⟨h, ⟨bs, max d bs.length, false, true⟩⟩⟩ := by
  by_cases h2 : d + 2 ≤ bs.length
  · simp (disch := omega) [HasLAS10PadSignature, bind_run, tryCatchWhen, readUInt_ok, h2,
      IStream.tellg, IStream.fail]
  · by_cases h1 : d + 1 ≤ bs.length
    · have e : max (d + 1) bs.length = max d bs.length := by omega
      simp (disch := omega) [HasLAS10PadSignature, bind_run, tryCatchWhen, readUInt_ok,
        readUInt_short, h2, IStream.tellg, IStream.fail, isStreamError, IStream.seekg, e]
      omega
    · simp (disch := omega) [HasLAS10PadSignature, bind_run, tryCatchWhen,
        readUInt_short, h2, IStream.tellg, IStream.fail, isStreamError, IStream.seekg]

theorem readAfterFixedHeader_eq (h : LasHeader) (bs : List Byte) (p : Nat) :
    readAfterFixedHeader ⟨h, ⟨bs, p, false, false⟩⟩ =
      ⟨.ok (), ⟨{ h with dataOffset :=
            if padSignatureAt bs h.dataOffset then toUInt32 ((h.dataOffset : Int) + 2)
            else h.dataOffset },
        streamAfterRead bs h.dataOffset⟩⟩ := by
  unfold streamAfterRead
  by_cases h2 : h.dataOffset + 2 ≤ bs.length
  · by_cases hp : isPadSignature (fieldAt bs h.dataOffset 1) (fieldAt bs (h.dataOffset + 1) 1) = true
    · have hs : IStream.seekg ⟨bs, h.dataOffset, false, false⟩ ((h.dataOffset : Int) + 2)
          = ⟨bs, h.dataOffset + 2, false, false⟩ := seekg_good bs h.dataOffset (h.dataOffset + 2)
      simp [readAfterFixedHeader, bind_run, HasLAS10PadSignature_eq, h2, hp, padSignatureAt,
        ReadVLRs, IStream.tellg, IStream.fail, IStream.eof, hs]
    · simp [readAfterFixedHeader, bind_run, HasLAS10PadSignature_eq, h2, hp, padSignatureAt,
        ReadVLRs, IStream.tellg, IStream.fail, IStream.eof]
  · simp [readAfterFixedHeader, bind_run, HasLAS10PadSignature_eq, h2, padSignatureAt,
      ReadVLRs, IStream.tellg, IStream.fail, IStream.eof, IStream.clear]

/-! ## Frame and error reasoning for arbitrary reader states -/

section KeepsRules

variable {α β γ : Type} {f : LasHeader → β} {E : LasError → Prop}

theorem keeps_bind {m : LasM α} {k : α → LasM γ} (hm : Keeps f E m) (hk : ∀ a, Keeps f E (k a)) :
    Keeps f E (m >>= k) := by
  intro r
  rw [bind_run]
  cases hres : (m r).result with
  | error e =>
    exact ⟨(hm r).1, fun e1 h1 => by cases h1; exact (hm r).2 e hres⟩
  | ok a =>
    exact ⟨((hk a _).1).trans (hm r).1, (hk a _).2⟩

theorem keeps_pure (a : α) : Keeps f E (Pure.pure a : LasM α) :=
  fun _ => ⟨rfl, fun _ h => by cases h⟩

theorem keeps_raise {e : LasError} (he : E e) : Keeps f E (LasM.raise e : LasM α) :=
  fun _ => ⟨rfl, fun _ h => by cases h; exact he⟩

theorem keeps_read_n (h1 : E .streamNotReadable) (h2 : E .endOfFile) (n : Nat) :
    Keeps f E (Utils.read_n n) := by
  intro r
  unfold Utils.read_n
  split
  · exact ⟨rfl, fun _ h => by cases h; exact h1⟩
  · split
    · exact ⟨rfl, fun _ h => by cases h; exact h2⟩
    · exact ⟨rfl, fun _ h => by cases h⟩

theorem keeps_readUInt (h1 : E .streamNotReadable) (h2 : E .endOfFile) (n : Nat) :
    Keeps f E (las.readUInt n) :=
  keeps_bind (keeps_read_n h1 h2 n) (fun _ => keeps_pure _)

theorem keeps_setHeader {g : LasHeader → LasHeader} (hg : ∀ h, f (g h) = f h) :
    Keeps f E (LasM.setHeader g) :=
  fun r => ⟨hg r.m_header, fun _ h => by cases h⟩

theorem keeps_getHeader : Keeps f E LasM.getHeader :=
  fun _ => ⟨rfl, fun _ h => by cases h⟩

theorem keeps_onStream (g : IStream → IStream) : Keeps f E (LasM.onStream g) :=
  fun _ => ⟨rfl, fun _ h => by cases h⟩

theorem keeps_askStream (g : IStream → α) : Keeps f E (LasM.askStream g) :=
  fun _ => ⟨rfl, fun _ h => by cases h⟩

theorem keeps_ite {c : Prop} [Decidable c] {a b : LasM α} (ha : Keeps f E a) (hb : Keeps f E b) :
    Keeps f E (if c then a else b) := by
  split
  · exact ha
  · exact hb

theorem keeps_tryCatchWhen {m handler : LasM α} {caught : LasError → Bool}
    (hm : Keeps f (fun e => caught e = false → E e) m) (hh : Keeps f E handler) :
    Keeps f E (LasM.tryCatchWhen m caught handler) := by
  intro r
  unfold LasM.tryCatchWhen
  cases hres : (m r).result with
  | ok a => exact ⟨(hm r).1, fun _ h => by cases h⟩
  | error e =>
    by_cases hc : caught e = true
    · simp only [hc, if_true]
      exact ⟨((hh _).1).trans (hm r).1, (hh _).2⟩
    · simp only [hc]
      refine ⟨(hm r).1, fun e1 h1 => ?_⟩
      cases h1
      exact (hm r).2 e hres (by simpa using hc)

end KeepsRules

section ConsumesRules

variable {α γ : Type}

theorem consumes_bind {m : LasM α} {k : α → LasM γ} {i j : Nat} (hm : Consumes i m)
    (hk : ∀ a, Consumes j (k a)) : Consumes (i + j) (m >>= k) := by
  intro h bs p c hp hc
  rw [bind_run] at hc ⊢
  cases hres : (m ⟨h, ⟨bs, p, false, false⟩⟩).result with
  | error e => rw [hres] at hc; cases hc
  | ok a =>
    rw [hres] at hc
    simp only at hc ⊢
    obtain ⟨h1, h2⟩ := hm h bs p a hp hres
    have e : (m ⟨h, ⟨bs, p, false, false⟩⟩).reader
        = ⟨(m ⟨h, ⟨bs, p, false, false⟩⟩).reader.m_header, ⟨bs, p + i, false, false⟩⟩ := by
      rw [← h2]
    rw [e] at hc ⊢
    obtain ⟨h3, h4⟩ := hk a _ bs (p + i) c h1 hc
    exact ⟨by omega, by rw [h4, Nat.add_assoc]⟩

theorem consumes_pure (a : α) : Consumes 0 (Pure.pure a : LasM α) :=
  fun _ _ _ _ hp _ => ⟨hp, rfl⟩

theorem consumes_raise (k : Nat) (e : LasError) : Consumes k (LasM.raise e : LasM α) :=
  fun _ _ _ _ _ h => by cases h

theorem consumes_read_n (n : Nat) : Consumes n (Utils.read_n n) := by
  intro h bs p a _ ha
  by_cases hn : p + n ≤ bs.length
  · rw [read_n_ok h bs p n hn]
    exact ⟨hn, rfl⟩
  · rw [read_n_short h bs p n (by omega)] at ha
    cases ha

theorem consumes_readUInt (n : Nat) : Consumes n (las.readUInt n) :=
  consumes_bind (consumes_read_n n) (fun _ => consumes_pure _)

theorem consumes_setHeader (g : LasHeader → LasHeader) : Consumes 0 (LasM.setHeader g) :=
  fun _ _ _ _ hp _ => ⟨hp, rfl⟩

theorem consumes_getHeader : Consumes 0 LasM.getHeader :=
  fun _ _ _ _ hp _ => ⟨hp, rfl⟩

theorem consumes_ite {c : Prop} [Decidable c] {a b : LasM α} {k : Nat} (ha : Consumes k a)
    (hb : Consumes k b) : Consumes k (if c then a else b) := by
  split
  · exact ha
  · exact hb

end ConsumesRules

theorem readFields1to13_consumes : Consumes 94 readFields1to13 := by
  have h : Consumes (4 + (0 + (2 + (0 + (2 + (0 + (16 + (0 + (1 + (0 + (1 + (0 + (32 + (0 +
      (32 + (0 + (2 + (0 + (2 + 0))))))))))))))))))) readFields1to13 := by
    unfold readFields1to13
    repeat (first
      | exact consumes_setHeader _
      | exact consumes_read_n _
      | exact consumes_readUInt _
      | apply consumes_bind
      | intro _)
  exact h

theorem readFields14to15_consumes : Consumes 6 readFields14to15 := by
  have h : Consumes (2 + (0 + (4 + (0 + 0)))) readFields14to15 := by
    unfold readFields14to15
    repeat (first
      | exact consumes_setHeader _
      | exact consumes_getHeader
      | exact consumes_raise _ _
      | exact consumes_read_n _
      | exact consumes_readUInt _
      | apply consumes_bind
      | apply consumes_ite
      | intro _)
  exact h

theorem readFields16to17_consumes : Consumes 5 readFields16to17 := by
  have h : Consumes (4 + (0 + (1 + (0 + 0)))) readFields16to17 := by
    unfold readFields16to17
    repeat (first
      | exact consumes_setHeader _
      | exact consumes_getHeader
      | exact consumes_raise _ _
      | exact consumes_read_n _
      | exact consumes_readUInt _
      | exact (consumes_bind (consumes_setHeader _) (fun _ => consumes_setHeader _) : Consumes (0 + 0) _)
      | apply consumes_bind
      | apply consumes_ite
      | intro _)
  exact h

theorem readReturnCounts_consumes (i k : Nat) : Consumes (4 * k) (readReturnCounts i k) := by
  induction k generalizing i with
  | zero => exact consumes_pure _
  | succ k ih =>
    have h : Consumes (4 + (0 + 4 * k)) (readReturnCounts i (k + 1)) := by
      unfold readReturnCounts
      exact consumes_bind (consumes_readUInt _)
        (fun _ => consumes_bind (consumes_setHeader _) (fun _ => ih _))
    have e : 4 * (k + 1) = 4 + (0 + 4 * k) := by omega
    rw [e]; exact h

theorem readField18_consumes : Consumes 2 readField18 :=
  consumes_bind (consumes_readUInt 2) (fun _ => consumes_pure _)

theorem readFields19to32_consumes : Consumes 120 readFields19to32 := by
  have h : Consumes (4 + (0 + (4 * 5 + (8 + (8 + (8 + (0 + (8 + (8 + (8 + (0 + (8 + (8 +
      (8 + (8 + (8 + (8 + (0 + 0)))))))))))))))))) readFields19to32 := by
    unfold readFields19to32
    repeat (first
      | exact consumes_setHeader _
      | exact readReturnCounts_consumes _ _
      | exact consumes_read_n _
      | exact consumes_readUInt _
      | apply consumes_bind
      | intro _)
  exact h

theorem keeps_weaken {α β γ : Type} {f : LasHeader → β} {E E1 : LasError → Prop} {m : LasM α}
    (g : β → γ) (hE : ∀ e, E e → E1 e) (hm : Keeps f E m) : Keeps (fun h => g (f h)) E1 m :=
  fun r => ⟨congrArg g (hm r).1, fun e he => hE e ((hm r).2 e he)⟩

theorem readFields16to17_keeps :
    Keeps (fun h => (h.headerSize, h.dataOffset)) LasError.notDataOffset readFields16to17 := by
  unfold readFields16to17
  repeat (first
    | exact keeps_setHeader (fun _ => rfl)
    | exact keeps_raise (fun _ _ h => by cases h)
    | exact keeps_readUInt (fun _ _ h => by cases h) (fun _ _ h => by cases h) _
    | apply keeps_bind
    | apply keeps_ite
    | intro _)

theorem keeps_readUInt_stream {β : Type} {f : LasHeader → β} (n : Nat) :
    Keeps f (fun e => isStreamError e = true) (las.readUInt n) :=
  keeps_bind (keeps_read_n (by rfl) (by rfl) n) (fun _ => keeps_pure _)

theorem readReturnCounts_keeps (i k : Nat) :
    Keeps (fun h => (h.headerSize, h.dataOffset, h.compressed, h.dataFormatId))
      (fun e => isStreamError e = true) (readReturnCounts i k) := by
  induction k generalizing i with
  | zero => exact keeps_pure _
  | succ k ih =>
    unfold readReturnCounts
    exact keeps_bind (keeps_readUInt_stream _)
      (fun _ => keeps_bind (keeps_setHeader (fun _ => rfl)) (fun _ => ih _))

theorem readField18_keeps :
    Keeps (fun h => (h.headerSize, h.dataOffset, h.compressed, h.dataFormatId))
      (fun e => isStreamError e = true) readField18 :=
  keeps_bind (keeps_readUInt_stream _) (fun _ => keeps_pure _)

theorem readFields19to32_keeps :
    Keeps (fun h => (h.headerSize, h.dataOffset, h.compressed, h.dataFormatId))
      (fun e => isStreamError e = true) readFields19to32 := by
  unfold readFields19to32
  repeat (first
    | exact keeps_setHeader (fun _ => rfl)
    | exact readReturnCounts_keeps _ _
    | exact keeps_readUInt_stream _
    | apply keeps_bind
    | intro _)

theorem HasLAS10PadSignature_keeps {β : Type} (f : LasHeader → β) :
    Keeps f (fun _ => False) HasLAS10PadSignature := by
  unfold HasLAS10PadSignature
  refine keeps_bind (keeps_askStream _) (fun cp => keeps_bind (keeps_tryCatchWhen ?_ ?_) ?_)
  · refine keeps_bind (keeps_readUInt ?_ ?_ _) (fun _ => keeps_bind (keeps_readUInt ?_ ?_ _)
      (fun _ => keeps_pure _)) <;> simp [isStreamError]
  · exact keeps_bind (keeps_onStream _) (fun _ => keeps_pure _)
  · intro pads
    cases pads with
    | none => exact keeps_pure _
    | some v => exact keeps_bind (keeps_onStream _) (fun _ => keeps_pure _)

theorem readAfterFixedHeader_keeps :
    Keeps (fun h => (h.headerSize, h.compressed, h.dataFormatId)) (fun _ => False)
      readAfterFixedHeader := by
  unfold readAfterFixedHeader ReadVLRs
  repeat (first
    | exact keeps_setHeader (fun _ => rfl)
    | exact keeps_getHeader
    | exact keeps_onStream _
    | exact keeps_askStream _
    | exact HasLAS10PadSignature_keeps _
    | apply keeps_bind
    | apply keeps_ite
    | exact keeps_pure PUnit.unit
    | intro _)

theorem bind_assoc_run {α β γ : Type} (m : LasM α) (k : α → LasM β) (g : β → LasM γ) :
    (m >>= k) >>= g = m >>= fun a => k a >>= g := by
  funext r
  simp only [bind_run]
  cases h : (m r).result <;> simp

theorem leValue_lt (l : List Byte) : leValue l < 256 ^ l.length := by
  induction l with
  | nil => simp [leValue]
  | cons b l ih =>
    have hb := b.isLt
    simp only [leValue, List.length_cons, pow_succ]
    omega

theorem bytesAt_length_le (bs : List Byte) (p n : Nat) : (bytesAt bs p n).length ≤ n := by
  simp [bytesAt]

theorem fieldAt_lt (bs : List Byte) (p n : Nat) : fieldAt bs p n < 256 ^ n :=
  lt_of_lt_of_le (leValue_lt _) (Nat.pow_le_pow_right (by norm_num) (bytesAt_length_le bs p n))

theorem fieldAt_one_lt (bs : List Byte) (p : Nat) : fieldAt bs p 1 < 256 := by
  simpa using fieldAt_lt bs p 1

/-- The bit operations of the format byte, in arithmetic terms. -/
theorem formatByte_bits : ∀ n : Fin 256,
    (((n.val &&& 0x80) >>> 7 = 0) ↔ n.val.testBit 7 = false) ∧
    (((n.val &&& 0x40) >>> 6 = 0) ↔ n.val.testBit 6 = false) ∧
    (n.val &&& 0x3f) = n.val % 64 := by
  decide

theorem formatByte_bit7 (bs : List Byte) (p : Nat) :
    ((fieldAt bs p 1 &&& 0x80) >>> 7 = 0) ↔ (fieldAt bs p 1).testBit 7 = false :=
  (formatByte_bits ⟨fieldAt bs p 1, fieldAt_one_lt bs p⟩).1

theorem formatByte_bit6 (bs : List Byte) (p : Nat) :
    ((fieldAt bs p 1 &&& 0x40) >>> 6 = 0) ↔ (fieldAt bs p 1).testBit 6 = false :=
  (formatByte_bits ⟨fieldAt bs p 1, fieldAt_one_lt bs p⟩).2.1

theorem formatByte_low6 (bs : List Byte) (p : Nat) :
    (fieldAt bs p 1 &&& 0x3f) = fieldAt bs p 1 % 64 :=
  (formatByte_bits ⟨fieldAt bs p 1, fieldAt_one_lt bs p⟩).2.2

/-- The fixed header up to the data offset, on a file of at least 100 bytes. -/
theorem readFixedHeader_run15 (h0 : LasHeader) (bs : List Byte) (p : Nat)
    (hlen : 100 ≤ bs.length) :
    readFixedHeader ⟨h0, ⟨bs, p, false, false⟩⟩ =
      if fieldAt bs 96 4 < fieldAt bs 94 2 then
        ⟨.error (.invalidDataOffset (fieldAt bs 96 4) (fieldAt bs 94 2)),
          ⟨{ h0.withFields1to13 bs with headerSize := fieldAt bs 94 2 },
            ⟨bs, 100, false, false⟩⟩⟩
      else
        (readFields16to17 >>= fun _ => readField18 >>= fun _ => readFields19to32)
          ⟨h0.withFields1to15 bs, ⟨bs, 100, false, false⟩⟩ := by
  have hs : IStream.seekg ⟨bs, p, false, false⟩ 0 = ⟨bs, 0, false, false⟩ := seekg_good bs p 0
  unfold readFixedHeader
  rw [bind_run]
  simp only [onStream_run, hs]
  rw [bind_run, readFields1to13_eq h0 bs (by omega)]
  simp only
  by_cases hd : fieldAt bs 96 4 < fieldAt bs 94 2
  · rw [bind_run, readFields14to15_eq _ bs hlen, if_pos hd, if_pos hd]
    rfl
  · rw [bind_run, readFields14to15_eq _ bs hlen, if_neg hd, if_neg hd]
    rfl

/-- The fixed header up to the format byte, on a file of at least 105 bytes
whose data offset is not below the header size. -/
theorem readFixedHeader_run17 (h0 : LasHeader) (bs : List Byte) (p : Nat)
    (hlen : 105 ≤ bs.length) (hoff : fieldAt bs 94 2 ≤ fieldAt bs 96 4) :
    readFixedHeader ⟨h0, ⟨bs, p, false, false⟩⟩ =
      if (fieldAt bs 104 1).testBit 7 = true ∧ (fieldAt bs 104 1).testBit 6 = true then
        ⟨.error .legacyExperimentalCompression,
          ⟨{ h0.withFields1to15 bs with recordsCount := fieldAt bs 100 4 },
            ⟨bs, 105, false, false⟩⟩⟩
      else if (fieldAt bs 104 1).testBit 6 = true then
        ⟨.error .invalidCompressionFlag,
          ⟨{ h0.withFields1to15 bs with recordsCount := fieldAt bs 100 4 },
            ⟨bs, 105, false, false⟩⟩⟩
      else if fieldAt bs 104 1 % 64 ≤ 5 then
        (readField18 >>= fun _ => readFields19to32)
          ⟨h0.withFields1to17 bs, ⟨bs, 105, false, false⟩⟩
      else
        ⟨.error .invalidPointFormat,
          ⟨{ h0.withFields1to15 bs with
              recordsCount := fieldAt bs 100 4
              compressed := (fieldAt bs 104 1).testBit 7 },
            ⟨bs, 105, false, false⟩⟩⟩ := by
  rw [readFixedHeader_run15 h0 bs p (by omega), if_neg (by omega), bind_run,
    readFields16to17_eq _ bs hlen]
  have e7 := formatByte_bit7 bs 104
  have e6 := formatByte_bit6 bs 104
  have e5 := formatByte_low6 bs 104
  simp only [ne_eq, e7, e6, e5, Bool.not_eq_false]
  by_cases h7 : (fieldAt bs 104 1).testBit 7 = true <;>
  by_cases h6 : (fieldAt bs 104 1).testBit 6 = true <;>
  by_cases h5 : fieldAt bs 104 1 % 64 ≤ 5 <;>
  simp [h7, h6, h5, LasHeader.withFields1to17]

/-- The whole fixed header, on a file that holds its 227 bytes and passes
the three checks. -/
theorem readFixedHeader_run32 (h0 : LasHeader) (bs : List Byte) (p : Nat)
    (hlen : 227 ≤ bs.length) (hoff : fieldAt bs 94 2 ≤ fieldAt bs 96 4)
    (h6 : (fieldAt bs 104 1).testBit 6 = false) (h5 : fieldAt bs 104 1 % 64 ≤ 5) :
    readFixedHeader ⟨h0, ⟨bs, p, false, false⟩⟩ =
      ⟨.ok (), ⟨h0.withFields1to32 bs, ⟨bs, 227, false, false⟩⟩⟩ := by
  rw [readFixedHeader_run17 h0 bs p (by omega) hoff, if_neg (by simp [h6]), if_neg (by simp [h6]),
    if_pos h5, bind_run, readField18_eq _ bs (by omega)]
  simp only
  rw [readFields19to32_eq _ bs hlen]
  simp only [LasHeader.withFields1to32, Outcome.mk.injEq, LasHeaderReader.mk.injEq, and_true,
    true_and]
  congr 1
  funext j
  by_cases h4 : j = 4
  · subst h4; simp
  by_cases h3 : j = 3
  · subst h3; simp
  by_cases h2 : j = 2
  · subst h2; simp
  by_cases h1 : j = 1
  · subst h1; simp
  by_cases h0' : j = 0
  · subst h0'; simp
  have : ¬ j < 5 := by omega
  simp [h4, h3, h2, h1, h0', this, LasHeader.withFields1to17, LasHeader.withFields1to15,
    LasHeader.withFields1to13]

theorem readFixedHeader_ok_length (h0 : LasHeader) (bs : List Byte) (p : Nat)
    (a : Unit) (hok : (readFixedHeader ⟨h0, ⟨bs, p, false, false⟩⟩).result = .ok a) :
    227 ≤ bs.length := by
  have hc : Consumes (94 + (6 + (5 + (2 + 120))))
      (readFields1to13 >>= fun _ => readFields14to15 >>= fun _ => readFields16to17 >>= fun _ =>
        readField18 >>= fun _ => readFields19to32) :=
    consumes_bind readFields1to13_consumes (fun _ => consumes_bind readFields14to15_consumes
      (fun _ => consumes_bind readFields16to17_consumes (fun _ =>
        consumes_bind readField18_consumes (fun _ => readFields19to32_consumes))))
  have := (hc h0 bs 0 a (Nat.zero_le _) (by
    simpa [readFixedHeader, bind_run, IStream.seekg, IStream.fail] using hok)).1
  omega

/-- The decoder state before `read`: header `h0`, stream just opened on `bs`. -/
theorem decode_run (h0 : LasHeader) (bs : List Byte) :
    decode h0 bs =
      match (readFixedHeader ⟨h0, ⟨bs, 0, false, false⟩⟩).result with
      | .ok _ => readAfterFixedHeader (readFixedHeader ⟨h0, ⟨bs, 0, false, false⟩⟩).reader
      | .error e => ⟨.error e, (readFixedHeader ⟨h0, ⟨bs, 0, false, false⟩⟩).reader⟩ := by
  unfold decode read IStream.ofBytes
  rw [bind_run]
  cases (readFixedHeader ⟨h0, ⟨bs, 0, false, false⟩⟩).result <;> rfl

theorem decode_of_fixed_error (h0 : LasHeader) (bs : List Byte) (e : LasError)
    (he : (readFixedHeader ⟨h0, ⟨bs, 0, false, false⟩⟩).result = .error e) :
    decode h0 bs = ⟨.error e, (readFixedHeader ⟨h0, ⟨bs, 0, false, false⟩⟩).reader⟩ := by
  rw [decode_run, he]

theorem decode_ok_fixed_ok (h0 : LasHeader) (bs : List Byte)
    (hok : (decode h0 bs).result = .ok ()) :
    (readFixedHeader ⟨h0, ⟨bs, 0, false, false⟩⟩).result = .ok () := by
  cases hres : (readFixedHeader ⟨h0, ⟨bs, 0, false, false⟩⟩).result with
  | ok a => rfl
  | error e => rw [decode_of_fixed_error h0 bs e hres] at hok; cases hok

/-- A successful decode has read a complete fixed header. -/
theorem decode_ok_length (h0 : LasHeader) (bs : List Byte)
    (hok : (decode h0 bs).result = .ok ()) : 227 ≤ bs.length :=
  readFixedHeader_ok_length h0 bs 0 () (decode_ok_fixed_ok h0 bs hok)

/-- The decode of a file that holds the fixed header and passes its checks. -/
theorem decode_eq_ok (h0 : LasHeader) (bs : List Byte)
    (hlen : 227 ≤ bs.length) (hoff : fieldAt bs 94 2 ≤ fieldAt bs 96 4)
    (h6 : (fieldAt bs 104 1).testBit 6 = false) (h5 : fieldAt bs 104 1 % 64 ≤ 5) :
    decode h0 bs =
      ⟨.ok (), ⟨{ h0.withFields1to32 bs with
          dataOffset :=
            if padSignatureAt bs (fieldAt bs 96 4) then toUInt32 ((fieldAt bs 96 4 : Int) + 2)
            else fieldAt bs 96 4 },
        streamAfterRead bs (fieldAt bs 96 4)⟩⟩ := by
  rw [decode_run, readFixedHeader_run32 h0 bs 0 hlen hoff h6 h5]
  simp only
  rw [readAfterFixedHeader_eq]
  rfl

/-- A decode succeeds exactly on the files that hold the 227 bytes of the
fixed header and pass its three checks. -/
theorem decode_ok_iff (h0 : LasHeader) (bs : List Byte) :
    (decode h0 bs).result = .ok () ↔
      227 ≤ bs.length ∧ fieldAt bs 94 2 ≤ fieldAt bs 96 4 ∧
        (fieldAt bs 104 1).testBit 6 = false ∧ fieldAt bs 104 1 % 64 ≤ 5 := by
  constructor
  · intro hok
    have hlen := decode_ok_length h0 bs hok
    have hfix := decode_ok_fixed_ok h0 bs hok
    have hoff : fieldAt bs 94 2 ≤ fieldAt bs 96 4 := by
      by_contra hcon
      rw [readFixedHeader_run15 h0 bs 0 (by omega), if_pos (by omega)] at hfix
      cases hfix
    refine ⟨hlen, hoff, ?_⟩
    rw [readFixedHeader_run17 h0 bs 0 (by omega) hoff] at hfix
    by_cases h6 : (fieldAt bs 104 1).testBit 6 = true
    · by_cases h7 : (fieldAt bs 104 1).testBit 7 = true
      · rw [if_pos ⟨h7, h6⟩] at hfix; cases hfix
      · rw [if_neg (by simp [h7]), if_pos h6] at hfix; cases hfix
    · by_cases h5 : fieldAt bs 104 1 % 64 ≤ 5
      · exact ⟨by simpa using h6, h5⟩
      · rw [if_neg (by simp [h6]), if_neg h6, if_neg h5] at hfix; cases hfix
  · rintro ⟨hlen, hoff, h6, h5⟩
    rw [decode_eq_ok h0 bs hlen hoff h6 h5]

theorem fixedTail18_keeps :
    Keeps (fun h => (h.headerSize, h.dataOffset, h.compressed, h.dataFormatId))
      (fun e => isStreamError e = true) (readField18 >>= fun _ => readFields19to32) :=
  keeps_bind readField18_keeps (fun _ => readFields19to32_keeps)

theorem fixedTail16_keeps :
    Keeps (fun h => (h.headerSize, h.dataOffset)) LasError.notDataOffset
      (readFields16to17 >>= fun _ => readField18 >>= fun _ => readFields19to32) :=
  keeps_bind readFields16to17_keeps (fun _ =>
    keeps_weaken (fun v => (v.1, v.2.1))
      (fun e he => by intro a b hab; subst hab; simp [isStreamError] at he) fixedTail18_keeps)

theorem readAfterFixedHeader_never_throws (r : LasHeaderReader) :
    (readAfterFixedHeader r).result = .ok () := by
  cases hres : (readAfterFixedHeader r).result with
  | ok a => rfl
  | error e => exact ((readAfterFixedHeader_keeps r).2 e hres).elim

theorem decode_error_fixed (h0 : LasHeader) (bs : List Byte) (e : LasError)
    (he : (decode h0 bs).result = .error e) :
    (readFixedHeader ⟨h0, ⟨bs, 0, false, false⟩⟩).result = .error e ∧
      decode h0 bs = ⟨.error e, (readFixedHeader ⟨h0, ⟨bs, 0, false, false⟩⟩).reader⟩ := by
  cases hres : (readFixedHeader ⟨h0, ⟨bs, 0, false, false⟩⟩).result with
  | ok a =>
    rw [decode_run, hres] at he
    simp only at he
    rw [readAfterFixedHeader_never_throws] at he
    cases he
  | error e1 =>
    have h1 := decode_of_fixed_error h0 bs e1 hres
    rw [h1] at he
    cases he
    exact ⟨rfl, h1⟩

theorem succeeded_iff {α : Type} (o : Outcome α) : o.succeeded = true ↔ ∃ a, o.result = .ok a := by
  unfold Outcome.succeeded
  cases o.result <;> simp

/-- On a file of at least 100 bytes whose data offset is not below the header
size, the fixed header stores both and raises no data-offset error. -/
theorem readFixedHeader_offsets (h0 : LasHeader) (bs : List Byte) (p : Nat)
    (hlen : 100 ≤ bs.length) (hoff : fieldAt bs 94 2 ≤ fieldAt bs 96 4) :
    (readFixedHeader ⟨h0, ⟨bs, p, false, false⟩⟩).reader.m_header.headerSize = fieldAt bs 94 2 ∧
    (readFixedHeader ⟨h0, ⟨bs, p, false, false⟩⟩).reader.m_header.dataOffset = fieldAt bs 96 4 ∧
    ∀ e, (readFixedHeader ⟨h0, ⟨bs, p, false, false⟩⟩).result = .error e → e.notDataOffset := by
  rw [readFixedHeader_run15 h0 bs p hlen, if_neg (by omega)]
  have hk := fixedTail16_keeps ⟨h0.withFields1to15 bs, ⟨bs, 100, false, false⟩⟩
  have h1 := hk.1
  simp only [Prod.mk.injEq] at h1
  exact ⟨h1.1, h1.2, hk.2⟩

/-- C1. On every file that holds the fields up to the 4-byte offset to point
data (at least 100 bytes), `read` fails with the invalid-data-offset error
if and only if that offset is strictly smaller than the 2-byte header size
declared at position 94, and the error then carries both numbers.  An offset
equal to (or above) the header size is accepted and stored as the header's
data offset: the decoded header holds the declared offset, raised by two
only when the decode succeeds and finds the pad signature there. -/
theorem read_invalidDataOffset_iff (h0 : LasHeader) (bs : List Byte) (hlen : 100 ≤ bs.length) :
    ((∃ a b, (decode h0 bs).result = .error (.invalidDataOffset a b)) ↔
        fieldAt bs 96 4 < fieldAt bs 94 2) ∧
    (fieldAt bs 96 4 < fieldAt bs 94 2 →
        (decode h0 bs).result =
          .error (.invalidDataOffset (fieldAt bs 96 4) (fieldAt bs 94 2))) ∧
    (fieldAt bs 94 2 ≤ fieldAt bs 96 4 →
        (decode h0 bs).reader.m_header.dataOffset =
          if (decode h0 bs).succeeded = true ∧ padSignatureAt bs (fieldAt bs 96 4) = true then
            toUInt32 ((fieldAt bs 96 4 : Int) + 2)
          else fieldAt bs 96 4) := by
  have hlt : fieldAt bs 96 4 < fieldAt bs 94 2 →
      (decode h0 bs).result =
        .error (.invalidDataOffset (fieldAt bs 96 4) (fieldAt bs 94 2)) := by
    intro hd
    have hf : (readFixedHeader ⟨h0, ⟨bs, 0, false, false⟩⟩).result
        = .error (.invalidDataOffset (fieldAt bs 96 4) (fieldAt bs 94 2)) := by
      rw [readFixedHeader_run15 h0 bs 0 hlen, if_pos hd]
    rw [decode_of_fixed_error h0 bs _ hf]
  refine ⟨⟨?_, fun hd => ⟨_, _, hlt hd⟩⟩, hlt, ?_⟩
  · rintro ⟨a, b, hab⟩
    by_contra hcon
    have hfix := (decode_error_fixed h0 bs _ hab).1
    exact (readFixedHeader_offsets h0 bs 0 hlen (by omega)).2.2 _ hfix a b rfl
  · intro hoff
    by_cases hok : (decode h0 bs).result = .ok ()
    · obtain ⟨h227, _, h6, h5⟩ := (decode_ok_iff h0 bs).1 hok
      have hs : (decode h0 bs).succeeded = true := (succeeded_iff _).2 ⟨(), hok⟩
      rw [hs]
      rw [decode_eq_ok h0 bs h227 hoff h6 h5]
      simp
    · cases hres : (decode h0 bs).result with
      | ok a => exact (hok hres).elim
      | error e =>
        have hs : ¬ ((decode h0 bs).succeeded = true) := by
          rw [succeeded_iff]; rintro ⟨a, ha⟩; rw [hres] at ha; cases ha
        rw [if_neg (fun h => hs h.1), (decode_error_fixed h0 bs e hres).2]
        exact (readFixedHeader_offsets h0 bs 0 hlen hoff).2.1

theorem decode_result_of_fixed (h0 : LasHeader) (bs : List Byte) :
    (decode h0 bs).result = (readFixedHeader ⟨h0, ⟨bs, 0, false, false⟩⟩).result := by
  cases hres : (readFixedHeader ⟨h0, ⟨bs, 0, false, false⟩⟩).result with
  | ok a =>
    rw [decode_run, hres]
    simp only
    rw [readAfterFixedHeader_never_throws]
  | error e => rw [decode_of_fixed_error h0 bs e hres]

theorem decode_header_of_fixed (h0 : LasHeader) (bs : List Byte) :
    (decode h0 bs).reader.m_header.headerSize
        = (readFixedHeader ⟨h0, ⟨bs, 0, false, false⟩⟩).reader.m_header.headerSize ∧
    (decode h0 bs).reader.m_header.compressed
        = (readFixedHeader ⟨h0, ⟨bs, 0, false, false⟩⟩).reader.m_header.compressed ∧
    (decode h0 bs).reader.m_header.dataFormatId
        = (readFixedHeader ⟨h0, ⟨bs, 0, false, false⟩⟩).reader.m_header.dataFormatId := by
  cases hres : (readFixedHeader ⟨h0, ⟨bs, 0, false, false⟩⟩).result with
  | ok a =>
    rw [decode_run, hres]
    simp only
    have hk := (readAfterFixedHeader_keeps (readFixedHeader ⟨h0, ⟨bs, 0, false, false⟩⟩).reader).1
    simp only [Prod.mk.injEq] at hk
    exact hk
  | error e =>
    rw [decode_of_fixed_error h0 bs e hres]
    exact ⟨rfl, rfl, rfl⟩

/-- The outcome of the fixed header at the format byte, on a file of at
least 105 bytes whose data offset is not below the header size. -/
theorem readFixedHeader_format (h0 : LasHeader) (bs : List Byte) (p : Nat)
    (hlen : 105 ≤ bs.length) (hoff : fieldAt bs 94 2 ≤ fieldAt bs 96 4) :
    ((fieldAt bs 104 1).testBit 7 = true → (fieldAt bs 104 1).testBit 6 = true →
      (readFixedHeader ⟨h0, ⟨bs, p, false, false⟩⟩).result
        = .error .legacyExperimentalCompression) ∧
    ((fieldAt bs 104 1).testBit 7 = false → (fieldAt bs 104 1).testBit 6 = true →
      (readFixedHeader ⟨h0, ⟨bs, p, false, false⟩⟩).result = .error .invalidCompressionFlag) ∧
    ((fieldAt bs 104 1).testBit 6 = false →
      (readFixedHeader ⟨h0, ⟨bs, p, false, false⟩⟩).reader.m_header.compressed
        = (fieldAt bs 104 1).testBit 7 ∧
      (5 < fieldAt bs 104 1 % 64 →
        (readFixedHeader ⟨h0, ⟨bs, p, false, false⟩⟩).result = .error .invalidPointFormat) ∧
      (fieldAt bs 104 1 % 64 ≤ 5 →
        (readFixedHeader ⟨h0, ⟨bs, p, false, false⟩⟩).reader.m_header.dataFormatId
          = fieldAt bs 104 1 % 64 ∧
        ∀ e, (readFixedHeader ⟨h0, ⟨bs, p, false, false⟩⟩).result = .error e →
          isStreamError e = true)) := by
  rw [readFixedHeader_run17 h0 bs p hlen hoff]
  refine ⟨fun h7 h6 => by rw [if_pos ⟨h7, h6⟩], fun h7 h6 => ?_, fun h6 => ?_⟩
  · rw [if_neg (by simp [h7]), if_pos h6]
  · rw [if_neg (by simp [h6]), if_neg (by simp [h6])]
    have hk := fixedTail18_keeps ⟨h0.withFields1to17 bs, ⟨bs, 105, false, false⟩⟩
    have h1 := hk.1
    simp only [Prod.mk.injEq] at h1
    refine ⟨?_, fun h5 => by rw [if_neg (by omega)], fun h5 => ?_⟩
    · by_cases h5 : fieldAt bs 104 1 % 64 ≤ 5
      · rw [if_pos h5]; exact h1.2.2.1
      · rw [if_neg h5]
    · rw [if_pos h5]
      exact ⟨h1.2.2.2, hk.2⟩

theorem formatByte_top : ∀ n : Fin 256, 0xC0 ≤ n.val →
    n.val.testBit 7 = true ∧ n.val.testBit 6 = true := by
  decide

/-- C2. The truth table of the two compression bits of the format byte `n`
(the byte at position 104), on every file that holds it and whose data
offset was accepted: bits (0,0) leave the header's compressed flag false,
bits (1,0) leave it true, and neither raises a compression error; bits (1,1)
fail with the legacy-experimental-compression error and bits (0,1) with the
invalid-compression-flag error.  In particular every byte from `0xC0` up
fails with the legacy error whatever its low six bits are. -/
theorem read_compression_truth_table (h0 : LasHeader) (bs : List Byte)
    (hlen : 105 ≤ bs.length) (hoff : fieldAt bs 94 2 ≤ fieldAt bs 96 4) :
    ((fieldAt bs 104 1).testBit 7 = false ∧ (fieldAt bs 104 1).testBit 6 = false →
      (decode h0 bs).reader.m_header.compressed = false ∧
      (decode h0 bs).result ≠ .error .legacyExperimentalCompression ∧
      (decode h0 bs).result ≠ .error .invalidCompressionFlag) ∧
    ((fieldAt bs 104 1).testBit 7 = true ∧ (fieldAt bs 104 1).testBit 6 = false →
      (decode h0 bs).reader.m_header.compressed = true ∧
      (decode h0 bs).result ≠ .error .legacyExperimentalCompression ∧
      (decode h0 bs).result ≠ .error .invalidCompressionFlag) ∧
    ((fieldAt bs 104 1).testBit 7 = true ∧ (fieldAt bs 104 1).testBit 6 = true →
      (decode h0 bs).result = .error .legacyExperimentalCompression) ∧
    ((fieldAt bs 104 1).testBit 7 = false ∧ (fieldAt bs 104 1).testBit 6 = true →
      (decode h0 bs).result = .error .invalidCompressionFlag) ∧
    (0xC0 ≤ fieldAt bs 104 1 →
      (decode h0 bs).result = .error .legacyExperimentalCompression) := by
  obtain ⟨hleg, hflag, hsel⟩ := readFixedHeader_format h0 bs 0 hlen hoff
  have hres := decode_result_of_fixed h0 bs
  have hhdr := (decode_header_of_fixed h0 bs).2.1
  have hno : (fieldAt bs 104 1).testBit 6 = false →
      (decode h0 bs).result ≠ .error .legacyExperimentalCompression ∧
      (decode h0 bs).result ≠ .error .invalidCompressionFlag := by
    intro h6
    obtain ⟨_, hbad, hgood⟩ := hsel h6
    rw [hres]
    by_cases h5 : fieldAt bs 104 1 % 64 ≤ 5
    · constructor <;> intro hc <;> have := (hgood h5).2 _ hc <;> simp [isStreamError] at this
    · rw [hbad (by omega)]
      constructor <;> intro hc <;> cases hc
  refine ⟨fun h => ⟨?_, hno h.2⟩, fun h => ⟨?_, hno h.2⟩, fun h => ?_, fun h => ?_, fun h => ?_⟩
  · rw [hhdr, (hsel h.2).1, h.1]
  · rw [hhdr, (hsel h.2).1, h.1]
  · rw [hres, hleg h.1 h.2]
  · rw [hres, hflag h.1 h.2]
  · obtain ⟨h7, h6⟩ := formatByte_top ⟨fieldAt bs 104 1, fieldAt_one_lt bs 104⟩ h
    rw [hres, hleg h7 h6]

/-- C3 (amended). When the two top bits of the format byte are a valid
compression selector, (0,0) or (1,0), `read` fails with the
invalid-point-format error for low six bits above 5, and for low six bits
in 0..5 it stores exactly those six bits as the header's point-format id and
raises no invalid-point-format error. -/
theorem read_point_format_after_selector (h0 : LasHeader) (bs : List Byte)
    (hlen : 105 ≤ bs.length) (hoff : fieldAt bs 94 2 ≤ fieldAt bs 96 4)
    (h6 : (fieldAt bs 104 1).testBit 6 = false) :
    (5 < fieldAt bs 104 1 % 64 → (decode h0 bs).result = .error .invalidPointFormat) ∧
    (fieldAt bs 104 1 % 64 ≤ 5 →
      (decode h0 bs).reader.m_header.dataFormatId = fieldAt bs 104 1 % 64 ∧
      (decode h0 bs).result ≠ .error .invalidPointFormat) := by
  obtain ⟨_, hbad, hgood⟩ := (readFixedHeader_format h0 bs 0 hlen hoff).2.2 h6
  have hres := decode_result_of_fixed h0 bs
  have hhdr := (decode_header_of_fixed h0 bs).2.2
  refine ⟨fun h5 => by rw [hres, hbad h5], fun h5 => ⟨by rw [hhdr, (hgood h5).1], ?_⟩⟩
  rw [hres]
  intro hc
  have := (hgood h5).2 _ hc
  simp [isStreamError] at this

theorem fieldAt_one_eq (bs : List Byte) (p : Nat) (b : Byte) (hb : bs[p]? = some b) :
    fieldAt bs p 1 = b.val := by
  have hp : p < bs.length := by
    by_contra hcon
    rw [List.getElem?_eq_none (by omega)] at hb
    cases hb
  have hget : bs[p] = b := by
    rw [List.getElem?_eq_getElem hp] at hb
    exact Option.some.inj hb
  unfold fieldAt bytesAt
  rw [List.drop_eq_getElem_cons hp, hget]
  simp [leValue]

theorem isPadSignature_iff (x y : Nat) :
    isPadSignature x y = true ↔ (x = 0xCC ∧ y = 0xDD) ∨ (x = 0xDD ∧ y = 0xCC) := by
  unfold isPadSignature
  simp only [Bool.or_eq_true, Bool.and_eq_true, beq_iff_eq]
  constructor
  · rintro (⟨h1, h2⟩ | ⟨h1, h2⟩)
    · exact Or.inr ⟨h2.symm, h1.symm⟩
    · exact Or.inl ⟨h1.symm, h2.symm⟩
  · rintro (⟨h1, h2⟩ | ⟨h1, h2⟩)
    · exact Or.inr ⟨h1.symm, h2.symm⟩
    · exact Or.inl ⟨h2.symm, h1.symm⟩

theorem padSignatureAt_of_bytes (bs : List Byte) (d : Nat) (b1 b2 : Byte)
    (h1 : bs[d]? = some b1) (h2 : bs[d + 1]? = some b2) :
    padSignatureAt bs d = isPadSignature b1.val b2.val := by
  have hp : d + 1 < bs.length := by
    by_contra hcon
    rw [List.getElem?_eq_none (by omega)] at h2
    cases h2
  unfold padSignatureAt
  rw [fieldAt_one_eq bs d b1 h1, fieldAt_one_eq bs (d + 1) b2 h2]
  simp
  intro h
  omega

theorem padSignatureAt_short (bs : List Byte) (d : Nat) (h : bs.length < d + 2) :
    padSignatureAt bs d = false := by
  unfold padSignatureAt
  simp
  intro h1
  omega

theorem toUInt32_add_two (d : Nat) (h : d + 2 < 2 ^ 32) : toUInt32 ((d : Int) + 2) = d + 2 := by
  unfold toUInt32
  omega

/-- C6. On every file that passes the fixed-header checks, with declared
data offset `d`, `read` succeeds; the header's data offset is `d + 2` when the
two bytes inspected by the pad check (those at the stream position `d`) are
`0xCC 0xDD` or `0xDD 0xCC`, and `d` when they are anything else; when fewer
than two bytes are available there, `HasLAS10PadSignature` answers `false`
and the offset stays `d`.  The sum `d + 2` is formed in unsigned 32-bit
arithmetic, so it is stated for `d + 2 < 2^32`. -/
theorem read_pad_adjusts_dataOffset (h0 : LasHeader) (bs : List Byte)
    (hlen : 227 ≤ bs.length) (hoff : fieldAt bs 94 2 ≤ fieldAt bs 96 4)
    (h6 : (fieldAt bs 104 1).testBit 6 = false) (h5 : fieldAt bs 104 1 % 64 ≤ 5) :
    (decode h0 bs).result = .ok () ∧
    (∀ b1 b2 : Byte, bs[fieldAt bs 96 4]? = some b1 → bs[fieldAt bs 96 4 + 1]? = some b2 →
      ((b1.val = 0xCC ∧ b2.val = 0xDD) ∨ (b1.val = 0xDD ∧ b2.val = 0xCC)) →
      fieldAt bs 96 4 + 2 < 2 ^ 32 →
      (decode h0 bs).reader.m_header.dataOffset = fieldAt bs 96 4 + 2) ∧
    (∀ b1 b2 : Byte, bs[fieldAt bs 96 4]? = some b1 → bs[fieldAt bs 96 4 + 1]? = some b2 →
      ¬ ((b1.val = 0xCC ∧ b2.val = 0xDD) ∨ (b1.val = 0xDD ∧ b2.val = 0xCC)) →
      (decode h0 bs).reader.m_header.dataOffset = fieldAt bs 96 4) ∧
    (bs.length < fieldAt bs 96 4 + 2 →
      (∀ h, (HasLAS10PadSignature ⟨h, ⟨bs, fieldAt bs 96 4, false, false⟩⟩).result
        = .ok false) ∧
      (decode h0 bs).reader.m_header.dataOffset = fieldAt bs 96 4) := by
  rw [decode_eq_ok h0 bs hlen hoff h6 h5]
  refine ⟨rfl, fun b1 b2 hb1 hb2 hsig hfit => ?_, fun b1 b2 hb1 hb2 hsig => ?_, fun hshort => ⟨?_, ?_⟩⟩
  · have hp : padSignatureAt bs (fieldAt bs 96 4) = true := by
      rw [padSignatureAt_of_bytes bs _ b1 b2 hb1 hb2]
      exact (isPadSignature_iff _ _).2 hsig
    simp only [hp, if_true]
    exact toUInt32_add_two _ hfit
  · have hp : padSignatureAt bs (fieldAt bs 96 4) = false := by
      rw [padSignatureAt_of_bytes bs _ b1 b2 hb1 hb2]
      cases hc : isPadSignature b1.val b2.val with
      | false => rfl
      | true => exact (hsig ((isPadSignature_iff _ _).1 hc)).elim
    simp [hp]
  · intro h
    rw [HasLAS10PadSignature_eq, if_neg (by omega)]
  · simp [padSignatureAt_short bs _ hshort]

theorem bytesAt_take (bs : List Byte) (m p n : Nat) (h : p + n ≤ m) :
    bytesAt (bs.take m) p n = bytesAt bs p n := by
  unfold bytesAt
  rw [List.drop_take, List.take_take]
  congr 1
  omega

theorem bytesAt_congr (a b : List Byte) (htake : a.take 227 = b.take 227) (p n : Nat)
    (h : p + n ≤ 227) : bytesAt a p n = bytesAt b p n := by
  rw [← bytesAt_take a 227 p n h, htake, bytesAt_take b 227 p n h]

theorem fieldAt_congr (a b : List Byte) (htake : a.take 227 = b.take 227) (p n : Nat)
    (h : p + n ≤ 227) : fieldAt a p n = fieldAt b p n := by
  unfold fieldAt
  rw [bytesAt_congr a b htake p n h]

theorem padSignatureAt_congr (a b : List Byte) (d : Nat) (h1 : a[d]? = b[d]?)
    (h2 : a[d + 1]? = b[d + 1]?) : padSignatureAt a d = padSignatureAt b d := by
  cases hx : a[d]? with
  | none =>
    have ha : a.length ≤ d := by
      by_contra hcon
      rw [List.getElem?_eq_getElem (by omega)] at hx
      cases hx
    have hb : b.length ≤ d := by
      rw [hx] at h1
      by_contra hcon
      rw [List.getElem?_eq_getElem (by omega)] at h1
      cases h1
    rw [padSignatureAt_short a d (by omega), padSignatureAt_short b d (by omega)]
  | some x =>
    cases hy : a[d + 1]? with
    | none =>
      have ha : a.length ≤ d + 1 := by
        by_contra hcon
        rw [List.getElem?_eq_getElem (by omega)] at hy
        cases hy
      have hb : b.length ≤ d + 1 := by
        rw [hy] at h2
        by_contra hcon
        rw [List.getElem?_eq_getElem (by omega)] at h2
        cases h2
      rw [padSignatureAt_short a d (by omega), padSignatureAt_short b d (by omega)]
    | some y =>
      rw [padSignatureAt_of_bytes a d x y hx hy,
        padSignatureAt_of_bytes b d x y (by rw [← h1, hx]) (by rw [← h2, hy])]

theorem withFields1to13_congr (h0 : LasHeader) (a b : List Byte)
    (htake : a.take 227 = b.take 227) : h0.withFields1to13 a = h0.withFields1to13 b := by
  unfold LasHeader.withFields1to13
  simp only [bytesAt_congr a b htake _ _ (show 0 + 4 ≤ 227 by omega),
    fieldAt_congr a b htake _ _ (show 4 + 2 ≤ 227 by omega),
    fieldAt_congr a b htake _ _ (show 6 + 2 ≤ 227 by omega),
    bytesAt_congr a b htake _ _ (show 8 + 16 ≤ 227 by omega),
    fieldAt_congr a b htake _ _ (show 24 + 1 ≤ 227 by omega),
    fieldAt_congr a b htake _ _ (show 25 + 1 ≤ 227 by omega),
    bytesAt_congr a b htake _ _ (show 26 + 32 ≤ 227 by omega),
    bytesAt_congr a b htake _ _ (show 58 + 32 ≤ 227 by omega),
    fieldAt_congr a b htake _ _ (show 90 + 2 ≤ 227 by omega),
    fieldAt_congr a b htake _ _ (show 92 + 2 ≤ 227 by omega)]

theorem withFields1to15_congr (h0 : LasHeader) (a b : List Byte)
    (htake : a.take 227 = b.take 227) : h0.withFields1to15 a = h0.withFields1to15 b := by
  unfold LasHeader.withFields1to15
  rw [withFields1to13_congr h0 a b htake,
    fieldAt_congr a b htake _ _ (show 94 + 2 ≤ 227 by omega),
    fieldAt_congr a b htake _ _ (show 96 + 4 ≤ 227 by omega)]

theorem withFields1to17_congr (h0 : LasHeader) (a b : List Byte)
    (htake : a.take 227 = b.take 227) : h0.withFields1to17 a = h0.withFields1to17 b := by
  unfold LasHeader.withFields1to17
  rw [withFields1to15_congr h0 a b htake,
    fieldAt_congr a b htake _ _ (show 100 + 4 ≤ 227 by omega),
    fieldAt_congr a b htake _ _ (show 104 + 1 ≤ 227 by omega)]

theorem withFields1to32_congr (h0 : LasHeader) (a b : List Byte)
    (htake : a.take 227 = b.take 227) : h0.withFields1to32 a = h0.withFields1to32 b := by
  unfold LasHeader.withFields1to32
  have hret : (fun j => if j < 5 then fieldAt a (111 + 4 * j) 4 else h0.pointRecordsByReturn j)
      = (fun j => if j < 5 then fieldAt b (111 + 4 * j) 4 else h0.pointRecordsByReturn j) := by
    funext j
    by_cases hj : j < 5
    · rw [if_pos hj, if_pos hj, fieldAt_congr a b htake _ _ (by omega)]
    · rw [if_neg hj, if_neg hj]
  rw [withFields1to17_congr h0 a b htake, hret,
    fieldAt_congr a b htake _ _ (show 107 + 4 ≤ 227 by omega),
    fieldAt_congr a b htake _ _ (show 131 + 8 ≤ 227 by omega),
    fieldAt_congr a b htake _ _ (show 139 + 8 ≤ 227 by omega),
    fieldAt_congr a b htake _ _ (show 147 + 8 ≤ 227 by omega),
    fieldAt_congr a b htake _ _ (show 155 + 8 ≤ 227 by omega),
    fieldAt_congr a b htake _ _ (show 163 + 8 ≤ 227 by omega),
    fieldAt_congr a b htake _ _ (show 171 + 8 ≤ 227 by omega),
    fieldAt_congr a b htake _ _ (show 179 + 8 ≤ 227 by omega),
    fieldAt_congr a b htake _ _ (show 187 + 8 ≤ 227 by omega),
    fieldAt_congr a b htake _ _ (show 195 + 8 ≤ 227 by omega),
    fieldAt_congr a b htake _ _ (show 203 + 8 ≤ 227 by omega),
    fieldAt_congr a b htake _ _ (show 211 + 8 ≤ 227 by omega),
    fieldAt_congr a b htake _ _ (show 219 + 8 ≤ 227 by omega)]

theorem eq_of_take_eq_of_short (a b : List Byte) (htake : a.take 227 = b.take 227)
    (ha : a.length < 227) : b = a := by
  have h1 : a.take 227 = a := List.take_of_length_le (by omega)
  have h2 : (b.take 227).length = a.length := by rw [← htake, h1]
  rw [List.length_take] at h2
  have h3 : b.take 227 = b := List.take_of_length_le (by omega)
  rw [← h3, ← htake, h1]

theorem decode_eq_offset_error (h0 : LasHeader) (bs : List Byte) (hlen : 100 ≤ bs.length)
    (hd : fieldAt bs 96 4 < fieldAt bs 94 2) :
    decode h0 bs =
      ⟨.error (.invalidDataOffset (fieldAt bs 96 4) (fieldAt bs 94 2)),
        ⟨{ h0.withFields1to13 bs with headerSize := fieldAt bs 94 2 },
          ⟨bs, 100, false, false⟩⟩⟩ := by
  have hf := readFixedHeader_run15 h0 bs 0 hlen
  rw [if_pos hd] at hf
  rw [decode_of_fixed_error h0 bs _ (by rw [hf]), hf]

theorem decode_eq_legacy (h0 : LasHeader) (bs : List Byte) (hlen : 105 ≤ bs.length)
    (hoff : fieldAt bs 94 2 ≤ fieldAt bs 96 4)
    (h7 : (fieldAt bs 104 1).testBit 7 = true) (h6 : (fieldAt bs 104 1).testBit 6 = true) :
    decode h0 bs =
      ⟨.error .legacyExperimentalCompression,
        ⟨{ h0.withFields1to15 bs with recordsCount := fieldAt bs 100 4 },
          ⟨bs, 105, false, false⟩⟩⟩ := by
  have hf := readFixedHeader_run17 h0 bs 0 hlen hoff
  rw [if_pos ⟨h7, h6⟩] at hf
  rw [decode_of_fixed_error h0 bs _ (by rw [hf]), hf]

theorem decode_eq_flag (h0 : LasHeader) (bs : List Byte) (hlen : 105 ≤ bs.length)
    (hoff : fieldAt bs 94 2 ≤ fieldAt bs 96 4)
    (h7 : (fieldAt bs 104 1).testBit 7 = false) (h6 : (fieldAt bs 104 1).testBit 6 = true) :
    decode h0 bs =
      ⟨.error .invalidCompressionFlag,
        ⟨{ h0.withFields1to15 bs with recordsCount := fieldAt bs 100 4 },
          ⟨bs, 105, false, false⟩⟩⟩ := by
  have hf := readFixedHeader_run17 h0 bs 0 hlen hoff
  rw [if_neg (by simp [h7]), if_pos h6] at hf
  rw [decode_of_fixed_error h0 bs _ (by rw [hf]), hf]

theorem decode_eq_format (h0 : LasHeader) (bs : List Byte) (hlen : 105 ≤ bs.length)
    (hoff : fieldAt bs 94 2 ≤ fieldAt bs 96 4)
    (h6 : (fieldAt bs 104 1).testBit 6 = false) (h5 : ¬ fieldAt bs 104 1 % 64 ≤ 5) :
    decode h0 bs =
      ⟨.error .invalidPointFormat,
        ⟨{ h0.withFields1to15 bs with
            recordsCount := fieldAt bs 100 4
            compressed := (fieldAt bs 104 1).testBit 7 },
          ⟨bs, 105, false, false⟩⟩⟩ := by
  have hf := readFixedHeader_run17 h0 bs 0 hlen hoff
  rw [if_neg (by simp [h6]), if_neg (by simp [h6]), if_neg h5] at hf
  rw [decode_of_fixed_error h0 bs _ (by rw [hf]), hf]

/-- C7 (amended). The two bytes inspected for the pad signature are the
bytes at file positions `d` and `d + 1`, where `d` is the declared data
offset: two files with the same fixed header (first 227 bytes) that agree
at positions `d` and `d + 1` decode to the same result and the same header,
whatever their other bytes are, those at `d - 2` and `d - 1` included. -/
theorem read_pad_bytes_at_dataOffset (h0 : LasHeader) (a b : List Byte)
    (htake : a.take 227 = b.take 227)
    (h1 : a[fieldAt a 96 4]? = b[fieldAt a 96 4]?)
    (h2 : a[fieldAt a 96 4 + 1]? = b[fieldAt a 96 4 + 1]?) :
    (decode h0 a).result = (decode h0 b).result ∧
    (decode h0 a).reader.m_header = (decode h0 b).reader.m_header := by
  by_cases ha : a.length < 227
  · rw [eq_of_take_eq_of_short a b htake ha]
    exact ⟨rfl, rfl⟩
  have hb : 227 ≤ b.length := by
    have h3 : (b.take 227).length = 227 := by
      rw [← htake, List.length_take]; omega
    rw [List.length_take] at h3
    omega
  have ha : 227 ≤ a.length := by omega
  have epad := padSignatureAt_congr a b _ h1 h2
  have e94 := fieldAt_congr a b htake 94 2 (by omega)
  have e96 := fieldAt_congr a b htake 96 4 (by omega)
  have e100 := fieldAt_congr a b htake 100 4 (by omega)
  have e104 := fieldAt_congr a b htake 104 1 (by omega)
  have e13 := withFields1to13_congr h0 a b htake
  have e15 := withFields1to15_congr h0 a b htake
  have e32 := withFields1to32_congr h0 a b htake
  rw [e96] at epad
  by_cases hoff : fieldAt a 94 2 ≤ fieldAt a 96 4
  · have hoffb : fieldAt b 94 2 ≤ fieldAt b 96 4 := by rw [← e94, ← e96]; exact hoff
    by_cases h6 : (fieldAt a 104 1).testBit 6 = false
    · have h6b : (fieldAt b 104 1).testBit 6 = false := by rw [← e104]; exact h6
      by_cases h5 : fieldAt a 104 1 % 64 ≤ 5
      · rw [decode_eq_ok h0 a ha hoff h6 h5,
          decode_eq_ok h0 b hb hoffb h6b (by rw [← e104]; exact h5)]
        simp only [e32, epad, e96, and_self]
      · rw [decode_eq_format h0 a (by omega) hoff h6 h5,
          decode_eq_format h0 b (by omega) hoffb h6b (by rw [← e104]; exact h5)]
        simp only [e15, e100, e104, and_self]
    · have h6t : (fieldAt a 104 1).testBit 6 = true := by simpa using h6
      have h6b : (fieldAt b 104 1).testBit 6 = true := by rw [← e104]; exact h6t
      by_cases h7 : (fieldAt a 104 1).testBit 7 = true
      · rw [decode_eq_legacy h0 a (by omega) hoff h7 h6t,
          decode_eq_legacy h0 b (by omega) hoffb (by rw [← e104]; exact h7) h6b]
        simp only [e15, e100, and_self]
      · have h7f : (fieldAt a 104 1).testBit 7 = false := by simpa using h7
        rw [decode_eq_flag h0 a (by omega) hoff h7f h6t,
          decode_eq_flag h0 b (by omega) hoffb (by rw [← e104]; exact h7f) h6b]
        simp only [e15, e100, and_self]
  · have hd : fieldAt a 96 4 < fieldAt a 94 2 := by omega
    rw [decode_eq_offset_error h0 a (by omega) hd,
      decode_eq_offset_error h0 b (by omega) (by rw [← e94, ← e96]; exact hd)]
    simp only [e13, e94, e96, and_self]

theorem readFields1to17_eq (h0 : LasHeader) (bs : List Byte) (p : Nat)
    (hlen : 105 ≤ bs.length) (hoff : fieldAt bs 94 2 ≤ fieldAt bs 96 4)
    (h6 : (fieldAt bs 104 1).testBit 6 = false) (h5 : fieldAt bs 104 1 % 64 ≤ 5) :
    readFields1to17 ⟨h0, ⟨bs, p, false, false⟩⟩ =
      ⟨.ok (), ⟨h0.withFields1to17 bs, ⟨bs, 105, false, false⟩⟩⟩ := by
  have hs : IStream.seekg ⟨bs, p, false, false⟩ 0 = ⟨bs, 0, false, false⟩ := seekg_good bs p 0
  unfold readFields1to17
  rw [bind_run]
  simp only [onStream_run, hs]
  rw [bind_run, readFields1to13_eq h0 bs (by omega)]
  simp only
  rw [bind_run, readFields14to15_eq _ bs (by omega), if_neg (by omega)]
  simp only
  rw [readFields16to17_eq _ bs hlen]
  have e7 := formatByte_bit7 bs 104
  have e6 := formatByte_bit6 bs 104
  have e5 := formatByte_low6 bs 104
  simp only [ne_eq, e7, e6, e5, Bool.not_eq_false]
  by_cases h7 : (fieldAt bs 104 1).testBit 7 = true <;>
  simp [h7, h6, h5, LasHeader.withFields1to17, LasHeader.withFields1to15,
    LasHeader.withFields1to13]

theorem bytesAt_length (bs : List Byte) (p n : Nat) (h : p + n ≤ bs.length) :
    (bytesAt bs p n).length = n := by
  unfold bytesAt
  rw [List.length_take, List.length_drop]
  omega

/-- C10. On every successful decode the file holds the 227 bytes of the fixed
section, `readFixedHeader` leaves the stream at position 227, and every
field is the little-endian value of the bytes at its position: signature
0-3, file source id 4, reserved 6, project id 8-23, version major and minor
24 and 25, system id 26-57, software id 58-89, creation day and year 90 and
92, header size 94, data offset 96 (raised by two when the pad signature
stands there), number of variable length records 100, format byte 104,
record length 105 (read into `n2`), point count 107, the five return counts
at `111 + 4 * i` stored at index `i` (no other index is written), scale 131,
offset 155 and extents 179. -/
theorem read_field_layout (h0 : LasHeader) (bs : List Byte) (hok : (decode h0 bs).result = .ok ()) :
    227 ≤ bs.length ∧
    (readFixedHeader ⟨h0, IStream.ofBytes bs⟩).reader.m_istream.pos = 227 ∧
    (decode h0 bs).reader.m_header.fileSignature = bytesAt bs 0 4 ∧
    (decode h0 bs).reader.m_header.fileSourceId = fieldAt bs 4 2 ∧
    (decode h0 bs).reader.m_header.reserved = fieldAt bs 6 2 ∧
    (decode h0 bs).reader.m_header.projectId = bytesAt bs 8 16 ∧
    (decode h0 bs).reader.m_header.versionMajor = fieldAt bs 24 1 ∧
    (decode h0 bs).reader.m_header.versionMinor = fieldAt bs 25 1 ∧
    (decode h0 bs).reader.m_header.systemId = bytesAt bs 26 32 ∧
    (decode h0 bs).reader.m_header.softwareId = bytesAt bs 58 32 ∧
    (decode h0 bs).reader.m_header.creationDOY = fieldAt bs 90 2 ∧
    (decode h0 bs).reader.m_header.creationYear = fieldAt bs 92 2 ∧
    (decode h0 bs).reader.m_header.headerSize = fieldAt bs 94 2 ∧
    (decode h0 bs).reader.m_header.dataOffset =
      (if padSignatureAt bs (fieldAt bs 96 4) then toUInt32 ((fieldAt bs 96 4 : Int) + 2)
       else fieldAt bs 96 4) ∧
    (decode h0 bs).reader.m_header.recordsCount = fieldAt bs 100 4 ∧
    (decode h0 bs).reader.m_header.compressed = (fieldAt bs 104 1).testBit 7 ∧
    (decode h0 bs).reader.m_header.dataFormatId = fieldAt bs 104 1 % 64 ∧
    (readField18 (readFields1to17 ⟨h0, IStream.ofBytes bs⟩).reader).result
      = .ok (fieldAt bs 105 2) ∧
    (decode h0 bs).reader.m_header.pointRecordsCount = fieldAt bs 107 4 ∧
    (∀ i, i < 5 →
      (decode h0 bs).reader.m_header.pointRecordsByReturn i = fieldAt bs (111 + 4 * i) 4) ∧
    (∀ i, 5 ≤ i →
      (decode h0 bs).reader.m_header.pointRecordsByReturn i = h0.pointRecordsByReturn i) ∧
    (decode h0 bs).reader.m_header.scale
      = (fieldAt bs 131 8, fieldAt bs 139 8, fieldAt bs 147 8) ∧
    (decode h0 bs).reader.m_header.offset
      = (fieldAt bs 155 8, fieldAt bs 163 8, fieldAt bs 171 8) ∧
    (decode h0 bs).reader.m_header.max
      = (fieldAt bs 179 8, fieldAt bs 195 8, fieldAt bs 211 8) ∧
    (decode h0 bs).reader.m_header.min
      = (fieldAt bs 187 8, fieldAt bs 203 8, fieldAt bs 219 8) := by
  obtain ⟨hlen, hoff, h6, h5⟩ := (decode_ok_iff h0 bs).1 hok
  rw [decode_eq_ok h0 bs hlen hoff h6 h5]
  unfold IStream.ofBytes
  rw [readFixedHeader_run32 h0 bs 0 hlen hoff h6 h5,
    readFields1to17_eq h0 bs 0 (by omega) hoff h6 h5, readField18_eq _ bs (by omega)]
  refine ⟨hlen, rfl, rfl, rfl, rfl, rfl, rfl, rfl, rfl, rfl, rfl, rfl, rfl, rfl, rfl, rfl, rfl,
    rfl, rfl, ?_, ?_, rfl, rfl, rfl, rfl⟩
  · intro i hi
    simp [LasHeader.withFields1to32, hi]
  · intro i hi
    have : ¬ i < 5 := by omega
    simp [LasHeader.withFields1to32, this, LasHeader.withFields1to17, LasHeader.withFields1to15,
      LasHeader.withFields1to13]

/-- The outcome of `Validate` on a stream that has not failed. -/
theorem validate_eq (h : LasHeader) (s : IStream) (hfail : s.failbit = false) :
    validate h s =
      if h.versionMinor < 3 ∧ h.compressed = false then
        if h.pointRecordsCount ≠
            toUInt32 (Int.tdiv ((s.bytes.length : Int) - h.dataOffset) h.dataRecordLength) then
          ⟨.error (.pointCountMismatch
              (Int.tdiv ((s.bytes.length : Int) - h.dataOffset) h.dataRecordLength)
              h.pointRecordsCount
              (Int.tmod ((s.bytes.length : Int) - h.dataOffset) h.dataRecordLength)),
            ⟨h, { s with pos := s.bytes.length, eofbit := false }⟩⟩
        else ⟨.ok (), ⟨h, { s with pos := s.bytes.length, eofbit := false }⟩⟩
      else ⟨.ok (), ⟨h, s⟩⟩ := by
  unfold validate Validate
  by_cases hc : h.versionMinor < 3 ∧ h.compressed = false
  · by_cases hm : h.pointRecordsCount ≠
        toUInt32 (Int.tdiv ((s.bytes.length : Int) - h.dataOffset) h.dataRecordLength)
    · simp [bind_run, hc, hm, IStream.seekg, IStream.seekgEnd, IStream.tellg, IStream.fail, hfail]
    · have hm1 := not_not.mp hm
      simp only [bind_run, hc, hm, IStream.seekg, IStream.seekgEnd, IStream.tellg, IStream.fail,
        hfail, getHeader_run, onStream_run, askStream_run, and_self, if_true, if_false,
        Bool.false_eq_true, sub_zero, lt_self_iff_false, Int.toNat_zero, Nat.cast_nonneg,
        ne_eq, not_true_eq_false, not_false_eq_true]
      simp [hm1]
  · simp [bind_run, hc]

/-- C5 (amended). For every header that is compressed, or whose minor
version number is 3 or more, `Validate` performs no check: it returns
normally and leaves header and stream untouched, whatever the file length,
data offset and declared point count are. -/
theorem Validate_skips_check (h : LasHeader) (s : IStream)
    (hskip : h.compressed = true ∨ 3 ≤ h.versionMinor) :
    validate h s = ⟨.ok (), ⟨h, s⟩⟩ := by
  unfold validate Validate
  have hc : ¬ (h.versionMinor < 3 ∧ h.compressed = false) := by
    rintro ⟨h1, h2⟩
    rcases hskip with h3 | h3
    · rw [h2] at h3; cases h3
    · omega
  simp [bind_run, hc]

/-- C4 (amended). For a header that is uncompressed, has minor version below
3 and a nonzero record length `L`, on a stream that has not failed,
`Validate` fails with the point-count-mismatch error if and only if the
declared point count differs from the 32-bit value of the quotient
`(fileLength - dataOffset) / L`, taken as a signed division truncating
toward zero; when the two are equal `Validate` returns normally.  That
32-bit value is the plain quotient whenever the data offset does not exceed
the file length and the quotient is below `2^32`. -/
theorem Validate_pointCountMismatch_iff (h : LasHeader) (s : IStream) (hfail : s.failbit = false)
    (hv : h.versionMinor < 3) (hc : h.compressed = false) (_hL : h.dataRecordLength ≠ 0) :
    ((∃ c d r, (validate h s).result = .error (.pointCountMismatch c d r)) ↔
      h.pointRecordsCount ≠
        toUInt32 (Int.tdiv ((s.bytes.length : Int) - h.dataOffset) h.dataRecordLength)) ∧
    (h.pointRecordsCount =
        toUInt32 (Int.tdiv ((s.bytes.length : Int) - h.dataOffset) h.dataRecordLength) →
      (validate h s).result = .ok ()) ∧
    (h.dataOffset ≤ s.bytes.length →
      (s.bytes.length - h.dataOffset) / h.dataRecordLength < 2 ^ 32 →
      toUInt32 (Int.tdiv ((s.bytes.length : Int) - h.dataOffset) h.dataRecordLength)
        = (s.bytes.length - h.dataOffset) / h.dataRecordLength) := by
  rw [validate_eq h s hfail, if_pos ⟨hv, hc⟩]
  refine ⟨⟨?_, ?_⟩, ?_, ?_⟩
  · rintro ⟨c, d, r, hres⟩
    by_contra hcon
    rw [if_neg (not_not.mpr hcon)] at hres
    cases hres
  · intro hne
    rw [if_pos hne]
    exact ⟨_, _, _, rfl⟩
  · intro heq
    rw [if_neg (by simpa using heq)]
  · intro hle hq
    have e1 : ((s.bytes.length : Int) - h.dataOffset) = ((s.bytes.length - h.dataOffset : Nat) : Int) := by
      omega
    rw [e1]
    have e2 : Int.tdiv ((s.bytes.length - h.dataOffset : Nat) : Int) (h.dataRecordLength : Int)
        = (((s.bytes.length - h.dataOffset) / h.dataRecordLength : Nat) : Int) := by
      rw [Int.tdiv_eq_ediv (by omega) (by omega)]
      norm_cast
    rw [e2]
    generalize (s.bytes.length - h.dataOffset) / h.dataRecordLength = q at hq
    unfold toUInt32
    omega


/-! ## End of file inside the fixed header -/

section ReadsOrEofRules

variable {α γ : Type}

theorem readsOrEof_bind {m : LasM α} {k : α → LasM γ} {i j : Nat} (hm : ReadsOrEof i m)
    (hk : ∀ a, ReadsOrEof j (k a)) : ReadsOrEof (i + j) (m >>= k) := by
  intro h bs p hp
  by_cases hi : p + i ≤ bs.length
  · obtain ⟨a, h1, e1⟩ := (hm h bs p hp).1 hi
    rw [bind_run, e1]
    simp only
    constructor
    · intro hij
      obtain ⟨c, h2, e2⟩ := (hk a h1 bs (p + i) hi).1 (by omega)
      exact ⟨c, h2, by rw [e2, Nat.add_assoc]⟩
    · intro hij
      exact (hk a h1 bs (p + i) hi).2 (by omega)
  · constructor
    · intro hij; omega
    · intro _
      have e1 := (hm h bs p hp).2 (by omega)
      rw [bind_run, e1]

theorem readsOrEof_pure (a : α) : ReadsOrEof 0 (Pure.pure a : LasM α) :=
  fun h _ _ _ => ⟨fun _ => ⟨a, h, rfl⟩, fun hlt => by omega⟩

theorem readsOrEof_read_n (n : Nat) : ReadsOrEof n (Utils.read_n n) :=
  fun h bs p _ => ⟨fun hn => ⟨_, h, read_n_ok h bs p n hn⟩,
    fun hn => by rw [read_n_short h bs p n hn]⟩

theorem readsOrEof_readUInt (n : Nat) : ReadsOrEof n (las.readUInt n) :=
  readsOrEof_bind (readsOrEof_read_n n) (fun _ => readsOrEof_pure _)

theorem readsOrEof_setHeader (g : LasHeader → LasHeader) : ReadsOrEof 0 (LasM.setHeader g) :=
  fun h _ _ _ => ⟨fun _ => ⟨(), g h, rfl⟩, fun hlt => by omega⟩

end ReadsOrEofRules

theorem readReturnCounts_readsOrEof (i k : Nat) :
    ReadsOrEof (4 * k) (readReturnCounts i k) := by
  induction k generalizing i with
  | zero => exact readsOrEof_pure _
  | succ k ih =>
    have h : ReadsOrEof (4 + (0 + 4 * k)) (readReturnCounts i (k + 1)) := by
      unfold readReturnCounts
      exact readsOrEof_bind (readsOrEof_readUInt _)
        (fun _ => readsOrEof_bind (readsOrEof_setHeader _) (fun _ => ih _))
    have e : 4 * (k + 1) = 4 + (0 + 4 * k) := by omega
    rw [e]; exact h

theorem readField18_readsOrEof : ReadsOrEof 2 readField18 :=
  readsOrEof_bind (readsOrEof_readUInt 2) (fun _ => readsOrEof_pure _)

theorem readFields19to32_readsOrEof : ReadsOrEof 120 readFields19to32 := by
  have h : ReadsOrEof (4 + (0 + (4 * 5 + (8 + (8 + (8 + (0 + (8 + (8 + (8 + (0 + (8 + (8 +
      (8 + (8 + (8 + (8 + (0 + 0)))))))))))))))))) readFields19to32 := by
    unfold readFields19to32
    repeat (first
      | exact readsOrEof_setHeader _
      | exact readReturnCounts_readsOrEof _ _
      | exact readsOrEof_readUInt _
      | apply readsOrEof_bind
      | intro _)
  exact h

/-- A file that passes the three checks but ends inside the fixed header
fails with the end-of-file error. -/
theorem decode_eq_eof (h0 : LasHeader) (bs : List Byte) (hlen : 105 ≤ bs.length)
    (hshort : bs.length < 227) (hoff : fieldAt bs 94 2 ≤ fieldAt bs 96 4)
    (h6 : (fieldAt bs 104 1).testBit 6 = false) (h5 : fieldAt bs 104 1 % 64 ≤ 5) :
    (decode h0 bs).result = .error .endOfFile := by
  rw [decode_result_of_fixed, readFixedHeader_run17 h0 bs 0 hlen hoff, if_neg (by simp [h6]),
    if_neg (by simp [h6]), if_pos h5]
  have hr : ReadsOrEof (2 + 120) (readField18 >>= fun _ => readFields19to32) :=
    readsOrEof_bind readField18_readsOrEof (fun _ => readFields19to32_readsOrEof)
  exact (hr _ bs 105 hlen).2 (by omega)

/-! ## Extents, record length, stream position and idempotence -/

/-- C11. After a successful `read` the header's maximum is built from the
first, third and fifth of the six 8-byte extents fields that start at
position 179, and its minimum from the second, fourth and sixth: the file
order is max X, min X, max Y, min Y, max Z, min Z. -/
theorem read_extents_max_then_min (h0 : LasHeader) (bs : List Byte) (hok : (decode h0 bs).result = .ok ()) :
    (decode h0 bs).reader.m_header.max
      = (fieldAt bs (179 + 8 * 0) 8, fieldAt bs (179 + 8 * 2) 8, fieldAt bs (179 + 8 * 4) 8) ∧
    (decode h0 bs).reader.m_header.min
      = (fieldAt bs (179 + 8 * 1) 8, fieldAt bs (179 + 8 * 3) 8, fieldAt bs (179 + 8 * 5) 8) := by
  obtain ⟨hlen, hoff, h6, h5⟩ := (decode_ok_iff h0 bs).1 hok
  rw [decode_eq_ok h0 bs hlen hoff h6 h5]
  exact ⟨rfl, rfl⟩

/-- A successful `read` leaves the header's record length as it found it. -/
theorem read_keeps_record_length (h0 : LasHeader) (bs : List Byte)
    (hok : (decode h0 bs).result = .ok ()) :
    (decode h0 bs).reader.m_header.dataRecordLength = h0.dataRecordLength := by
  obtain ⟨hlen, hoff, h6, h5⟩ := (decode_ok_iff h0 bs).1 hok
  rw [decode_eq_ok h0 bs hlen hoff h6 h5]
  rfl

/-- A read from a good stream returns the bytes at its position. -/
theorem read_fst_good (bs : List Byte) (p n : Nat) :
    (IStream.read ⟨bs, p, false, false⟩ n).1 = bytesAt bs p n := by
  unfold IStream.read
  by_cases hp : p + n ≤ bs.length <;> simp [IStream.good, hp, bytesAt]

/-- The header that a successful `read` produces is a fixed point of the
overwriting of the fields 1-32 from the same file. -/
theorem withFields1to32_idem (h0 : LasHeader) (bs : List Byte) (d : Nat) :
    ({ h0.withFields1to32 bs with dataOffset := d } : LasHeader).withFields1to32 bs
      = h0.withFields1to32 bs := by
  simp only [LasHeader.withFields1to32, LasHeader.withFields1to17, LasHeader.withFields1to15,
    LasHeader.withFields1to13]
  congr 1
  funext j
  by_cases hj : j < 5 <;> simp [hj]

/-! ## Independence of the point count -/

/-- Sub-lists over a range on which two files agree are equal. -/
theorem bytesAt_congr_range (a b : List Byte) (p n : Nat)
    (h : ∀ i, p ≤ i → i < p + n → a[i]? = b[i]?) : bytesAt a p n = bytesAt b p n := by
  unfold bytesAt
  apply List.ext_getElem?
  intro i
  rw [List.getElem?_take, List.getElem?_take]
  by_cases hi : i < n
  · rw [if_pos hi, if_pos hi, List.getElem?_drop, List.getElem?_drop]
    exact h (p + i) (by omega) (by omega)
  · rw [if_neg hi, if_neg hi]

/-- Two files that agree outside of the point-count field (positions 107 to
110) have the same fields elsewhere. -/
theorem fieldAt_congr_count (a b : List Byte)
    (hsame : ∀ i, i < 107 ∨ 111 ≤ i → a[i]? = b[i]?) (p n : Nat)
    (h : p + n ≤ 107 ∨ 111 ≤ p) : fieldAt a p n = fieldAt b p n := by
  unfold fieldAt
  rw [bytesAt_congr_range a b p n (fun i h1 h2 => hsame i (by omega))]

/-- The same for the raw bytes of a field. -/
theorem bytesAt_congr_count (a b : List Byte)
    (hsame : ∀ i, i < 107 ∨ 111 ≤ i → a[i]? = b[i]?) (p n : Nat)
    (h : p + n ≤ 107 ∨ 111 ≤ p) : bytesAt a p n = bytesAt b p n :=
  bytesAt_congr_range a b p n (fun i h1 h2 => hsame i (by omega))

/-- The fields 1-17 do not depend on the point-count bytes. -/
theorem withFields1to17_congr_count (h0 : LasHeader) (a b : List Byte)
    (hsame : ∀ i, i < 107 ∨ 111 ≤ i → a[i]? = b[i]?) :
    h0.withFields1to17 a = h0.withFields1to17 b := by
  have hb := bytesAt_congr_count a b hsame
  have hf := fieldAt_congr_count a b hsame
  unfold LasHeader.withFields1to17 LasHeader.withFields1to15 LasHeader.withFields1to13
  rw [hb 0 4 (by omega), hf 4 2 (by omega), hf 6 2 (by omega), hb 8 16 (by omega),
    hf 24 1 (by omega), hf 25 1 (by omega), hb 26 32 (by omega), hb 58 32 (by omega),
    hf 90 2 (by omega), hf 92 2 (by omega), hf 94 2 (by omega), hf 96 4 (by omega),
    hf 100 4 (by omega), hf 104 1 (by omega)]

/-- The fields 1-32 depend on the point-count bytes through the point count
only. -/
theorem withFields1to32_congr_count (h0 : LasHeader) (a b : List Byte)
    (hsame : ∀ i, i < 107 ∨ 111 ≤ i → a[i]? = b[i]?) :
    h0.withFields1to32 a
      = { h0.withFields1to32 b with pointRecordsCount := fieldAt a 107 4 } := by
  have hf := fieldAt_congr_count a b hsame
  unfold LasHeader.withFields1to32
  have hret : (fun j => if j < 5 then fieldAt a (111 + 4 * j) 4 else h0.pointRecordsByReturn j)
      = (fun j => if j < 5 then fieldAt b (111 + 4 * j) 4 else h0.pointRecordsByReturn j) := by
    funext j
    rw [hf _ 4 (by omega)]
  rw [withFields1to17_congr_count h0 a b hsame, hret,
    hf 131 8 (by omega), hf 139 8 (by omega), hf 147 8 (by omega), hf 155 8 (by omega),
    hf 163 8 (by omega), hf 171 8 (by omega), hf 179 8 (by omega), hf 187 8 (by omega),
    hf 195 8 (by omega), hf 203 8 (by omega), hf 211 8 (by omega), hf 219 8 (by omega)]

/-- Two files of the same length of at most 107 bytes that agree outside of
the point-count field are equal. -/
theorem eq_of_same_of_short (a b : List Byte) (hlen : a.length = b.length)
    (hsame : ∀ i, i < 107 ∨ 111 ≤ i → a[i]? = b[i]?) (hshort : a.length ≤ 107) : a = b := by
  apply List.ext_getElem?
  intro i
  by_cases hi : i < 107
  · exact hsame i (Or.inl hi)
  · rw [List.getElem?_eq_none (by omega), List.getElem?_eq_none (by omega)]

/-- Two files with the same first 107 bytes and the same bytes from position
111 on agree at every position outside of the point-count field. -/
theorem same_outside_count (a b : List Byte) (ht : a.take 107 = b.take 107)
    (hd : a.drop 111 = b.drop 111) : ∀ i, i < 107 ∨ 111 ≤ i → a[i]? = b[i]? := by
  intro i hi
  rcases hi with hi | hi
  · have e1 : (a.take 107)[i]? = a[i]? := by rw [List.getElem?_take, if_pos hi]
    have e2 : (b.take 107)[i]? = b[i]? := by rw [List.getElem?_take, if_pos hi]
    rw [← e1, ← e2, ht]
  · have e1 : (a.drop 111)[i - 111]? = a[i]? := by
      rw [List.getElem?_drop]; congr 1; omega
    have e2 : (b.drop 111)[i - 111]? = b[i]? := by
      rw [List.getElem?_drop]; congr 1; omega
    rw [← e1, ← e2, hd]

/-- With every header size stored as it is declared: for two files of the
same length that differ only in the 4-byte point-count field (positions 107
to 110), `read` gives the same result, the same error or success on both; on
success the headers hold the point count of their own file, and they are
equal in every other field when the declared data offset `d` keeps the two
bytes of the pad check clear of the point-count field (`d + 2 ≤ 107` or
`111 ≤ d`). -/
theorem decode_independent_of_point_count (h0 : LasHeader) (a b : List Byte)
    (hlen : a.length = b.length) (ht : a.take 107 = b.take 107)
    (hdrop : a.drop 111 = b.drop 111) :
    (decode h0 a).result = (decode h0 b).result ∧
    ((decode h0 a).result = .ok () →
      (fieldAt a 96 4 + 2 ≤ 107 ∨ 111 ≤ fieldAt a 96 4) →
      ({ (decode h0 a).reader.m_header with pointRecordsCount := 0 } : LasHeader)
        = { (decode h0 b).reader.m_header with pointRecordsCount := 0 }) ∧
    ((decode h0 a).result = .ok () →
      (decode h0 a).reader.m_header.pointRecordsCount = fieldAt a 107 4 ∧
      (decode h0 b).reader.m_header.pointRecordsCount = fieldAt b 107 4) := by
  have hsame := same_outside_count a b ht hdrop
  by_cases hshort : a.length ≤ 107
  · have e := eq_of_same_of_short a b hlen hsame hshort
    subst e
    refine ⟨rfl, fun _ _ => rfl, fun hok => ?_⟩
    have := decode_ok_length h0 a hok
    omega
  have hf := fieldAt_congr_count a b hsame
  have e94 := hf 94 2 (by omega)
  have e96 := hf 96 4 (by omega)
  have e104 := hf 104 1 (by omega)
  have hres : (decode h0 a).result = (decode h0 b).result := by
    by_cases hoff : fieldAt a 94 2 ≤ fieldAt a 96 4
    · have hoffb : fieldAt b 94 2 ≤ fieldAt b 96 4 := by rw [← e94, ← e96]; exact hoff
      by_cases h6 : (fieldAt a 104 1).testBit 6 = false
      · have h6b : (fieldAt b 104 1).testBit 6 = false := by rw [← e104]; exact h6
        by_cases h5 : fieldAt a 104 1 % 64 ≤ 5
        · have h5b : fieldAt b 104 1 % 64 ≤ 5 := by rw [← e104]; exact h5
          by_cases h227 : 227 ≤ a.length
          · rw [decode_eq_ok h0 a h227 hoff h6 h5,
              decode_eq_ok h0 b (by omega) hoffb h6b h5b]
          · rw [decode_eq_eof h0 a (by omega) (by omega) hoff h6 h5,
              decode_eq_eof h0 b (by omega) (by omega) hoffb h6b h5b]
        · rw [decode_eq_format h0 a (by omega) hoff h6 h5,
            decode_eq_format h0 b (by omega) hoffb h6b (by rw [← e104]; exact h5)]
      · have h6t : (fieldAt a 104 1).testBit 6 = true := by simpa using h6
        have h6b : (fieldAt b 104 1).testBit 6 = true := by rw [← e104]; exact h6t
        by_cases h7 : (fieldAt a 104 1).testBit 7 = true
        · rw [decode_eq_legacy h0 a (by omega) hoff h7 h6t,
            decode_eq_legacy h0 b (by omega) hoffb (by rw [← e104]; exact h7) h6b]
        · have h7f : (fieldAt a 104 1).testBit 7 = false := by simpa using h7
          rw [decode_eq_flag h0 a (by omega) hoff h7f h6t,
            decode_eq_flag h0 b (by omega) hoffb (by rw [← e104]; exact h7f) h6b]
    · have hd : fieldAt a 96 4 < fieldAt a 94 2 := by omega
      rw [decode_eq_offset_error h0 a (by omega) hd,
        decode_eq_offset_error h0 b (by omega) (by rw [← e94, ← e96]; exact hd)]
      simp only [e94, e96]
  refine ⟨hres, fun hok hd => ?_, fun hok => ?_⟩
  · obtain ⟨h227, hoff, h6, h5⟩ := (decode_ok_iff h0 a).1 hok
    obtain ⟨h227b, hoffb, h6b, h5b⟩ := (decode_ok_iff h0 b).1 (by rw [← hres]; exact hok)
    have epad : padSignatureAt a (fieldAt a 96 4) = padSignatureAt b (fieldAt a 96 4) :=
      padSignatureAt_congr a b _ (hsame _ (by omega)) (hsame _ (by omega))
    rw [decode_eq_ok h0 a h227 hoff h6 h5, decode_eq_ok h0 b h227b hoffb h6b h5b,
      withFields1to32_congr_count h0 a b hsame, epad, e96]
  · obtain ⟨h227, hoff, h6, h5⟩ := (decode_ok_iff h0 a).1 hok
    obtain ⟨h227b, hoffb, h6b, h5b⟩ := (decode_ok_iff h0 b).1 (by rw [← hres]; exact hok)
    rw [decode_eq_ok h0 a h227 hoff h6 h5, decode_eq_ok h0 b h227b hoffb h6b h5b]
    exact ⟨rfl, rfl⟩

/-! ## The claims on concrete files -/

/-- Witness for C1: the header-only file has its offset field, and the
statement applies to it. -/
theorem read_invalidDataOffset_iff_witness :
    100 ≤ fileHeaderOnly.length ∧
    (((∃ a b, (decode LasHeader.blank fileHeaderOnly).result
          = .error (.invalidDataOffset a b)) ↔
        fieldAt fileHeaderOnly 96 4 < fieldAt fileHeaderOnly 94 2) ∧
    (fieldAt fileHeaderOnly 96 4 < fieldAt fileHeaderOnly 94 2 →
        (decode LasHeader.blank fileHeaderOnly).result =
          .error (.invalidDataOffset (fieldAt fileHeaderOnly 96 4)
            (fieldAt fileHeaderOnly 94 2))) ∧
    (fieldAt fileHeaderOnly 94 2 ≤ fieldAt fileHeaderOnly 96 4 →
        (decode LasHeader.blank fileHeaderOnly).reader.m_header.dataOffset =
          if (decode LasHeader.blank fileHeaderOnly).succeeded = true ∧
              padSignatureAt fileHeaderOnly (fieldAt fileHeaderOnly 96 4) = true then
            toUInt32 ((fieldAt fileHeaderOnly 96 4 : Int) + 2)
          else fieldAt fileHeaderOnly 96 4)) :=
  ⟨by decide, read_invalidDataOffset_iff LasHeader.blank fileHeaderOnly (by decide)⟩

/-- Witness for C2: a compressed file (format byte `0x81`) ends with the
compressed flag set. -/
theorem read_compression_truth_table_witness :
    105 ≤ fileCompressed.length ∧
    fieldAt fileCompressed 94 2 ≤ fieldAt fileCompressed 96 4 ∧
    (fieldAt fileCompressed 104 1).testBit 7 = true ∧
    (fieldAt fileCompressed 104 1).testBit 6 = false ∧
    (decode LasHeader.blank fileCompressed).reader.m_header.compressed = true :=
  ⟨by decide, by decide, by decide, by decide,
    ((read_compression_truth_table LasHeader.blank fileCompressed (by decide)
      (by decide)).2.1 ⟨by decide, by decide⟩).1⟩

/-- Counterexample for C3 as stated: the format bytes `0xC6` and `0x46` have
low six bits 6, above 5, and `read` fails on them with the legacy error and
the invalid-compression-flag error, not with the invalid-point-format
error. -/
theorem read_point_format_selector_first :
    5 < 0xC6 % 64 ∧ 5 < 0x46 % 64 ∧
    (decode LasHeader.blank (fileWithFormat 0xC6)).result
      = .error .legacyExperimentalCompression ∧
    (decode LasHeader.blank (fileWithFormat 0xC6)).result ≠ .error .invalidPointFormat ∧
    (decode LasHeader.blank (fileWithFormat 0x46)).result = .error .invalidCompressionFlag ∧
    (decode LasHeader.blank (fileWithFormat 0x46)).result ≠ .error .invalidPointFormat := by
  have h1 : (decode LasHeader.blank (fileWithFormat 0xC6)).result
      = .error .legacyExperimentalCompression := rfl
  have h2 : (decode LasHeader.blank (fileWithFormat 0x46)).result
      = .error .invalidCompressionFlag := rfl
  refine ⟨by decide, by decide, h1, ?_, h2, ?_⟩
  · rw [h1]; intro h; cases h
  · rw [h2]; intro h; cases h

/-- Witness for C3 (amended): format byte 6 has a valid selector and low six
bits above 5, and fails with the invalid-point-format error. -/
theorem read_point_format_after_selector_witness :
    105 ≤ (fileWithFormat 6).length ∧
    fieldAt (fileWithFormat 6) 94 2 ≤ fieldAt (fileWithFormat 6) 96 4 ∧
    (fieldAt (fileWithFormat 6) 104 1).testBit 6 = false ∧
    5 < fieldAt (fileWithFormat 6) 104 1 % 64 ∧
    (decode LasHeader.blank (fileWithFormat 6)).result = .error .invalidPointFormat :=
  ⟨by decide, by decide, by decide, by decide,
    (read_point_format_after_selector LasHeader.blank (fileWithFormat 6) (by decide) (by decide)
      (by decide)).1 (by decide)⟩

/-- Witness for C4 (amended): a version 1.2 header declaring 5 points over 40
bytes of 20-byte records fails with the mismatch error. -/
theorem Validate_pointCountMismatch_iff_witness :
    (IStream.ofBytes (fileFivePoints 1 2)).failbit = false ∧
    headerFivePoints.versionMinor < 3 ∧ headerFivePoints.compressed = false ∧
    headerFivePoints.dataRecordLength ≠ 0 ∧
    ∃ c d r, (validate headerFivePoints (IStream.ofBytes (fileFivePoints 1 2))).result
      = .error (.pointCountMismatch c d r) :=
  ⟨rfl, by decide, rfl, by decide,
    (Validate_pointCountMismatch_iff headerFivePoints (IStream.ofBytes (fileFivePoints 1 2)) rfl
      (by decide) rfl (by decide)).1.2 (by decide)⟩

/-- Counterexample for C5 as stated: a header of version 2.0, which is newer
than 1.3, uncompressed, declaring 5 points over 40 bytes of 20-byte records;
`Validate` performs the check and fails with the mismatch error. -/
theorem Validate_checks_version_two :
    (decode headerRecordLength20 (fileFivePoints 2 0)).result = .ok () ∧
    (decode headerRecordLength20 (fileFivePoints 2 0)).reader.m_header.versionMajor = 2 ∧
    (decode headerRecordLength20 (fileFivePoints 2 0)).reader.m_header.versionMinor = 0 ∧
    (Validate (decode headerRecordLength20 (fileFivePoints 2 0)).reader).result
      = .error (.pointCountMismatch 2 5 0) :=
  ⟨rfl, rfl, rfl, rfl⟩

/-- Witness for C5 (amended): a version 1.3 header with a wrong point count
passes `Validate` untouched. -/
theorem Validate_skips_check_witness :
    (headerVersion13.compressed = true ∨ 3 ≤ headerVersion13.versionMinor) ∧
    headerVersion13.pointRecordsCount ≠ ((fileFivePoints 1 3).length - 227) / 20 ∧
    validate headerVersion13 (IStream.ofBytes (fileFivePoints 1 3))
      = ⟨.ok (), ⟨headerVersion13, IStream.ofBytes (fileFivePoints 1 3)⟩⟩ :=
  ⟨Or.inr (by decide), by decide,
    Validate_skips_check headerVersion13 (IStream.ofBytes (fileFivePoints 1 3))
      (Or.inr (by decide))⟩

/-- Witness for C6: the file with `0xCC 0xDD` at its declared offset 227
decodes to data offset 229. -/
theorem read_pad_adjusts_dataOffset_witness :
    227 ≤ filePadAtOffset.length ∧
    fieldAt filePadAtOffset 94 2 ≤ fieldAt filePadAtOffset 96 4 ∧
    (fieldAt filePadAtOffset 104 1).testBit 6 = false ∧
    fieldAt filePadAtOffset 104 1 % 64 ≤ 5 ∧
    (decode LasHeader.blank filePadAtOffset).reader.m_header.dataOffset
      = fieldAt filePadAtOffset 96 4 + 2 :=
  ⟨by decide, by decide, by decide, by decide,
    (read_pad_adjusts_dataOffset LasHeader.blank filePadAtOffset (by decide) (by decide)
      (by decide) (by decide)).2.1 0xCC 0xDD (by decide) (by decide)
      (Or.inl ⟨by decide, by decide⟩) (by decide)⟩

/-- Counterexample for C7 as stated.  Two files that differ only in the bytes
at positions `d = 227` and `d + 1` decode to different data offsets (229 with
the signature there, 227 without), so those bytes do influence the offset;
and a file with the signature at positions `d - 2 = 227` and `d - 1 = 228`
of its declared offset `d = 229` keeps the offset 229. -/
theorem read_pad_bytes_not_before_offset :
    filePadAtOffset.take 227 = fileNoPadAtOffset.take 227 ∧
    filePadAtOffset.drop 229 = fileNoPadAtOffset.drop 229 ∧
    fieldAt filePadAtOffset 96 4 = 227 ∧ fieldAt fileNoPadAtOffset 96 4 = 227 ∧
    (decode LasHeader.blank filePadAtOffset).reader.m_header.dataOffset = 229 ∧
    (decode LasHeader.blank fileNoPadAtOffset).reader.m_header.dataOffset = 227 ∧
    fieldAt filePadBeforeOffset 96 4 = 229 ∧
    filePadBeforeOffset[227]? = some 0xCC ∧ filePadBeforeOffset[228]? = some 0xDD ∧
    (decode LasHeader.blank filePadBeforeOffset).result = .ok () ∧
    (decode LasHeader.blank filePadBeforeOffset).reader.m_header.dataOffset = 229 := by
  refine ⟨by decide, by decide, by decide, by decide, rfl, rfl, by decide, by decide, by decide,
    rfl, rfl⟩

/-- Witness for C7 (amended): appending bytes after the two bytes at the
data offset changes neither the result nor the header. -/
theorem read_pad_bytes_at_dataOffset_witness :
    filePadAtOffset.take 227 = (filePadAtOffset ++ [7]).take 227 ∧
    filePadAtOffset[fieldAt filePadAtOffset 96 4]?
      = (filePadAtOffset ++ [7])[fieldAt filePadAtOffset 96 4]? ∧
    filePadAtOffset[fieldAt filePadAtOffset 96 4 + 1]?
      = (filePadAtOffset ++ [7])[fieldAt filePadAtOffset 96 4 + 1]? ∧
    (decode LasHeader.blank filePadAtOffset).result
      = (decode LasHeader.blank (filePadAtOffset ++ [7])).result ∧
    (decode LasHeader.blank filePadAtOffset).reader.m_header
      = (decode LasHeader.blank (filePadAtOffset ++ [7])).reader.m_header :=
  ⟨by decide, by decide, by decide,
    read_pad_bytes_at_dataOffset LasHeader.blank filePadAtOffset (filePadAtOffset ++ [7])
      (by decide) (by decide) (by decide)⟩

/-- C8. The code at the failing input: the file declares one variable length
record and data offset 281 but ends ten bytes after the fixed header, far
short of the 54-byte record header; `read` returns normally with record
count 1, because the compiled `ReadVLRs` reads nothing. -/
theorem read_ignores_short_vlr_data :
    fileShortVlr.length = 237 ∧
    fieldAt fileShortVlr 100 4 = 1 ∧
    (decode LasHeader.blank fileShortVlr).result = .ok () ∧
    (decode LasHeader.blank fileShortVlr).reader.m_header.recordsCount = 1 ∧
    (decode LasHeader.blank fileShortVlr).reader.m_header.dataOffset = 281 :=
  ⟨by decide, by decide, rfl, rfl, rfl⟩

/-- The header size field is compared with nothing but the data offset: on
every file that holds the fixed header, whose data offset is not below the
declared header size and whose format byte is valid, `read` returns normally
and the header size of the decoded header is the declared value, whether it
is 227 or not. -/
theorem read_keeps_declared_header_size (h0 : LasHeader) (bs : List Byte)
    (hlen : 227 ≤ bs.length) (hoff : fieldAt bs 94 2 ≤ fieldAt bs 96 4)
    (h6 : (fieldAt bs 104 1).testBit 6 = false) (h5 : fieldAt bs 104 1 % 64 ≤ 5) :
    (decode h0 bs).result = .ok () ∧
    (decode h0 bs).reader.m_header.headerSize = fieldAt bs 94 2 := by
  rw [decode_eq_ok h0 bs hlen hoff h6 h5]
  exact ⟨rfl, rfl⟩

/-- Witness for C10: the decode of the header-only file succeeds, so the
layout statement applies to it. -/
theorem read_field_layout_witness :
    (decode LasHeader.blank fileHeaderOnly).result = .ok () ∧
    227 ≤ fileHeaderOnly.length ∧
    (readFixedHeader ⟨LasHeader.blank, IStream.ofBytes fileHeaderOnly⟩).reader.m_istream.pos
      = 227 ∧
    (decode LasHeader.blank fileHeaderOnly).reader.m_header.fileSignature
      = bytesAt fileHeaderOnly 0 4 :=
  ⟨rfl, (read_field_layout LasHeader.blank fileHeaderOnly rfl).1,
    (read_field_layout LasHeader.blank fileHeaderOnly rfl).2.1,
    (read_field_layout LasHeader.blank fileHeaderOnly rfl).2.2.1⟩

/-- Witness for C11: the file whose extents hold 1 to 6 decodes, with maximum
(1, 3, 5) and minimum (2, 4, 6). -/
theorem read_extents_max_then_min_witness :
    (decode LasHeader.blank fileWithExtents).result = .ok () ∧
    (decode LasHeader.blank fileWithExtents).reader.m_header.max = (1, 3, 5) ∧
    (decode LasHeader.blank fileWithExtents).reader.m_header.min = (2, 4, 6) ∧
    ((decode LasHeader.blank fileWithExtents).reader.m_header.max
        = (fieldAt fileWithExtents (179 + 8 * 0) 8, fieldAt fileWithExtents (179 + 8 * 2) 8,
            fieldAt fileWithExtents (179 + 8 * 4) 8) ∧
      (decode LasHeader.blank fileWithExtents).reader.m_header.min
        = (fieldAt fileWithExtents (179 + 8 * 1) 8, fieldAt fileWithExtents (179 + 8 * 3) 8,
            fieldAt fileWithExtents (179 + 8 * 5) 8)) :=
  ⟨rfl, rfl, rfl, read_extents_max_then_min LasHeader.blank fileWithExtents rfl⟩

/-- C12. On a file of point format 0 whose record length field holds 34,
`read` succeeds and the header's record length is still what it was before
(20, or 0 for the blank header), not 34: the value read from the field is
dropped. -/
theorem read_drops_record_length :
    fieldAt fileRecordLength34 105 2 = 34 ∧
    (decode headerRecordLength20 fileRecordLength34).result = .ok () ∧
    (decode headerRecordLength20 fileRecordLength34).reader.m_header.dataFormatId = 0 ∧
    (decode headerRecordLength20 fileRecordLength34).reader.m_header.dataRecordLength = 20 ∧
    (decode LasHeader.blank fileRecordLength34).result = .ok () ∧
    (decode LasHeader.blank fileRecordLength34).reader.m_header.dataRecordLength = 0 :=
  ⟨by decide, rfl, rfl, rfl, rfl, rfl⟩


/-! ## The assertion of the compression-bit decode -/

/-- The branch taken for each of the 256 byte values, by its two top bits; the
asserted condition of the final branch is never false. -/
theorem compressionBranch_bits : ∀ n : Fin 256,
    (compressionBranch n.val = .uncompressed ↔
      ((n.val &&& 0x80) >>> 7 = 0 ∧ (n.val &&& 0x40) >>> 6 = 0)) ∧
    (compressionBranch n.val = .compressed ↔
      ((n.val &&& 0x80) >>> 7 ≠ 0 ∧ (n.val &&& 0x40) >>> 6 = 0)) ∧
    (compressionBranch n.val = .legacy ↔
      ((n.val &&& 0x80) >>> 7 ≠ 0 ∧ (n.val &&& 0x40) >>> 6 ≠ 0)) ∧
    (compressionBranch n.val = .invalid true ↔
      ((n.val &&& 0x80) >>> 7 = 0 ∧ (n.val &&& 0x40) >>> 6 ≠ 0)) ∧
    compressionBranch n.val ≠ .invalid false ∧
    (compressionBranch n.val = .invalid true ↔
      (n.val.testBit 7 = false ∧ n.val.testBit 6 = true)) := by
  decide

/-- C30. For every format byte the decode of the compression bits takes
exactly one of its four branches, the one whose condition the two bits
satisfy, and in the final branch the asserted condition
`!compression_bit_7 && compression_bit_6` is true; `read` throws the
invalid-compression-flag error of that branch exactly for the bytes that take
it. -/
theorem compression_assertion_never_fails (h0 : LasHeader) (bs : List Byte)
    (hlen : 105 ≤ bs.length) (hoff : fieldAt bs 94 2 ≤ fieldAt bs 96 4) :
    (∀ n : Fin 256,
      (compressionBranch n.val = .uncompressed ↔
        ((n.val &&& 0x80) >>> 7 = 0 ∧ (n.val &&& 0x40) >>> 6 = 0)) ∧
      (compressionBranch n.val = .compressed ↔
        ((n.val &&& 0x80) >>> 7 ≠ 0 ∧ (n.val &&& 0x40) >>> 6 = 0)) ∧
      (compressionBranch n.val = .legacy ↔
        ((n.val &&& 0x80) >>> 7 ≠ 0 ∧ (n.val &&& 0x40) >>> 6 ≠ 0)) ∧
      (compressionBranch n.val = .invalid true ↔
        ((n.val &&& 0x80) >>> 7 = 0 ∧ (n.val &&& 0x40) >>> 6 ≠ 0)) ∧
      compressionBranch n.val ≠ .invalid false) ∧
    ((decode h0 bs).result = .error .invalidCompressionFlag ↔
      compressionBranch (fieldAt bs 104 1) = .invalid true) := by
  refine ⟨fun n => ⟨(compressionBranch_bits n).1, (compressionBranch_bits n).2.1,
    (compressionBranch_bits n).2.2.1, (compressionBranch_bits n).2.2.2.1,
    (compressionBranch_bits n).2.2.2.2.1⟩, ?_⟩
  have hb := (compressionBranch_bits ⟨fieldAt bs 104 1, fieldAt_one_lt bs 104⟩).2.2.2.2.2
  simp only at hb
  rw [hb]
  constructor
  · intro h
    by_cases h6 : (fieldAt bs 104 1).testBit 6 = true
    · by_cases h7 : (fieldAt bs 104 1).testBit 7 = true
      · rw [decode_eq_legacy h0 bs hlen hoff h7 h6] at h
        cases h
      · exact ⟨by simpa using h7, h6⟩
    · have h6f : (fieldAt bs 104 1).testBit 6 = false := by simpa using h6
      by_cases h5 : fieldAt bs 104 1 % 64 ≤ 5
      · by_cases h227 : 227 ≤ bs.length
        · rw [decode_eq_ok h0 bs h227 hoff h6f h5] at h
          cases h
        · rw [decode_eq_eof h0 bs hlen (by omega) hoff h6f h5] at h
          cases h
      · rw [decode_eq_format h0 bs hlen hoff h6f h5] at h
        cases h
  · intro ⟨h7, h6⟩
    rw [decode_eq_flag h0 bs hlen hoff h7 h6]

/-- Witness for C30: the file with the format byte `0x46` holds the byte and
has an accepted data offset; the byte takes the final branch with the
asserted condition true, and `read` throws the error of that branch. -/
theorem compression_assertion_never_fails_witness :
    105 ≤ (fileWithFormat 0x46).length ∧
    fieldAt (fileWithFormat 0x46) 94 2 ≤ fieldAt (fileWithFormat 0x46) 96 4 ∧
    compressionBranch (fieldAt (fileWithFormat 0x46) 104 1) = .invalid true ∧
    (decode LasHeader.blank (fileWithFormat 0x46)).result = .error .invalidCompressionFlag :=
  ⟨by decide, by decide, by decide,
    ((compression_assertion_never_fails LasHeader.blank (fileWithFormat 0x46) (by decide)
      (by decide)).2).2 (by decide)⟩

/-! ## The stream after `read`, and a second `read` -/

/-- On a stream that has failed, `read` fails at its first field and changes
nothing but the end-of-file flag, which the first `seekg` clears. -/
theorem read_of_failed (h : LasHeader) (bs : List Byte) (p : Nat) (e : Bool) :
    read ⟨h, ⟨bs, p, e, true⟩⟩ = ⟨.error .streamNotReadable, ⟨h, ⟨bs, p, false, true⟩⟩⟩ := by
  simp [read, readFixedHeader, readFields1to13, bind_run, Utils.read_n, IStream.good]

/-- The function `read` on a good stream over a file that holds the fixed
header and passes its checks, whatever the position of the stream. -/
theorem read_eq_ok (h0 : LasHeader) (bs : List Byte) (p : Nat)
    (hlen : 227 ≤ bs.length) (hoff : fieldAt bs 94 2 ≤ fieldAt bs 96 4)
    (h6 : (fieldAt bs 104 1).testBit 6 = false) (h5 : fieldAt bs 104 1 % 64 ≤ 5) :
    read ⟨h0, ⟨bs, p, false, false⟩⟩ =
      ⟨.ok (), ⟨{ h0.withFields1to32 bs with
          dataOffset :=
            if padSignatureAt bs (fieldAt bs 96 4) then toUInt32 ((fieldAt bs 96 4 : Int) + 2)
            else fieldAt bs 96 4 },
        streamAfterRead bs (fieldAt bs 96 4)⟩⟩ := by
  unfold read
  rw [bind_run, readFixedHeader_run32 h0 bs p hlen hoff h6 h5]
  simp only
  rw [readAfterFixedHeader_eq]
  rfl

/-- A `read_n` on a stream that has failed. -/
theorem read_n_of_failed (h : LasHeader) (s : IStream) (hf : s.failbit = true) (n : Nat) :
    (Utils.read_n n ⟨h, s⟩).result = .error .streamNotReadable := by
  simp [Utils.read_n, IStream.good, hf]

/-- C15. After a successful `read` the stream has no end-of-file flag and is
a stream over the same file.  When the file holds two bytes at the declared
data offset, the stream is good and stands at the header's (pad-adjusted) data
offset, so that the next read returns the bytes of the file from that offset
on.  When the file ends before (a file with a header and no points), the pad
check has read off the end of the file: the header keeps the declared data
offset, but the stream is left with `failbit` set, `tellg` answers `-1`, and
every further `read_n` fails. -/
theorem read_leaves_stream_failed_after_short_pad_read (h0 : LasHeader) (bs : List Byte)
    (hok : (decode h0 bs).result = .ok ()) :
    (decode h0 bs).reader.m_istream.eof = false ∧
    (decode h0 bs).reader.m_istream.bytes = bs ∧
    (fieldAt bs 96 4 + 2 ≤ bs.length →
      (decode h0 bs).reader.m_istream.good = true ∧
      (decode h0 bs).reader.m_istream.pos = (decode h0 bs).reader.m_header.dataOffset ∧
      (decode h0 bs).reader.m_istream.tellg
        = ((decode h0 bs).reader.m_header.dataOffset : Int) ∧
      ((decode h0 bs).reader.m_istream.read 1).1
        = bytesAt bs (decode h0 bs).reader.m_header.dataOffset 1) ∧
    (bs.length < fieldAt bs 96 4 + 2 →
      (decode h0 bs).reader.m_header.dataOffset = fieldAt bs 96 4 ∧
      (decode h0 bs).reader.m_istream.fail = true ∧
      (decode h0 bs).reader.m_istream.good = false ∧
      (decode h0 bs).reader.m_istream.tellg = -1 ∧
      ∀ n, (Utils.read_n n (decode h0 bs).reader).result = .error .streamNotReadable) := by
  obtain ⟨hlen, hoff, h6, h5⟩ := (decode_ok_iff h0 bs).1 hok
  rw [decode_eq_ok h0 bs hlen hoff h6 h5]
  unfold streamAfterRead
  by_cases h2 : fieldAt bs 96 4 + 2 ≤ bs.length
  · rw [if_pos h2]
    exact ⟨rfl, rfl, fun _ => ⟨rfl, rfl, rfl, read_fst_good _ _ _⟩, fun h => by omega⟩
  · rw [if_neg h2]
    refine ⟨rfl, rfl, fun h => absurd h h2, fun _ => ⟨?_, rfl, rfl, rfl, fun n => ?_⟩⟩
    · have hp : padSignatureAt bs (fieldAt bs 96 4) = false :=
        padSignatureAt_short bs _ (by omega)
      simp only [hp, Bool.false_eq_true, if_false]
    · exact read_n_of_failed _ _ rfl n

/-- C14. After a successful `read`, a second `read` on the same stream and
header leaves the whole reader state, header and stream, as the first left
it.  The second `read` returns normally when the file holds two bytes at the
declared data offset; when it does not, the first `read` has left the stream
failed, and the second fails at its first field with the error of a stream
that is not readable, before it stores anything.  The decoded header depends
on the bytes only: `read` on any good stream over the same bytes, at any
position, and on any header that agrees in the two members that `read` never
stores, gives the same outcome with the same header and stream. -/
theorem read_idempotent_deterministic (h0 : LasHeader) (bs : List Byte)
    (hok : (decode h0 bs).result = .ok ()) :
    (read (decode h0 bs).reader).reader = (decode h0 bs).reader ∧
    (fieldAt bs 96 4 + 2 ≤ bs.length → (read (decode h0 bs).reader).result = .ok ()) ∧
    (bs.length < fieldAt bs 96 4 + 2 →
      (read (decode h0 bs).reader).result = .error .streamNotReadable) ∧
    (∀ (h1 : LasHeader) (p : Nat), h1.dataRecordLength = h0.dataRecordLength →
      (∀ i, 5 ≤ i → h1.pointRecordsByReturn i = h0.pointRecordsByReturn i) →
      (read ⟨h1, ⟨bs, p, false, false⟩⟩).result = .ok () ∧
      (read ⟨h1, ⟨bs, p, false, false⟩⟩).reader = (decode h0 bs).reader) := by
  obtain ⟨hlen, hoff, h6, h5⟩ := (decode_ok_iff h0 bs).1 hok
  rw [decode_eq_ok h0 bs hlen hoff h6 h5]
  have second : fieldAt bs 96 4 + 2 ≤ bs.length →
      read ⟨{ h0.withFields1to32 bs with
          dataOffset :=
            if padSignatureAt bs (fieldAt bs 96 4) then toUInt32 ((fieldAt bs 96 4 : Int) + 2)
            else fieldAt bs 96 4 }, streamAfterRead bs (fieldAt bs 96 4)⟩
        = ⟨.ok (), ⟨{ h0.withFields1to32 bs with
          dataOffset :=
            if padSignatureAt bs (fieldAt bs 96 4) then toUInt32 ((fieldAt bs 96 4 : Int) + 2)
            else fieldAt bs 96 4 }, streamAfterRead bs (fieldAt bs 96 4)⟩⟩ := by
    intro h2
    have e : streamAfterRead bs (fieldAt bs 96 4)
        = ⟨bs, if padSignatureAt bs (fieldAt bs 96 4) then
            toUInt32 ((fieldAt bs 96 4 : Int) + 2) else fieldAt bs 96 4, false, false⟩ := by
      unfold streamAfterRead
      rw [if_pos h2]
    rw [e, read_eq_ok _ bs _ hlen hoff h6 h5, withFields1to32_idem, e]
  have failed : bs.length < fieldAt bs 96 4 + 2 →
      read ⟨{ h0.withFields1to32 bs with
          dataOffset :=
            if padSignatureAt bs (fieldAt bs 96 4) then toUInt32 ((fieldAt bs 96 4 : Int) + 2)
            else fieldAt bs 96 4 }, streamAfterRead bs (fieldAt bs 96 4)⟩
        = ⟨.error .streamNotReadable, ⟨{ h0.withFields1to32 bs with
          dataOffset :=
            if padSignatureAt bs (fieldAt bs 96 4) then toUInt32 ((fieldAt bs 96 4 : Int) + 2)
            else fieldAt bs 96 4 }, streamAfterRead bs (fieldAt bs 96 4)⟩⟩ := by
    intro h2
    have e : streamAfterRead bs (fieldAt bs 96 4)
        = ⟨bs, max (fieldAt bs 96 4) bs.length, false, true⟩ := by
      unfold streamAfterRead
      rw [if_neg (by omega)]
    rw [e, read_of_failed]
  refine ⟨?_, fun h2 => by rw [second h2], fun h2 => by rw [failed h2], fun h1 p hrl hret => ?_⟩
  · by_cases h2 : fieldAt bs 96 4 + 2 ≤ bs.length
    · rw [second h2]
    · rw [failed (by omega)]
  · rw [read_eq_ok h1 bs p hlen hoff h6 h5]
    refine ⟨rfl, ?_⟩
    have e : h1.withFields1to32 bs = h0.withFields1to32 bs := by
      simp only [LasHeader.withFields1to32, LasHeader.withFields1to17,
        LasHeader.withFields1to15, LasHeader.withFields1to13, hrl]
      congr 1
      funext j
      by_cases hj : j < 5
      · simp [hj]
      · simp [hj, hret j (by omega)]
    simp only [e]


/-! ## `read` with the setter of the header size of the design document -/

/-- With the header size stored as it is declared, `readWith` is `read`. -/
theorem readWith_storeHeaderSize : readWith LasHeader.storeHeaderSize = read := rfl

/-- The function `readWith` is `read` when its setter does, on the state in
which it is called, what the plain store does. -/
theorem readWith_congr (S : Nat → LasM Unit) (r : LasHeaderReader)
    (h : ∀ a, (readFields1to13 ⟨r.m_header, r.m_istream.seekg 0⟩).result = .ok a →
      readFields14to15With S (readFields1to13 ⟨r.m_header, r.m_istream.seekg 0⟩).reader
        = readFields14to15 (readFields1to13 ⟨r.m_header, r.m_istream.seekg 0⟩).reader) :
    readWith S r = read r := by
  unfold readWith read readFixedHeaderWith readFixedHeader
  simp only [bind_run, onStream_run]
  cases hres : (readFields1to13 ⟨r.m_header, r.m_istream.seekg 0⟩).result with
  | error e => rfl
  | ok a =>
    simp only
    rw [h a hres]

/-- Fields 14 and 15 with the setter of the design document, on a file that
holds the header size field: a size other than 227 is rejected, and the size
227 is treated as the plain store treats it. -/
theorem readFields14to15With_eq (h : LasHeader) (bs : List Byte) :
    readFields14to15With LasHeader.SetHeaderSize ⟨h, ⟨bs, 94, false, false⟩⟩ =
      if 96 ≤ bs.length ∧ fieldAt bs 94 2 ≠ 227 then
        ⟨.error .malformedHeader, ⟨h, ⟨bs, 96, false, false⟩⟩⟩
      else readFields14to15 ⟨h, ⟨bs, 94, false, false⟩⟩ := by
  by_cases h96 : 96 ≤ bs.length
  · by_cases h227 : fieldAt bs 94 2 = 227
    · rw [if_neg (by simp [h227])]
      simp (disch := omega) [readFields14to15With, readFields14to15, LasHeader.SetHeaderSize,
        bind_run, readUInt_ok, h227]
    · rw [if_pos ⟨h96, h227⟩]
      simp (disch := omega) [readFields14to15With, LasHeader.SetHeaderSize, bind_run,
        readUInt_ok, h227]
  · rw [if_neg (by omega)]
    simp (disch := omega) [readFields14to15With, readFields14to15, bind_run, readUInt_short]

/-- The decode with the setter of the design document: a file that holds the
header size field with a size other than 227 is rejected when that field is
read; on every other file the decode is the decode with the plain store. -/
theorem decodeWith_eq (h0 : LasHeader) (bs : List Byte) :
    decodeWith LasHeader.SetHeaderSize h0 bs =
      if 96 ≤ bs.length ∧ fieldAt bs 94 2 ≠ 227 then
        ⟨.error .malformedHeader, ⟨h0.withFields1to13 bs, ⟨bs, 96, false, false⟩⟩⟩
      else decode h0 bs := by
  have hs : IStream.seekg ⟨bs, 0, false, false⟩ 0 = ⟨bs, 0, false, false⟩ := seekg_good bs 0 0
  by_cases hc : 96 ≤ bs.length ∧ fieldAt bs 94 2 ≠ 227
  · rw [if_pos hc]
    unfold decodeWith readWith readFixedHeaderWith IStream.ofBytes
    rw [bind_run, bind_run]
    simp only [onStream_run, hs]
    rw [bind_run, readFields1to13_eq h0 bs (by omega)]
    simp only
    rw [bind_run, readFields14to15With_eq, if_pos hc]
    rfl
  · rw [if_neg hc]
    unfold decodeWith decode IStream.ofBytes
    apply readWith_congr
    intro a hok
    simp only [hs] at hok ⊢
    have h94 : 94 ≤ bs.length := by
      have := (readFields1to13_consumes h0 bs 0 a (Nat.zero_le _) hok).1
      omega
    rw [readFields1to13_eq h0 bs h94]
    simp only
    rw [readFields14to15With_eq, if_neg hc]

/-- C9. With the setter `SetHeaderSize` as the design document describes it:
for every input that holds the 2-byte header size field (positions 94 and 95)
with a value other than 227, `read` fails with the malformed-header error and
returns no header; for an input whose header size is 227 `read` does what it
does with the size stored unchecked. -/
theorem read_rejects_other_header_size (h0 : LasHeader) (bs : List Byte)
    (hlen : 96 ≤ bs.length) :
    (fieldAt bs 94 2 ≠ 227 →
      (decodeWith LasHeader.SetHeaderSize h0 bs).result = .error .malformedHeader) ∧
    (fieldAt bs 94 2 = 227 → decodeWith LasHeader.SetHeaderSize h0 bs = decode h0 bs) := by
  rw [decodeWith_eq]
  constructor
  · intro h
    rw [if_pos ⟨hlen, h⟩]
  · intro h
    rw [if_neg (by simp [h])]

/-- C13. With the setter `SetHeaderSize` as the design document describes it:
for two files of the same length that differ only in the 4-byte point-count
field (positions 107 to 110), `read` gives the same result, the same error or
success on both; on success the two headers are equal in every field except
the point count, and each holds the point count of its own file. -/
theorem read_independent_of_point_count (h0 : LasHeader) (a b : List Byte)
    (hlen : a.length = b.length) (ht : a.take 107 = b.take 107)
    (hdrop : a.drop 111 = b.drop 111) :
    (decodeWith LasHeader.SetHeaderSize h0 a).result
      = (decodeWith LasHeader.SetHeaderSize h0 b).result ∧
    ((decodeWith LasHeader.SetHeaderSize h0 a).result = .ok () →
      ({ (decodeWith LasHeader.SetHeaderSize h0 a).reader.m_header with
          pointRecordsCount := 0 } : LasHeader)
        = { (decodeWith LasHeader.SetHeaderSize h0 b).reader.m_header with
            pointRecordsCount := 0 } ∧
      (decodeWith LasHeader.SetHeaderSize h0 a).reader.m_header.pointRecordsCount
        = fieldAt a 107 4 ∧
      (decodeWith LasHeader.SetHeaderSize h0 b).reader.m_header.pointRecordsCount
        = fieldAt b 107 4) := by
  have hold := decode_independent_of_point_count h0 a b hlen ht hdrop
  have hsame := same_outside_count a b ht hdrop
  by_cases hshort : a.length ≤ 107
  · have e := eq_of_same_of_short a b hlen hsame hshort
    subst e
    refine ⟨rfl, fun hok => ⟨rfl, ?_⟩⟩
    rw [decodeWith_eq] at hok ⊢
    split at hok
    · cases hok
    · rename_i hc
      rw [if_neg hc]
      exact hold.2.2 hok
  have e94 : fieldAt a 94 2 = fieldAt b 94 2 := fieldAt_congr_count a b hsame 94 2 (by omega)
  rw [decodeWith_eq, decodeWith_eq, ← hlen, ← e94]
  by_cases hc : 96 ≤ a.length ∧ fieldAt a 94 2 ≠ 227
  · rw [if_pos hc, if_pos hc]
    exact ⟨rfl, fun hok => by cases hok⟩
  · rw [if_neg hc, if_neg hc]
    refine ⟨hold.1, fun hok => ⟨hold.2.1 hok ?_, hold.2.2 hok⟩⟩
    obtain ⟨_, hoff, _, _⟩ := (decode_ok_iff h0 a).1 hok
    have h227 : fieldAt a 94 2 = 227 := by
      by_contra hne
      exact hc ⟨by omega, hne⟩
    omega


/-! ## The stream after `read` and the header size, on concrete files -/

/-- The function `Validate` called after `read` on the same reader, on the
227-byte file that declares data offset 300 and the point count 4294967293:
the pad check has left the stream failed, `tellg` answers `-1` for the end of
the file, and the call fails with the mismatch error, with the calculated
count `-15` and the remainder `-1`. -/
theorem Validate_after_short_pad_read :
    (decode headerRecordLength20 fileOffsetPastEnd).result = .ok () ∧
    (decode headerRecordLength20 fileOffsetPastEnd).reader.m_istream.fail = true ∧
    (Validate (decode headerRecordLength20 fileOffsetPastEnd).reader).result
      = .error (.pointCountMismatch (-15) 4294967293 (-1)) :=
  ⟨rfl, rfl, rfl⟩

/-- Counterexample for C4 as stated.  First file: version 1.2, uncompressed,
record length 20, a header of 227 bytes and no points, declared data offset
227 and declared count 0, which is the quotient of `227 - 227` by 20; `read`
leaves the stream failed, `tellg` answers `-1` for the end of the file, and
`Validate` on the same reader fails with the mismatch error (calculated count
`-11`).  Second file: version 0.3, which is below 1.3, declared count 5, with
40 bytes of point data, quotient 2; `Validate` returns normally although 5
differs from 2.  Third file: version 1.2, 227 bytes long, declared data offset
300 and declared count 4294967293; on a reader made of its decoded header and
a stream newly opened on the file, the quotient of `227 - 300` by 20 is
negative, so it differs from the declared count, yet `Validate` returns
normally. -/
theorem Validate_mismatch_not_iff_quotient :
    (decode headerRecordLength20 fileHeaderOnly).result = .ok () ∧
    (decode headerRecordLength20 fileHeaderOnly).reader.m_header.versionMajor = 1 ∧
    (decode headerRecordLength20 fileHeaderOnly).reader.m_header.versionMinor = 2 ∧
    (decode headerRecordLength20 fileHeaderOnly).reader.m_header.compressed = false ∧
    (decode headerRecordLength20 fileHeaderOnly).reader.m_header.dataRecordLength = 20 ∧
    (decode headerRecordLength20 fileHeaderOnly).reader.m_header.dataOffset = 227 ∧
    (decode headerRecordLength20 fileHeaderOnly).reader.m_header.pointRecordsCount = 0 ∧
    fileHeaderOnly.length = 227 ∧
    ((227 : Int) - 227) / 20 = 0 ∧
    (Validate (decode headerRecordLength20 fileHeaderOnly).reader).result
      = .error (.pointCountMismatch (-11) 0 (-8)) ∧
    (decode headerRecordLength20 (fileFivePoints 0 3)).result = .ok () ∧
    (decode headerRecordLength20 (fileFivePoints 0 3)).reader.m_header.versionMajor = 0 ∧
    (decode headerRecordLength20 (fileFivePoints 0 3)).reader.m_header.versionMinor = 3 ∧
    (decode headerRecordLength20 (fileFivePoints 0 3)).reader.m_header.compressed = false ∧
    (decode headerRecordLength20 (fileFivePoints 0 3)).reader.m_header.pointRecordsCount = 5 ∧
    ((fileFivePoints 0 3).length - 227) / 20 = 2 ∧
    (Validate (decode headerRecordLength20 (fileFivePoints 0 3)).reader).result = .ok () ∧
    (decode headerRecordLength20 fileOffsetPastEnd).result = .ok () ∧
    (decode headerRecordLength20 fileOffsetPastEnd).reader.m_header.versionMinor = 2 ∧
    (decode headerRecordLength20 fileOffsetPastEnd).reader.m_header.compressed = false ∧
    (decode headerRecordLength20 fileOffsetPastEnd).reader.m_header.dataRecordLength = 20 ∧
    (decode headerRecordLength20 fileOffsetPastEnd).reader.m_header.dataOffset = 300 ∧
    (decode headerRecordLength20 fileOffsetPastEnd).reader.m_header.pointRecordsCount
      = 4294967293 ∧
    fileOffsetPastEnd.length = 227 ∧
    ((227 : Int) - 300) / 20 = -4 ∧ Int.tdiv ((227 : Int) - 300) 20 = -3 ∧
    (validate (decode headerRecordLength20 fileOffsetPastEnd).reader.m_header
      (IStream.ofBytes fileOffsetPastEnd)).result = .ok () := by
  refine ⟨rfl, rfl, rfl, rfl, rfl, rfl, rfl, by decide, by decide, rfl, rfl, rfl, rfl, rfl, rfl,
    by decide, rfl, rfl, rfl, rfl, rfl, rfl, rfl, by decide, by decide, by decide, rfl⟩

/-- Witness for C9: a file with the signature `LASF` whose header size field
is 228 holds that field, and `read` with the setter of the design document
rejects it; the header-only file, whose header size field is 227, decodes. -/
theorem read_rejects_other_header_size_witness :
    96 ≤ fileSignedHeaderSize228.length ∧
    bytesAt fileSignedHeaderSize228 0 4 = [76, 65, 83, 70] ∧
    fieldAt fileSignedHeaderSize228 94 2 = 228 ∧
    (decodeWith LasHeader.SetHeaderSize LasHeader.blank fileSignedHeaderSize228).result
      = .error .malformedHeader ∧
    fieldAt fileHeaderOnly 94 2 = 227 ∧
    (decodeWith LasHeader.SetHeaderSize LasHeader.blank fileHeaderOnly).result = .ok () :=
  ⟨by decide, by decide, by decide,
    (read_rejects_other_header_size LasHeader.blank fileSignedHeaderSize228 (by decide)).1
      (by decide),
    by decide, rfl⟩

/-- Witness for C13: the files declaring 5 and 9 points with data offset 227
differ only in the point-count field; both decode, to headers that differ in
the point count only. -/
theorem read_independent_of_point_count_witness :
    (fileWithCount [5, 0, 0, 0]).length = (fileWithCount [9, 0, 0, 0]).length ∧
    (fileWithCount [5, 0, 0, 0]).take 107 = (fileWithCount [9, 0, 0, 0]).take 107 ∧
    (fileWithCount [5, 0, 0, 0]).drop 111 = (fileWithCount [9, 0, 0, 0]).drop 111 ∧
    (decodeWith LasHeader.SetHeaderSize LasHeader.blank (fileWithCount [5, 0, 0, 0])).result
      = .ok () ∧
    (decodeWith LasHeader.SetHeaderSize LasHeader.blank (fileWithCount [9, 0, 0, 0])).result
      = .ok () ∧
    ({ (decodeWith LasHeader.SetHeaderSize LasHeader.blank
          (fileWithCount [5, 0, 0, 0])).reader.m_header with pointRecordsCount := 0 } : LasHeader)
      = { (decodeWith LasHeader.SetHeaderSize LasHeader.blank
            (fileWithCount [9, 0, 0, 0])).reader.m_header with pointRecordsCount := 0 } ∧
    (decodeWith LasHeader.SetHeaderSize LasHeader.blank
        (fileWithCount [5, 0, 0, 0])).reader.m_header.pointRecordsCount = 5 ∧
    (decodeWith LasHeader.SetHeaderSize LasHeader.blank
        (fileWithCount [9, 0, 0, 0])).reader.m_header.pointRecordsCount = 9 :=
  ⟨by decide, by decide, by decide, rfl, rfl,
    ((read_independent_of_point_count LasHeader.blank (fileWithCount [5, 0, 0, 0])
      (fileWithCount [9, 0, 0, 0]) (by decide) (by decide) (by decide)).2 rfl).1,
    rfl, rfl⟩

/-- Witness for C14: the header-only file decodes; the second `read` leaves
the reader state as it is and fails, because the stream has failed.  The file
with 22 bytes after its header decodes, and the second `read` returns
normally. -/
theorem read_idempotent_deterministic_witness :
    (decode LasHeader.blank fileHeaderOnly).result = .ok () ∧
    (read (decode LasHeader.blank fileHeaderOnly).reader).reader
      = (decode LasHeader.blank fileHeaderOnly).reader ∧
    (read (decode LasHeader.blank fileHeaderOnly).reader).result
      = .error .streamNotReadable ∧
    (decode LasHeader.blank filePadAtOffset).result = .ok () ∧
    (read (decode LasHeader.blank filePadAtOffset).reader).reader
      = (decode LasHeader.blank filePadAtOffset).reader ∧
    (read (decode LasHeader.blank filePadAtOffset).reader).result = .ok () :=
  ⟨rfl, (read_idempotent_deterministic LasHeader.blank fileHeaderOnly rfl).1,
    (read_idempotent_deterministic LasHeader.blank fileHeaderOnly rfl).2.2.1 (by decide),
    rfl, (read_idempotent_deterministic LasHeader.blank filePadAtOffset rfl).1,
    (read_idempotent_deterministic LasHeader.blank filePadAtOffset rfl).2.1 (by decide)⟩

/-- Witness for C15, the code at the failing input: the version 1.2 file that
consists of a header only decodes, with data offset 227, and the stream is
left failed: `tellg` answers `-1` and the next `read_n` fails.  The file with
the pad signature and 20 more bytes after its header leaves the stream good
at position 229. -/
theorem read_leaves_stream_failed_after_short_pad_read_witness :
    (decode LasHeader.blank fileHeaderOnly).result = .ok () ∧
    fileHeaderOnly.length = 227 ∧
    (decode LasHeader.blank fileHeaderOnly).reader.m_header.dataOffset = 227 ∧
    (decode LasHeader.blank fileHeaderOnly).reader.m_istream.eof = false ∧
    (decode LasHeader.blank fileHeaderOnly).reader.m_istream.fail = true ∧
    (decode LasHeader.blank fileHeaderOnly).reader.m_istream.tellg = -1 ∧
    (Utils.read_n 1 (decode LasHeader.blank fileHeaderOnly).reader).result
      = .error .streamNotReadable ∧
    (decode LasHeader.blank filePadAtOffset).result = .ok () ∧
    (decode LasHeader.blank filePadAtOffset).reader.m_istream.good = true ∧
    (decode LasHeader.blank filePadAtOffset).reader.m_istream.pos = 229 :=
  ⟨rfl, by decide, rfl,
    (read_leaves_stream_failed_after_short_pad_read LasHeader.blank fileHeaderOnly rfl).1,
    ((read_leaves_stream_failed_after_short_pad_read LasHeader.blank fileHeaderOnly
      rfl).2.2.2 (by decide)).2.1,
    ((read_leaves_stream_failed_after_short_pad_read LasHeader.blank fileHeaderOnly
      rfl).2.2.2 (by decide)).2.2.2.1,
    ((read_leaves_stream_failed_after_short_pad_read LasHeader.blank fileHeaderOnly
      rfl).2.2.2 (by decide)).2.2.2.2 1,
    rfl,
    ((read_leaves_stream_failed_after_short_pad_read LasHeader.blank filePadAtOffset
      rfl).2.2.1 (by decide)).1,
    rfl⟩

end libpc.drivers.las

namespace libpc.drivers.liblas

/-! ## The external point source -/

theorem ReadNextPoint_true (r : ExternalReader) (h : r.current < r.records.length) :
    r.ReadNextPoint
      = (true, { r with current := r.current + 1, point := r.records.get ⟨r.current, h⟩ }) := by
  unfold ExternalReader.ReadNextPoint
  rw [List.getElem?_eq_getElem h]
  rfl

theorem ReadNextPoint_false (r : ExternalReader) (h : r.records.length ≤ r.current) :
    r.ReadNextPoint = (false, r) := by
  unfold ExternalReader.ReadNextPoint
  rw [List.getElem?_eq_none h]

/-- A successful request advances the source by one record and keeps its
records. -/
theorem ReadNextPoint_of_true (r r1 : ExternalReader) (h : r.ReadNextPoint = (true, r1)) :
    r.current < r.records.length ∧ r1.current = r.current + 1 ∧ r1.records = r.records := by
  by_cases hc : r.current < r.records.length
  · rw [ReadNextPoint_true r hc] at h
    have e := (Prod.mk.inj h).2
    subst e
    exact ⟨hc, rfl, rfl⟩
  · rw [ReadNextPoint_false r (by omega)] at h
    cases (Prod.mk.inj h).1

/-- A failed request leaves the source as it is, and the source holds no
record at its position. -/
theorem ReadNextPoint_of_false (r r1 : ExternalReader) (h : r.ReadNextPoint = (false, r1)) :
    r.records.length ≤ r.current ∧ r1 = r := by
  by_cases hc : r.current < r.records.length
  · rw [ReadNextPoint_true r hc] at h
    cases (Prod.mk.inj h).1
  · rw [ReadNextPoint_false r (by omega)] at h
    exact ⟨by omega, (Prod.mk.inj h).2.symm⟩

/-- The next `k` requests succeed exactly when the source holds `k` records
from its position on. -/
theorem delivers_iff (k : Nat) (r : ExternalReader) :
    r.delivers k = true ↔ k = 0 ∨ r.current + k ≤ r.records.length := by
  induction k generalizing r with
  | zero => simp [ExternalReader.delivers]
  | succ k ih =>
    unfold ExternalReader.delivers
    by_cases hc : r.current < r.records.length
    · rw [ReadNextPoint_true r hc]
      simp only [Bool.true_and, ih]
      constructor
      · intro h
        rcases h with h | h
        · subst h; right; omega
        · right; omega
      · intro h
        rcases h with h | h
        · omega
        · by_cases hk : k = 0
          · left; exact hk
          · right; omega
    · rw [ReadNextPoint_false r (by omega)]
      simp only [Bool.false_and]
      constructor
      · intro h; cases h
      · intro h; omega

/-! ## Stores into the buffer -/

/-- Stores at a point inside the capacity and at dimension indices of the
schema all succeed, and change neither schema nor capacity nor the count of
valid points. -/
theorem setFields_ok (ws : List (Nat × Int)) (data : PointBuffer) (i : Nat)
    (hi : i < data.capacity) (hw : ∀ w ∈ ws, w.1 < data.schema.dimensions.length) :
    ∃ data1, setFields data i ws = (.ok (), data1) ∧ data1.schema = data.schema ∧
      data1.capacity = data.capacity ∧ data1.numPoints = data.numPoints := by
  induction ws generalizing data with
  | nil => exact ⟨data, rfl, rfl, rfl, rfl⟩
  | cons w rest ih =>
    have hw1 := hw w (List.mem_cons_self _ _)
    unfold setFields
    unfold PointBuffer.setField
    rw [if_pos ⟨hi, hw1⟩]
    simp only
    obtain ⟨d1, e1, e2, e3, e4⟩ := ih
      { data with fields := fun p d => if p = i ∧ d = w.1 then w.2 else data.fields p d } hi
      (fun x hx => hw x (List.mem_cons_of_mem _ hx))
    exact ⟨d1, e1, e2, e3, e4⟩

theorem getDimensionIndex_ok (s : Schema) (f : Field) (h : f ∈ s.dimensions) :
    s.getDimensionIndex f = .ok (s.dimensions.indexOf f) := by
  unfold Schema.getDimensionIndex
  rw [if_pos h]

theorem indexOf_lt (s : Schema) (f : Field) (h : f ∈ s.dimensions) :
    s.dimensions.indexOf f < s.dimensions.length := List.indexOf_lt_length.2 h

/-- In a schema that registers the fields of the reader every lookup of
`readBuffer` succeeds, and every index that the loop stores at is an index of
the schema. -/
theorem lookupIndexes_ok (rd : LiblasReader) (s : Schema) (h : s.registers rd = true) :
    ∃ ix, lookupIndexes rd s = .ok ix ∧ ValidIndexes rd s.dimensions.length ix := by
  have hm : ∀ f ∈ requiredFields rd, f ∈ s.dimensions := by
    intro f hf
    have := List.all_eq_true.1 h f hf
    simpa using this
  obtain ⟨n, t, c, w⟩ := rd
  have g : ∀ f, f ∈ requiredFields ⟨n, t, c, w⟩ →
      s.getDimensionIndex f = .ok (s.dimensions.indexOf f) :=
    fun f hf => getDimensionIndex_ok s f (hm f hf)
  have l : ∀ f, f ∈ requiredFields ⟨n, t, c, w⟩ →
      s.dimensions.indexOf f < s.dimensions.length :=
    fun f hf => indexOf_lt s f (hm f hf)
  cases t <;> cases c
  all_goals
    simp only [lookupIndexes, bind, Except.bind, pure, Except.pure, if_true, if_false,
      Bool.false_eq_true, g .X (by simp [requiredFields]), g .Y (by simp [requiredFields]), g .Z (by simp [requiredFields]),
      g .Intensity (by simp [requiredFields]), g .ReturnNumber (by simp [requiredFields]), g .NumberOfReturns (by simp [requiredFields]),
      g .ScanDirectionFlag (by simp [requiredFields]), g .EdgeOfFlightLine (by simp [requiredFields]),
      g .Classification (by simp [requiredFields]), g .ScanAngleRank (by simp [requiredFields]), g .UserData (by simp [requiredFields]),
      g .PointSourceId (by simp [requiredFields])]
  · refine ⟨_, rfl, ?_⟩
    intro pt x hx
    simp only [pointWrites, if_false, Bool.false_eq_true, List.append_nil, List.mem_cons,
      List.mem_singleton, List.not_mem_nil, or_false] at hx
    rcases hx with hx | hx | hx | hx | hx | hx | hx | hx | hx | hx | hx | hx <;> subst hx <;>
      exact l _ (by simp [requiredFields])
  · simp only [g .Red (by simp [requiredFields]), g .Green (by simp [requiredFields]), g .Blue (by simp [requiredFields])]
    refine ⟨_, rfl, ?_⟩
    intro pt x hx
    simp only [pointWrites, if_true, if_false, Bool.false_eq_true, List.append_nil,
      List.mem_cons, List.mem_append, List.mem_singleton, List.not_mem_nil, or_false] at hx
    rcases hx with (hx | hx | hx | hx | hx | hx | hx | hx | hx | hx | hx | hx) | hx | hx | hx <;>
      subst hx <;> exact l _ (by simp [requiredFields])
  · simp only [g .Time (by simp [requiredFields])]
    refine ⟨_, rfl, ?_⟩
    intro pt x hx
    simp only [pointWrites, if_true, if_false, Bool.false_eq_true, List.append_nil,
      List.mem_cons, List.mem_append, List.mem_singleton, List.not_mem_nil, or_false] at hx
    rcases hx with (hx | hx | hx | hx | hx | hx | hx | hx | hx | hx | hx | hx) | hx <;>
      subst hx <;> exact l _ (by simp [requiredFields])
  · simp only [g .Time (by simp [requiredFields]), g .Red (by simp [requiredFields]), g .Green (by simp [requiredFields]),
      g .Blue (by simp [requiredFields])]
    refine ⟨_, rfl, ?_⟩
    intro pt x hx
    simp only [pointWrites, if_true, if_false, Bool.false_eq_true, List.append_nil,
      List.mem_cons, List.mem_append, List.mem_singleton, List.not_mem_nil, or_false] at hx
    rcases hx with ((hx | hx | hx | hx | hx | hx | hx | hx | hx | hx | hx | hx) | hx)
        | hx | hx | hx <;>
      subst hx <;> exact l _ (by simp [requiredFields])

/-! ## The loop of `readBuffer` -/

/-- A round of the loop whose record request fails throws the libpc error and
leaves the buffer as it is. -/
theorem readBufferLoop_request_fails (rd : LiblasReader) (ix : DimensionIndexes)
    (N n i : Nat) (data : PointBuffer) (ext : ExternalReader)
    (h : ext.records.length ≤ ext.current) :
    readBufferLoop rd ix N (n + 1) i data ext = ⟨.error .libpc_error, data, ext⟩ := by
  unfold readBufferLoop
  rw [ReadNextPoint_false ext h]

/-- A round of the loop whose record request succeeds, with valid indices and
the loop counter inside the capacity: the point is stored, the count of valid
points becomes `i + 1`, and the loop throws if the reader has waveform data
and goes on otherwise. -/
theorem readBufferLoop_round (rd : LiblasReader) (ix : DimensionIndexes)
    (N n i : Nat) (data : PointBuffer) (ext : ExternalReader)
    (hix : ValidIndexes rd data.schema.dimensions.length ix) (hi : i < data.capacity)
    (h : ext.current < ext.records.length) :
    ∃ data2, data2.schema = data.schema ∧ data2.capacity = data.capacity ∧
      data2.numPoints = i + 1 ∧
      readBufferLoop rd ix N (n + 1) i data ext =
        if rd.hasWaveData then
          ⟨.error .not_yet_implemented, data2,
            { ext with current := ext.current + 1, point := ext.records.get ⟨ext.current, h⟩ }⟩
        else readBufferLoop rd ix N n (i + 1) data2
          { ext with current := ext.current + 1, point := ext.records.get ⟨ext.current, h⟩ } := by
  obtain ⟨d1, e1, s1, c1, _⟩ := setFields_ok
    (pointWrites rd ix (ext.records.get ⟨ext.current, h⟩)) data i hi (hix _)
  refine ⟨{ d1 with numPoints := i + 1 }, s1, c1, rfl, ?_⟩
  conv => lhs; unfold readBufferLoop
  rw [ReadNextPoint_true ext h]
  simp only [ExternalReader.GetPoint, e1, PointBuffer.setNumPoints]
  rw [if_pos (by omega)]

/-- A value returned by the loop is the number `numPoints` it was started
with. -/
theorem readBufferLoop_result (rd : LiblasReader) (ix : DimensionIndexes) (N : Nat) :
    ∀ (n i : Nat) (data : PointBuffer) (ext : ExternalReader) (m : Nat),
      (readBufferLoop rd ix N n i data ext).result = .ok m → m = N := by
  intro n
  induction n with
  | zero =>
    intro i data ext m h
    simp only [readBufferLoop, Except.ok.injEq] at h
    exact h.symm
  | succ n ih =>
    intro i data ext m h
    unfold readBufferLoop at h
    split at h
    · cases h
    · split at h
      · cases h
      · split at h
        · cases h
        · split at h
          · cases h
          · exact ih _ _ _ _ h

/-- The loop returns normally only when the source delivered a record in each
of its rounds; the source is then advanced by the number of rounds. -/
theorem readBufferLoop_source (rd : LiblasReader) (ix : DimensionIndexes) (N : Nat) :
    ∀ (n i : Nat) (data : PointBuffer) (ext : ExternalReader) (m : Nat),
      (readBufferLoop rd ix N n i data ext).result = .ok m →
      ext.current + n ≤ ext.records.length ∨ n = 0 := by
  intro n
  induction n with
  | zero => intro i data ext m _; right; rfl
  | succ n ih =>
    intro i data ext m h
    unfold readBufferLoop at h
    split at h
    · cases h
    · rename_i ext1 hr
      obtain ⟨h1, h2, h3⟩ := ReadNextPoint_of_true ext ext1 hr
      split at h
      · cases h
      · split at h
        · cases h
        · split at h
          · cases h
          · have := ih _ _ _ _ h
            left
            rw [h2, h3] at this
            omega

/-- With valid indices, no waveform data, room in the buffer and enough
records in the source, the loop returns `numPoints`, advances the source by
its number of rounds, and keeps schema and capacity of the buffer. -/
theorem readBufferLoop_ok (rd : LiblasReader) (ix : DimensionIndexes) (N : Nat)
    (hw : rd.hasWaveData = false) :
    ∀ (n i : Nat) (data : PointBuffer) (ext : ExternalReader),
      ValidIndexes rd data.schema.dimensions.length ix → i + n ≤ data.capacity →
      ext.current + n ≤ ext.records.length →
      ∃ data1 pt, readBufferLoop rd ix N n i data ext
          = ⟨.ok N, data1, ⟨ext.records, ext.current + n, pt⟩⟩ ∧
        data1.schema = data.schema ∧ data1.capacity = data.capacity ∧
        (0 < n → data1.numPoints = i + n) ∧ (n = 0 → data1 = data) := by
  intro n
  induction n with
  | zero =>
    intro i data ext _ _ _
    exact ⟨data, ext.point, rfl, rfl, rfl, fun h => by omega, fun _ => rfl⟩
  | succ n ih =>
    intro i data ext hix hi hc
    have hlt : ext.current < ext.records.length := by omega
    obtain ⟨d2, s2, c2, n2, e2⟩ := readBufferLoop_round rd ix N n i data ext hix (by omega) hlt
    rw [hw] at e2
    simp only [Bool.false_eq_true, if_false] at e2
    obtain ⟨d3, pt, e3, s3, c3, n3, z3⟩ := ih (i + 1) d2
      { ext with current := ext.current + 1, point := ext.records.get ⟨ext.current, hlt⟩ }
      (by rw [s2]; exact hix) (by rw [c2]; omega) (by simp only; omega)
    refine ⟨d3, pt, ?_, by rw [s3, s2], by rw [c3, c2], fun _ => ?_, fun h => by omega⟩
    · rw [e2, e3]
      simp only [ReadResult.mk.injEq, ExternalReader.mk.injEq, true_and, and_true]
      omega
    · by_cases hn : n = 0
      · rw [z3 hn, n2, hn]
      · rw [n3 (by omega)]; omega

/-- With valid indices, no waveform data and room in the buffer, the loop
throws the libpc error when the source holds fewer records than the loop has
rounds. -/
theorem readBufferLoop_short (rd : LiblasReader) (ix : DimensionIndexes) (N : Nat)
    (hw : rd.hasWaveData = false) :
    ∀ (n i : Nat) (data : PointBuffer) (ext : ExternalReader),
      ValidIndexes rd data.schema.dimensions.length ix → i + n ≤ data.capacity →
      0 < n → ext.records.length < ext.current + n →
      (readBufferLoop rd ix N n i data ext).result = .error .libpc_error := by
  intro n
  induction n with
  | zero => intro i data ext _ _ h; omega
  | succ n ih =>
    intro i data ext hix hi _ hc
    by_cases hlt : ext.current < ext.records.length
    · obtain ⟨d2, s2, c2, n2, e2⟩ :=
        readBufferLoop_round rd ix N n i data ext hix (by omega) hlt
      rw [hw] at e2
      simp only [Bool.false_eq_true, if_false] at e2
      rw [e2]
      exact ih (i + 1) d2 _ (by rw [s2]; exact hix) (by rw [c2]; omega) (by omega)
        (by simp only; omega)
    · rw [readBufferLoop_request_fails rd ix N n i data ext (by omega)]

/-- Whatever the indices and the reader are, the loop throws when the source
holds fewer records than the loop has rounds. -/
theorem readBufferLoop_error_of_short (rd : LiblasReader) (ix : DimensionIndexes) (N : Nat)
    (n i : Nat) (data : PointBuffer) (ext : ExternalReader) (hn : 0 < n)
    (h : ext.records.length < ext.current + n) :
    ∃ e, (readBufferLoop rd ix N n i data ext).result = .error e := by
  cases hr : (readBufferLoop rd ix N n i data ext).result with
  | error e => exact ⟨e, rfl⟩
  | ok m =>
    have := readBufferLoop_source rd ix N n i data ext m hr
    omega

/-! ## `readBuffer` -/

/-- A value returned by `readBuffer` is the capacity of the buffer, and the
source delivered that many records. -/
theorem readBuffer_result (rd : LiblasReader) (data : PointBuffer) (ext : ExternalReader)
    (m : Nat) (h : (readBuffer rd data ext).result = .ok m) :
    m = data.capacity ∧ ext.delivers data.capacity = true := by
  unfold readBuffer at h
  simp only [PointBuffer.getCapacity, PointBuffer.getSchema] at h
  split at h
  · cases h
  · refine ⟨readBufferLoop_result _ _ _ _ _ _ _ _ h, ?_⟩
    rw [delivers_iff]
    have := readBufferLoop_source _ _ _ _ _ _ _ _ h
    omega

/-- The call `readBuffer` throws when the source holds fewer records than the
buffer has capacity. -/
theorem readBuffer_error_of_short (rd : LiblasReader) (data : PointBuffer)
    (ext : ExternalReader) (h : ext.delivers data.capacity = false) :
    ∃ e, (readBuffer rd data ext).result = .error e := by
  cases hr : (readBuffer rd data ext).result with
  | error e => exact ⟨e, rfl⟩
  | ok m =>
    have := (readBuffer_result rd data ext m hr).2
    rw [h] at this
    cases this

/-- The closed form of a `readBuffer` that returns: the capacity is returned,
the source is advanced by the capacity, and the buffer keeps schema and
capacity. -/
theorem readBuffer_ok (rd : LiblasReader) (data : PointBuffer) (ext : ExternalReader)
    (hs : data.schema.registers rd = true) (hw : rd.hasWaveData = false)
    (hc : ext.current + data.capacity ≤ ext.records.length) :
    ∃ data1 pt, readBuffer rd data ext
        = ⟨.ok data.capacity, data1, ⟨ext.records, ext.current + data.capacity, pt⟩⟩ ∧
      data1.schema = data.schema ∧ data1.capacity = data.capacity ∧
      (0 < data.capacity → data1.numPoints = data.capacity) ∧
      (data.capacity = 0 → data1 = data) := by
  obtain ⟨ix, e, hix⟩ := lookupIndexes_ok rd data.schema hs
  obtain ⟨d1, pt, e1, s1, c1, n1, z1⟩ :=
    readBufferLoop_ok rd ix data.capacity hw data.capacity 0 data ext hix (by omega) hc
  refine ⟨d1, pt, ?_, s1, c1, fun h => by rw [n1 h]; omega, z1⟩
  unfold readBuffer
  simp only [PointBuffer.getCapacity, PointBuffer.getSchema, e, e1]

/-- With a registering schema and no waveform data, `readBuffer` throws the
libpc error when the source holds fewer records than the buffer has
capacity. -/
theorem readBuffer_short (rd : LiblasReader) (data : PointBuffer) (ext : ExternalReader)
    (hs : data.schema.registers rd = true) (hw : rd.hasWaveData = false)
    (hc : ext.delivers data.capacity = false) :
    (readBuffer rd data ext).result = .error .libpc_error := by
  obtain ⟨ix, e, hix⟩ := lookupIndexes_ok rd data.schema hs
  have hd := (delivers_iff data.capacity ext).not.1 (by rw [hc]; simp)
  unfold readBuffer
  simp only [PointBuffer.getCapacity, PointBuffer.getSchema, e]
  exact readBufferLoop_short rd ix data.capacity hw data.capacity 0 data ext hix (by omega)
    (by omega) (by omega)

/-- With a registering schema, `readBuffer` into a buffer of capacity 0
returns 0 and changes nothing. -/
theorem readBuffer_capacity_zero (rd : LiblasReader) (data : PointBuffer)
    (ext : ExternalReader) (hs : data.schema.registers rd = true) (hc : data.capacity = 0) :
    readBuffer rd data ext = ⟨.ok 0, data, ext⟩ := by
  obtain ⟨ix, e, _⟩ := lookupIndexes_ok rd data.schema hs
  unfold readBuffer
  simp only [PointBuffer.getCapacity, PointBuffer.getSchema, e, hc, readBufferLoop]

/-! ## The sequential iterator -/

/-- The function `skipImpl` returns the count it was given, whatever the
cursor and the total of the stage are: it asks the source to seek to the
cursor plus the count (a 64-bit sum narrowed to `size_t`) and leaves the
cursor to the base class. -/
theorem skipImpl_eq (w : Nat) (it : SequentialIterator) (count : Nat) :
    (it.skipImpl w count).1 = count ∧
    (it.skipImpl w count).2.m_externalReader.current
      = (it.m_index + count) % 2 ^ 64 % 2 ^ w ∧
    (it.skipImpl w count).2.m_externalReader.records = it.m_externalReader.records ∧
    (it.skipImpl w count).2.m_index = it.m_index :=
  ⟨rfl, rfl, rfl, rfl⟩

/-- C16. For a sequential iterator with cursor `i` on a stage of `N` points
and every count `c`, `skip(c)` returns the actual advance `min(c, N - i)` and
moves the cursor by it, so that from a cursor within the stage the cursor
stops at `min(i + c, N)`; a skip that would pass the end returns less than
`c`.  The clamp is that of the base class: `skipImpl` returns the count it is
given, and is given the clamped count, so that the source is asked for the
record at the new cursor (for a total that fits `size_t`). -/
theorem skip_returns_clamped_advance (w : Nat) (it : SequentialIterator) (count : Nat) :
    (it.skip w count).1 = min count (it.m_reader.getNumPoints - it.m_index) ∧
    (it.skip w count).2.m_index
      = it.m_index + min count (it.m_reader.getNumPoints - it.m_index) ∧
    (it.m_index ≤ it.m_reader.getNumPoints →
      (it.skip w count).2.m_index = min (it.m_index + count) it.m_reader.getNumPoints ∧
      (it.skip w count).2.m_index ≤ it.m_reader.getNumPoints) ∧
    (it.m_reader.getNumPoints - it.m_index < count → (it.skip w count).1 < count) ∧
    (it.skip w count).1
      = (it.skipImpl w (min count (it.m_reader.getNumPoints - it.m_index))).1 ∧
    (it.skip w count).2.m_reader = it.m_reader ∧
    (it.m_index ≤ it.m_reader.getNumPoints → it.m_reader.getNumPoints < 2 ^ w → w ≤ 64 →
      (it.skip w count).2.m_externalReader.current = (it.skip w count).2.m_index) := by
  refine ⟨rfl, rfl, fun h => ?_, fun h => ?_, rfl, rfl, fun h hN hw => ?_⟩
  · show it.m_index + min count (it.m_reader.getNumPoints - it.m_index)
        = min (it.m_index + count) it.m_reader.getNumPoints ∧
      it.m_index + min count (it.m_reader.getNumPoints - it.m_index)
        ≤ it.m_reader.getNumPoints
    omega
  · show min count (it.m_reader.getNumPoints - it.m_index) < count
    omega
  · show (it.m_index + min count (it.m_reader.getNumPoints - it.m_index)) % 2 ^ 64 % 2 ^ w
        = it.m_index + min count (it.m_reader.getNumPoints - it.m_index)
    have h1 : it.m_index + min count (it.m_reader.getNumPoints - it.m_index) < 2 ^ w := by
      omega
    have h2 : (2 : Nat) ^ w ≤ 2 ^ 64 := Nat.pow_le_pow_right (by decide) hw
    have h3 : (it.m_index + min count (it.m_reader.getNumPoints - it.m_index)) % 2 ^ 64
        = it.m_index + min count (it.m_reader.getNumPoints - it.m_index) :=
      Nat.mod_eq_of_lt (by omega)
    rw [h3, Nat.mod_eq_of_lt h1]

/-- The closed form of a read through the iterator, below the total of its
stage, that returns. -/
theorem iterator_read_ok (it : SequentialIterator) (data : PointBuffer)
    (hlt : it.m_index < it.m_reader.getNumPoints)
    (hs : data.schema.registers it.m_reader = true) (hw : it.m_reader.hasWaveData = false)
    (hc : it.m_externalReader.current + data.capacity ≤ it.m_externalReader.records.length) :
    ∃ data1 pt, it.read data
        = ⟨.ok data.capacity, data1,
            ⟨it.m_reader, ⟨it.m_externalReader.records,
              it.m_externalReader.current + data.capacity, pt⟩,
              it.m_index + data.capacity⟩⟩ ∧
      data1.schema = data.schema ∧ data1.capacity = data.capacity ∧
      (data.capacity = 0 → data1 = data) := by
  obtain ⟨d1, pt, e, s1, c1, _, z1⟩ := readBuffer_ok it.m_reader data it.m_externalReader hs hw hc
  refine ⟨d1, pt, ?_, s1, c1, z1⟩
  unfold SequentialIterator.read SequentialIterator.readImpl
  rw [if_neg (by omega)]
  simp only [e]

/-- A read through the iterator, below the total of its stage, throws what
`readImpl` throws. -/
theorem iterator_read_error (it : SequentialIterator) (data : PointBuffer) (e : IteratorError)
    (hlt : it.m_index < it.m_reader.getNumPoints)
    (h : (it.readImpl data).result = .error e) : (it.read data).result = .error e := by
  unfold SequentialIterator.read
  rw [if_neg (by omega)]
  simp only [h]

/-- The function `readImpl` does not look at the cursor.  Called on an
iterator whose cursor has reached the declared total, with a buffer whose
schema registers the fields of the reader: into a buffer of capacity 0 it
returns 0 and changes nothing; into a buffer of capacity `c ≥ 1` it throws
when the source cannot deliver `c` records (the libpc error when the reader
has no waveform data). -/
theorem readImpl_past_end (it : SequentialIterator) (data : PointBuffer)
    (hs : data.schema.registers it.m_reader = true) :
    (data.capacity = 0 → it.readImpl data = ⟨.ok 0, data, it⟩) ∧
    (1 ≤ data.capacity → it.m_externalReader.delivers data.capacity = false →
      (∃ e, (it.readImpl data).result = .error e) ∧
      (it.m_reader.hasWaveData = false →
        (it.readImpl data).result = .error .libpc_error)) := by
  refine ⟨fun hc => ?_, fun hc hd => ⟨?_, fun hw => ?_⟩⟩
  · have e := readBuffer_capacity_zero it.m_reader data it.m_externalReader hs hc
    unfold SequentialIterator.readImpl
    simp only [e]
  · obtain ⟨e, he⟩ := readBuffer_error_of_short it.m_reader data it.m_externalReader hd
    exact ⟨e, he⟩
  · exact readBuffer_short it.m_reader data it.m_externalReader hs hw hd

/-- C17. For a sequential iterator whose cursor has reached the declared
total of its stage, a read into any buffer returns 0 and raises no error, and
it advances neither the cursor nor the external point source: the iterator
and the buffer are left as they were.  The guard is that of the base class,
which does not call `readImpl` there. -/
theorem read_at_total_returns_zero (it : SequentialIterator) (data : PointBuffer)
    (hend : it.m_reader.getNumPoints ≤ it.m_index) :
    it.atEnd = true ∧
    (it.read data).result = .ok 0 ∧
    (it.read data).iterator.m_index = it.m_index ∧
    (it.read data).iterator.m_externalReader = it.m_externalReader ∧
    (it.read data).iterator = it ∧
    (it.read data).data = data := by
  have e : it.read data = ⟨.ok 0, data, it⟩ := by
    unfold SequentialIterator.read
    rw [if_pos hend]
  rw [e]
  refine ⟨?_, rfl, rfl, rfl, rfl, rfl⟩
  simpa [SequentialIterator.atEnd, SequentialIterator.atEndImpl, SequentialIterator.getIndex]
    using hend

/-! ## Reading a stage to its end -/

/-- The loop of reads on an iterator that is `q` buffers away from the end of
a source holding exactly the declared total returns after `q` reads with
`q` times the capacity added to the sum. -/
theorem readUntilEnd_exact (q : Nat) :
    ∀ (fuel : Nat) (it : SequentialIterator) (data : PointBuffer) (total : Nat),
      q ≤ fuel → data.schema.registers it.m_reader = true →
      it.m_reader.hasWaveData = false → 1 ≤ data.capacity →
      it.m_externalReader.records.length = it.m_reader.getNumPoints →
      it.m_externalReader.current = it.m_index →
      it.m_index + q * data.capacity = it.m_reader.getNumPoints →
      readUntilEnd fuel it data total = some (.ok (total + q * data.capacity)) := by
  induction q with
  | zero =>
    intro fuel it data total _ _ _ _ _ _ hq
    have hend : it.atEnd = true := by
      simp only [SequentialIterator.atEnd, SequentialIterator.atEndImpl,
        SequentialIterator.getIndex, ge_iff_le, decide_eq_true_eq]
      omega
    cases fuel <;> simp [readUntilEnd, hend]
  | succ q ih =>
    intro fuel it data total hf hs hw hc hl hcur hq
    have hq1 : it.m_index + q * data.capacity + data.capacity = it.m_reader.getNumPoints := by
      rw [← hq, Nat.succ_mul]; omega
    have hend : it.atEnd = false := by
      simp only [SequentialIterator.atEnd, SequentialIterator.atEndImpl,
        SequentialIterator.getIndex, ge_iff_le, decide_eq_false_iff_not]
      omega
    obtain ⟨f, rfl⟩ : ∃ f, fuel = f + 1 := ⟨fuel - 1, by omega⟩
    obtain ⟨d1, pt, e, s1, c1, _⟩ := iterator_read_ok it data (by omega) hs hw (by omega)
    unfold readUntilEnd
    simp only [hend, Bool.false_eq_true, if_false, e]
    refine (ih f ⟨it.m_reader, ⟨it.m_externalReader.records,
      it.m_externalReader.current + data.capacity, pt⟩, it.m_index + data.capacity⟩ d1 (total + data.capacity) (by omega) (by rw [s1]; exact hs) hw
      (by rw [c1]; exact hc) hl (by simp only [hcur])
      (by rw [c1]
          show it.m_index + data.capacity + q * data.capacity = it.m_reader.getNumPoints
          omega)).trans ?_
    rw [c1, Nat.succ_mul]
    congr 2
    omega

/-- The loop of reads on an iterator that is `q` buffers and a rest of less
than one buffer away from the end of a source holding exactly the declared
total ends with the libpc error, thrown by the read after the `q`-th. -/
theorem readUntilEnd_rest (q : Nat) :
    ∀ (fuel : Nat) (it : SequentialIterator) (data : PointBuffer) (total r : Nat),
      q + 1 ≤ fuel → data.schema.registers it.m_reader = true →
      it.m_reader.hasWaveData = false → 0 < r → r < data.capacity →
      it.m_externalReader.records.length = it.m_reader.getNumPoints →
      it.m_externalReader.current = it.m_index →
      it.m_index + q * data.capacity + r = it.m_reader.getNumPoints →
      readUntilEnd fuel it data total = some (.error .libpc_error) := by
  induction q with
  | zero =>
    intro fuel it data total r hf hs hw hr hrc hl hcur hq
    have hend : it.atEnd = false := by
      simp only [SequentialIterator.atEnd, SequentialIterator.atEndImpl,
        SequentialIterator.getIndex, ge_iff_le, decide_eq_false_iff_not]
      omega
    obtain ⟨f, rfl⟩ : ∃ f, fuel = f + 1 := ⟨fuel - 1, by omega⟩
    have hd : it.m_externalReader.delivers data.capacity = false := by
      rw [← Bool.not_eq_true, delivers_iff]
      omega
    have he := iterator_read_error it data _ (by omega)
      (readBuffer_short it.m_reader data it.m_externalReader hs hw hd)
    unfold readUntilEnd
    simp only [hend, Bool.false_eq_true, if_false, he]
  | succ q ih =>
    intro fuel it data total r hf hs hw hr hrc hl hcur hq
    have hq1 : it.m_index + q * data.capacity + data.capacity + r
        = it.m_reader.getNumPoints := by
      rw [← hq, Nat.succ_mul]; omega
    have hend : it.atEnd = false := by
      simp only [SequentialIterator.atEnd, SequentialIterator.atEndImpl,
        SequentialIterator.getIndex, ge_iff_le, decide_eq_false_iff_not]
      omega
    obtain ⟨f, rfl⟩ : ∃ f, fuel = f + 1 := ⟨fuel - 1, by omega⟩
    obtain ⟨d1, pt, e, s1, c1, _⟩ := iterator_read_ok it data (by omega) hs hw (by omega)
    unfold readUntilEnd
    simp only [hend, Bool.false_eq_true, if_false, e]
    exact ih f ⟨it.m_reader, ⟨it.m_externalReader.records,
      it.m_externalReader.current + data.capacity, pt⟩, it.m_index + data.capacity⟩ d1 (total + data.capacity) r (by omega) (by rw [s1]; exact hs) hw hr
      (by rw [c1]; exact hrc) hl (by simp only [hcur])
      (by rw [c1]
          show it.m_index + data.capacity + q * data.capacity + r = it.m_reader.getNumPoints
          omega)

/-- C18. On a fresh iterator over a stage of `N` points without waveform
data, backed by a source that holds `N` records, with a buffer of capacity
`c ≥ 1` whose schema registers the reader's fields: when `c` divides `N` the
loop of reads until `atEnd()` ends without error after `N / c` reads and the
counts returned sum to `N`; when `c` does not divide `N` the loop ends with
the libpc error, thrown by the read that follows the `N / c` full ones. -/
theorem readUntilEnd_sum (rd : LiblasReader) (records : List Point) (data : PointBuffer)
    (fuel : Nat) (hN : records.length = rd.getNumPoints) (hw : rd.hasWaveData = false)
    (hc : 1 ≤ data.capacity) (hs : data.schema.registers rd = true) :
    (data.capacity ∣ rd.getNumPoints → rd.getNumPoints / data.capacity ≤ fuel →
      readUntilEnd fuel (SequentialIterator.fresh rd records) data 0
        = some (.ok rd.getNumPoints)) ∧
    (¬ data.capacity ∣ rd.getNumPoints → rd.getNumPoints / data.capacity + 1 ≤ fuel →
      readUntilEnd fuel (SequentialIterator.fresh rd records) data 0
        = some (.error .libpc_error)) := by
  constructor
  · intro hdvd hf
    have e := readUntilEnd_exact (rd.getNumPoints / data.capacity) fuel
      (SequentialIterator.fresh rd records) data 0 hf hs hw hc hN rfl
      (by simp only [SequentialIterator.fresh, Nat.zero_add]; exact Nat.div_mul_cancel hdvd)
    rw [e, Nat.zero_add, Nat.div_mul_cancel hdvd]
  · intro hdvd hf
    have hr : 0 < rd.getNumPoints % data.capacity :=
      Nat.pos_of_ne_zero (fun h => hdvd (Nat.dvd_of_mod_eq_zero h))
    exact readUntilEnd_rest (rd.getNumPoints / data.capacity) fuel
      (SequentialIterator.fresh rd records) data 0 (rd.getNumPoints % data.capacity) hf hs hw hr
      (Nat.mod_lt _ (by omega)) hN rfl
      (by simp only [SequentialIterator.fresh, Nat.zero_add]
          rw [Nat.mul_comm]; exact Nat.div_add_mod _ _)

/-! ## Short reads and waveform data -/

/-- C19. The call `readBuffer` returns no count other than the capacity `c`
of the buffer, and only after the source delivered `c` records; when the
source fails on one of the first `c` requests, `readBuffer` throws (the libpc
error, when the schema registers the reader's fields and the reader has no
waveform data). -/
theorem readBuffer_no_short_read (rd : LiblasReader) (data : PointBuffer)
    (ext : ExternalReader) :
    (∀ m, (readBuffer rd data ext).result = .ok m →
      m = data.capacity ∧ ext.delivers data.capacity = true) ∧
    (∀ k, k ≤ data.capacity → ext.delivers k = false →
      (∃ e, (readBuffer rd data ext).result = .error e) ∧
      (data.schema.registers rd = true → rd.hasWaveData = false →
        (readBuffer rd data ext).result = .error .libpc_error)) := by
  refine ⟨fun m h => readBuffer_result rd data ext m h, fun k hk hd => ?_⟩
  have hd1 : ext.delivers data.capacity = false := by
    rw [← Bool.not_eq_true, delivers_iff] at hd ⊢
    omega
  exact ⟨readBuffer_error_of_short rd data ext hd1,
    fun hs hw => readBuffer_short rd data ext hs hw hd1⟩

/-- C20. For a reader that reports waveform data and a buffer whose schema
registers the reader's fields: `readBuffer` into a buffer of capacity 0
returns 0; with capacity at least 1 it throws the libpc error when the source
fails on the first request, and otherwise throws the not-yet-implemented
error after it stored the first record and set the count of valid points to
1. -/
theorem readBuffer_waveData (rd : LiblasReader) (data : PointBuffer) (ext : ExternalReader)
    (hw : rd.hasWaveData = true) (hs : data.schema.registers rd = true) :
    (data.capacity = 0 → readBuffer rd data ext = ⟨.ok 0, data, ext⟩) ∧
    (1 ≤ data.capacity → ext.delivers 1 = false →
      readBuffer rd data ext = ⟨.error .libpc_error, data, ext⟩) ∧
    (1 ≤ data.capacity → ext.delivers 1 = true →
      (readBuffer rd data ext).result = .error .not_yet_implemented ∧
      (readBuffer rd data ext).data.numPoints = 1 ∧
      (readBuffer rd data ext).externalReader.current = ext.current + 1) := by
  obtain ⟨ix, e, hix⟩ := lookupIndexes_ok rd data.schema hs
  refine ⟨fun hc => readBuffer_capacity_zero rd data ext hs hc, fun hc hd => ?_, fun hc hd => ?_⟩
  · have hl : ext.records.length ≤ ext.current := by
      rw [← Bool.not_eq_true, delivers_iff] at hd
      omega
    obtain ⟨n, hn⟩ : ∃ n, data.capacity = n + 1 := ⟨data.capacity - 1, by omega⟩
    unfold readBuffer
    simp only [PointBuffer.getCapacity, PointBuffer.getSchema, e]
    rw [hn, readBufferLoop_request_fails rd ix _ n 0 data ext hl]
  · have hl : ext.current < ext.records.length := by
      have := (delivers_iff 1 ext).1 hd
      omega
    obtain ⟨n, hn⟩ : ∃ n, data.capacity = n + 1 := ⟨data.capacity - 1, by omega⟩
    obtain ⟨d2, _, _, n2, e2⟩ :=
      readBufferLoop_round rd ix data.capacity n 0 data ext hix (by omega) hl
    rw [hw, if_pos rfl] at e2
    unfold readBuffer
    simp only [PointBuffer.getCapacity, PointBuffer.getSchema, e]
    rw [show readBufferLoop rd ix data.capacity data.capacity 0 data ext
        = readBufferLoop rd ix data.capacity (n + 1) 0 data ext from by rw [← hn], e2]
    exact ⟨rfl, by simp only [n2], rfl⟩

/-! ## The claims on concrete iterators -/

/-- Witness for C16: on a fresh iterator (cursor 0) over a stage of 3 points
`skip(5)` returns `min(5, 3 - 0) = 3`, less than 5, and the cursor and the
source stand at 3; `skip(2)` returns 2 and the cursor stands at 2. -/
theorem skip_returns_clamped_advance_witness :
    (SequentialIterator.fresh (readerFormat0 3) threeRecords).m_index = 0 ∧
    (SequentialIterator.fresh (readerFormat0 3) threeRecords).m_reader.getNumPoints = 3 ∧
    ((SequentialIterator.fresh (readerFormat0 3) threeRecords).skip 64 5).1 = 3 ∧
    ((SequentialIterator.fresh (readerFormat0 3) threeRecords).skip 64 5).1 < 5 ∧
    ((SequentialIterator.fresh (readerFormat0 3) threeRecords).skip 64 5).2.m_index = 3 ∧
    ((SequentialIterator.fresh (readerFormat0 3) threeRecords).skip 64
      5).2.m_externalReader.current = 3 ∧
    ((SequentialIterator.fresh (readerFormat0 3) threeRecords).skip 64 2).1 = 2 ∧
    ((SequentialIterator.fresh (readerFormat0 3) threeRecords).skip 64 2).2.m_index = 2 :=
  ⟨rfl, rfl,
    (skip_returns_clamped_advance 64 (SequentialIterator.fresh (readerFormat0 3) threeRecords)
      5).1,
    (skip_returns_clamped_advance 64 (SequentialIterator.fresh (readerFormat0 3) threeRecords)
      5).2.2.2.1 (by decide),
    (skip_returns_clamped_advance 64 (SequentialIterator.fresh (readerFormat0 3) threeRecords)
      5).2.1,
    rfl,
    (skip_returns_clamped_advance 64 (SequentialIterator.fresh (readerFormat0 3) threeRecords)
      2).1,
    (skip_returns_clamped_advance 64 (SequentialIterator.fresh (readerFormat0 3) threeRecords)
      2).2.1⟩

/-- Witness for C17: an iterator over a stage of 3 points whose cursor is 3
and whose source has delivered its 3 records, and a buffer of capacity 2: the
read returns 0 and leaves the iterator as it was.  Likewise at the declared
total 2 of a stage whose source holds a third record. -/
theorem read_at_total_returns_zero_witness :
    iteratorAtEnd.m_reader.getNumPoints ≤ iteratorAtEnd.m_index ∧
    (bufferFormat0 2).capacity = 2 ∧
    (iteratorAtEnd.read (bufferFormat0 2)).result = .ok 0 ∧
    (iteratorAtEnd.read (bufferFormat0 2)).iterator = iteratorAtEnd ∧
    (iteratorAtEnd.read (bufferFormat0 2)).data = bufferFormat0 2 ∧
    iteratorAtDeclaredEnd.m_reader.getNumPoints ≤ iteratorAtDeclaredEnd.m_index ∧
    (iteratorAtDeclaredEnd.read (bufferFormat0 1)).result = .ok 0 ∧
    (iteratorAtDeclaredEnd.read (bufferFormat0 1)).iterator.m_index = 2 ∧
    (iteratorAtDeclaredEnd.read (bufferFormat0 1)).iterator.m_externalReader.current = 2 :=
  ⟨by decide, rfl,
    (read_at_total_returns_zero iteratorAtEnd (bufferFormat0 2) (by decide)).2.1,
    (read_at_total_returns_zero iteratorAtEnd (bufferFormat0 2) (by decide)).2.2.2.2.1,
    (read_at_total_returns_zero iteratorAtEnd (bufferFormat0 2) (by decide)).2.2.2.2.2,
    by decide,
    (read_at_total_returns_zero iteratorAtDeclaredEnd (bufferFormat0 1) (by decide)).2.1,
    (read_at_total_returns_zero iteratorAtDeclaredEnd (bufferFormat0 1) (by decide)).2.2.1,
    rfl⟩

/-- Counterexample for C18: a stage of 3 points backed by a source of 3
records, read with a buffer of capacity 2: the first read returns 2, the
iterator is then not at its end, and the second read throws the libpc error,
so the loop of reads does not complete. -/
theorem readUntilEnd_capacity_two_of_three :
    threeRecords.length = 3 ∧ (readerFormat0 3).getNumPoints = 3 ∧
    (bufferFormat0 2).capacity = 2 ∧
    ((SequentialIterator.fresh (readerFormat0 3) threeRecords).read (bufferFormat0 2)).result
      = .ok 2 ∧
    ((SequentialIterator.fresh (readerFormat0 3) threeRecords).read
      (bufferFormat0 2)).iterator.atEnd = false ∧
    readUntilEnd 5 (SequentialIterator.fresh (readerFormat0 3) threeRecords) (bufferFormat0 2) 0
      = some (.error .libpc_error) :=
  ⟨rfl, rfl, rfl, rfl, rfl, rfl⟩

/-- Witness for C18: three records read with a buffer of capacity 3, which
divides the total: the loop returns the sum 3. -/
theorem readUntilEnd_sum_witness :
    threeRecords.length = (readerFormat0 3).getNumPoints ∧
    (readerFormat0 3).hasWaveData = false ∧ 1 ≤ (bufferFormat0 3).capacity ∧
    (bufferFormat0 3).schema.registers (readerFormat0 3) = true ∧
    (bufferFormat0 3).capacity ∣ (readerFormat0 3).getNumPoints ∧
    (readerFormat0 3).getNumPoints / (bufferFormat0 3).capacity ≤ 1 ∧
    readUntilEnd 1 (SequentialIterator.fresh (readerFormat0 3) threeRecords) (bufferFormat0 3) 0
      = some (.ok (readerFormat0 3).getNumPoints) :=
  ⟨by decide, by decide, by decide, by decide, by decide, by decide,
    (readUntilEnd_sum (readerFormat0 3) threeRecords (bufferFormat0 3) 1 (by decide)
      (by decide) (by decide) (by decide)).1 (by decide) (by decide)⟩

/-- Witness for C19: a buffer of capacity 2 and a source with one record left:
the second request fails, and `readBuffer` throws the libpc error. -/
theorem readBuffer_no_short_read_witness :
    2 ≤ (bufferFormat0 2).capacity ∧ (sourceAt 2).delivers 1 = true ∧
    (sourceAt 2).delivers 2 = false ∧
    (∃ e, (readBuffer (readerFormat0 3) (bufferFormat0 2) (sourceAt 2)).result = .error e) ∧
    (readBuffer (readerFormat0 3) (bufferFormat0 2) (sourceAt 2)).result
      = .error .libpc_error :=
  ⟨by decide, by decide, by decide,
    ((readBuffer_no_short_read (readerFormat0 3) (bufferFormat0 2) (sourceAt 2)).2 2
      (by decide) (by decide)).1,
    ((readBuffer_no_short_read (readerFormat0 3) (bufferFormat0 2) (sourceAt 2)).2 2
      (by decide) (by decide)).2 (by decide) (by decide)⟩

/-- Counterexample for C20: for a reader that reports waveform data,
`readBuffer` into a buffer of capacity 0 returns 0 without an error, and
`readBuffer` into a buffer of capacity 2 from a source with no record left
throws the libpc error, not the not-yet-implemented error. -/
theorem readBuffer_waveData_other_results :
    (readerWithWaveData 3).hasWaveData = true ∧
    (readBuffer (readerWithWaveData 3) (bufferFormat0 0) (sourceAt 0)).result = .ok 0 ∧
    (readBuffer (readerWithWaveData 3) (bufferFormat0 2) (sourceAt 3)).result
      = .error .libpc_error :=
  ⟨rfl, rfl, rfl⟩

/-- Witness for C20: a reader that reports waveform data, a buffer of capacity
2 and a source at its first record: `readBuffer` throws the
not-yet-implemented error with one point counted as valid. -/
theorem readBuffer_waveData_witness :
    (readerWithWaveData 3).hasWaveData = true ∧
    (bufferFormat0 2).schema.registers (readerWithWaveData 3) = true ∧
    1 ≤ (bufferFormat0 2).capacity ∧ (sourceAt 0).delivers 1 = true ∧
    ((readBuffer (readerWithWaveData 3) (bufferFormat0 2) (sourceAt 0)).result
        = .error .not_yet_implemented ∧
      (readBuffer (readerWithWaveData 3) (bufferFormat0 2) (sourceAt 0)).data.numPoints = 1 ∧
      (readBuffer (readerWithWaveData 3) (bufferFormat0 2) (sourceAt 0)).externalReader.current
        = (sourceAt 0).current + 1) :=
  ⟨by decide, by decide, by decide, by decide,
    (readBuffer_waveData (readerWithWaveData 3) (bufferFormat0 2) (sourceAt 0) (by decide)
      (by decide)).2.2 (by decide) (by decide)⟩

/-! ## The random iterator -/

/-- The value that `seekImpl` returns is its argument; the position handed to
the source is the argument narrowed to `size_t`; the two agree exactly when
the argument fits `size_t`. -/
theorem seekImpl_eq (w : Nat) (it : RandomIterator) (pos : Nat) :
    (it.seekImpl w pos).1 = pos ∧
    (it.seekImpl w pos).2.m_externalReader.current = pos % 2 ^ w ∧
    ((it.seekImpl w pos).1 = (it.seekImpl w pos).2.m_externalReader.current ↔ pos < 2 ^ w) := by
  refine ⟨rfl, rfl, ?_⟩
  show pos = pos % 2 ^ w ↔ pos < 2 ^ w
  constructor
  · intro h
    rw [h]
    exact Nat.mod_lt _ (Nat.pow_pos (by decide))
  · intro h
    rw [Nat.mod_eq_of_lt h]

/-- C21. On a platform whose `size_t` has 32 bits, `seekImpl` of the
position `2 ^ 32 + 5` moves the source to record 5 and returns
`2 ^ 32 + 5`: the value returned is not the position handed to the source. -/
theorem seekImpl_returns_unnarrowed_position :
    (randomIteratorOfThree.seekImpl 32 4294967301).1 = 4294967301 ∧
    (randomIteratorOfThree.seekImpl 32 4294967301).2.m_externalReader.current = 5 ∧
    (randomIteratorOfThree.seekImpl 32 4294967301).1
      ≠ (randomIteratorOfThree.seekImpl 32 4294967301).2.m_externalReader.current ∧
    4294967301 < 2 ^ 64 := by
  decide

/-! ## The count of valid points -/

/-- Stores into the buffer change neither schema nor capacity nor the count of
valid points, whether they succeed or not. -/
theorem setFields_frame (ws : List (Nat × Int)) (data : PointBuffer) (i : Nat) :
    (setFields data i ws).2.schema = data.schema ∧
    (setFields data i ws).2.capacity = data.capacity ∧
    (setFields data i ws).2.numPoints = data.numPoints := by
  induction ws generalizing data with
  | nil => exact ⟨rfl, rfl, rfl⟩
  | cons w rest ih =>
    unfold setFields
    unfold PointBuffer.setField
    by_cases h : i < data.capacity ∧ w.1 < data.schema.dimensions.length
    · rw [if_pos h]
      simp only
      exact ih _
    · rw [if_neg h]
      exact ⟨rfl, rfl, rfl⟩

/-- When the loop returns normally, the count of valid points is the loop
counter reached, or the count that the buffer had when the loop has no
round. -/
theorem readBufferLoop_numPoints (rd : LiblasReader) (ix : DimensionIndexes) (N : Nat) :
    ∀ (n i : Nat) (data : PointBuffer) (ext : ExternalReader) (m : Nat),
      (readBufferLoop rd ix N n i data ext).result = .ok m →
      (readBufferLoop rd ix N n i data ext).data.numPoints
        = if n = 0 then data.numPoints else i + n := by
  intro n
  induction n with
  | zero => intro i data ext m _; rfl
  | succ n ih =>
    intro i data ext m h
    unfold readBufferLoop at h ⊢
    split
    · rename_i ext1 hr
      rw [hr] at h
      cases h
    · rename_i ext1 hr
      rw [hr] at h
      simp only at h ⊢
      split
      · rename_i e d1 hs
        rw [hs] at h
        cases h
      · rename_i d1 hs
        rw [hs] at h
        simp only at h ⊢
        have hd1 := (setFields_frame (pointWrites rd ix ext1.GetPoint) data i).2.2
        rw [hs] at hd1
        split
        · rename_i e hn
          rw [hn] at h
          cases h
        · rename_i d2 hn
          rw [hn] at h
          simp only at h ⊢
          have hd2 : d2.numPoints = i + 1 := by
            unfold PointBuffer.setNumPoints at hn
            split at hn
            · cases hn; rfl
            · cases hn
          split
          · rename_i hw
            rw [if_pos hw] at h
            cases h
          · rename_i hw
            rw [if_neg hw] at h
            rw [ih _ _ _ _ h, hd2, if_neg (Nat.succ_ne_zero n)]
            split <;> omega

/-- C29. After a `readBuffer` that returns normally into a buffer whose count
of valid points did not exceed its capacity, the count of valid points is the
value returned, also for capacity 0. -/
theorem readBuffer_numPoints_eq_result (rd : LiblasReader) (data : PointBuffer)
    (ext : ExternalReader) (m : Nat) (hinv : data.numPoints ≤ data.capacity)
    (hok : (readBuffer rd data ext).result = .ok m) :
    (readBuffer rd data ext).data.numPoints = m := by
  have hm := (readBuffer_result rd data ext m hok).1
  unfold readBuffer at hok ⊢
  simp only [PointBuffer.getCapacity, PointBuffer.getSchema] at hok ⊢
  split
  · rename_i e he
    rw [he] at hok
    cases hok
  · rename_i ix he
    rw [he] at hok
    simp only at hok ⊢
    rw [readBufferLoop_numPoints _ _ _ _ _ _ _ _ hok, hm]
    split <;> omega

/-! ## The values stored by `readBuffer` -/

/-- In a schema that registers the fields of the reader the lookups of
`readBuffer` give the indices of the fields in the schema. -/
theorem lookupIndexes_eq (rd : LiblasReader) (s : Schema) (h : s.registers rd = true) :
    lookupIndexes rd s = .ok (indexesOf rd s) := by
  have hm : ∀ f ∈ requiredFields rd, f ∈ s.dimensions := by
    intro f hf
    have := List.all_eq_true.1 h f hf
    simpa using this
  obtain ⟨n, t, c, w⟩ := rd
  have g : ∀ f, f ∈ requiredFields ⟨n, t, c, w⟩ →
      s.getDimensionIndex f = .ok (s.dimensions.indexOf f) :=
    fun f hf => getDimensionIndex_ok s f (hm f hf)
  cases t <;> cases c
  all_goals
    simp only [lookupIndexes, indexesOf, bind, Except.bind, pure, Except.pure, if_true, if_false,
      Bool.false_eq_true, g .X (by simp [requiredFields]), g .Y (by simp [requiredFields]),
      g .Z (by simp [requiredFields]), g .Intensity (by simp [requiredFields]),
      g .ReturnNumber (by simp [requiredFields]), g .NumberOfReturns (by simp [requiredFields]),
      g .ScanDirectionFlag (by simp [requiredFields]),
      g .EdgeOfFlightLine (by simp [requiredFields]),
      g .Classification (by simp [requiredFields]), g .ScanAngleRank (by simp [requiredFields]),
      g .UserData (by simp [requiredFields]), g .PointSourceId (by simp [requiredFields])]
  · simp only [g .Red (by simp [requiredFields]), g .Green (by simp [requiredFields]),
      g .Blue (by simp [requiredFields])]
  · simp only [g .Time (by simp [requiredFields])]
  · simp only [g .Time (by simp [requiredFields]), g .Red (by simp [requiredFields]),
      g .Green (by simp [requiredFields]), g .Blue (by simp [requiredFields])]

theorem getDimensionIndex_error (s : Schema) (f : Field) (h : f ∉ s.dimensions) :
    s.getDimensionIndex f = .error .unknownDimension := by
  unfold Schema.getDimensionIndex
  rw [if_neg h]

theorem getDimensionIndex_bind {α : Type} (s : Schema) (f : Field)
    (k : Nat → Except IteratorError α) (r : α)
    (h : (s.getDimensionIndex f >>= k) = .ok r) :
    f ∈ s.dimensions ∧ k (s.dimensions.indexOf f) = .ok r := by
  by_cases hf : f ∈ s.dimensions
  · rw [getDimensionIndex_ok s f hf] at h
    exact ⟨hf, h⟩
  · rw [getDimensionIndex_error s f hf] at h
    cases h

/-- The lookups of `readBuffer` succeed only in a schema that registers the
fields of the reader. -/
theorem lookupIndexes_registers (rd : LiblasReader) (s : Schema) (ix : DimensionIndexes)
    (h : lookupIndexes rd s = .ok ix) : s.registers rd = true := by
  obtain ⟨n, t, c, w⟩ := rd
  unfold lookupIndexes at h
  obtain ⟨h1, h⟩ := getDimensionIndex_bind _ _ _ _ h
  obtain ⟨h2, h⟩ := getDimensionIndex_bind _ _ _ _ h
  obtain ⟨h3, h⟩ := getDimensionIndex_bind _ _ _ _ h
  obtain ⟨h4, h⟩ := getDimensionIndex_bind _ _ _ _ h
  obtain ⟨h5, h⟩ := getDimensionIndex_bind _ _ _ _ h
  obtain ⟨h6, h⟩ := getDimensionIndex_bind _ _ _ _ h
  obtain ⟨h7, h⟩ := getDimensionIndex_bind _ _ _ _ h
  obtain ⟨h8, h⟩ := getDimensionIndex_bind _ _ _ _ h
  obtain ⟨h9, h⟩ := getDimensionIndex_bind _ _ _ _ h
  obtain ⟨h10, h⟩ := getDimensionIndex_bind _ _ _ _ h
  obtain ⟨h11, h⟩ := getDimensionIndex_bind _ _ _ _ h
  obtain ⟨h12, h⟩ := getDimensionIndex_bind _ _ _ _ h
  cases t <;> cases c <;> simp only [if_true, if_false, Bool.false_eq_true] at h
  · simp [Schema.registers, requiredFields, h1, h2, h3, h4, h5, h6, h7, h8, h9, h10, h11, h12]
  · simp only [pure, Except.pure, bind, Except.bind] at h
    obtain ⟨h13, h⟩ := getDimensionIndex_bind _ _ _ _ h
    obtain ⟨h14, h⟩ := getDimensionIndex_bind _ _ _ _ h
    obtain ⟨h15, h⟩ := getDimensionIndex_bind _ _ _ _ h
    simp [Schema.registers, requiredFields, h1, h2, h3, h4, h5, h6, h7, h8, h9, h10, h11, h12,
      h13, h14, h15]
  · obtain ⟨h13, h⟩ := getDimensionIndex_bind _ _ _ _ h
    simp [Schema.registers, requiredFields, h1, h2, h3, h4, h5, h6, h7, h8, h9, h10, h11, h12,
      h13]
  · obtain ⟨h13, h⟩ := getDimensionIndex_bind _ _ _ _ h
    obtain ⟨h14, h⟩ := getDimensionIndex_bind _ _ _ _ h
    obtain ⟨h15, h⟩ := getDimensionIndex_bind _ _ _ _ h
    obtain ⟨h16, h⟩ := getDimensionIndex_bind _ _ _ _ h
    simp [Schema.registers, requiredFields, h1, h2, h3, h4, h5, h6, h7, h8, h9, h10, h11, h12,
      h13, h14, h15, h16]

/-- The stores of one round are, in order, one store per field kind that the
reader looks up: at the index of the field, of the value of the record for
it. -/
theorem pointWrites_eq_map (rd : LiblasReader) (s : Schema) (pt : Point) :
    pointWrites rd (indexesOf rd s) pt
      = (requiredFields rd).map (fun f => (s.dimensions.indexOf f, storedValue pt f)) := by
  obtain ⟨n, t, c, w⟩ := rd
  cases t <;> cases c <;> rfl

/-- The fields that the reader looks up are pairwise different. -/
theorem requiredFields_nodup (rd : LiblasReader) : (requiredFields rd).Nodup := by
  obtain ⟨n, t, c, w⟩ := rd
  cases t <;> cases c <;> simp [requiredFields]

theorem lastWrite_cons (w : Nat × Int) (rest : List (Nat × Int)) (d : Nat) :
    lastWrite (w :: rest) d
      = match lastWrite rest d with
        | some v => some v
        | none => if w.1 = d then some w.2 else none := rfl

theorem lastWrite_none_of_not_mem (ws : List (Nat × Int)) (d : Nat)
    (h : ∀ w ∈ ws, w.1 ≠ d) : lastWrite ws d = none := by
  induction ws with
  | nil => rfl
  | cons w rest ih =>
    rw [lastWrite_cons, ih (fun x hx => h x (List.mem_cons_of_mem _ hx)),
      if_neg (h w (List.mem_cons_self _ _))]

/-- In a sequence of stores at pairwise different indices, one per element of
a list, the last store into the index of an element is the store for that
element. -/
theorem lastWrite_map {α : Type} (g : α → Nat) (v : α → Int) (l : List α)
    (hinj : ∀ a ∈ l, ∀ b ∈ l, g a = g b → a = b) (hnd : l.Nodup) (a : α) (ha : a ∈ l) :
    lastWrite (l.map (fun f => (g f, v f))) (g a) = some (v a) := by
  induction l with
  | nil => cases ha
  | cons b rest ih =>
    rw [List.map_cons, lastWrite_cons]
    have hnd1 := List.nodup_cons.1 hnd
    rcases List.mem_cons.1 ha with hab | har
    · subst hab
      rw [lastWrite_none_of_not_mem]
      · simp
      · intro w hw
        obtain ⟨c, hc, rfl⟩ := List.mem_map.1 hw
        intro hg
        have := hinj c (List.mem_cons_of_mem _ hc) a (List.mem_cons_self _ _) hg
        subst this
        exact hnd1.1 hc
    · rw [ih (fun x hx y hy => hinj x (List.mem_cons_of_mem _ hx) y (List.mem_cons_of_mem _ hy))
        hnd1.2 har]

/-- The fields of the buffer after a sequence of stores that succeeds. -/
theorem setFields_fields (ws : List (Nat × Int)) (data data1 : PointBuffer) (i : Nat)
    (h : setFields data i ws = (.ok (), data1)) (p d : Nat) :
    data1.fields p d
      = if p = i then (lastWrite ws d).getD (data.fields p d) else data.fields p d := by
  induction ws generalizing data with
  | nil =>
    simp only [setFields, Prod.mk.injEq, true_and] at h
    subst h
    simp [lastWrite]
  | cons w rest ih =>
    unfold setFields at h
    unfold PointBuffer.setField at h
    by_cases hc : i < data.capacity ∧ w.1 < data.schema.dimensions.length
    · rw [if_pos hc] at h
      simp only at h
      rw [ih _ h, lastWrite_cons]
      by_cases hp : p = i
      · simp only [hp, if_true, true_and]
        cases hl : lastWrite rest d with
        | some v => simp
        | none =>
          by_cases hd : w.1 = d
          · simp [hd]
          · have hd1 : ¬ d = w.1 := fun e => hd e.symm
            simp [hd, hd1]
      · simp [hp]
    · rw [if_neg hc] at h
      simp only [Prod.mk.injEq] at h
      cases h.1

/-- A round of the loop for a reader without waveform data: the stores of the
record succeed, and the loop goes on with the count of valid points set. -/
theorem readBufferLoop_step (rd : LiblasReader) (ix : DimensionIndexes)
    (N n i : Nat) (data : PointBuffer) (ext : ExternalReader) (hw : rd.hasWaveData = false)
    (hix : ValidIndexes rd data.schema.dimensions.length ix) (hi : i < data.capacity)
    (h : ext.current < ext.records.length) :
    ∃ d1, setFields data i (pointWrites rd ix (ext.records.getD ext.current Point.zero))
        = (.ok (), d1) ∧
      readBufferLoop rd ix N (n + 1) i data ext
        = readBufferLoop rd ix N n (i + 1) { d1 with numPoints := i + 1 }
            { ext with current := ext.current + 1,
                       point := ext.records.getD ext.current Point.zero } := by
  have hg : ext.records.get ⟨ext.current, h⟩ = ext.records.getD ext.current Point.zero := by
    rw [List.getD_eq_getElem _ _ h]
    rfl
  obtain ⟨d1, e1, _, c1, _⟩ := setFields_ok
    (pointWrites rd ix (ext.records.getD ext.current Point.zero)) data i hi (hix _)
  refine ⟨d1, e1, ?_⟩
  conv => lhs; unfold readBufferLoop
  rw [ReadNextPoint_true ext h, hg]
  simp only [ExternalReader.GetPoint, e1, PointBuffer.setNumPoints]
  rw [if_pos (by omega), hw]
  simp only [Bool.false_eq_true, if_false]

/-- The fields of the buffer after a loop that returns: the points of the
rounds hold what the stores of their record left, every other value is as it
was. -/
theorem readBufferLoop_fields (rd : LiblasReader) (ix : DimensionIndexes) (N : Nat)
    (hw : rd.hasWaveData = false) :
    ∀ (n i : Nat) (data : PointBuffer) (ext : ExternalReader),
      ValidIndexes rd data.schema.dimensions.length ix → i + n ≤ data.capacity →
      ext.current + n ≤ ext.records.length → ∀ p d,
      (readBufferLoop rd ix N n i data ext).data.fields p d
        = if i ≤ p ∧ p < i + n then
            (lastWrite (pointWrites rd ix
              (ext.records.getD (ext.current + (p - i)) Point.zero)) d).getD (data.fields p d)
          else data.fields p d := by
  intro n
  induction n with
  | zero =>
    intro i data ext _ _ _ p d
    rw [if_neg (by omega)]
    rfl
  | succ n ih =>
    intro i data ext hix hi hc p d
    obtain ⟨d1, e1, e2⟩ := readBufferLoop_step rd ix N n i data ext hw hix (by omega) (by omega)
    have hf := setFields_frame (pointWrites rd ix (ext.records.getD ext.current Point.zero)) data i
    rw [e1] at hf
    rw [e2, ih (i + 1) _ _ (by simp only; rw [hf.1]; exact hix) (by simp only; rw [hf.2.1]; omega)
      (by simp only; omega)]
    simp only
    rw [setFields_fields _ _ _ _ e1]
    by_cases hp : p = i
    · subst hp
      rw [if_neg (by omega), if_pos rfl, if_pos (by omega), Nat.sub_self, Nat.add_zero]
    · rw [if_neg hp]
      by_cases hr : i + 1 ≤ p ∧ p < i + 1 + n
      · rw [if_pos hr, if_pos (by omega)]
        have e : ext.current + 1 + (p - (i + 1)) = ext.current + (p - i) := by omega
        rw [e]
      · rw [if_neg hr, if_neg (by omega)]

/-- What a `readBuffer` that returns tells: the schema registers the fields of
the reader, the value returned is the capacity, and unless the capacity is 0
the reader has no waveform data and the source held that many records. -/
theorem readBuffer_ok_cases (rd : LiblasReader) (data : PointBuffer) (ext : ExternalReader)
    (m : Nat) (hok : (readBuffer rd data ext).result = .ok m) :
    data.schema.registers rd = true ∧ m = data.capacity ∧
    (data.capacity = 0 ∨
      (rd.hasWaveData = false ∧ ext.current + data.capacity ≤ ext.records.length)) := by
  obtain ⟨hm, hd⟩ := readBuffer_result rd data ext m hok
  have hs : data.schema.registers rd = true := by
    unfold readBuffer at hok
    simp only [PointBuffer.getCapacity, PointBuffer.getSchema] at hok
    split at hok
    · cases hok
    · rename_i ix he
      exact lookupIndexes_registers rd data.schema ix he
  refine ⟨hs, hm, ?_⟩
  by_cases hc : data.capacity = 0
  · left; exact hc
  · right
    have hl := (delivers_iff _ _).1 hd
    refine ⟨?_, by omega⟩
    cases hw : rd.hasWaveData with
    | false => rfl
    | true =>
      exfalso
      obtain ⟨ix, e, hix⟩ := lookupIndexes_ok rd data.schema hs
      obtain ⟨n, hn⟩ : ∃ n, data.capacity = n + 1 := ⟨data.capacity - 1, by omega⟩
      obtain ⟨d2, _, _, _, e2⟩ :=
        readBufferLoop_round rd ix data.capacity n 0 data ext hix (by omega) (by omega)
      rw [hw, if_pos rfl] at e2
      unfold readBuffer at hok
      simp only [PointBuffer.getCapacity, PointBuffer.getSchema, e] at hok
      rw [show readBufferLoop rd ix data.capacity data.capacity 0 data ext
          = readBufferLoop rd ix data.capacity (n + 1) 0 data ext from by rw [← hn], e2] at hok
      cases hok

/-- The conversion to `int8_t` keeps a value below 128. -/
theorem toInt8_of_lt (n : Nat) (h : n < 128) : toInt8 n = n := by
  unfold toInt8
  rw [Nat.mod_eq_of_lt (by omega), if_pos h]

/-- For a record whose four converted values are below 128, the values that
`readBuffer` stores are the values of the record. -/
theorem storedValue_eq_valueOf (pt : Point) (h : pt.flagsInRange) (f : Field) :
    storedValue pt f = pt.valueOf f := by
  obtain ⟨h1, h2, h3, h4⟩ := h
  cases f <;> simp only [storedValue, Point.valueOf, toInt8_of_lt, h1, h2, h3, h4]

/-- The buffer that a `readBuffer` without waveform data leaves: the points
below the capacity hold what the stores of their record left. -/
theorem readBuffer_fields (rd : LiblasReader) (data : PointBuffer) (ext : ExternalReader)
    (hs : data.schema.registers rd = true) (hw : rd.hasWaveData = false)
    (hc : ext.current + data.capacity ≤ ext.records.length) (p d : Nat) :
    (readBuffer rd data ext).data.fields p d
      = if p < data.capacity then
          (lastWrite ((requiredFields rd).map (fun f => (data.schema.dimensions.indexOf f,
              storedValue (ext.records.getD (ext.current + p) Point.zero) f))) d).getD
            (data.fields p d)
        else data.fields p d := by
  obtain ⟨ix, e, hix⟩ := lookupIndexes_ok rd data.schema hs
  have e1 := lookupIndexes_eq rd data.schema hs
  have hf := readBufferLoop_fields rd (indexesOf rd data.schema) data.capacity hw data.capacity 0
    data ext (by rw [e1] at e; cases e; exact hix) (by omega) hc p d
  unfold readBuffer
  simp only [PointBuffer.getCapacity, PointBuffer.getSchema, e1]
  rw [hf, pointWrites_eq_map]
  simp only [Nat.zero_le, true_and, Nat.zero_add, Nat.sub_zero]

/-- C22. When `readBuffer` returns normally on a source whose records hold
their four converted values below 128: the value returned is the capacity `c`
and the source is advanced by `c` records; for every `i < c` the point `i` of
the buffer holds, at the schema's index of each field kind that the reader
looks up (the twelve base fields, Time when the reader has time data, Red,
Green and Blue when it has colour data), the value of the `i`-th record
requested; and every value of the buffer at a point from `c` on, or at a
dimension that is the index of none of these fields, is as it was. -/
theorem readBuffer_stores_records (rd : LiblasReader) (data : PointBuffer)
    (ext : ExternalReader) (m : Nat) (hok : (readBuffer rd data ext).result = .ok m)
    (hflags : ∀ pt ∈ ext.records, pt.flagsInRange) :
    m = data.capacity ∧
    (readBuffer rd data ext).externalReader.current = ext.current + data.capacity ∧
    (∀ i, i < data.capacity → ∃ pt, ext.records[ext.current + i]? = some pt ∧
      ∀ f ∈ requiredFields rd, ∃ d, data.schema.getDimensionIndex f = .ok d ∧
        (readBuffer rd data ext).data.fields i d = pt.valueOf f) ∧
    (∀ p d, (data.capacity ≤ p ∨
        ∀ f ∈ requiredFields rd, data.schema.getDimensionIndex f ≠ .ok d) →
      (readBuffer rd data ext).data.fields p d = data.fields p d) := by
  obtain ⟨hs, hm, hcase⟩ := readBuffer_ok_cases rd data ext m hok
  have hmem : ∀ f ∈ requiredFields rd, f ∈ data.schema.dimensions := by
    intro f hf
    have := List.all_eq_true.1 hs f hf
    simpa using this
  rcases hcase with hc | ⟨hw, hc⟩
  · have e := readBuffer_capacity_zero rd data ext hs hc
    rw [e]
    exact ⟨hm, by rw [hc]; rfl, fun i hi => by omega, fun _ _ _ => rfl⟩
  · obtain ⟨d1, pt1, e, _⟩ := readBuffer_ok rd data ext hs hw hc
    refine ⟨hm, by rw [e], fun i hi => ?_, fun p d hpd => ?_⟩
    · have hlt : ext.current + i < ext.records.length := by omega
      refine ⟨ext.records[ext.current + i], List.getElem?_eq_getElem hlt, fun f hf => ?_⟩
      refine ⟨data.schema.dimensions.indexOf f, getDimensionIndex_ok _ _ (hmem f hf), ?_⟩
      rw [readBuffer_fields rd data ext hs hw hc, if_pos hi,
        lastWrite_map (fun f => data.schema.dimensions.indexOf f) _ _
          (fun a ha b hb hab => (List.indexOf_inj (hmem a ha) (hmem b hb)).1 hab)
          (requiredFields_nodup rd) f hf,
        List.getD_eq_getElem _ _ hlt]
      exact storedValue_eq_valueOf _ (hflags _ (List.getElem_mem _)) f
    · rw [readBuffer_fields rd data ext hs hw hc]
      rcases hpd with hp | hd
      · rw [if_neg (by omega)]
      · split
        · rw [lastWrite_none_of_not_mem]
          · rfl
          · intro w hw1
            obtain ⟨f, hf, rfl⟩ := List.mem_map.1 hw1
            intro hfd
            exact hd f hf (by rw [getDimensionIndex_ok _ _ (hmem f hf)]; simp only at hfd; rw [hfd])
        · rfl

/-- The three records of the sample source hold their converted values below
128. -/
theorem threeRecords_flagsInRange : ∀ pt ∈ (sourceAt 0).records, pt.flagsInRange := by
  intro pt hpt
  simp only [sourceAt, threeRecords, List.mem_cons, List.mem_singleton, List.not_mem_nil,
    or_false] at hpt
  rcases hpt with rfl | rfl | rfl <;> unfold Point.flagsInRange <;> decide

/-- Witness for C22: a read of two of the three sample records into a buffer
of capacity 2 returns 2, and the statement applies to it; the raw X of the
second record, 20, stands at point 1 in dimension 0. -/
theorem readBuffer_stores_records_witness :
    (readBuffer (readerFormat0 3) (bufferFormat0 2) (sourceAt 0)).result = .ok 2 ∧
    (∀ pt ∈ (sourceAt 0).records, pt.flagsInRange) ∧
    (readBuffer (readerFormat0 3) (bufferFormat0 2) (sourceAt 0)).data.fields 1 0 = 20 ∧
    (2 = (bufferFormat0 2).capacity ∧
      (readBuffer (readerFormat0 3) (bufferFormat0 2) (sourceAt 0)).externalReader.current
        = (sourceAt 0).current + (bufferFormat0 2).capacity ∧
      (∀ i, i < (bufferFormat0 2).capacity →
        ∃ pt, (sourceAt 0).records[(sourceAt 0).current + i]? = some pt ∧
          ∀ f ∈ requiredFields (readerFormat0 3),
            ∃ d, (bufferFormat0 2).schema.getDimensionIndex f = .ok d ∧
              (readBuffer (readerFormat0 3) (bufferFormat0 2) (sourceAt 0)).data.fields i d
                = pt.valueOf f) ∧
      (∀ p d, ((bufferFormat0 2).capacity ≤ p ∨
          ∀ f ∈ requiredFields (readerFormat0 3),
            (bufferFormat0 2).schema.getDimensionIndex f ≠ .ok d) →
        (readBuffer (readerFormat0 3) (bufferFormat0 2) (sourceAt 0)).data.fields p d
          = (bufferFormat0 2).fields p d)) :=
  ⟨rfl, threeRecords_flagsInRange, rfl,
    readBuffer_stores_records (readerFormat0 3) (bufferFormat0 2) (sourceAt 0) 2 rfl
      threeRecords_flagsInRange⟩

/-- Witness for C29: a read into a zero-initialized buffer of capacity 2
returns 2, and the buffer then counts 2 valid points. -/
theorem readBuffer_numPoints_eq_result_witness :
    (bufferFormat0 2).numPoints ≤ (bufferFormat0 2).capacity ∧
    (readBuffer (readerFormat0 3) (bufferFormat0 2) (sourceAt 0)).result = .ok 2 ∧
    (readBuffer (readerFormat0 3) (bufferFormat0 2) (sourceAt 0)).data.numPoints = 2 :=
  ⟨by decide, rfl,
    readBuffer_numPoints_eq_result (readerFormat0 3) (bufferFormat0 2) (sourceAt 0) 2
      (by decide) rfl⟩

end libpc.drivers.liblas

namespace libpc.filters

open libpc.drivers.liblas

/-! ## `CropFilter` -/

/-- C23. Every crop filter, whatever its bounds and its previous stage are,
reports that it supports the sequential iterator and not the random one, and
its `createRandomIterator` yields the null pointer. -/
theorem cropFilter_sequential_only (prevStage : Stage) (bounds : Bounds) :
    (CropFilter.mk prevStage bounds).supportsSequentialIterator = true ∧
    (CropFilter.mk prevStage bounds).supportsRandomIterator = false ∧
    (CropFilter.mk prevStage bounds).createRandomIterator = none :=
  ⟨rfl, rfl, rfl⟩

/-! ## `CropFilter::processBuffer` -/

theorem indicesWithin_zero (bounds : Bounds) (fx fy fz : Nat) (src : PointBuffer) (s : Nat) :
    indicesWithin bounds fx fy fz src s 0 = [] := rfl

theorem indicesWithin_succ (bounds : Bounds) (fx fy fz : Nat) (src : PointBuffer) (s n : Nat) :
    indicesWithin bounds fx fy fz src s (n + 1)
      = if bounds.contains (pointCoordinates src fx fy fz s) then
          s :: indicesWithin bounds fx fy fz src (s + 1) n
        else indicesWithin bounds fx fy fz src (s + 1) n := by
  unfold indicesWithin
  rw [List.range'_succ, List.filter_cons]

/-- The loop of `processBuffer` on a destination with room for the points
accepted: it returns the count of the points accepted, sets the count of
valid points, and leaves the accepted points behind the points that the
destination held. -/
theorem processLoop_spec (bounds : Bounds) (fx fy fz : Nat) (src : PointBuffer) :
    ∀ (n s k added : Nat) (dst : PointBuffer), dst.numPoints = k →
      k + (indicesWithin bounds fx fy fz src s n).length ≤ dst.capacity →
      (processLoop bounds fx fy fz src n s k added dst).result
        = .ok (added + (indicesWithin bounds fx fy fz src s n).length) ∧
      (processLoop bounds fx fy fz src n s k added dst).dstData.numPoints
        = k + (indicesWithin bounds fx fy fz src s n).length ∧
      (processLoop bounds fx fy fz src n s k added dst).dstData.capacity = dst.capacity ∧
      (processLoop bounds fx fy fz src n s k added dst).dstData.schema = dst.schema ∧
      ∀ p, (processLoop bounds fx fy fz src n s k added dst).dstData.fields p
        = if k ≤ p ∧ p < k + (indicesWithin bounds fx fy fz src s n).length then
            src.fields ((indicesWithin bounds fx fy fz src s n).getD (p - k) 0)
          else dst.fields p := by
  intro n
  induction n with
  | zero =>
    intro s k added dst hk _
    refine ⟨rfl, by rw [indicesWithin_zero]; exact hk, rfl, rfl, fun p => ?_⟩
    rw [indicesWithin_zero, if_neg (by simp)]
    rfl
  | succ n ih =>
    intro s k added dst hk hcap
    rw [indicesWithin_succ] at hcap ⊢
    unfold processLoop
    by_cases hin : bounds.contains (pointCoordinates src fx fy fz s) = true
    · rw [if_pos hin] at hcap ⊢
      rw [if_pos hin]
      simp only [List.length_cons] at hcap ⊢
      have hlt : k < dst.capacity := by omega
      simp only [copyPoint, if_pos hlt, PointBuffer.setNumPoints]
      rw [if_pos (show k + 1 ≤ dst.capacity from by omega)]
      simp only
      obtain ⟨r1, r2, r3, r4, r5⟩ := ih (s + 1) (k + 1) (added + 1)
        { schema := dst.schema, capacity := dst.capacity, numPoints := k + 1,
          fields := fun p d => if p = k then src.fields s d else dst.fields p d }
        rfl (by simp only; omega)
      refine ⟨by rw [r1]; congr 1; omega, by rw [r2]; omega, r3, r4, fun p => ?_⟩
      rw [r5]
      by_cases hp : p = k
      · subst hp
        rw [if_neg (by omega), if_pos (by omega), Nat.sub_self]
        funext d
        simp
      · by_cases hr : k + 1 ≤ p ∧ p < k + 1 + (indicesWithin bounds fx fy fz src (s + 1) n).length
        · rw [if_pos hr, if_pos (by omega)]
          obtain ⟨j, hj⟩ : ∃ j, p - k = j + 1 := ⟨p - k - 1, by omega⟩
          rw [hj, List.getD_cons_succ, show p - (k + 1) = j from by omega]
        · rw [if_neg hr, if_neg (by omega)]
          funext d
          simp [hp]
    · rw [if_neg hin] at hcap ⊢
      rw [if_neg hin]
      exact ih (s + 1) k added dst hk hcap

/-- The valid points of a buffer whose first `k` points are those of another
buffer and whose next points are given by a list of indices into a source. -/
theorem validPoints_append (dst dst1 src : PointBuffer) (l : List Nat)
    (hn : dst1.numPoints = dst.numPoints + l.length)
    (hf : ∀ p, dst1.fields p
      = if dst.numPoints ≤ p ∧ p < dst.numPoints + l.length then
          src.fields (l.getD (p - dst.numPoints) 0)
        else dst.fields p) :
    validPoints dst1 = validPoints dst ++ l.map (fun p => src.fields p) := by
  unfold validPoints
  apply List.ext_getElem
  · simp [hn]
  · intro i h1 h2
    simp only [List.length_map, List.length_range] at h1
    simp only [List.getElem_map, List.getElem_range]
    rw [hf i]
    by_cases hi : i < dst.numPoints
    · rw [if_neg (by omega), List.getElem_append_left (by simpa using hi)]
      simp
    · rw [if_pos (by omega), List.getElem_append_right (by simpa using hi)]
      simp only [List.length_map, List.length_range, List.getElem_map]
      rw [List.getD_eq_getElem _ _ (by omega)]

/-- No point lies within an empty or degenerate bounds. -/
theorem contains_of_empty (b : Bounds) (point : List ℚ) (h : b.empty = true) :
    b.contains point = false := by
  unfold Bounds.contains
  rw [h]
  rfl

/-- Within a bounds of two axes that both have an extent lie the points whose
X and Y are neither below the minimum nor above the maximum of their axis. -/
theorem contains_two_axes (x0 x1 y0 y1 x y z : ℚ) (hx : x0 < x1) (hy : y0 < y1) :
    (⟨[⟨x0, x1⟩, ⟨y0, y1⟩]⟩ : Bounds).contains [x, y, z] = true
      ↔ (x0 ≤ x ∧ x ≤ x1) ∧ (y0 ≤ y ∧ y ≤ y1) := by
  simp [Bounds.contains, Bounds.empty, Range.contains, not_le.mpr hx, not_le.mpr hy]

/-- No valid point of a source lies within an empty or degenerate bounds. -/
theorem pointsWithin_of_empty (b : Bounds) (src : PointBuffer) (h : b.empty = true) :
    pointsWithin b src = [] := by
  unfold pointsWithin indicesWithin
  rw [List.map_eq_nil_iff, List.filter_eq_nil_iff]
  intro p _
  rw [contains_of_empty b _ h]
  simp

/-- C24. For every crop filter, source buffer whose schema holds X, Y and Z,
and destination buffer with room for the points accepted: `processBuffer`
returns the number of valid points of the source that lie within the bounds,
the valid points of the destination are afterwards those it held followed by
exactly these points of the source in their order, and no other point of the
destination is changed.  An empty or degenerate bounds accepts no point: the
call returns 0 and the valid points of the destination are those it held.
With the bounds `[0, 10] x [0, 10]` and the source points (5, 5), (15, 5),
(-1, 5) it returns 1 and the point accepted is (5, 5); with the bounds
without a range and with the bounds `[5, 5] x [5, 5]` it returns 0 on the
same source. -/
theorem processBuffer_keeps_points_within (f : CropFilter) (dstData srcData : PointBuffer)
    (hX : Field.X ∈ srcData.schema.dimensions) (hY : Field.Y ∈ srcData.schema.dimensions)
    (hZ : Field.Z ∈ srcData.schema.dimensions)
    (hroom : dstData.numPoints + (pointsWithin f.getBounds srcData).length
      ≤ dstData.capacity) :
    (f.processBuffer dstData srcData).result
      = .ok (pointsWithin f.getBounds srcData).length ∧
    (f.processBuffer dstData srcData).dstData.numPoints
      = dstData.numPoints + (pointsWithin f.getBounds srcData).length ∧
    validPoints (f.processBuffer dstData srcData).dstData
      = validPoints dstData ++ pointsWithin f.getBounds srcData ∧
    (∀ p, dstData.numPoints + (pointsWithin f.getBounds srcData).length ≤ p →
      (f.processBuffer dstData srcData).dstData.fields p = dstData.fields p) ∧
    (f.getBounds.empty = true →
      (f.processBuffer dstData srcData).result = .ok 0 ∧
      (f.processBuffer dstData srcData).dstData.numPoints = dstData.numPoints ∧
      validPoints (f.processBuffer dstData srcData).dstData = validPoints dstData) ∧
    (indicesWithin boundsTenByTen 0 1 2 sourceOfThree 0 3 = [0] ∧
      (cropTenByTen.processBuffer emptyDestination sourceOfThree).result = .ok 1 ∧
      (cropTenByTen.processBuffer emptyDestination sourceOfThree).dstData.numPoints = 1 ∧
      (cropTenByTen.processBuffer emptyDestination sourceOfThree).dstData.fields 0 0 = 5 ∧
      (cropTenByTen.processBuffer emptyDestination sourceOfThree).dstData.fields 0 1 = 5) ∧
    (((⟨⟨3, true, false⟩, boundsWithoutRange⟩ : CropFilter).processBuffer emptyDestination
        sourceOfThree).result = .ok 0 ∧
      ((⟨⟨3, true, false⟩, boundsFiveToFive⟩ : CropFilter).processBuffer emptyDestination
        sourceOfThree).result = .ok 0) := by
  have hlen : (pointsWithin f.getBounds srcData).length
      = (indicesWithin f.getBounds (srcData.schema.dimensions.indexOf .X)
          (srcData.schema.dimensions.indexOf .Y) (srcData.schema.dimensions.indexOf .Z)
          srcData 0 srcData.numPoints).length := by
    unfold pointsWithin
    rw [List.length_map]
  have e : f.processBuffer dstData srcData
      = processLoop f.getBounds (srcData.schema.dimensions.indexOf .X)
          (srcData.schema.dimensions.indexOf .Y) (srcData.schema.dimensions.indexOf .Z)
          srcData srcData.numPoints 0 dstData.numPoints 0 dstData := by
    unfold CropFilter.processBuffer
    rw [getDimensionIndex_ok _ _ hX, getDimensionIndex_ok _ _ hY, getDimensionIndex_ok _ _ hZ]
  obtain ⟨r1, r2, _, _, r5⟩ := processLoop_spec f.getBounds
    (srcData.schema.dimensions.indexOf .X) (srcData.schema.dimensions.indexOf .Y)
    (srcData.schema.dimensions.indexOf .Z) srcData srcData.numPoints 0 dstData.numPoints 0
    dstData rfl (by rw [← hlen]; exact hroom)
  have hv : validPoints (processLoop f.getBounds (srcData.schema.dimensions.indexOf .X)
        (srcData.schema.dimensions.indexOf .Y) (srcData.schema.dimensions.indexOf .Z)
        srcData srcData.numPoints 0 dstData.numPoints 0 dstData).dstData
      = validPoints dstData ++ pointsWithin f.getBounds srcData := by
    unfold pointsWithin
    exact validPoints_append dstData _ srcData _ r2 r5
  rw [e, hlen]
  refine ⟨by rw [r1, Nat.zero_add], r2, hv, fun p hp => ?_, fun hemp => ?_,
    ⟨by decide, rfl, rfl, rfl, rfl⟩, rfl, rfl⟩
  · rw [r5, if_neg (by omega)]
  · have hnil := pointsWithin_of_empty f.getBounds srcData hemp
    have hl0 : (indicesWithin f.getBounds (srcData.schema.dimensions.indexOf .X)
          (srcData.schema.dimensions.indexOf .Y) (srcData.schema.dimensions.indexOf .Z)
          srcData 0 srcData.numPoints).length = 0 := by
      rw [← hlen, hnil]
      rfl
    refine ⟨by rw [r1, hl0], by rw [r2, hl0]; rfl, ?_⟩
    rw [hv, hnil, List.append_nil]

/-! ## The mosaic iterator -/

/-- The points that remain from a child on: those of the child and those of
the later children. -/
theorem remaining_of_child (l : List ChildIterator) (i : Nat) (child : ChildIterator)
    (h : l[i]? = some child) :
    ((l.drop i).map ChildIterator.remaining).sum
      = child.remaining + ((l.drop (i + 1)).map ChildIterator.remaining).sum := by
  have hi : i < l.length := by
    by_contra hc
    rw [List.getElem?_eq_none (by omega)] at h
    cases h
  have hc : l[i] = child := by
    rw [List.getElem?_eq_getElem hi] at h
    exact Option.some.inj h
  rw [List.drop_eq_getElem_cons hi, hc]
  simp

theorem remaining_of_none (l : List ChildIterator) (i : Nat) (h : l[i]? = none) :
    ((l.drop i).map ChildIterator.remaining).sum = 0 := by
  have hi : l.length ≤ i := by
    by_contra hc
    rw [List.getElem?_eq_getElem (by omega)] at h
    cases h
  rw [List.drop_eq_nil_iff.2 hi]
  rfl

theorem drop_succ_set (l : List ChildIterator) (i : Nat) (c : ChildIterator) :
    (l.set i c).drop (i + 1) = l.drop (i + 1) := by
  rw [List.drop_set_of_lt _ _ (by omega)]

/-- The walk of `skip` with enough fuel returns the count when the children
from the current one on hold that many points, and all the points that they
hold otherwise. -/
theorem skipLoop_eq (fuel : Nat) :
    ∀ (it : MosaicFilterSequentialIterator) (count skipped : Nat),
      it.m_prevIterators.length + 1 ≤ fuel + it.current →
      (skipLoop fuel it count skipped).1 = skipped + min count it.remaining := by
  induction fuel with
  | zero =>
    intro it count skipped hf
    have hn : it.m_prevIterators[it.current]? = none := List.getElem?_eq_none (by omega)
    unfold MosaicFilterSequentialIterator.remaining
    rw [remaining_of_none _ _ hn]
    simp [skipLoop]
  | succ fuel ih =>
    intro it count skipped hf
    unfold skipLoop
    by_cases hc : count = 0
    · rw [if_pos hc, hc]
      simp
    · rw [if_neg hc]
      cases hl : it.m_prevIterators[it.current]? with
      | none =>
        unfold MosaicFilterSequentialIterator.remaining
        rw [remaining_of_none _ _ hl]
        simp
      | some child =>
        have hr := remaining_of_child _ _ _ hl
        simp only [ChildIterator.skip]
        by_cases hlt : min count child.remaining < count
        · rw [if_pos hlt, ih _ _ _ (by simp only [List.length_set]; omega)]
          unfold MosaicFilterSequentialIterator.remaining
          simp only
          rw [drop_succ_set, hr]
          omega
        · rw [if_neg hlt]
          unfold MosaicFilterSequentialIterator.remaining
          simp only
          rw [hr]
          omega

/-- The general rule of `skip`: the mosaic iterator skips the count asked
for, or all the points that remain in the current and the later children
when these are fewer. -/
theorem mosaic_skipImpl_eq (it : MosaicFilterSequentialIterator) (count : Nat) :
    (it.skipImpl count).1 = min count it.remaining := by
  unfold MosaicFilterSequentialIterator.skipImpl
  rw [skipLoop_eq _ it count 0 (by omega), Nat.zero_add]

/-- The mosaic iterator over children of lengths 3, 0 and 2 after `skip(4)`:
the current child is the third one, and its cursor stands at its second
point. -/
theorem mosaic_skip_four :
    (MosaicFilterSequentialIterator.fresh [3, 0, 2]).skipImpl 4
      = (4, ⟨[⟨3, 3⟩, ⟨0, 0⟩, ⟨2, 1⟩], 2⟩) := by
  decide

/-- A read into a buffer of capacity at least 1 after that skip returns one
point, and the last child is then exhausted. -/
theorem mosaic_read_after_skip (k : Nat) (hk : 1 ≤ k) :
    ((⟨[⟨3, 3⟩, ⟨0, 0⟩, ⟨2, 1⟩], 2⟩ : MosaicFilterSequentialIterator).readImpl k).1 = 1 ∧
    ((⟨[⟨3, 3⟩, ⟨0, 0⟩, ⟨2, 1⟩], 2⟩ : MosaicFilterSequentialIterator).readImpl k).2.atEndImpl
      = true := by
  obtain ⟨j, rfl⟩ : ∃ j, k = j + 1 := ⟨k - 1, by omega⟩
  cases j with
  | zero => decide
  | succ i =>
    simp [MosaicFilterSequentialIterator.readImpl, readLoop, ChildIterator.read,
      ChildIterator.remaining, MosaicFilterSequentialIterator.atEndImpl, ChildIterator.atEnd]

/-- C25. For the mosaic iterator over children of lengths 3, 0 and 2:
`skip(4)` on a fresh iterator returns 4 and leaves the cursor in the third
child at its second point (index 1 within it), a following read into a buffer
of capacity at least 1 returns exactly 1 point, and `atEnd()` is then true; in
general `skip(c)` returns the minimum of `c` and the points that remain in the
current and the later children. -/
theorem mosaic_skip_then_read (k : Nat) (hk : 1 ≤ k) (it : MosaicFilterSequentialIterator)
    (count : Nat) :
    ((MosaicFilterSequentialIterator.fresh [3, 0, 2]).skipImpl 4).1 = 4 ∧
    ((MosaicFilterSequentialIterator.fresh [3, 0, 2]).skipImpl 4).2.current = 2 ∧
    ((MosaicFilterSequentialIterator.fresh [3, 0, 2]).skipImpl 4).2.m_prevIterators[2]?
      = some ⟨2, 1⟩ ∧
    ((MosaicFilterSequentialIterator.fresh [3, 0, 2]).skipImpl 4).2.atEndImpl = false ∧
    (((MosaicFilterSequentialIterator.fresh [3, 0, 2]).skipImpl 4).2.readImpl k).1 = 1 ∧
    (((MosaicFilterSequentialIterator.fresh [3, 0, 2]).skipImpl 4).2.readImpl k).2.atEndImpl
      = true ∧
    (it.skipImpl count).1 = min count it.remaining := by
  rw [mosaic_skip_four]
  exact ⟨rfl, rfl, rfl, by decide, (mosaic_read_after_skip k hk).1,
    (mosaic_read_after_skip k hk).2, mosaic_skipImpl_eq it count⟩

/-- Counterexample for C25: after `skip(4)` over children of lengths 3, 0 and
2 the cursor of the third child is 1, not 0 (3 + 0 + 1 = 4 points are
skipped and one point remains), and a following read into a buffer of
capacity 2 returns 1 point, not 2. -/
theorem mosaic_skip_four_leaves_one_point :
    ((MosaicFilterSequentialIterator.fresh [3, 0, 2]).skipImpl 4).1 = 4 ∧
    ((MosaicFilterSequentialIterator.fresh [3, 0, 2]).skipImpl 4).2.m_prevIterators[2]?
      = some ⟨2, 1⟩ ∧
    ((MosaicFilterSequentialIterator.fresh [3, 0, 2]).skipImpl 4).2.remaining = 1 ∧
    (((MosaicFilterSequentialIterator.fresh [3, 0, 2]).skipImpl 4).2.readImpl 2).1 = 1 := by
  decide

/-- Witness for C25: the statement at a buffer of capacity 2 and at the fresh
iterator itself with the count 4. -/
theorem mosaic_skip_then_read_witness :
    1 ≤ 2 ∧
    (((MosaicFilterSequentialIterator.fresh [3, 0, 2]).skipImpl 4).2.readImpl 2).1 = 1 ∧
    ((MosaicFilterSequentialIterator.fresh [3, 0, 2]).skipImpl 4).1
      = min 4 (MosaicFilterSequentialIterator.fresh [3, 0, 2]).remaining :=
  ⟨by decide,
    (mosaic_skip_then_read 2 (by decide) (MosaicFilterSequentialIterator.fresh [3, 0, 2])
      4).2.2.2.2.1,
    (mosaic_skip_then_read 2 (by decide) (MosaicFilterSequentialIterator.fresh [3, 0, 2])
      4).2.2.2.2.2.2⟩

/-- Witness for C24: the filter with the bounds `[0, 10] x [0, 10]`, the
source of the three points and an empty destination of capacity 3; and the
filter with the degenerate bounds `[5, 5] x [5, 5]` on the same source, which
holds the point (5, 5) and accepts none. -/
theorem processBuffer_keeps_points_within_witness :
    Field.X ∈ sourceOfThree.schema.dimensions ∧ Field.Y ∈ sourceOfThree.schema.dimensions ∧
    Field.Z ∈ sourceOfThree.schema.dimensions ∧
    emptyDestination.numPoints + (pointsWithin cropTenByTen.getBounds sourceOfThree).length
      ≤ emptyDestination.capacity ∧
    (cropTenByTen.processBuffer emptyDestination sourceOfThree).result
      = .ok (pointsWithin cropTenByTen.getBounds sourceOfThree).length ∧
    validPoints (cropTenByTen.processBuffer emptyDestination sourceOfThree).dstData
      = validPoints emptyDestination ++ pointsWithin cropTenByTen.getBounds sourceOfThree ∧
    boundsFiveToFive.empty = true ∧
    ((⟨⟨3, true, false⟩, boundsFiveToFive⟩ : CropFilter).processBuffer emptyDestination
      sourceOfThree).result = .ok 0 ∧
    validPoints ((⟨⟨3, true, false⟩, boundsFiveToFive⟩ : CropFilter).processBuffer
      emptyDestination sourceOfThree).dstData = validPoints emptyDestination :=
  ⟨by decide, by decide, by decide, by decide,
    (processBuffer_keeps_points_within cropTenByTen emptyDestination sourceOfThree (by decide)
      (by decide) (by decide) (by decide)).1,
    (processBuffer_keeps_points_within cropTenByTen emptyDestination sourceOfThree (by decide)
      (by decide) (by decide) (by decide)).2.2.1,
    by decide,
    ((processBuffer_keeps_points_within ⟨⟨3, true, false⟩, boundsFiveToFive⟩ emptyDestination
      sourceOfThree (by decide) (by decide) (by decide) (by decide)).2.2.2.2.1 (by decide)).1,
    ((processBuffer_keeps_points_within ⟨⟨3, true, false⟩, boundsFiveToFive⟩ emptyDestination
      sourceOfThree (by decide) (by decide) (by decide) (by decide)).2.2.2.2.1
      (by decide)).2.2⟩

end libpc.filters

namespace plugins.qt

/-! ## The calls of the driver -/

theorem transaction_log (db : Database) :
    (db.transaction).2.log = db.log ++ [(.transaction, (db.transaction).1)] := by
  unfold Database.transaction
  split <;> rfl

theorem transaction_savepoint (db : Database) :
    (db.transaction).2.savepoint
      = if (db.transaction).1 then some db.tables else db.savepoint := by
  unfold Database.transaction
  split <;> simp [Database.logged, Database.takeFault]

theorem transaction_tables (db : Database) : (db.transaction).2.tables = db.tables := by
  unfold Database.transaction
  split <;> rfl

theorem transaction_ok (db : Database) (h : (db.transaction).1 = true) :
    db.savepoint = none := by
  unfold Database.transaction at h
  split at h
  · cases h
  · rename_i hc
    simp only [not_or, Bool.not_eq_true] at hc
    cases hs : db.savepoint with
    | none => rfl
    | some v => rw [hs] at hc; simp at hc

theorem commit_log (db : Database) :
    (db.commit).2.log = db.log ++ [(.commit, (db.commit).1)] := by
  unfold Database.commit
  split <;> rfl

theorem commit_savepoint (db : Database) :
    (db.commit).2.savepoint = if (db.commit).1 then none else db.savepoint := by
  unfold Database.commit
  split <;> simp [Database.logged, Database.takeFault]

theorem commit_tables (db : Database) : (db.commit).2.tables = db.tables := by
  unfold Database.commit
  split <;> rfl

theorem rollback_log (db : Database) :
    (db.rollback).2.log = db.log ++ [(.rollback, (db.rollback).1)] := by
  unfold Database.rollback
  split <;> rfl

theorem rollback_savepoint (db : Database) :
    (db.rollback).2.savepoint = if (db.rollback).1 then none else db.savepoint := by
  unfold Database.rollback
  split <;> simp [Database.logged, Database.takeFault]

theorem rollback_tables (db : Database) :
    (db.rollback).2.tables
      = if (db.rollback).1 then db.savepoint.getD db.tables else db.tables := by
  unfold Database.rollback
  split
  · rename_i saved _ hs
    simp [Database.logged, hs]
  · simp [Database.logged, Database.takeFault]

theorem execBatch_log (db : Database) (st : Statement) (values : List (List QVariant)) :
    (db.execBatch st values).2.log
      = db.log ++ [(.execBatch st values, (db.execBatch st values).1)] := by
  unfold Database.execBatch
  split
  · rfl
  · split
    · split <;> rfl
    · rfl

theorem execBatch_savepoint (db : Database) (st : Statement) (values : List (List QVariant)) :
    (db.execBatch st values).2.savepoint = db.savepoint := by
  unfold Database.execBatch
  split
  · rfl
  · split
    · split <;> rfl
    · rfl

theorem exec_log (db : Database) (st : Statement) :
    (db.exec st).2.2.log = db.log ++ [(.exec st, (db.exec st).1)] := by
  unfold Database.exec
  split
  · rfl
  · split
    · rfl
    · split <;> rfl
    · split <;> rfl
    · split <;> rfl
    · rfl

theorem exec_savepoint (db : Database) (st : Statement) :
    (db.exec st).2.2.savepoint = db.savepoint := by
  unfold Database.exec
  split
  · rfl
  · split
    · rfl
    · split <;> rfl
    · split <;> rfl
    · split <;> rfl
    · rfl

end plugins.qt

namespace plugins.hackathon

open plugins.qt

/-! ## The functions of `Storage` in closed form -/

theorem beginTransaction_eq (s : Storage) :
    s.beginTransaction = ((s.m_db.transaction).1, ⟨s.m_connectionString, (s.m_db.transaction).2⟩) := by
  unfold Storage.beginTransaction
  split <;> rename_i h <;> rw [h]

theorem rollbackTransaction_eq (s : Storage) :
    s.rollbackTransaction = ((s.m_db.rollback).1, ⟨s.m_connectionString, (s.m_db.rollback).2⟩) := by
  unfold Storage.rollbackTransaction
  split <;> rename_i h <;> rw [h]

theorem commitTransaction_eq (s : Storage) :
    s.commitTransaction
      = ((s.m_db.commit).1,
          ⟨s.m_connectionString,
            if (s.m_db.commit).1 then (s.m_db.commit).2 else ((s.m_db.commit).2.rollback).2⟩) := by
  unfold Storage.commitTransaction
  split <;> rename_i h <;> rw [h] <;> simp

end plugins.hackathon

namespace plugins.qt

/-! ## The tables after a call of the driver -/

theorem lookup_append_of_some (tables extra : List (String × List Row)) (name : String)
    (rows : List Row) (h : tables.lookup name = some rows) :
    (tables ++ extra).lookup name = some rows := by
  induction tables with
  | nil => cases h
  | cons t rest ih =>
    obtain ⟨k, v⟩ := t
    rw [List.cons_append]
    by_cases hk : name = k
    · subst hk
      rw [List.lookup_cons_self] at h ⊢
      exact h
    · have hne : (name == k) = false := by simpa using hk
      rw [List.lookup_cons, hne] at h ⊢
      exact ih h

theorem lookup_append_of_none (tables : List (String × List Row)) (name : String)
    (rows : List Row) (h : tables.lookup name = none) :
    (tables ++ [(name, rows)]).lookup name = some rows := by
  induction tables with
  | nil => simp [List.lookup]
  | cons t rest ih =>
    obtain ⟨k, v⟩ := t
    rw [List.cons_append]
    by_cases hk : name = k
    · subst hk
      rw [List.lookup_cons_self] at h
      cases h
    · have hne : (name == k) = false := by simpa using hk
      rw [List.lookup_cons, hne] at h ⊢
      exact ih h

theorem lookup_append_of_ne (tables : List (String × List Row)) (name other : String)
    (rows : List Row) (h : name ≠ other) :
    (tables ++ [(other, rows)]).lookup name = tables.lookup name := by
  induction tables with
  | nil =>
    have hne : (name == other) = false := by simpa using h
    simp [List.lookup, hne]
  | cons t rest ih =>
    obtain ⟨k, v⟩ := t
    rw [List.cons_append]
    by_cases hk : name = k
    · subst hk
      rw [List.lookup_cons_self, List.lookup_cons_self]
    · have hne : (name == k) = false := by simpa using hk
      rw [List.lookup_cons, hne, List.lookup_cons, hne]
      exact ih

theorem lookup_filter_ne (tables : List (String × List Row)) (name other : String)
    (h : name ≠ other) :
    (tables.filter (fun t => t.1 ≠ other)).lookup name = tables.lookup name := by
  induction tables with
  | nil => rfl
  | cons t rest ih =>
    obtain ⟨k, v⟩ := t
    by_cases hko : k = other
    · subst hko
      have hne : (name == k) = false := by simpa using h
      rw [List.filter_cons_of_neg (by simp), List.lookup_cons, hne]
      exact ih
    · rw [List.filter_cons_of_pos (by simpa using hko)]
      by_cases hk : name = k
      · subst hk
        rw [List.lookup_cons_self, List.lookup_cons_self]
      · have hne : (name == k) = false := by simpa using hk
        rw [List.lookup_cons, hne, List.lookup_cons, hne]
        exact ih

theorem lookup_filter_self (tables : List (String × List Row)) (name : String) :
    (tables.filter (fun t => t.1 ≠ name)).lookup name = none := by
  induction tables with
  | nil => rfl
  | cons t rest ih =>
    obtain ⟨k, v⟩ := t
    by_cases hk : k = name
    · subst hk
      rw [List.filter_cons_of_neg (by simp)]
      exact ih
    · rw [List.filter_cons_of_pos (by simpa using hk)]
      have hne : (name == k) = false := by simpa using (fun e : name = k => hk e.symm)
      rw [List.lookup_cons, hne]
      exact ih

theorem lookup_setRows (tables : List (String × List Row)) (name other : String)
    (rows : List Row) :
    (setRows tables other rows).lookup name
      = if name = other then (tables.lookup name).map (fun _ => rows)
        else tables.lookup name := by
  induction tables with
  | nil => simp [setRows, List.lookup]
  | cons t rest ih =>
    obtain ⟨k, v⟩ := t
    unfold setRows at ih ⊢
    rw [List.map_cons]
    by_cases hk : name = k
    · subst hk
      by_cases ho : name = other
      · subst ho
        simp [List.lookup_cons_self]
      · simp [List.lookup_cons_self, ho]
    · have hne : (name == k) = false := by simpa using hk
      by_cases hko : k = other
      · subst hko
        simp only [if_true]
        rw [List.lookup_cons, hne, List.lookup_cons, hne]
        exact ih
      · simp only [hko, if_false]
        rw [List.lookup_cons, hne, List.lookup_cons, hne]
        exact ih

theorem exec_tables_of_false (db : Database) (st : Statement) (h : (db.exec st).1 = false) :
    (db.exec st).2.2.tables = db.tables := by
  unfold Database.exec at h ⊢
  split
  · rfl
  · rename_i hf
    rw [if_neg hf] at h
    split
    · rfl
    · split
      · rename_i hl
        simp [hl] at h
      · rfl
    · split <;> rfl
    · split
      · rfl
      · rename_i hl
        simp [hl] at h
    · rfl

theorem exec_tableExist (db : Database) (name : String) :
    (db.exec (.tableExist name)).2.2.tables = db.tables ∧
    ((db.exec (.tableExist name)).1 = true →
      (db.exec (.tableExist name)).2.1
        = some (.int (if (db.lookup name).isSome then 1 else 0))) := by
  unfold Database.exec
  split
  · exact ⟨rfl, fun h => by cases h⟩
  · exact ⟨rfl, fun _ => rfl⟩

theorem exec_getMaxIndex (db : Database) (name : String) :
    (db.exec (.getMaxIndex name)).2.2.tables = db.tables ∧
    ((db.exec (.getMaxIndex name)).1 = true →
      ∃ rows, db.lookup name = some rows ∧
        (db.exec (.getMaxIndex name)).2.1 = some (.longLong (maxId rows))) := by
  unfold Database.exec
  split
  · exact ⟨rfl, fun h => by cases h⟩
  · simp only
    split
    · rename_i rows hl
      exact ⟨rfl, fun _ => ⟨rows, hl, rfl⟩⟩
    · exact ⟨rfl, fun h => by cases h⟩

theorem exec_createTable (db : Database) (name : String)
    (h : (db.exec (.createTable name)).1 = true) :
    db.lookup name = none ∧
    (db.exec (.createTable name)).2.2.tables = db.tables ++ [(name, [])] := by
  unfold Database.exec at h ⊢
  split
  · rename_i hf
    rw [if_pos hf] at h
    cases h
  · rename_i hf
    rw [if_neg hf] at h
    simp only at h ⊢
    split
    · rename_i hl
      rw [if_pos hl] at h
      cases h
    · rename_i hl
      refine ⟨?_, rfl⟩
      cases hn : db.lookup name with
      | none => rfl
      | some v => rw [hn] at hl; simp at hl

theorem exec_dropTable (db : Database) (name : String)
    (h : (db.exec (.dropTable name)).1 = true) :
    (db.exec (.dropTable name)).2.2.tables = db.tables.filter (fun t => t.1 ≠ name) := by
  unfold Database.exec at h ⊢
  split
  · rename_i hf
    rw [if_pos hf] at h
    cases h
  · rename_i hf
    rw [if_neg hf] at h
    simp only at h ⊢
    split
    · rfl
    · rename_i hl
      rw [if_neg hl] at h
      cases h

theorem execBatch_tables_of_false (db : Database) (st : Statement)
    (values : List (List QVariant)) (h : (db.execBatch st values).1 = false) :
    (db.execBatch st values).2.tables = db.tables := by
  unfold Database.execBatch at h ⊢
  split
  · rfl
  · rename_i hf
    rw [if_neg hf] at h
    split
    · split
      · rename_i hl
        simp [hl] at h
      · rfl
    · rfl

theorem execBatch_insert (db : Database) (name : String) (values : List (List QVariant))
    (h : (db.execBatch (.insert name) values).1 = true) :
    ∃ rows, db.lookup name = some rows ∧
      (db.execBatch (.insert name) values).2.tables
        = setRows db.tables name (rows ++ values.transpose) := by
  unfold Database.execBatch at h ⊢
  split
  · rename_i hf
    rw [if_pos hf] at h
    cases h
  · rename_i hf
    rw [if_neg hf] at h
    simp only at h ⊢
    split
    · rename_i rows hl
      exact ⟨rows, hl, rfl⟩
    · rename_i hl
      simp [hl] at h

theorem openConnection_frame (db : Database) :
    (db.openConnection).2.tables = db.tables ∧
    (db.openConnection).2.savepoint = db.savepoint ∧
    (db.openConnection).2.log = db.log ++ [(.openConnection, (db.openConnection).1)] := by
  unfold Database.openConnection
  split <;> exact ⟨rfl, rfl, rfl⟩

theorem closeConnection_frame (db : Database) (h : db.savepoint = none) :
    (db.closeConnection).tables = db.tables ∧
    (db.closeConnection).savepoint = none ∧
    (db.closeConnection).log = db.log ++ [(.closeConnection, true)] := by
  unfold Database.closeConnection
  rw [h]
  exact ⟨rfl, rfl, rfl⟩

end plugins.qt

namespace plugins.hackathon

open plugins.qt

/-! ## What the functions of `Storage` do to the tables -/

theorem untouched_refl (db : Database) : Untouched db db :=
  ⟨⟨[], by simp, fun _ h => by cases h⟩, fun _ _ h => h⟩

theorem untouched_trans {a b c : Database} (h1 : Untouched a b) (h2 : Untouched b c) :
    Untouched a c := by
  obtain ⟨⟨l1, e1, n1⟩, k1⟩ := h1
  obtain ⟨⟨l2, e2, n2⟩, k2⟩ := h2
  refine ⟨⟨l1 ++ l2, by rw [e2, e1, List.append_assoc], fun e he => ?_⟩,
    fun name rows h => k2 name rows (k1 name rows h)⟩
  rcases List.mem_append.1 he with h | h
  · exact n1 e h
  · exact n2 e h

/-- A step that adds one call other than a drop and keeps the tables. -/
theorem untouched_of_call (db db1 : Database) (call : DriverCall) (ok : Bool)
    (hl : db1.log = db.log ++ [(call, ok)]) (hd : isDrop call = false)
    (ht : ∀ name rows, db.lookup name = some rows → db1.lookup name = some rows) :
    Untouched db db1 :=
  ⟨⟨[(call, ok)], hl, fun e he => by
    rw [List.mem_singleton] at he
    rw [he]
    exact hd⟩, ht⟩

/-- The function `doesTableExist` keeps tables and transaction, logs one
query that is no drop, and when it returns true its output says whether the
table exists. -/
theorem doesTableExist_spec (s : Storage) (name : String) :
    (s.doesTableExist name).2.2.m_db.tables = s.m_db.tables ∧
    (s.doesTableExist name).2.2.m_db.savepoint = s.m_db.savepoint ∧
    Untouched s.m_db (s.doesTableExist name).2.2.m_db ∧
    ((s.doesTableExist name).1 = true →
      (s.doesTableExist name).2.1 = (s.m_db.lookup name).isSome) := by
  have ht := exec_tableExist s.m_db name
  have hs := exec_savepoint s.m_db (.tableExist name)
  have hl := exec_log s.m_db (.tableExist name)
  have hu : Untouched s.m_db (s.m_db.exec (.tableExist name)).2.2 :=
    untouched_of_call _ _ _ _ hl rfl (fun n r h => by
      unfold Database.lookup at h ⊢
      rw [ht.1]; exact h)
  unfold Storage.doesTableExist query.tableExist
  split
  · rename_i db he
    rw [he] at ht hs hu
    exact ⟨ht.1, hs, hu, fun h => by cases h⟩
  · rename_i value db he
    rw [he] at ht hs hu
    have hv := ht.2 rfl
    simp only at hv
    split
    · rename_i count hc
      refine ⟨ht.1, hs, hu, fun _ => ?_⟩
      simp only [Option.some.injEq] at hv
      subst hv
      simp only [QVariant.toInt, Option.some.injEq] at hc
      subst hc
      cases (s.m_db.lookup name).isSome <;> simp
    · exact ⟨ht.1, hs, hu, fun h => by cases h⟩
  · rename_i db he
    rw [he] at ht hs hu
    exact ⟨ht.1, hs, hu, fun h => by cases h⟩

/-- The function `createTable` keeps the transaction and the existing tables;
when it returns true the table did not exist and exists now, without rows. -/
theorem createTable_spec (s : Storage) (name : String) :
    (s.createTable name (.createTable name)).2.m_db.savepoint = s.m_db.savepoint ∧
    Untouched s.m_db (s.createTable name (.createTable name)).2.m_db ∧
    (s.createTable name (.createTable name)).2.m_db.log
      = s.m_db.log ++ [(.exec (.createTable name), (s.createTable name (.createTable name)).1)] ∧
    ((s.createTable name (.createTable name)).1 = true →
      s.m_db.lookup name = none ∧
      (s.createTable name (.createTable name)).2.m_db.tables = s.m_db.tables ++ [(name, [])]) := by
  have hs := exec_savepoint s.m_db (.createTable name)
  have hl := exec_log s.m_db (.createTable name)
  unfold Storage.createTable
  split
  · rename_i x db he
    have hf := exec_tables_of_false s.m_db (.createTable name) (by rw [he])
    rw [he] at hs hl hf
    exact ⟨hs, untouched_of_call _ _ _ _ hl rfl (fun n r h => by
      unfold Database.lookup at h ⊢
      simp only at hf
      rw [hf]; exact h), hl, fun h => by cases h⟩
  · rename_i x db he
    have hc := exec_createTable s.m_db name (by rw [he])
    rw [he] at hs hl hc
    simp only at hc
    exact ⟨hs, untouched_of_call _ _ _ _ hl rfl (fun n r h => by
      unfold Database.lookup at h ⊢
      rw [hc.2]
      exact lookup_append_of_some _ _ _ _ h), hl, fun _ => hc⟩

/-- The function `deleteTable` keeps the transaction and logs one drop; when
it returns true the table is gone and the other tables are as they were. -/
theorem deleteTable_spec (s : Storage) (name : String) :
    (s.deleteTable name).2.m_db.savepoint = s.m_db.savepoint ∧
    (s.deleteTable name).2.m_db.log
      = s.m_db.log ++ [(.exec (.dropTable name), (s.deleteTable name).1)] ∧
    ((s.deleteTable name).1 = true →
      (s.deleteTable name).2.m_db.tables = s.m_db.tables.filter (fun t => t.1 ≠ name)) := by
  have hs := exec_savepoint s.m_db (.dropTable name)
  have hl := exec_log s.m_db (.dropTable name)
  unfold Storage.deleteTable query.dropTable
  split
  · rename_i x db he
    rw [he] at hs hl
    exact ⟨hs, hl, fun h => by cases h⟩
  · rename_i x db he
    have hc := exec_dropTable s.m_db name (by rw [he])
    rw [he] at hs hl hc
    exact ⟨hs, hl, fun _ => hc⟩

/-- The function `getMaxDataId` keeps tables and transaction; when it returns
true its output is the maximum id of the rows of the table. -/
theorem getMaxDataId_spec (s : Storage) (name : String) :
    (s.getMaxDataId name).2.2.m_db.tables = s.m_db.tables ∧
    (s.getMaxDataId name).2.2.m_db.savepoint = s.m_db.savepoint ∧
    Untouched s.m_db (s.getMaxDataId name).2.2.m_db ∧
    ((s.getMaxDataId name).1 = true →
      ∃ rows, s.m_db.lookup name = some rows ∧ (s.getMaxDataId name).2.1 = maxId rows) := by
  have ht := exec_getMaxIndex s.m_db name
  have hs := exec_savepoint s.m_db (.getMaxIndex name)
  have hl := exec_log s.m_db (.getMaxIndex name)
  have hu : Untouched s.m_db (s.m_db.exec (.getMaxIndex name)).2.2 :=
    untouched_of_call _ _ _ _ hl rfl (fun n r h => by
      unfold Database.lookup at h ⊢
      rw [ht.1]; exact h)
  unfold Storage.getMaxDataId query.getMaxIndex
  split
  · rename_i db he
    rw [he] at ht hs hu
    exact ⟨ht.1, hs, hu, fun h => by cases h⟩
  · rename_i value db he
    rw [he] at ht hs hu
    obtain ⟨rows, hr, hv⟩ := ht.2 rfl
    simp only at hv
    split
    · rename_i m hc
      refine ⟨ht.1, hs, hu, fun _ => ⟨rows, hr, ?_⟩⟩
      simp only [Option.some.injEq] at hv
      subst hv
      simp only [QVariant.toLongLong, Option.some.injEq] at hc
      exact hc.symm
    · exact ⟨ht.1, hs, hu, fun h => by cases h⟩
  · rename_i db he
    rw [he] at ht hs hu
    exact ⟨ht.1, hs, hu, fun h => by cases h⟩

/-! ## The batch insert within a transaction -/

theorem insertBatch_of_body (s : Storage) (st : Statement) (values : List (List QVariant)) :
    (match s.beginTransaction with
      | (false, s1) => (false, s1)
      | (true, s1) =>
        match s1.m_db.execBatch st values with
        | (false, db) => (false, (Storage.rollbackTransaction { s1 with m_db := db }).2)
        | (true, db) =>
          match Storage.commitTransaction { s1 with m_db := db } with
          | (false, s2) => (false, s2)
          | (true, s2) => (true, s2)) = s.insertBatch st values := by
  unfold Storage.insertBatch
  rw [beginTransaction_eq]
  cases ht : (s.m_db.transaction).1
  · simp
  · simp only [if_true]
    cases hb : ((s.m_db.transaction).2.execBatch st values).1
    · have e : (s.m_db.transaction).2.execBatch st values
          = (false, ((s.m_db.transaction).2.execBatch st values).2) := by rw [← hb]
      rw [e]
      simp [rollbackTransaction_eq]
    · have e : (s.m_db.transaction).2.execBatch st values
          = (true, ((s.m_db.transaction).2.execBatch st values).2) := by rw [← hb]
      rw [e]
      simp only [if_true]
      split <;> rename_i h <;> rw [h]

theorem writeCache_eq_insertBatch (s : Storage) (cache : Cache) :
    s.writeCache cache = s.insertBatch query.spatial.insertQuery cache.boundValues :=
  insertBatch_of_body s _ _

theorem fillClassificationTable_eq_insertBatch (s : Storage) :
    s.fillClassificationTable
      = s.insertBatch query.classification.insertQuery classificationValues :=
  insertBatch_of_body s _ _

/-- A batch insert that returns true found no transaction open and leaves
none open; its driver calls are the begin, the insert and the commit, and the
rows are appended to the table. -/
theorem insertBatch_true (s : Storage) (table : String) (values : List (List QVariant))
    (h : (s.insertBatch (.insert table) values).1 = true) :
    s.m_db.savepoint = none ∧
    (s.insertBatch (.insert table) values).2.m_db.savepoint = none ∧
    (s.insertBatch (.insert table) values).2.m_db.log = s.m_db.log ++
      [(.transaction, true), (.execBatch (.insert table) values, true), (.commit, true)] ∧
    ∃ rows, s.m_db.lookup table = some rows ∧
      (s.insertBatch (.insert table) values).2.m_db.tables
        = setRows s.m_db.tables table (rows ++ values.transpose) := by
  unfold Storage.insertBatch at h ⊢
  cases ht : (s.m_db.transaction).1
  · rw [ht] at h; simp at h
  · rw [ht] at h
    simp only [if_true] at h ⊢
    cases hb : ((s.m_db.transaction).2.execBatch (.insert table) values).1
    · rw [hb] at h; simp at h
    · rw [hb] at h
      simp only [if_true] at h ⊢
      rw [commitTransaction_eq] at h ⊢
      simp only at h ⊢
      rw [h]
      simp only [if_true]
      have hl := transaction_log s.m_db
      have hl2 := execBatch_log (s.m_db.transaction).2 (.insert table) values
      have hl3 := commit_log ((s.m_db.transaction).2.execBatch (.insert table) values).2
      have hs3 := commit_savepoint ((s.m_db.transaction).2.execBatch (.insert table) values).2
      have ht3 := commit_tables ((s.m_db.transaction).2.execBatch (.insert table) values).2
      obtain ⟨rows, hr, hrows⟩ := execBatch_insert (s.m_db.transaction).2 table values hb
      rw [ht] at hl
      rw [hb, hl] at hl2
      rw [h, hl2] at hl3
      rw [h] at hs3
      refine ⟨transaction_ok s.m_db ht, by simpa using hs3, by simpa using hl3, rows, ?_, ?_⟩
      · unfold Database.lookup at hr ⊢
        rw [transaction_tables] at hr
        exact hr
      · rw [ht3, hrows, transaction_tables]

/-- Whatever a batch insert returns, its driver calls are no drops and the
rows of the other tables are as they were. -/
theorem insertBatch_frame (s : Storage) (table : String) (values : List (List QVariant)) :
    (∃ added, (s.insertBatch (.insert table) values).2.m_db.log = s.m_db.log ++ added ∧
      ∀ e ∈ added, isDrop e.1 = false) ∧
    ∀ name, name ≠ table →
      (s.insertBatch (.insert table) values).2.m_db.lookup name = s.m_db.lookup name := by
  unfold Storage.insertBatch
  have hl := transaction_log s.m_db
  have htt := transaction_tables s.m_db
  cases ht : (s.m_db.transaction).1
  · rw [ht] at hl
    simp only [Bool.false_eq_true, if_false]
    refine ⟨⟨_, hl, ?_⟩, fun name _ => ?_⟩
    · intro e he
      simp only [List.mem_singleton] at he
      rw [he]; rfl
    · unfold Database.lookup
      rw [htt]
  · rw [ht] at hl
    have hsv := transaction_savepoint s.m_db
    rw [ht] at hsv
    simp only [if_true] at hsv ⊢
    have hl2 := execBatch_log (s.m_db.transaction).2 (.insert table) values
    have hs2 := execBatch_savepoint (s.m_db.transaction).2 (.insert table) values
    rw [hl] at hl2
    rw [hsv] at hs2
    cases hb : ((s.m_db.transaction).2.execBatch (.insert table) values).1
    · rw [hb] at hl2
      have hl3 := rollback_log ((s.m_db.transaction).2.execBatch (.insert table) values).2
      have ht3 := rollback_tables ((s.m_db.transaction).2.execBatch (.insert table) values).2
      have ht2 := execBatch_tables_of_false (s.m_db.transaction).2 (.insert table) values hb
      rw [hl2] at hl3
      rw [hs2, ht2, htt] at ht3
      simp only [Bool.false_eq_true, if_false]
      rw [List.append_assoc, List.append_assoc] at hl3
      refine ⟨⟨_, hl3, ?_⟩, fun name _ => ?_⟩
      · intro e he
        simp only [List.cons_append, List.nil_append, List.mem_cons, List.mem_singleton,
          List.not_mem_nil, or_false] at he
        rcases he with he | he | he <;> rw [he] <;> rfl
      · unfold Database.lookup
        rw [ht3]
        simp
    · rw [hb] at hl2
      simp only [if_true]
      rw [commitTransaction_eq]
      simp only
      obtain ⟨rows, hr, hrows⟩ := execBatch_insert (s.m_db.transaction).2 table values hb
      rw [htt] at hrows
      have hl3 := commit_log ((s.m_db.transaction).2.execBatch (.insert table) values).2
      have hs3 := commit_savepoint ((s.m_db.transaction).2.execBatch (.insert table) values).2
      have ht3 := commit_tables ((s.m_db.transaction).2.execBatch (.insert table) values).2
      rw [hl2] at hl3
      rw [hs2] at hs3
      rw [hrows] at ht3
      cases hc : (((s.m_db.transaction).2.execBatch (.insert table) values).2.commit).1
      · rw [hc] at hl3 hs3
        simp only [Bool.false_eq_true, if_false] at hs3 ⊢
        have hl4 := rollback_log
          (((s.m_db.transaction).2.execBatch (.insert table) values).2.commit).2
        have ht4 := rollback_tables
          (((s.m_db.transaction).2.execBatch (.insert table) values).2.commit).2
        rw [hl3] at hl4
        rw [hs3, ht3] at ht4
        rw [List.append_assoc, List.append_assoc, List.append_assoc] at hl4
        refine ⟨⟨_, hl4, ?_⟩, fun name hn => ?_⟩
        · intro e he
          simp only [List.cons_append, List.nil_append, List.mem_cons, List.mem_singleton,
            List.not_mem_nil, or_false] at he
          rcases he with he | he | he | he <;> rw [he] <;> rfl
        · unfold Database.lookup
          rw [ht4]
          split
          · rfl
          · rw [lookup_setRows, if_neg hn]
      · rw [hc] at hl3
        simp only [if_true]
        rw [List.append_assoc, List.append_assoc] at hl3
        refine ⟨⟨_, hl3, ?_⟩, fun name hn => ?_⟩
        · intro e he
          simp only [List.cons_append, List.nil_append, List.mem_cons, List.mem_singleton,
            List.not_mem_nil, or_false] at he
          rcases he with he | he | he <;> rw [he] <;> rfl
        · unfold Database.lookup
          rw [ht3, lookup_setRows, if_neg hn]

/-- The function `connect` with `reconnect` set, on a storage with no
transaction open: the tables stay, no transaction is open afterwards, and its
driver calls are no drops. -/
theorem connect_spec (s : Storage) (h0 : s.m_db.savepoint = none) :
    (s.connect true).2.m_db.tables = s.m_db.tables ∧
    (s.connect true).2.m_db.savepoint = none ∧
    ∃ added, (s.connect true).2.m_db.log = s.m_db.log ++ added ∧
      ∀ e ∈ added, isDrop e.1 = false := by
  have hdb : ∀ db : Database, db.savepoint = none →
      ((Storage.mk s.m_connectionString db).connect true).2.m_db.tables = db.tables ∧
      ((Storage.mk s.m_connectionString db).connect true).2.m_db.savepoint = none ∧
      ∃ added, ((Storage.mk s.m_connectionString db).connect true).2.m_db.log = db.log ++ added ∧
        ∀ e ∈ added, isDrop e.1 = false := by
    intro db hs
    unfold Storage.connect
    rw [if_neg (by simp)]
    simp only
    cases ho : db.isOpen
    · simp only [Bool.false_eq_true, if_false]
      have hf := openConnection_frame db
      split <;> rename_i d he <;> rw [he] at hf <;> simp only at hf ⊢
      · refine ⟨hf.1, by rw [hf.2.1, hs], _, hf.2.2, ?_⟩
        intro e h; simp only [List.mem_singleton] at h; rw [h]; rfl
      · refine ⟨hf.1, by rw [hf.2.1, hs], _, hf.2.2, ?_⟩
        intro e h; simp only [List.mem_singleton] at h; rw [h]; rfl
    · simp only [if_true]
      have hc := closeConnection_frame db hs
      have hf := openConnection_frame db.closeConnection
      rw [hc.1, hc.2.1, hc.2.2] at hf
      split <;> rename_i d he <;> rw [he] at hf <;> simp only at hf ⊢
      · refine ⟨hf.1, hf.2.1, _, by rw [hf.2.2, List.append_assoc], ?_⟩
        intro e h
        simp only [List.cons_append, List.nil_append, List.mem_cons, List.mem_singleton,
          List.not_mem_nil, or_false] at h
        rcases h with h | h <;> rw [h] <;> rfl
      · refine ⟨hf.1, hf.2.1, _, by rw [hf.2.2, List.append_assoc], ?_⟩
        intro e h
        simp only [List.cons_append, List.nil_append, List.mem_cons, List.mem_singleton,
          List.not_mem_nil, or_false] at h
        rcases h with h | h <;> rw [h] <;> rfl
  exact hdb s.m_db h0

/-- C28. For a storage with no transaction open: `writeCache` returns true
exactly when its driver calls are the begin of a transaction, the batch
insert of the bound lists and the commit, all three successful; when it
returns false, either the begin of the transaction failed and nothing else
was called, or the last call is a rollback, issued after the failed insert or
after the failed commit; and the transaction is still open when `writeCache`
returns exactly when that rollback itself failed. -/
theorem writeCache_outcomes (s : Storage) (cache : Cache) (h0 : s.m_db.savepoint = none) :
    ((s.writeCache cache).1 = true ↔
      (s.writeCache cache).2.m_db.log = s.m_db.log ++
        [(.transaction, true),
          (.execBatch query.spatial.insertQuery cache.boundValues, true), (.commit, true)]) ∧
    ((s.writeCache cache).1 = false →
      (s.writeCache cache).2.m_db.log = s.m_db.log ++ [(.transaction, false)] ∨
      ∃ rolled,
        (s.writeCache cache).2.m_db.log = s.m_db.log ++
          [(.transaction, true),
            (.execBatch query.spatial.insertQuery cache.boundValues, false),
            (.rollback, rolled)] ∨
        (s.writeCache cache).2.m_db.log = s.m_db.log ++
          [(.transaction, true),
            (.execBatch query.spatial.insertQuery cache.boundValues, true),
            (.commit, false), (.rollback, rolled)]) ∧
    ((s.writeCache cache).2.m_db.savepoint.isSome = true ↔
      (s.writeCache cache).2.m_db.log.getLast? = some (.rollback, false)) := by
  rw [writeCache_eq_insertBatch]
  unfold Storage.insertBatch
  cases ht : (s.m_db.transaction).1
  · have hl := transaction_log s.m_db
    have hs := transaction_savepoint s.m_db
    rw [ht] at hl hs
    simp only [Bool.false_eq_true, if_false] at hs ⊢
    rw [hl, hs, h0]
    simp
  · have hl := transaction_log s.m_db
    have hs := transaction_savepoint s.m_db
    rw [ht] at hl hs
    simp only [if_true] at hs ⊢
    cases hb : ((s.m_db.transaction).2.execBatch query.spatial.insertQuery cache.boundValues).1
    · have hl2 := execBatch_log (s.m_db.transaction).2 query.spatial.insertQuery
        cache.boundValues
      have hs2 := execBatch_savepoint (s.m_db.transaction).2 query.spatial.insertQuery
        cache.boundValues
      rw [hb, hl] at hl2
      rw [hs] at hs2
      have hl3 := rollback_log ((s.m_db.transaction).2.execBatch query.spatial.insertQuery
        cache.boundValues).2
      have hs3 := rollback_savepoint ((s.m_db.transaction).2.execBatch
        query.spatial.insertQuery cache.boundValues).2
      rw [hl2] at hl3
      rw [hs2] at hs3
      simp only [Bool.false_eq_true, if_false]
      rw [hl3, hs3]
      cases hr : (((s.m_db.transaction).2.execBatch query.spatial.insertQuery
        cache.boundValues).2.rollback).1 <;> simp
    · have hl2 := execBatch_log (s.m_db.transaction).2 query.spatial.insertQuery
        cache.boundValues
      have hs2 := execBatch_savepoint (s.m_db.transaction).2 query.spatial.insertQuery
        cache.boundValues
      rw [hb, hl] at hl2
      rw [hs] at hs2
      simp only [if_true]
      rw [commitTransaction_eq]
      simp only
      have hl3 := commit_log ((s.m_db.transaction).2.execBatch query.spatial.insertQuery
        cache.boundValues).2
      have hs3 := commit_savepoint ((s.m_db.transaction).2.execBatch
        query.spatial.insertQuery cache.boundValues).2
      rw [hl2] at hl3
      rw [hs2] at hs3
      cases hc : (((s.m_db.transaction).2.execBatch query.spatial.insertQuery
        cache.boundValues).2.commit).1
      · rw [hc] at hl3 hs3
        simp only [Bool.false_eq_true, if_false] at hs3 ⊢
        have hl4 := rollback_log (((s.m_db.transaction).2.execBatch query.spatial.insertQuery
          cache.boundValues).2.commit).2
        have hs4 := rollback_savepoint (((s.m_db.transaction).2.execBatch
          query.spatial.insertQuery cache.boundValues).2.commit).2
        rw [hl3] at hl4
        rw [hs3] at hs4
        rw [hl4, hs4]
        cases hr : ((((s.m_db.transaction).2.execBatch query.spatial.insertQuery
          cache.boundValues).2.commit).2.rollback).1 <;> simp
      · rw [hc] at hl3 hs3
        simp only [if_true] at hs3 ⊢
        rw [hl3, hs3]
        simp

/-! ## The stages of `ready` -/

theorem readyCheckTables_spec (w : HackathonWriter) :
    (w.readyCheckTables).writer
      = { w with m_storage := (w.readyCheckTables).writer.m_storage } ∧
    (w.readyCheckTables).writer.m_storage.m_db.tables = w.m_storage.m_db.tables ∧
    (w.readyCheckTables).writer.m_storage.m_db.savepoint = w.m_storage.m_db.savepoint ∧
    Untouched w.m_storage.m_db (w.readyCheckTables).writer.m_storage.m_db ∧
    ∀ a b, (w.readyCheckTables).result = .ok (a, b) →
      a = (w.m_storage.m_db.lookup query.spatial.tableName).isSome ∧
      b = (w.m_storage.m_db.lookup query.classification.tableName).isSome := by
  have h1 := doesTableExist_spec w.m_storage query.spatial.tableName
  unfold HackathonWriter.readyCheckTables
  split
  · rename_i x s1 he
    rw [he] at h1
    exact ⟨rfl, h1.1, h1.2.1, h1.2.2.1, fun a b h => by cases h⟩
  · rename_i a1 s1 he
    rw [he] at h1
    have h2 := doesTableExist_spec s1 query.classification.tableName
    split
    · rename_i x s2 he2
      rw [he2] at h2
      exact ⟨rfl, h2.1.trans h1.1, h2.2.1.trans h1.2.1, untouched_trans h1.2.2.1 h2.2.2.1,
        fun a b h => by cases h⟩
    · rename_i b1 s2 he2
      rw [he2] at h2
      refine ⟨rfl, h2.1.trans h1.1, h2.2.1.trans h1.2.1, untouched_trans h1.2.2.1 h2.2.2.1,
        fun a b h => ?_⟩
      simp only [Except.ok.injEq, Prod.mk.injEq] at h
      obtain ⟨ha, hb⟩ := h
      subst ha; subst hb
      refine ⟨h1.2.2.2 rfl, ?_⟩
      have h3 := h2.2.2.2 rfl
      unfold Database.lookup at h3 ⊢
      simp only at h3 h1
      rw [h1.1] at h3
      exact h3

theorem readyOverwrite_of_false (w : HackathonWriter) (a b : Bool)
    (h : w.m_settings.overwrite = false) : w.readyOverwrite a b = ⟨.ok (a, b), w⟩ := by
  unfold HackathonWriter.readyOverwrite
  rw [h]
  simp

/-- The deletion of a table under the flag that says whether it exists. -/
theorem deleteTable_if_spec (flag : Bool) (s : Storage) (name : String)
    (hf : flag = (s.m_db.lookup name).isSome) :
    (if flag = true then s.deleteTable name else (true, s)).2.m_db.savepoint
      = s.m_db.savepoint ∧
    ((if flag = true then s.deleteTable name else (true, s)).1 = true →
      (if flag = true then s.deleteTable name else (true, s)).2.m_db.lookup name = none ∧
      (∀ other, other ≠ name →
        (if flag = true then s.deleteTable name else (true, s)).2.m_db.lookup other
          = s.m_db.lookup other) ∧
      (if flag = true then s.deleteTable name else (true, s)).2.m_db.log
        = s.m_db.log ++ (if flag then [(.exec (.dropTable name), true)] else [])) := by
  cases flag
  · simp only [Bool.false_eq_true, if_false]
    refine ⟨trivial, fun _ => ⟨?_, fun _ _ => trivial, by simp⟩⟩
    cases hl : s.m_db.lookup name with
    | none => rfl
    | some v => rw [hl] at hf; simp at hf
  · simp only [if_true]
    have hd := deleteTable_spec s name
    refine ⟨hd.1, fun h => ?_⟩
    have ht := hd.2.2 h
    rw [h] at hd
    refine ⟨?_, fun other ho => ?_, hd.2.1⟩
    · unfold Database.lookup
      rw [ht, lookup_filter_self]
    · unfold Database.lookup
      rw [ht, lookup_filter_ne _ _ _ ho]

theorem readyOverwrite_spec (w : HackathonWriter) (a b : Bool)
    (h : w.m_settings.overwrite = true)
    (ha : a = (w.m_storage.m_db.lookup query.spatial.tableName).isSome)
    (hb : b = (w.m_storage.m_db.lookup query.classification.tableName).isSome) :
    (w.readyOverwrite a b).writer
      = { w with m_storage := (w.readyOverwrite a b).writer.m_storage } ∧
    (w.readyOverwrite a b).writer.m_storage.m_db.savepoint = w.m_storage.m_db.savepoint ∧
    ∀ a1 b1, (w.readyOverwrite a b).result = .ok (a1, b1) →
      a1 = false ∧ b1 = false ∧
      (w.readyOverwrite a b).writer.m_storage.m_db.lookup query.spatial.tableName = none ∧
      (w.readyOverwrite a b).writer.m_storage.m_db.lookup query.classification.tableName
        = none ∧
      (w.readyOverwrite a b).writer.m_storage.m_db.log = w.m_storage.m_db.log
        ++ (if a then [(.exec (.dropTable query.spatial.tableName), true)] else [])
        ++ (if b then [(.exec (.dropTable query.classification.tableName), true)] else []) := by
  have hne : query.classification.tableName ≠ query.spatial.tableName := by decide
  have h1 := deleteTable_if_spec a w.m_storage query.spatial.tableName ha
  unfold HackathonWriter.readyOverwrite
  rw [if_pos h]
  generalize (if a = true then w.m_storage.deleteTable query.spatial.tableName
    else (true, w.m_storage)) = r1 at h1 ⊢
  obtain ⟨ok1, s1⟩ := r1
  cases ok1
  · exact ⟨rfl, h1.1, fun a1 b1 h => by cases h⟩
  · simp only at h1 ⊢
    obtain ⟨hs1, hrest⟩ := h1
    obtain ⟨hsp, hother, hlog⟩ := hrest trivial
    have hb1 : b = (s1.m_db.lookup query.classification.tableName).isSome := by
      rw [hother _ hne]; exact hb
    have h2 := deleteTable_if_spec b s1 query.classification.tableName hb1
    generalize (if b = true then s1.deleteTable query.classification.tableName
      else (true, s1)) = r2 at h2 ⊢
    obtain ⟨ok2, s2⟩ := r2
    cases ok2
    · exact ⟨rfl, h2.1.trans hs1, fun a1 b1 h => by cases h⟩
    · simp only at h2 ⊢
      obtain ⟨hs2, hrest2⟩ := h2
      obtain ⟨hcl, hother2, hlog2⟩ := hrest2 trivial
      refine ⟨trivial, hs2.trans hs1, fun a1 b1 h => ?_⟩
      simp only [Except.ok.injEq, Prod.mk.injEq] at h
      refine ⟨h.1.symm, h.2.symm, ?_, hcl, by rw [hlog2, hlog]⟩
      rw [hother2 _ hne.symm]
      exact hsp

theorem fillClassificationTable_spec (s : Storage) :
    (∃ added, (s.fillClassificationTable).2.m_db.log = s.m_db.log ++ added ∧
      ∀ e ∈ added, isDrop e.1 = false) ∧
    (∀ name, name ≠ query.classification.tableName →
      (s.fillClassificationTable).2.m_db.lookup name = s.m_db.lookup name) ∧
    ((s.fillClassificationTable).1 = true →
      s.m_db.savepoint = none ∧ (s.fillClassificationTable).2.m_db.savepoint = none ∧
      (s.fillClassificationTable).2.m_db.log = s.m_db.log ++
        [(.transaction, true),
          (.execBatch query.classification.insertQuery classificationValues, true),
          (.commit, true)] ∧
      ∃ rows, s.m_db.lookup query.classification.tableName = some rows ∧
        (s.fillClassificationTable).2.m_db.lookup query.classification.tableName
          = some (rows ++ classificationRows)) := by
  rw [fillClassificationTable_eq_insertBatch]
  have hf := insertBatch_frame s query.classification.tableName classificationValues
  refine ⟨hf.1, hf.2, fun h => ?_⟩
  obtain ⟨h1, h2, h3, rows, hr, ht⟩ :=
    insertBatch_true s query.classification.tableName classificationValues h
  refine ⟨h1, h2, h3, rows, hr, ?_⟩
  unfold Database.lookup at hr ⊢
  show List.lookup query.classification.tableName
    (s.insertBatch (.insert query.classification.tableName) classificationValues).2.m_db.tables
      = _
  rw [ht, lookup_setRows, if_pos rfl, hr]
  rfl

/-- The creation of a table under the flag that says whether it exists. -/
theorem createTable_if_spec (flag : Bool) (s : Storage) (name : String) :
    (if flag = true then (true, s) else s.createTable name (.createTable name)).2.m_db.savepoint
      = s.m_db.savepoint ∧
    Untouched s.m_db
      (if flag = true then (true, s) else s.createTable name (.createTable name)).2.m_db ∧
    ((if flag = true then (true, s) else s.createTable name (.createTable name)).1 = true →
      (if flag = true then (true, s) else s.createTable name (.createTable name)).2.m_db.log
        = s.m_db.log ++ (if flag then [] else [(.exec (.createTable name), true)]) ∧
      (∀ other, other ≠ name →
        (if flag = true then (true, s)
          else s.createTable name (.createTable name)).2.m_db.lookup other
          = s.m_db.lookup other) ∧
      (if flag = true then
        (if flag = true then (true, s)
          else s.createTable name (.createTable name)).2.m_db.lookup name = s.m_db.lookup name
       else
        s.m_db.lookup name = none ∧
        (if flag = true then (true, s)
          else s.createTable name (.createTable name)).2.m_db.lookup name = some [])) := by
  cases flag
  · simp only [Bool.false_eq_true, if_false]
    have hc := createTable_spec s name
    refine ⟨hc.1, hc.2.1, fun h => ?_⟩
    obtain ⟨hn, ht⟩ := hc.2.2.2 h
    have hl := hc.2.2.1
    rw [h] at hl
    refine ⟨hl, fun other ho => ?_, hn, ?_⟩
    · unfold Database.lookup
      rw [ht, lookup_append_of_ne _ _ _ _ ho]
    · unfold Database.lookup at hn ⊢
      rw [ht, lookup_append_of_none _ _ _ hn]
  · simp only [if_true]
    exact ⟨trivial, untouched_refl _, fun _ => ⟨by simp, fun _ _ => trivial, trivial⟩⟩

theorem readyCreateTables_spec (w : HackathonWriter) (a b : Bool) :
    (w.readyCreateTables a b).writer
      = { w with m_storage := (w.readyCreateTables a b).writer.m_storage } ∧
    Untouched w.m_storage.m_db (w.readyCreateTables a b).writer.m_storage.m_db ∧
    ((w.readyCreateTables a b).result = .ok () →
      (w.readyCreateTables a b).writer.m_storage.m_db.savepoint = w.m_storage.m_db.savepoint ∧
      (w.readyCreateTables a b).writer.m_storage.m_db.log = w.m_storage.m_db.log
        ++ (if a then [] else [(.exec (.createTable query.spatial.tableName), true)])
        ++ (if b then []
            else [(.exec (.createTable query.classification.tableName), true),
              (.transaction, true),
              (.execBatch query.classification.insertQuery classificationValues, true),
              (.commit, true)]) ∧
      (if a then
        (w.readyCreateTables a b).writer.m_storage.m_db.lookup query.spatial.tableName
          = w.m_storage.m_db.lookup query.spatial.tableName
       else
        (w.readyCreateTables a b).writer.m_storage.m_db.lookup query.spatial.tableName
          = some []) ∧
      (b = false →
        (w.readyCreateTables a b).writer.m_storage.m_db.lookup query.classification.tableName
          = some classificationRows)) := by
  have hne : query.classification.tableName ≠ query.spatial.tableName := by decide
  have h1 := createTable_if_spec a w.m_storage query.spatial.tableName
  unfold HackathonWriter.readyCreateTables
  change _ ∧ _ ∧ _ at h1
  unfold query.spatial.createQuery query.classification.createQuery
  have e1 : Statement.createTable "point_tree"
      = Statement.createTable query.spatial.tableName := rfl
  have e2 : Statement.createTable "classification"
      = Statement.createTable query.classification.tableName := rfl
  rw [e1, e2]
  generalize (if a = true then (true, w.m_storage)
    else w.m_storage.createTable query.spatial.tableName
      (.createTable query.spatial.tableName)) = r1 at h1 ⊢
  obtain ⟨ok1, s1⟩ := r1
  cases ok1
  · exact ⟨rfl, h1.2.1, fun h => by cases h⟩
  · simp only at h1 ⊢
    obtain ⟨hs1, hu1, hrest⟩ := h1
    obtain ⟨hlog1, hother1, hsp0⟩ := hrest trivial
    have hsp1 : if a = true then
        s1.m_db.lookup query.spatial.tableName
          = w.m_storage.m_db.lookup query.spatial.tableName
        else s1.m_db.lookup query.spatial.tableName = some [] := by
      split
      · rename_i ha
        rw [if_pos ha] at hsp0
        exact hsp0
      · rename_i ha
        rw [if_neg ha] at hsp0
        exact hsp0.2
    cases b
    · simp only [Bool.false_eq_true, if_false]
      have h2 := createTable_if_spec false s1 query.classification.tableName
      simp only [Bool.false_eq_true, if_false] at h2
      generalize (s1.createTable query.classification.tableName
        (.createTable query.classification.tableName)) = r2 at h2 ⊢
      obtain ⟨ok2, s2⟩ := r2
      cases ok2
      · exact ⟨rfl, untouched_trans hu1 h2.2.1, fun h => by cases h⟩
      · simp only at h2 ⊢
        obtain ⟨hs2, hu2, hrest2⟩ := h2
        obtain ⟨hlog2, hother2, hnone2, hcl2⟩ := hrest2 trivial
        have h3 := fillClassificationTable_spec s2
        -- the creation and the filling together leave the tables of before untouched
        have hu3 : Untouched s1.m_db (s2.fillClassificationTable).2.m_db := by
          obtain ⟨⟨l2, e2, n2⟩, k2⟩ := hu2
          obtain ⟨⟨l3, e3, n3⟩, k3, _⟩ := h3
          refine ⟨⟨l2 ++ l3, by rw [e3, e2, List.append_assoc], fun e he => ?_⟩,
            fun name rows hr => ?_⟩
          · rcases List.mem_append.1 he with h | h
            · exact n2 e h
            · exact n3 e h
          · have hn : name ≠ query.classification.tableName := by
              intro hc
              rw [hc, hnone2] at hr
              cases hr
            rw [k3 name hn]
            exact k2 name rows hr
        generalize s2.fillClassificationTable = r3 at h3 hu3 ⊢
        obtain ⟨ok3, s3⟩ := r3
        cases ok3
        · exact ⟨rfl, untouched_trans hu1 hu3, fun h => by cases h⟩
        · simp only at h3 hu3 ⊢
          obtain ⟨_, hother3, hrest3⟩ := h3
          obtain ⟨hb2, hs3, hlog3, rows, hr, hcl3⟩ := hrest3 trivial
          refine ⟨trivial, untouched_trans hu1 hu3, fun _ => ⟨?_, ?_, ?_, fun _ => ?_⟩⟩
          · rw [hs3, ← hs1, ← hs2, hb2]
          · rw [hlog3, hlog2, hlog1]
            simp [List.append_assoc]
          · rw [hother3 _ hne.symm, hother2 _ hne.symm]
            exact hsp1
          · rw [hcl2] at hr
            simp only [Option.some.injEq] at hr
            rw [hcl3, ← hr]
            rfl
    · simp only [if_true]
      refine ⟨trivial, hu1, fun _ => ⟨hs1, by rw [hlog1]; simp, hsp1, fun h => by cases h⟩⟩

theorem readyMaxId_spec (w : HackathonWriter) :
    (w.readyMaxId).writer.m_settings = w.m_settings ∧
    (w.m_storage.m_db.savepoint = none →
      Untouched w.m_storage.m_db (w.readyMaxId).writer.m_storage.m_db) ∧
    ((w.readyMaxId).result = .ok () →
      (w.readyMaxId).writer.m_cache = w.m_cache.clear ∧
      (w.readyMaxId).writer.m_currentCacheSize = 0 ∧
      ∃ rows, w.m_storage.m_db.lookup query.spatial.tableName = some rows ∧
        (w.readyMaxId).writer.m_currentId = maxId rows) := by
  have h1 := getMaxDataId_spec w.m_storage query.spatial.tableName
  unfold HackathonWriter.readyMaxId
  generalize w.m_storage.getMaxDataId query.spatial.tableName = r1 at h1 ⊢
  obtain ⟨ok1, m, s1⟩ := r1
  cases ok1
  · exact ⟨rfl, fun _ => h1.2.2.1, fun h => by cases h⟩
  · simp only at h1 ⊢
    obtain ⟨ht1, hs1, hu1, hrest⟩ := h1
    obtain ⟨rows, hr, hm⟩ := hrest trivial
    have hc : s1.m_db.savepoint = none →
        Untouched s1.m_db (s1.connect true).2.m_db := by
      intro h0
      obtain ⟨ht, _, l, hl, hn⟩ := connect_spec s1 h0
      refine ⟨⟨l, hl, hn⟩, fun name rows h => ?_⟩
      unfold Database.lookup at h ⊢
      rw [ht]; exact h
    generalize s1.connect true = r2 at hc ⊢
    obtain ⟨ok2, s2⟩ := r2
    cases ok2
    · exact ⟨rfl, fun h0 => untouched_trans hu1 (hc (hs1.trans h0)), fun h => by cases h⟩
    · exact ⟨rfl, fun h0 => untouched_trans hu1 (hc (hs1.trans h0)),
        fun _ => ⟨rfl, rfl, rows, hr, hm⟩⟩

/-- C27. The default of the setting `overwrite` is false. For a writer whose
storage has no transaction open, whatever the tables of the database and
whichever calls the driver fails: with the setting `overwrite` false, `ready`
issues no `drop table`, every table that existed before still exists
afterwards with the same rows, and when `ready` returns the id counter is the
maximum id of the rows that the spatial table had (0 when it did not exist);
with `overwrite` true, when `ready` returns, each of the two tables that
existed was dropped and created again, the spatial table has no rows, the
classification table has the rows of the classification data, and the id
counter is 0. -/
theorem ready_keeps_tables_unless_overwrite (w : HackathonWriter)
    (h0 : w.m_storage.m_db.savepoint = none) :
    Settings.default.overwrite = false ∧
    plugins.hackathontoo.Settings.default.overwrite = false ∧
    (w.m_settings.overwrite = false →
      Untouched w.m_storage.m_db (w.ready).writer.m_storage.m_db ∧
      ((w.ready).result = .ok () →
        (w.ready).writer.m_currentId
          = maxId ((w.m_storage.m_db.lookup query.spatial.tableName).getD []))) ∧
    (w.m_settings.overwrite = true → (w.ready).result = .ok () →
      (∀ name ∈ [query.spatial.tableName, query.classification.tableName],
        (w.m_storage.m_db.lookup name).isSome = true →
          DroppedAndRecreated w.m_storage.m_db (w.ready).writer.m_storage.m_db name) ∧
      (w.ready).writer.m_storage.m_db.lookup query.spatial.tableName = some [] ∧
      (w.ready).writer.m_storage.m_db.lookup query.classification.tableName
        = some classificationRows ∧
      (w.ready).writer.m_currentId = 0) := by
  refine ⟨rfl, rfl, ?_⟩
  have h1 := readyCheckTables_spec w
  unfold HackathonWriter.ready
  generalize w.readyCheckTables = o1 at h1 ⊢
  obtain ⟨res1, w1⟩ := o1
  obtain ⟨hw1, ht1, hs1, hu1, hab⟩ := h1
  simp only at hw1 ht1 hs1 hu1 hab
  cases res1 with
  | error e => exact ⟨fun _ => ⟨hu1, fun h => by cases h⟩, fun _ h => by cases h⟩
  | ok ab =>
    obtain ⟨a, b⟩ := ab
    obtain ⟨ha, hb⟩ := hab a b rfl
    have hset1 : w1.m_settings = w.m_settings := by rw [hw1]
    have ha1 : a = (w1.m_storage.m_db.lookup query.spatial.tableName).isSome := by
      unfold Database.lookup at ha ⊢
      rw [ht1]; exact ha
    have hb1 : b = (w1.m_storage.m_db.lookup query.classification.tableName).isSome := by
      unfold Database.lookup at hb ⊢
      rw [ht1]; exact hb
    simp only
    constructor
    · -- the setting is false: the second stage does nothing
      intro hov
      rw [readyOverwrite_of_false w1 a b (by rw [hset1]; exact hov)]
      simp only
      have h3 := readyCreateTables_spec w1 a b
      generalize w1.readyCreateTables a b = o3 at h3 ⊢
      obtain ⟨res3, w3⟩ := o3
      obtain ⟨hw3, hu3, hok3⟩ := h3
      simp only at hw3 hu3 hok3
      cases res3 with
      | error e => exact ⟨untouched_trans hu1 hu3, fun h => by cases h⟩
      | ok u =>
        obtain ⟨hs3, _, hsp3, _⟩ := hok3 rfl
        have h4 := readyMaxId_spec w3
        obtain ⟨_, hu4, hok4⟩ := h4
        have hsv : w3.m_storage.m_db.savepoint = none := by rw [hs3, hs1, h0]
        refine ⟨untouched_trans hu1 (untouched_trans hu3 (hu4 hsv)), fun hr => ?_⟩
        obtain ⟨_, _, rows, hrows, hid⟩ := hok4 hr
        rw [hid]
        cases a
        · simp only [Bool.false_eq_true, if_false] at hsp3
          rw [hsp3] at hrows
          simp only [Option.some.injEq] at hrows
          cases hl : w.m_storage.m_db.lookup query.spatial.tableName with
          | none => rw [← hrows]; rfl
          | some v => rw [hl] at ha; simp at ha
        · simp only [if_true] at hsp3
          rw [hsp3] at hrows
          unfold Database.lookup at hrows ⊢
          rw [ht1] at hrows
          rw [hrows]
          rfl
    · intro hov hr
      have h2 := readyOverwrite_spec w1 a b (by rw [hset1]; exact hov) ha1 hb1
      generalize w1.readyOverwrite a b = o2 at h2 hr ⊢
      obtain ⟨res2, w2⟩ := o2
      obtain ⟨hw2, hs2, hok2⟩ := h2
      simp only at hw2 hs2 hok2
      cases res2 with
      | error e => cases hr
      | ok ab2 =>
        obtain ⟨a2, b2⟩ := ab2
        obtain ⟨ha2, hb2, _, _, hlog2⟩ := hok2 a2 b2 rfl
        subst ha2; subst hb2
        simp only at hr ⊢
        have h3 := readyCreateTables_spec w2 false false
        generalize w2.readyCreateTables false false = o3 at h3 hr ⊢
        obtain ⟨res3, w3⟩ := o3
        obtain ⟨hw3, hu3, hok3⟩ := h3
        simp only at hw3 hu3 hok3
        cases res3 with
        | error e => cases hr
        | ok u =>
          simp only at hr ⊢
          obtain ⟨hs3, hlog3, hsp3, hcl3⟩ := hok3 rfl
          simp only [Bool.false_eq_true, if_false] at hsp3 hlog3
          have hsv : w3.m_storage.m_db.savepoint = none := by rw [hs3, hs2, hs1, h0]
          obtain ⟨_, hu4, hok4⟩ := readyMaxId_spec w3
          obtain ⟨_, _, rows, hrows, hid⟩ := hok4 hr
          obtain ⟨⟨l4, hlog4, _⟩, keep4⟩ := hu4 hsv
          obtain ⟨⟨l1, hlog1, _⟩, _⟩ := hu1
          refine ⟨fun name hn hex => ?_, keep4 _ _ hsp3, keep4 _ _ (hcl3 trivial), ?_⟩
          · simp only [List.mem_cons, List.mem_singleton, List.not_mem_nil, or_false] at hn
            rcases hn with hn | hn
            · subst hn
              rw [← ha] at hex
              subst hex
              simp only [if_true] at hlog2
              refine ⟨l1, if b = true then
                [(.exec (.dropTable query.classification.tableName), true)] else [],
                [(.exec (.createTable query.classification.tableName), true),
                  (.transaction, true),
                  (.execBatch query.classification.insertQuery classificationValues, true),
                  (.commit, true)] ++ l4, ?_⟩
              rw [hlog4, hlog3, hlog2, hlog1]
              simp only [List.append_assoc]
            · subst hn
              rw [← hb] at hex
              subst hex
              simp only [if_true] at hlog2
              refine ⟨l1 ++ (if a = true then
                [(.exec (.dropTable query.spatial.tableName), true)] else []),
                [(.exec (.createTable query.spatial.tableName), true)],
                [(.transaction, true),
                  (.execBatch query.classification.insertQuery classificationValues, true),
                  (.commit, true)] ++ l4, ?_⟩
              rw [hlog4, hlog3, hlog2, hlog1]
              simp only [List.append_assoc, List.cons_append, List.nil_append]
          · rw [hid]
            rw [hsp3] at hrows
            simp only [Option.some.injEq] at hrows
            rw [← hrows]
            rfl

end plugins.hackathon

namespace plugins.qt

theorem toInt64_of_range (n : Int) (lo : -2 ^ 63 ≤ n) (hi : n < 2 ^ 63) : toInt64 n = n := by
  unfold toInt64
  rw [Int.emod_eq_of_lt (by omega) (by omega)]
  omega

end plugins.qt

namespace plugins.hackathon

open plugins.qt

/-! ## The batches of the writer -/

theorem ofValues_boundValues (c : Cache) : Cache.ofValues c.boundValues = c := rfl

theorem clear_eq_empty (c : Cache) : c.clear = Cache.empty := rfl

theorem cache_append_empty (c : Cache) : c.append Cache.empty = c := by
  simp [Cache.append, Cache.empty]

theorem cache_empty_append (c : Cache) : Cache.empty.append c = c := by
  simp [Cache.append, Cache.empty]

theorem append_appendPoint (a c : Cache) (id : Int) (p : PointRef) :
    a.append (c.appendPoint id p) = (a.append c).appendPoint id p := by
  simp [Cache.append, Cache.appendPoint, List.append_assoc]

theorem appendPoint_eq_append (c : Cache) (id : Int) (p : PointRef) :
    c.appendPoint id p = c.append (Cache.ofPoints [id] [p]) := by
  simp [Cache.append, Cache.appendPoint, Cache.ofPoints]

theorem cache_append_assoc (a b c : Cache) : (a.append b).append c = a.append (b.append c) := by
  simp [Cache.append, List.append_assoc]

theorem ofPoints_cons (id : Int) (ids : List Int) (p : PointRef) (points : List PointRef) :
    Cache.ofPoints (id :: ids) (p :: points)
      = (Cache.ofPoints [id] [p]).append (Cache.ofPoints ids points) := by
  simp [Cache.append, Cache.ofPoints]

theorem ofPoints_nil : Cache.ofPoints [] [] = Cache.empty := rfl

theorem idsAfter_succ (first : Int) (n : Nat) :
    idsAfter first (n + 1) = (first + 1) :: idsAfter (first + 1) n := by
  unfold idsAfter
  rw [List.range_succ_eq_map, List.map_cons, List.map_map]
  congr 1
  simp
  intro k _
  omega

theorem batchesOf_append (l1 l2 : List (DriverCall × Bool)) :
    batchesOf (l1 ++ l2) = batchesOf l1 ++ batchesOf l2 := by
  unfold batchesOf
  rw [List.filterMap_append]

theorem concatBatches_snoc (batches : List Cache) (c : Cache) :
    concatBatches (batches ++ [c]) = (concatBatches batches).append c := by
  unfold concatBatches
  rw [List.foldl_append]
  rfl

theorem batchesOf_writeCache (cache : Cache) :
    batchesOf [(.transaction, true),
      (.execBatch query.spatial.insertQuery cache.boundValues, true), (.commit, true)]
      = [cache] := by
  simp [batchesOf, batchOf, List.filterMap, ofValues_boundValues]

/-- A `writeCache` that returns true made three driver calls: the begin of
the transaction, the batch insert of the bound lists and the commit. -/
theorem writeCache_true (s : Storage) (cache : Cache) (h : (s.writeCache cache).1 = true) :
    (s.writeCache cache).2.m_db.log = s.m_db.log ++
      [(.transaction, true), (.execBatch query.spatial.insertQuery cache.boundValues, true),
        (.commit, true)] := by
  rw [writeCache_eq_insertBatch] at h ⊢
  exact (insertBatch_true s query.spatial.tableName cache.boundValues h).2.2.1

/-- A flush that returns true hands the cache over as one more batch and
leaves the cache empty. -/
theorem flushCache_true (w : HackathonWriter) (n : Nat)
    (hn : n ≤ w.m_storage.m_db.log.length) (h : (w.flushCache).1 = true) :
    n ≤ (w.flushCache).2.m_storage.m_db.log.length ∧
    concatBatches (batchesOf ((w.flushCache).2.m_storage.m_db.log.drop n))
      = (concatBatches (batchesOf (w.m_storage.m_db.log.drop n))).append w.m_cache ∧
    (w.flushCache).2.m_cache = Cache.empty ∧
    (w.flushCache).2.m_currentId = w.m_currentId ∧
    (w.flushCache).2.m_settings = w.m_settings := by
  have hw := writeCache_true w.m_storage w.m_cache
  unfold HackathonWriter.flushCache at h ⊢
  generalize w.m_storage.writeCache w.m_cache = r at hw h ⊢
  obtain ⟨ok, s1⟩ := r
  cases ok
  · cases h
  · simp only at hw ⊢
    have hlog := hw trivial
    refine ⟨by rw [hlog, List.length_append]; omega, ?_, rfl, trivial, trivial⟩
    rw [hlog, List.drop_append_of_le_length hn, batchesOf_append, batchesOf_writeCache,
      concatBatches_snoc]

/-- A `processOne` that returns: the point, with the next id, follows what
was handed over and cached before. -/
theorem processOne_ok (w : HackathonWriter) (point : PointRef) (n : Nat) (v : Bool)
    (hn : n ≤ w.m_storage.m_db.log.length) (h : (w.processOne point).result = .ok v) :
    n ≤ (w.processOne point).writer.m_storage.m_db.log.length ∧
    (concatBatches (batchesOf ((w.processOne point).writer.m_storage.m_db.log.drop n))).append
        (w.processOne point).writer.m_cache
      = ((concatBatches (batchesOf (w.m_storage.m_db.log.drop n))).append
          w.m_cache).appendPoint (toInt64 (w.m_currentId + 1)) point ∧
    (w.processOne point).writer.m_currentId = toInt64 (w.m_currentId + 1) ∧
    (w.processOne point).writer.m_settings = w.m_settings := by
  unfold HackathonWriter.processOne at h ⊢
  split
  · rename_i hc
    rw [if_pos hc] at h
    have hf := flushCache_true
      { w with m_currentId := toInt64 (w.m_currentId + 1)
               m_cache := w.m_cache.appendPoint (toInt64 (w.m_currentId + 1)) point
               m_currentCacheSize := toInt32 (w.m_currentCacheSize + 1) } n hn
    generalize HackathonWriter.flushCache
      { w with m_currentId := toInt64 (w.m_currentId + 1)
               m_cache := w.m_cache.appendPoint (toInt64 (w.m_currentId + 1)) point
               m_currentCacheSize := toInt32 (w.m_currentCacheSize + 1) } = r at hf h ⊢
    obtain ⟨ok, w1⟩ := r
    cases ok
    · cases h
    · simp only at hf ⊢
      obtain ⟨h1, h2, h3, h4, h5⟩ := hf trivial
      refine ⟨h1, ?_, h4, h5⟩
      rw [h2, h3, cache_append_empty, append_appendPoint]
  · exact ⟨hn, append_appendPoint _ _ _ _, rfl, rfl⟩

/-- The function `write` that returns: the points, with the ids that follow
the current one, follow what was handed over and cached before. -/
theorem write_ok (points : List PointRef) (w : HackathonWriter) (n : Nat)
    (hn : n ≤ w.m_storage.m_db.log.length) (h : (w.write points).result = .ok ())
    (lo : -2 ^ 63 ≤ w.m_currentId) (hi : w.m_currentId + points.length < 2 ^ 63) :
    n ≤ (w.write points).writer.m_storage.m_db.log.length ∧
    (concatBatches (batchesOf ((w.write points).writer.m_storage.m_db.log.drop n))).append
        (w.write points).writer.m_cache
      = ((concatBatches (batchesOf (w.m_storage.m_db.log.drop n))).append w.m_cache).append
          (Cache.ofPoints (idsAfter w.m_currentId points.length) points) := by
  induction points generalizing w with
  | nil =>
    refine ⟨hn, ?_⟩
    show _ = Cache.append _ Cache.empty
    rw [cache_append_empty]
    rfl
  | cons p rest ih =>
    have hp := processOne_ok w p n
    unfold HackathonWriter.write at h ⊢
    generalize w.processOne p = o at hp h ⊢
    obtain ⟨res, w1⟩ := o
    cases res with
    | error e => cases h
    | ok v =>
      simp only at hp h ⊢
      obtain ⟨h1, h2, h3, _⟩ := hp v hn rfl
      simp only [List.length_cons, Nat.cast_add, Nat.cast_one] at hi
      have hid : toInt64 (w.m_currentId + 1) = w.m_currentId + 1 :=
        toInt64_of_range _ (by omega) (by omega)
      rw [hid] at h2 h3
      obtain ⟨h4, h5⟩ := ih w1 h1 h (by rw [h3]; omega) (by rw [h3]; omega)
      refine ⟨h4, ?_⟩
      rw [h5, h2, h3, List.length_cons, idsAfter_succ, ofPoints_cons, appendPoint_eq_append,
        cache_append_assoc]

/-- After `ready` has returned, the cache is empty. -/
theorem ready_ok_cache (w : HackathonWriter) (h : (w.ready).result = .ok ()) :
    (w.ready).writer.m_cache = Cache.empty := by
  unfold HackathonWriter.ready at h ⊢
  generalize w.readyCheckTables = o1 at h ⊢
  obtain ⟨res1, w1⟩ := o1
  cases res1 with
  | error e => cases h
  | ok ab =>
    obtain ⟨a, b⟩ := ab
    simp only at h ⊢
    generalize w1.readyOverwrite a b = o2 at h ⊢
    obtain ⟨res2, w2⟩ := o2
    cases res2 with
    | error e => cases h
    | ok ab2 =>
      obtain ⟨a2, b2⟩ := ab2
      simp only at h ⊢
      generalize w2.readyCreateTables a2 b2 = o3 at h ⊢
      obtain ⟨res3, w3⟩ := o3
      cases res3 with
      | error e => cases h
      | ok u =>
        simp only at h ⊢
        rw [(readyMaxId_spec w3).2.2 h |>.1, clear_eq_empty]

/-- The points of `writeAndDone` on a writer with an empty cache: when it
returns, the batches in the log from the given place on, concatenated, are
the points in order with the ids that follow the current one. -/
theorem writeAndDone_ok (w : HackathonWriter) (points : List PointRef)
    (hc : w.m_cache = Cache.empty) (h : (w.writeAndDone points).result = .ok ())
    (lo : -2 ^ 63 ≤ w.m_currentId) (hi : w.m_currentId + points.length < 2 ^ 63) :
    concatBatches (batchesOf
        ((w.writeAndDone points).writer.m_storage.m_db.log.drop w.m_storage.m_db.log.length))
      = Cache.ofPoints (idsAfter w.m_currentId points.length) points := by
  have hw := write_ok points w w.m_storage.m_db.log.length (Nat.le_refl _)
  unfold HackathonWriter.writeAndDone at h ⊢
  generalize w.write points = o at hw h ⊢
  obtain ⟨res, w1⟩ := o
  cases res with
  | error e => cases h
  | ok u =>
    simp only at hw h ⊢
    obtain ⟨h1, h2⟩ := hw trivial lo hi
    have hf := flushCache_true w1 w.m_storage.m_db.log.length h1
    unfold HackathonWriter.done at h ⊢
    generalize w1.flushCache = r at hf h ⊢
    obtain ⟨ok, w2⟩ := r
    cases ok
    · cases h
    · simp only at hf ⊢
      obtain ⟨_, h3, _⟩ := hf trivial
      rw [h3, h2, List.drop_length, hc]
      show (Cache.append (Cache.append Cache.empty Cache.empty) _) = _
      rw [cache_empty_append, cache_empty_append]

end plugins.hackathon

namespace plugins.hackathontoo

open plugins.qt

/-! ## The batches of the writer of `hackathontoo` -/

theorem too_clear_eq_empty (c : Cache) : c.clear = Cache.empty := rfl

theorem too_append_empty (c : Cache) : c.append Cache.empty = c := by
  simp [Cache.append, Cache.empty]

theorem too_empty_append (c : Cache) : Cache.empty.append c = c := by
  simp [Cache.append, Cache.empty]

theorem too_append_appendPoint (a c : Cache) (id : Int) (p : PointRef) (color : QColor) :
    a.append (c.appendPoint id p color) = (a.append c).appendPoint id p color := by
  simp [Cache.append, Cache.appendPoint, List.append_assoc]

theorem too_appendPoint_eq_append (findColor : Double → Double → QColor) (c : Cache) (id : Int)
    (p : PointRef) :
    c.appendPoint id p (findColor p.X p.Y) = c.append (Cache.ofPoints findColor [id] [p]) := by
  simp [Cache.append, Cache.appendPoint, Cache.ofPoints]

theorem too_append_assoc (a b c : Cache) :
    (a.append b).append c = a.append (b.append c) := by
  simp [Cache.append, List.append_assoc]

theorem too_ofPoints_cons (findColor : Double → Double → QColor) (id : Int) (ids : List Int)
    (p : PointRef) (points : List PointRef) :
    Cache.ofPoints findColor (id :: ids) (p :: points)
      = (Cache.ofPoints findColor [id] [p]).append (Cache.ofPoints findColor ids points) := by
  simp [Cache.append, Cache.ofPoints]

theorem too_concatBatches_snoc (batches : List Cache) (c : Cache) :
    concatBatches (batches ++ [c]) = (concatBatches batches).append c := by
  unfold concatBatches
  rw [List.foldl_append]
  rfl

/-- A flush that returns true hands the cache over as one more batch and
leaves the cache empty. -/
theorem too_flushCache_true (w : HackathonWriter) (n : Nat)
    (hn : n ≤ w.m_storage.written.length) (h : (w.flushCache).1 = true) :
    n ≤ (w.flushCache).2.m_storage.written.length ∧
    concatBatches ((w.flushCache).2.m_storage.written.drop n)
      = (concatBatches (w.m_storage.written.drop n)).append w.m_cache ∧
    (w.flushCache).2.m_cache = Cache.empty ∧
    (w.flushCache).2.m_currentId = w.m_currentId ∧
    (w.flushCache).2.m_settings = w.m_settings := by
  unfold HackathonWriter.flushCache Storage.writeCache at h ⊢
  cases ha : w.m_storage.answers.headD true
  · rw [ha] at h
    cases h
  · simp only
    refine ⟨by rw [List.length_append]; omega, ?_, rfl, trivial, trivial⟩
    rw [List.drop_append_of_le_length hn, too_concatBatches_snoc]

/-- A `processOne` that returns: the point, with the next id, follows what
was handed over and cached before. -/
theorem too_processOne_ok (findColor : Double → Double → QColor) (w : HackathonWriter)
    (point : PointRef) (n : Nat) (v : Bool)
    (hn : n ≤ w.m_storage.written.length)
    (h : (w.processOne findColor point).result = .ok v) :
    n ≤ (w.processOne findColor point).writer.m_storage.written.length ∧
    (concatBatches ((w.processOne findColor point).writer.m_storage.written.drop n)).append
        (w.processOne findColor point).writer.m_cache
      = ((concatBatches (w.m_storage.written.drop n)).append
          w.m_cache).appendPoint (toInt64 (w.m_currentId + 1)) point
            (findColor point.X point.Y) ∧
    (w.processOne findColor point).writer.m_currentId = toInt64 (w.m_currentId + 1) ∧
    (w.processOne findColor point).writer.m_settings = w.m_settings := by
  unfold HackathonWriter.processOne at h ⊢
  split
  · rename_i hc
    rw [if_pos hc] at h
    have hf := too_flushCache_true
      { w with m_currentId := toInt64 (w.m_currentId + 1)
               m_cache := w.m_cache.appendPoint (toInt64 (w.m_currentId + 1)) point
                 (findColor point.X point.Y)
               m_currentCacheSize := toInt32 (w.m_currentCacheSize + 1) } n hn
    generalize HackathonWriter.flushCache
      { w with m_currentId := toInt64 (w.m_currentId + 1)
               m_cache := w.m_cache.appendPoint (toInt64 (w.m_currentId + 1)) point
                 (findColor point.X point.Y)
               m_currentCacheSize := toInt32 (w.m_currentCacheSize + 1) } = r at hf h ⊢
    obtain ⟨ok, w1⟩ := r
    cases ok
    · cases h
    · simp only at hf ⊢
      obtain ⟨h1, h2, h3, h4, h5⟩ := hf trivial
      refine ⟨h1, ?_, h4, h5⟩
      rw [h2, h3, too_append_empty, too_append_appendPoint]
  · exact ⟨hn, too_append_appendPoint _ _ _ _ _, rfl, rfl⟩

/-- The function `write` that returns: the points, with the ids that follow
the current one, follow what was handed over and cached before. -/
theorem too_write_ok (findColor : Double → Double → QColor) (points : List PointRef)
    (w : HackathonWriter) (n : Nat)
    (hn : n ≤ w.m_storage.written.length)
    (h : (w.write findColor points).result = .ok ())
    (lo : -2 ^ 63 ≤ w.m_currentId) (hi : w.m_currentId + points.length < 2 ^ 63) :
    n ≤ (w.write findColor points).writer.m_storage.written.length ∧
    (concatBatches ((w.write findColor points).writer.m_storage.written.drop n)).append
        (w.write findColor points).writer.m_cache
      = ((concatBatches (w.m_storage.written.drop n)).append w.m_cache).append
          (Cache.ofPoints findColor
            (hackathon.idsAfter w.m_currentId points.length) points) := by
  induction points generalizing w with
  | nil =>
    refine ⟨hn, ?_⟩
    show _ = Cache.append _ Cache.empty
    rw [too_append_empty]
    rfl
  | cons p rest ih =>
    have hp := too_processOne_ok findColor w p n
    unfold HackathonWriter.write at h ⊢
    generalize w.processOne findColor p = o at hp h ⊢
    obtain ⟨res, w1⟩ := o
    cases res with
    | error e => cases h
    | ok v =>
      simp only at hp h ⊢
      obtain ⟨h1, h2, h3, _⟩ := hp v hn rfl
      simp only [List.length_cons, Nat.cast_add, Nat.cast_one] at hi
      have hid : toInt64 (w.m_currentId + 1) = w.m_currentId + 1 :=
        toInt64_of_range _ (by omega) (by omega)
      rw [hid] at h2 h3
      obtain ⟨h4, h5⟩ := ih w1 h1 h (by rw [h3]; omega) (by rw [h3]; omega)
      refine ⟨h4, ?_⟩
      rw [h5, h2, h3, List.length_cons, hackathon.idsAfter_succ, too_ofPoints_cons,
        too_appendPoint_eq_append, too_append_assoc]

/-- The points of `writeAndDone` on a writer with an empty cache: when it
returns, the caches handed to the storage from the given place on,
concatenated, are the points in order with the ids that follow the current
one. -/
theorem too_writeAndDone_ok (findColor : Double → Double → QColor) (w : HackathonWriter)
    (points : List PointRef)
    (hc : w.m_cache = Cache.empty) (h : (w.writeAndDone findColor points).result = .ok ())
    (lo : -2 ^ 63 ≤ w.m_currentId) (hi : w.m_currentId + points.length < 2 ^ 63) :
    concatBatches
        ((w.writeAndDone findColor points).writer.m_storage.written.drop
          w.m_storage.written.length)
      = Cache.ofPoints findColor (hackathon.idsAfter w.m_currentId points.length) points := by
  have hw := too_write_ok findColor points w w.m_storage.written.length (Nat.le_refl _)
  unfold HackathonWriter.writeAndDone at h ⊢
  generalize w.write findColor points = o at hw h ⊢
  obtain ⟨res, w1⟩ := o
  cases res with
  | error e => cases h
  | ok u =>
    simp only at hw h ⊢
    obtain ⟨h1, h2⟩ := hw trivial lo hi
    have hf := too_flushCache_true w1 w.m_storage.written.length h1
    unfold HackathonWriter.done at h ⊢
    generalize w1.flushCache = r at hf h ⊢
    obtain ⟨ok, w2⟩ := r
    cases ok
    · cases h
    · simp only at hf ⊢
      obtain ⟨_, h3, _⟩ := hf trivial
      rw [h3, h2, List.drop_length, hc]
      show (Cache.append (Cache.append Cache.empty Cache.empty) _) = _
      rw [too_empty_append, too_empty_append]

/-- C26. In both plugins, whatever the configured cache size: when the points
are passed to `processOne` one after the other and `done` follows, and every
`writeCache` succeeds, so that no call throws, and the ids stay below
`2 ^ 63`, then the batches handed to `writeCache`, concatenated in call
order, hold each point once, in input order, the point at place `k` with the
id `maxId + k`. For the plugin `hackathon` the writer is the one that `ready`
leaves, `maxId` is the id that `ready` obtained, and the batches are the bound
lists of the batch inserts into the spatial table that follow `ready`; for
the plugin `hackathontoo` the writer is any one with an empty cache, as
`ready` leaves it, and `maxId` is its current id. -/
theorem batches_hold_each_point_once :
    (∀ (w : hackathon.HackathonWriter) (points : List hackathon.PointRef),
      (w.ready).result = .ok () →
      ((w.ready).writer.writeAndDone points).result = .ok () →
      -2 ^ 63 ≤ (w.ready).writer.m_currentId →
      (w.ready).writer.m_currentId + points.length < 2 ^ 63 →
      hackathon.concatBatches (hackathon.batchesOf
          (((w.ready).writer.writeAndDone points).writer.m_storage.m_db.log.drop
            (w.ready).writer.m_storage.m_db.log.length))
        = hackathon.Cache.ofPoints
            (hackathon.idsAfter (w.ready).writer.m_currentId points.length) points) ∧
    (∀ (findColor : Double → Double → QColor) (w : HackathonWriter) (points : List PointRef),
      w.m_cache = Cache.empty →
      (w.writeAndDone findColor points).result = .ok () →
      -2 ^ 63 ≤ w.m_currentId →
      w.m_currentId + points.length < 2 ^ 63 →
      concatBatches
          ((w.writeAndDone findColor points).writer.m_storage.written.drop
            w.m_storage.written.length)
        = Cache.ofPoints findColor (hackathon.idsAfter w.m_currentId points.length) points) :=
  ⟨fun w points hr h lo hi =>
      hackathon.writeAndDone_ok (w.ready).writer points (hackathon.ready_ok_cache w hr) h lo hi,
    fun findColor w points hc h lo hi => too_writeAndDone_ok findColor w points hc h lo hi⟩

end plugins.hackathontoo

namespace plugins.hackathon

open plugins.qt

/-- Witness for C28 (amended): on the sample storage with a driver that fails
no call, `writeCache` makes the three successful calls. -/
theorem writeCache_outcomes_witness :
    (sampleStorage []).m_db.savepoint = none ∧
    ((sampleStorage []).writeCache sampleCache).2.m_db.log =
      [(.transaction, true),
        (.execBatch query.spatial.insertQuery sampleCache.boundValues, true),
        (.commit, true)] :=
  ⟨rfl, (writeCache_outcomes (sampleStorage []) sampleCache rfl).1.1 (by decide)⟩

/-- Counterexample for C28: the driver lets the transaction begin and the
insert pass, then fails the commit and the rollback that `commitTransaction`
issues; `writeCache` returns false and the transaction is still open. -/
theorem writeCache_returns_with_transaction_open :
    ((sampleStorage [false, false, true, true]).writeCache sampleCache).1 = false ∧
    ((sampleStorage [false, false, true, true]).writeCache sampleCache).2.m_db.log =
      [(.transaction, true),
        (.execBatch query.spatial.insertQuery sampleCache.boundValues, true),
        (.commit, false), (.rollback, false)] ∧
    ((sampleStorage [false, false, true, true]).writeCache sampleCache).2.m_db.savepoint.isSome
      = true := by
  decide

/-- Witness for C27: on the sample database, whose spatial table has the
maximum id 7, `ready` without `overwrite` leaves the tables untouched and the
id counter at 7; with `overwrite` it drops the spatial table and creates it
again. -/
theorem ready_keeps_tables_unless_overwrite_witness :
    (sampleWriter false 2 []).m_storage.m_db.savepoint = none ∧
    Untouched (sampleWriter false 2 []).m_storage.m_db
      ((sampleWriter false 2 []).ready).writer.m_storage.m_db ∧
    ((sampleWriter false 2 []).ready).writer.m_currentId = 7 ∧
    DroppedAndRecreated (sampleWriter true 2 []).m_storage.m_db
      ((sampleWriter true 2 []).ready).writer.m_storage.m_db query.spatial.tableName :=
  ⟨rfl, ((ready_keeps_tables_unless_overwrite (sampleWriter false 2 []) rfl).2.2.1 rfl).1,
    (((ready_keeps_tables_unless_overwrite (sampleWriter false 2 []) rfl).2.2.1 rfl).2
      rfl).trans (by decide),
    ((ready_keeps_tables_unless_overwrite (sampleWriter true 2 []) rfl).2.2.2 rfl rfl).1
      query.spatial.tableName (by simp) (by decide)⟩

end plugins.hackathon

namespace plugins.hackathontoo

open plugins.qt

/-- Witness for C26: three points with the cache size 2, after `ready` on the
sample database of `hackathon`, and on the sample writer of `hackathontoo`. -/
theorem batches_hold_each_point_once_witness :
    hackathon.concatBatches (hackathon.batchesOf
        ((((hackathon.sampleWriter false 2 []).ready).writer.writeAndDone
          [hackathon.samplePoint 1, hackathon.samplePoint 2,
            hackathon.samplePoint 3]).writer.m_storage.m_db.log.drop
          ((hackathon.sampleWriter false 2 []).ready).writer.m_storage.m_db.log.length))
      = hackathon.Cache.ofPoints [8, 9, 10]
          [hackathon.samplePoint 1, hackathon.samplePoint 2, hackathon.samplePoint 3] ∧
    concatBatches
        (((sampleWriter 2).writeAndDone sampleColor
          [samplePoint 1, samplePoint 2, samplePoint 3]).writer.m_storage.written.drop
          (sampleWriter 2).m_storage.written.length)
      = Cache.ofPoints sampleColor [8, 9, 10] [samplePoint 1, samplePoint 2, samplePoint 3] :=
  ⟨batches_hold_each_point_once.1 (hackathon.sampleWriter false 2 [])
      [hackathon.samplePoint 1, hackathon.samplePoint 2, hackathon.samplePoint 3]
      rfl rfl (by decide) (by decide),
    batches_hold_each_point_once.2 sampleColor (sampleWriter 2)
      [samplePoint 1, samplePoint 2, samplePoint 3] rfl rfl (by decide) (by decide)⟩

end plugins.hackathontoo
